import Mathlib

/-!
# AMDKangaroo: secp256k1 field arithmetic of `AMDGpuUtils_AMD.h`

A shallow embedding of the device functions of `src/AMDGpuUtils_AMD.h` and the
properties of them that the specification states.

Modelling conventions.

* Machine words are natural numbers.  A `u32` value is a `Nat` below `2^32`, a `u64`
  value a `Nat` below `2^64`; every C operation that can wrap is written with its
  explicit `% 2^w`.
* The C helper definitions (`add_cc_32`, `addc_cc_64`, ...) read and write the local
  variable `__carry`.  Here each of them takes the incoming carry as an argument (when it
  reads it) and returns the pair `(res, __carry)` of the word it stores and the carry it
  leaves behind.
* A `u64` array that the source also addresses through a `u32*` is read in little-endian
  order: 32-bit word `2*i` is the low half of limb `i`, word `2*i+1` the high half.
* Functions that write through a result pointer return the written value.
-/

namespace AMDKangaroo

/-! ## Data model -/

/-- Four 64-bit limbs, least significant first: the `u64[4]` field element. -/
structure U256 where
  l0 : Nat
  l1 : Nat
  l2 : Nat
  l3 : Nat
deriving DecidableEq, Repr

/-- The integer a limb array stands for. -/
def U256.toNat (a : U256) : Nat :=
  a.l0 + 2^64 * a.l1 + 2^128 * a.l2 + 2^192 * a.l3

/-- Every limb is a `u64` value. -/
def U256.wf (a : U256) : Prop :=
  a.l0 < 2^64 ∧ a.l1 < 2^64 ∧ a.l2 < 2^64 ∧ a.l3 < 2^64

instance (a : U256) : Decidable a.wf := by
  unfold U256.wf; infer_instance

/-- The limb array of a number below `2^256`. -/
def U256.ofNat (n : Nat) : U256 :=
  ⟨n % 2^64, n / 2^64 % 2^64, n / 2^128 % 2^64, n / 2^192 % 2^64⟩

/-- `#define P_0 0xFFFFFFFEFFFFFC2Full` -/
def P_0 : Nat := 0xFFFFFFFEFFFFFC2F

/-- `#define P_123 0xFFFFFFFFFFFFFFFFull` -/
def P_123 : Nat := 0xFFFFFFFFFFFFFFFF

/-- `#define P_INV32 0x000003D1` -/
def P_INV32 : Nat := 0x000003D1

/-- The secp256k1 field prime `P = 2^256 - 2^32 - 977`, whose limbs are
`P_0, P_123, P_123, P_123`. -/
def PRIME_P : Nat := 2^256 - 2^32 - 977

/-! ## The carry helpers of the header (lines 25-243) -/

/-- `mul_wide_32(res, a, b)`: `res = (u64)(a) * (u64)(b)`. -/
def mul_wide_32 (a b : Nat) : Nat := (a * b) % 2^64

/-- `add_cc_64(res, a, b)`: 128-bit sum, low 64 bits stored, bits 64.. left in `__carry`. -/
def add_cc_64 (a b : Nat) : Nat × Nat :=
  let temp := (a + b) % 2^128
  (temp % 2^64, temp / 2^64 % 2^64)

/-- `addc_cc_64(res, a, b)`: as `add_cc_64`, adding the incoming `__carry`. -/
def addc_cc_64 (a b carry : Nat) : Nat × Nat :=
  let temp := (a + b + carry) % 2^128
  (temp % 2^64, temp / 2^64 % 2^64)

/-- `addc_64(res, a, b)`: `res = (u64)(a) + (u64)(b) + __carry; __carry = 0`. -/
def addc_64 (a b carry : Nat) : Nat × Nat :=
  ((a + b + carry) % 2^64, 0)

/-- `add_cc_32(res, a, b)`: 64-bit sum, low 32 bits stored, bits 32..63 left in `__carry`. -/
def add_cc_32 (a b : Nat) : Nat × Nat :=
  let temp := (a + b) % 2^64
  (temp % 2^32, temp / 2^32 % 2^32)

/-- `addc_cc_32(res, a, b)`: as `add_cc_32`, adding the incoming `__carry`. -/
def addc_cc_32 (a b carry : Nat) : Nat × Nat :=
  let temp := (a + b + carry) % 2^64
  (temp % 2^32, temp / 2^32 % 2^32)

/-- `addc_32(res, a, b)`: `res = (u32)(a) + (u32)(b) + (u32)__carry; __carry = 0`. -/
def addc_32 (a b carry : Nat) : Nat × Nat :=
  ((a + b + carry % 2^32) % 2^32, 0)

/-- `sub_cc_64(res, a, b)`: 128-bit difference truncated to 64 bits, borrow in `__carry`. -/
def sub_cc_64 (a b : Nat) : Nat × Nat :=
  let temp_a := a
  let temp_b := b
  ((temp_a + 2^128 - temp_b) % 2^128 % 2^64, if temp_a < temp_b then 1 else 0)

/-- `subc_cc_64(res, a, b)`: as `sub_cc_64` with the incoming borrow added to `b`. -/
def subc_cc_64 (a b carry : Nat) : Nat × Nat :=
  let temp_a := a
  let temp_b := (b + carry) % 2^128
  ((temp_a + 2^128 - temp_b) % 2^128 % 2^64, if temp_a < temp_b then 1 else 0)

/-- `sub_cc_32(res, a, b)`: 64-bit difference truncated to 32 bits, borrow in `__carry`. -/
def sub_cc_32 (a b : Nat) : Nat × Nat :=
  let temp_a := a
  let temp_b := b
  ((temp_a + 2^64 - temp_b) % 2^64 % 2^32, if temp_a < temp_b then 1 else 0)

/-- `subc_cc_32(res, a, b)`: as `sub_cc_32` with the incoming borrow added to `b`. -/
def subc_cc_32 (a b carry : Nat) : Nat × Nat :=
  let temp_a := a
  let temp_b := (b + carry) % 2^64
  ((temp_a + 2^64 - temp_b) % 2^64 % 2^32, if temp_a < temp_b then 1 else 0)

/-- `subc_32(res, a, b)`: `res = (u32)(a) - (u32)(b) - (u32)__carry; __carry = 0`. -/
def subc_32 (a b carry : Nat) : Nat × Nat :=
  ((a + 2^32 + 2^32 - b - carry % 2^32) % 2^32, 0)

/-! ## `NegModP`, `SubModP`, `AddModP` (lines 294-375) -/

/-- `NegModP(u64* res)`: `P - res` by a four-limb subtraction with borrow, in place. -/
def NegModP (res : U256) : U256 :=
  let temp_a0 := P_0
  let temp_b0 := res.l0
  let r0 := (temp_a0 + 2^128 - temp_b0) % 2^128 % 2^64
  let borrow0 : Nat := if temp_a0 < temp_b0 then 1 else 0
  let temp_a1 := P_123
  let temp_b1 := (res.l1 + borrow0) % 2^128
  let r1 := (temp_a1 + 2^128 - temp_b1) % 2^128 % 2^64
  let borrow1 : Nat := if temp_a1 < temp_b1 then 1 else 0
  let temp_a2 := P_123
  let temp_b2 := (res.l2 + borrow1) % 2^128
  let r2 := (temp_a2 + 2^128 - temp_b2) % 2^128 % 2^64
  let borrow2 : Nat := if temp_a2 < temp_b2 then 1 else 0
  let r3 := (P_123 + 2^64 + 2^64 - res.l3 - borrow2) % 2^64
  ⟨r0, r1, r2, r3⟩

/-- `SubModP(u64* res, u64* val1, u64* val2)`: four-limb `val1 - val2` with borrow; when the
last limb borrows, `P` is added to the difference (the carry out of that addition is
dropped). -/
def SubModP (val1 val2 : U256) : U256 :=
  let temp_a0 := val1.l0
  let temp_b0 := val2.l0
  let r0 := (temp_a0 + 2^128 - temp_b0) % 2^128 % 2^64
  let borrow0 : Nat := if temp_a0 < temp_b0 then 1 else 0
  let temp_a1 := val1.l1
  let temp_b1 := (val2.l1 + borrow0) % 2^128
  let r1 := (temp_a1 + 2^128 - temp_b1) % 2^128 % 2^64
  let borrow1 : Nat := if temp_a1 < temp_b1 then 1 else 0
  let temp_a2 := val1.l2
  let temp_b2 := (val2.l2 + borrow1) % 2^128
  let r2 := (temp_a2 + 2^128 - temp_b2) % 2^128 % 2^64
  let borrow2 : Nat := if temp_a2 < temp_b2 then 1 else 0
  let temp_a3 := val1.l3
  let temp_b3 := (val2.l3 + borrow2) % 2^128
  let r3 := (temp_a3 + 2^128 - temp_b3) % 2^128 % 2^64
  let borrow3 : Nat := if temp_a3 < temp_b3 then 1 else 0
  if borrow3 ≠ 0 then
    let temp0 := (r0 + P_0) % 2^128
    let s0 := temp0 % 2^64
    let temp1 := (r1 + P_123 + temp0 / 2^64) % 2^128
    let s1 := temp1 % 2^64
    let temp2 := (r2 + P_123 + temp1 / 2^64) % 2^128
    let s2 := temp2 % 2^64
    let s3 := (r3 + P_123 + temp2 / 2^64 % 2^64) % 2^64
    ⟨s0, s1, s2, s3⟩
  else
    ⟨r0, r1, r2, r3⟩

/-- `AddModP(u64* res, u64* val1, u64* val2)`: the 257-bit sum is kept in `tmp` and `carry`,
`P` is subtracted from it, and the unreduced `tmp` is restored when that subtraction
borrows out of the 257 bits. -/
def AddModP (val1 val2 : U256) : U256 :=
  let t0 := add_cc_64 val1.l0 val2.l0
  let t1 := addc_cc_64 val1.l1 val2.l1 t0.2
  let t2 := addc_cc_64 val1.l2 val2.l2 t1.2
  let t3 := addc_cc_64 val1.l3 val2.l3 t2.2
  let carry := addc_32 0 0 t3.2
  let r0 := sub_cc_64 t0.1 P_0
  let r1 := subc_cc_64 t1.1 P_123 r0.2
  let r2 := subc_cc_64 t2.1 P_123 r1.2
  let r3 := subc_cc_64 t3.1 P_123 r2.2
  let carry1 := subc_cc_32 carry.1 0 r3.2
  let carry2 := subc_32 0 0 carry1.2
  if carry2.1 ≠ 0 then ⟨t0.1, t1.1, t2.1, t3.1⟩ else ⟨r0.1, r1.1, r2.1, r3.1⟩

/-! ## `MulModP` and `SqrModP` (lines 377-637) -/

/-- Five 64-bit limbs: the `u64 tmp[5]` of `MulModP`, a 320-bit value. -/
structure U320 where
  l0 : Nat
  l1 : Nat
  l2 : Nat
  l3 : Nat
  l4 : Nat
deriving DecidableEq, Repr

/-- Eight 64-bit limbs: the `u64 buff[8]` product buffer, a 512-bit value. -/
structure U512 where
  l0 : Nat
  l1 : Nat
  l2 : Nat
  l3 : Nat
  l4 : Nat
  l5 : Nat
  l6 : Nat
  l7 : Nat
deriving DecidableEq, Repr

/-- Ten 32-bit words, least significant first: what a callee writes through a `u32* res`
with `res[0..9]`. -/
structure W10 where
  w0 : Nat
  w1 : Nat
  w2 : Nat
  w3 : Nat
  w4 : Nat
  w5 : Nat
  w6 : Nat
  w7 : Nat
  w8 : Nat
  w9 : Nat
deriving DecidableEq, Repr

def U320.toNat (a : U320) : Nat :=
  a.l0 + 2^64 * a.l1 + 2^128 * a.l2 + 2^192 * a.l3 + 2^256 * a.l4

def U320.wf (a : U320) : Prop :=
  a.l0 < 2^64 ∧ a.l1 < 2^64 ∧ a.l2 < 2^64 ∧ a.l3 < 2^64 ∧ a.l4 < 2^64

def U512.toNat (a : U512) : Nat :=
  a.l0 + 2^64 * a.l1 + 2^128 * a.l2 + 2^192 * a.l3 + 2^256 * a.l4 + 2^320 * a.l5
    + 2^384 * a.l6 + 2^448 * a.l7

def U512.wf (a : U512) : Prop :=
  a.l0 < 2^64 ∧ a.l1 < 2^64 ∧ a.l2 < 2^64 ∧ a.l3 < 2^64 ∧
  a.l4 < 2^64 ∧ a.l5 < 2^64 ∧ a.l6 < 2^64 ∧ a.l7 < 2^64

/-- Word `2*i` of a `u64` limb read through a `u32*`: its low half. -/
def lo32 (x : Nat) : Nat := x % 2^32

/-- Word `2*i+1` of a `u64` limb read through a `u32*`: its high half. -/
def hi32 (x : Nat) : Nat := x / 2^32 % 2^32

/-- The `u64` limb made of two consecutive 32-bit words (low word first). -/
def u64_of_words (lo hi : Nat) : Nat := lo + 2^32 * hi

/-- `add_320_to_256(u64* res, u64* val)`: reads `res[0..3]` and `val[0..4]`, writes
`res[0..4]`; the carry out of `res[4]` is dropped. -/
def add_320_to_256 (res0 res1 res2 res3 : Nat) (val : U320) : U320 :=
  let r0 := add_cc_64 res0 val.l0
  let r1 := addc_cc_64 res1 val.l1 r0.2
  let r2 := addc_cc_64 res2 val.l2 r1.2
  let r3 := addc_cc_64 res3 val.l3 r2.2
  let r4 := addc_64 val.l4 0 r3.2
  ⟨r0.1, r1.1, r2.1, r3.1, r4.1⟩

/-- `mul_256_by_P0inv(u32* res, u32* val)`: the eight words `val[0..7]` times `0x1000003D1`,
ten words written. -/
def mul_256_by_P0inv (val0 val1 val2 val3 val4 val5 val6 val7 : Nat) : W10 :=
  let res64 := mul_wide_32 val0 P_INV32
  let tmp64_0 := mul_wide_32 val1 P_INV32
  let tmp64_1 := mul_wide_32 val2 P_INV32
  let tmp64_2 := mul_wide_32 val3 P_INV32
  let tmp64_3 := mul_wide_32 val4 P_INV32
  let tmp64_4 := mul_wide_32 val5 P_INV32
  let tmp64_5 := mul_wide_32 val6 P_INV32
  let tmp64_6 := mul_wide_32 val7 P_INV32
  let c1 := add_cc_32 (hi32 res64) (lo32 tmp64_0)
  let c2 := addc_cc_32 (hi32 tmp64_0) (lo32 tmp64_1) c1.2
  let c3 := addc_cc_32 (hi32 tmp64_1) (lo32 tmp64_2) c2.2
  let c4 := addc_cc_32 (hi32 tmp64_2) (lo32 tmp64_3) c3.2
  let c5 := addc_cc_32 (hi32 tmp64_3) (lo32 tmp64_4) c4.2
  let c6 := addc_cc_32 (hi32 tmp64_4) (lo32 tmp64_5) c5.2
  let c7 := addc_cc_32 (hi32 tmp64_5) (lo32 tmp64_6) c6.2
  let c8 := addc_32 (hi32 tmp64_6) 0 c7.2
  let d1 := add_cc_32 c1.1 val0
  let d2 := addc_cc_32 c2.1 val1 d1.2
  let d3 := addc_cc_32 c3.1 val2 d2.2
  let d4 := addc_cc_32 c4.1 val3 d3.2
  let d5 := addc_cc_32 c5.1 val4 d4.2
  let d6 := addc_cc_32 c6.1 val5 d5.2
  let d7 := addc_cc_32 c7.1 val6 d6.2
  let d8 := addc_cc_32 c8.1 val7 d7.2
  let d9 := addc_32 0 0 d8.2
  ⟨lo32 res64, d1.1, d2.1, d3.1, d4.1, d5.1, d6.1, d7.1, d8.1, d9.1⟩

/-- `mul_256_by_64(u64* res, u64* val256, u64 val64)`: the 256-bit `val256` times the 64-bit
`val64`, five limbs written.  `a`, `b`, `rs` are the `u32*` views of `val256`, `val64`,
`res`. -/
def mul_256_by_64 (val256 : U256) (val64 : Nat) : U320 :=
  let a0 := lo32 val256.l0
  let a1 := hi32 val256.l0
  let a2 := lo32 val256.l1
  let a3 := hi32 val256.l1
  let a4 := lo32 val256.l2
  let a5 := hi32 val256.l2
  let a6 := lo32 val256.l3
  let a7 := hi32 val256.l3
  let b0 := lo32 val64
  let b1 := hi32 val64
  let res0 := mul_wide_32 a0 b0
  let tmp64_0 := mul_wide_32 a1 b0
  let tmp64_1 := mul_wide_32 a2 b0
  let tmp64_2 := mul_wide_32 a3 b0
  let tmp64_3 := mul_wide_32 a4 b0
  let tmp64_4 := mul_wide_32 a5 b0
  let tmp64_5 := mul_wide_32 a6 b0
  let tmp64_6 := mul_wide_32 a7 b0
  let c1 := add_cc_32 (hi32 res0) (lo32 tmp64_0)
  let c2 := addc_cc_32 (hi32 tmp64_0) (lo32 tmp64_1) c1.2
  let c3 := addc_cc_32 (hi32 tmp64_1) (lo32 tmp64_2) c2.2
  let c4 := addc_cc_32 (hi32 tmp64_2) (lo32 tmp64_3) c3.2
  let c5 := addc_cc_32 (hi32 tmp64_3) (lo32 tmp64_4) c4.2
  let c6 := addc_cc_32 (hi32 tmp64_4) (lo32 tmp64_5) c5.2
  let c7 := addc_cc_32 (hi32 tmp64_5) (lo32 tmp64_6) c6.2
  let c8 := addc_32 (hi32 tmp64_6) 0 c7.2
  let kk0 := mul_wide_32 a0 b1
  let tmp64b_0 := mul_wide_32 a1 b1
  let tmp64b_1 := mul_wide_32 a2 b1
  let tmp64b_2 := mul_wide_32 a3 b1
  let tmp64b_3 := mul_wide_32 a4 b1
  let tmp64b_4 := mul_wide_32 a5 b1
  let tmp64b_5 := mul_wide_32 a6 b1
  let tmp64b_6 := mul_wide_32 a7 b1
  let k1 := add_cc_32 (hi32 kk0) (lo32 tmp64b_0)
  let k2 := addc_cc_32 (hi32 tmp64b_0) (lo32 tmp64b_1) k1.2
  let k3 := addc_cc_32 (hi32 tmp64b_1) (lo32 tmp64b_2) k2.2
  let k4 := addc_cc_32 (hi32 tmp64b_2) (lo32 tmp64b_3) k3.2
  let k5 := addc_cc_32 (hi32 tmp64b_3) (lo32 tmp64b_4) k4.2
  let k6 := addc_cc_32 (hi32 tmp64b_4) (lo32 tmp64b_5) k5.2
  let k7 := addc_cc_32 (hi32 tmp64b_5) (lo32 tmp64b_6) k6.2
  let k8 := addc_32 (hi32 tmp64b_6) 0 k7.2
  let d1 := add_cc_32 c1.1 (lo32 kk0)
  let d2 := addc_cc_32 c2.1 k1.1 d1.2
  let d3 := addc_cc_32 c3.1 k2.1 d2.2
  let d4 := addc_cc_32 c4.1 k3.1 d3.2
  let d5 := addc_cc_32 c5.1 k4.1 d4.2
  let d6 := addc_cc_32 c6.1 k5.1 d5.2
  let d7 := addc_cc_32 c7.1 k6.1 d6.2
  let d8 := addc_cc_32 c8.1 k7.1 d7.2
  let d9 := addc_32 k8.1 0 d8.2
  ⟨u64_of_words (lo32 res0) d1.1, u64_of_words d2.1 d3.1, u64_of_words d4.1 d5.1,
    u64_of_words d6.1 d7.1, u64_of_words d8.1 d9.1⟩

/-- The `//calc 512 bits` block of `MulModP` (lines 486-492): the 512-bit product of `val1`
and `val2` left in `buff`. -/
def mul_512 (val1 val2 : U256) : U512 :=
  let tmp := mul_256_by_64 val1 val2.l1
  let buff := mul_256_by_64 val1 val2.l0
  let s1 := add_320_to_256 buff.l1 buff.l2 buff.l3 buff.l4 tmp
  let tmp := mul_256_by_64 val1 val2.l2
  let s2 := add_320_to_256 s1.l1 s1.l2 s1.l3 s1.l4 tmp
  let tmp := mul_256_by_64 val1 val2.l3
  let s3 := add_320_to_256 s2.l1 s2.l2 s2.l3 s2.l4 tmp
  ⟨buff.l0, s1.l0, s2.l0, s3.l0, s3.l1, s3.l2, s3.l3, s3.l4⟩

/-- The `//fast mod P` block, which `MulModP` (lines 494-515) and `SqrModP` (lines 615-636)
contain verbatim: the high half of `buff` times `0x1000003D1` is added to the low half, the
overflow word `tmp[4]` of that sum is multiplied by `0x1000003D1` again and added once more;
the carry out of this last addition is dropped and no subtraction of `P` follows. -/
def fast_mod_P (buff : U512) : U256 :=
  let t := mul_256_by_P0inv (lo32 buff.l4) (hi32 buff.l4) (lo32 buff.l5) (hi32 buff.l5)
    (lo32 buff.l6) (hi32 buff.l6) (lo32 buff.l7) (hi32 buff.l7)
  let tmp0 := u64_of_words t.w0 t.w1
  let tmp1 := u64_of_words t.w2 t.w3
  let tmp2 := u64_of_words t.w4 t.w5
  let tmp3 := u64_of_words t.w6 t.w7
  let tmp4 := u64_of_words t.w8 t.w9
  let b0 := add_cc_64 buff.l0 tmp0
  let b1 := addc_cc_64 buff.l1 tmp1 b0.2
  let b2 := addc_cc_64 buff.l2 tmp2 b1.2
  let b3 := addc_cc_64 buff.l3 tmp3 b2.2
  let tmp4 := addc_64 tmp4 0 b3.2
  let t32_8 := lo32 tmp4.1
  let t32_9 := hi32 tmp4.1
  let tmp2_0 := mul_wide_32 t32_8 P_INV32
  let tmp3 := mul_wide_32 t32_9 P_INV32
  let e1 := add_cc_32 (hi32 tmp2_0) (lo32 tmp3)
  let e2 := addc_32 (hi32 tmp3) 0 e1.2
  let f1 := add_cc_32 e1.1 t32_8
  let f2 := addc_cc_32 e2.1 t32_9 f1.2
  let f3 := addc_32 0 0 f2.2
  let r0 := add_cc_64 b0.1 (u64_of_words (lo32 tmp2_0) f1.1)
  let r1 := addc_cc_64 b1.1 (u64_of_words f2.1 f3.1) r0.2
  let r2 := addc_cc_64 b2.1 0 r1.2
  let r3 := addc_64 b3.1 0 r2.2
  ⟨r0.1, r1.1, r2.1, r3.1⟩

/-- `MulModP(u64* res, u64* val1, u64* val2)`. -/
def MulModP (val1 val2 : U256) : U256 :=
  fast_mod_P (mul_512 val1 val2)

/-- `add_320_to_256s(u32* res, u64 _v1, ..., u64 _v8)`: reads `res[0..8]`, writes
`res[0..9]`.  The first pass adds `_v1, _v3, _v5, _v7` at word offsets 0, 2, 4, 6 (its carry
out of `res[8]` is dropped), the second pass adds `_v2, _v4, _v6, _v8` at word offsets
1, 3, 5, 7 and stores its last carry in `res[9]`. -/
def add_320_to_256s (res0 res1 res2 res3 res4 res5 res6 res7 res8 : Nat)
    (_v1 _v2 _v3 _v4 _v5 _v6 _v7 _v8 : Nat) : W10 :=
  let p0 := add_cc_32 res0 (lo32 _v1)
  let p1 := addc_cc_32 res1 (hi32 _v1) p0.2
  let p2 := addc_cc_32 res2 (lo32 _v3) p1.2
  let p3 := addc_cc_32 res3 (hi32 _v3) p2.2
  let p4 := addc_cc_32 res4 (lo32 _v5) p3.2
  let p5 := addc_cc_32 res5 (hi32 _v5) p4.2
  let p6 := addc_cc_32 res6 (lo32 _v7) p5.2
  let p7 := addc_cc_32 res7 (hi32 _v7) p6.2
  let p8 := addc_32 res8 0 p7.2
  let q1 := add_cc_32 p1.1 (lo32 _v2)
  let q2 := addc_cc_32 p2.1 (hi32 _v2) q1.2
  let q3 := addc_cc_32 p3.1 (lo32 _v4) q2.2
  let q4 := addc_cc_32 p4.1 (hi32 _v4) q3.2
  let q5 := addc_cc_32 p5.1 (lo32 _v6) q4.2
  let q6 := addc_cc_32 p6.1 (hi32 _v6) q5.2
  let q7 := addc_cc_32 p7.1 (lo32 _v8) q6.2
  let q8 := addc_cc_32 p8.1 (hi32 _v8) q7.2
  let q9 := addc_32 0 0 q8.2
  ⟨p0.1, q1.1, q2.1, q3.1, q4.1, q5.1, q6.1, q7.1, q8.1, q9.1⟩

/-- The `//calc 512 bits` block of `SqrModP` (lines 560-613): the 28 cross products `mar`,
the first row `a[0] * val` written to `b32[0..9]`, and one `add_320_to_256s` call per further
word of `val`, the call for word `i` working on `b32[i..i+9]`.  The value returned is
`buff = b32[0..15]`; the last call also writes the word `b32[16]` (always with the value of
its final carry), which lies past the end of `buff` and is not part of the result. -/
def sqr_512 (val : U256) : U512 :=
  let a0 := lo32 val.l0
  let a1 := hi32 val.l0
  let a2 := lo32 val.l1
  let a3 := hi32 val.l1
  let a4 := lo32 val.l2
  let a5 := hi32 val.l2
  let a6 := lo32 val.l3
  let a7 := hi32 val.l3
  let mar0 := mul_wide_32 a1 a0
  let mar1 := mul_wide_32 a2 a0
  let mar2 := mul_wide_32 a3 a0
  let mar3 := mul_wide_32 a4 a0
  let mar4 := mul_wide_32 a5 a0
  let mar5 := mul_wide_32 a6 a0
  let mar6 := mul_wide_32 a7 a0
  let mar7 := mul_wide_32 a2 a1
  let mar8 := mul_wide_32 a3 a1
  let mar9 := mul_wide_32 a4 a1
  let mar10 := mul_wide_32 a5 a1
  let mar11 := mul_wide_32 a6 a1
  let mar12 := mul_wide_32 a7 a1
  let mar13 := mul_wide_32 a3 a2
  let mar14 := mul_wide_32 a4 a2
  let mar15 := mul_wide_32 a5 a2
  let mar16 := mul_wide_32 a6 a2
  let mar17 := mul_wide_32 a7 a2
  let mar18 := mul_wide_32 a4 a3
  let mar19 := mul_wide_32 a5 a3
  let mar20 := mul_wide_32 a6 a3
  let mar21 := mul_wide_32 a7 a3
  let mar22 := mul_wide_32 a5 a4
  let mar23 := mul_wide_32 a6 a4
  let mar24 := mul_wide_32 a7 a4
  let mar25 := mul_wide_32 a6 a5
  let mar26 := mul_wide_32 a7 a5
  let mar27 := mul_wide_32 a7 a6
  let buff0 := mul_wide_32 a0 a0
  let g1 := add_cc_32 (hi32 buff0) (lo32 mar0)
  let g2 := addc_cc_32 (hi32 mar0) (lo32 mar1) g1.2
  let g3 := addc_cc_32 (hi32 mar1) (lo32 mar2) g2.2
  let g4 := addc_cc_32 (hi32 mar2) (lo32 mar3) g3.2
  let g5 := addc_cc_32 (hi32 mar3) (lo32 mar4) g4.2
  let g6 := addc_cc_32 (hi32 mar4) (lo32 mar5) g5.2
  let g7 := addc_cc_32 (hi32 mar5) (lo32 mar6) g6.2
  let g8 := addc_cc_32 (hi32 mar6) 0 g7.2
  let b32_9 := 0
  let mm := mul_wide_32 a1 a1
  let row1 := add_320_to_256s g1.1 g2.1 g3.1 g4.1 g5.1 g6.1 g7.1 g8.1 b32_9
    mar0 mm mar7 mar8 mar9 mar10 mar11 mar12
  let mm := mul_wide_32 a2 a2
  let row2 := add_320_to_256s row1.w1 row1.w2 row1.w3 row1.w4 row1.w5 row1.w6 row1.w7 row1.w8
    row1.w9 mar1 mar7 mm mar13 mar14 mar15 mar16 mar17
  let mm := mul_wide_32 a3 a3
  let row3 := add_320_to_256s row2.w1 row2.w2 row2.w3 row2.w4 row2.w5 row2.w6 row2.w7 row2.w8
    row2.w9 mar2 mar8 mar13 mm mar18 mar19 mar20 mar21
  let mm := mul_wide_32 a4 a4
  let row4 := add_320_to_256s row3.w1 row3.w2 row3.w3 row3.w4 row3.w5 row3.w6 row3.w7 row3.w8
    row3.w9 mar3 mar9 mar14 mar18 mm mar22 mar23 mar24
  let mm := mul_wide_32 a5 a5
  let row5 := add_320_to_256s row4.w1 row4.w2 row4.w3 row4.w4 row4.w5 row4.w6 row4.w7 row4.w8
    row4.w9 mar4 mar10 mar15 mar19 mar22 mm mar25 mar26
  let mm := mul_wide_32 a6 a6
  let row6 := add_320_to_256s row5.w1 row5.w2 row5.w3 row5.w4 row5.w5 row5.w6 row5.w7 row5.w8
    row5.w9 mar5 mar11 mar16 mar20 mar23 mar25 mm mar27
  let mm := mul_wide_32 a7 a7
  let row7 := add_320_to_256s row6.w1 row6.w2 row6.w3 row6.w4 row6.w5 row6.w6 row6.w7 row6.w8
    row6.w9 mar6 mar12 mar17 mar21 mar24 mar26 mar27 mm
  ⟨u64_of_words (lo32 buff0) row1.w0, u64_of_words row2.w0 row3.w0,
    u64_of_words row4.w0 row5.w0, u64_of_words row6.w0 row7.w0,
    u64_of_words row7.w1 row7.w2, u64_of_words row7.w3 row7.w4,
    u64_of_words row7.w5 row7.w6, u64_of_words row7.w7 row7.w8⟩

/-- `SqrModP(u64* res, u64* val)`. -/
def SqrModP (val : U256) : U256 :=
  fast_mod_P (sqr_512 val)

/-- The value of ten 32-bit words. -/
def W10.toNat (a : W10) : Nat :=
  a.w0 + 2^32 * a.w1 + 2^64 * a.w2 + 2^96 * a.w3 + 2^128 * a.w4 + 2^160 * a.w5
    + 2^192 * a.w6 + 2^224 * a.w7 + 2^256 * a.w8 + 2^288 * a.w9

/-- Every word is a `u32` value. -/
def W10.wf (a : W10) : Prop :=
  a.w0 < 2^32 ∧ a.w1 < 2^32 ∧ a.w2 < 2^32 ∧ a.w3 < 2^32 ∧ a.w4 < 2^32 ∧
  a.w5 < 2^32 ∧ a.w6 < 2^32 ∧ a.w7 < 2^32 ∧ a.w8 < 2^32 ∧ a.w9 < 2^32

/-- The limbs of the literal value `P`. -/
def P_limbs : U256 := ⟨P_0, P_123, P_123, P_123⟩

/-! ## `InvModP` (lines 639-893) -/

/-- Nine 32-bit words, least significant first: a 288-bit value in two's complement
(`u32 modp[9]`, `val[9]`, `a[9]`, `tmp[i]`, and the caller's `res`). -/
structure W9 where
  w0 : Nat
  w1 : Nat
  w2 : Nat
  w3 : Nat
  w4 : Nat
  w5 : Nat
  w6 : Nat
  w7 : Nat
  w8 : Nat
deriving DecidableEq, Repr

/-- The unsigned value of nine words. -/
def W9.toNat (a : W9) : Nat :=
  a.w0 + 2^32 * a.w1 + 2^64 * a.w2 + 2^96 * a.w3 + 2^128 * a.w4 + 2^160 * a.w5
    + 2^192 * a.w6 + 2^224 * a.w7 + 2^256 * a.w8

/-- Every word is a `u32` value. -/
def W9.wf (a : W9) : Prop :=
  a.w0 < 2^32 ∧ a.w1 < 2^32 ∧ a.w2 < 2^32 ∧ a.w3 < 2^32 ∧ a.w4 < 2^32 ∧
  a.w5 < 2^32 ∧ a.w6 < 2^32 ∧ a.w7 < 2^32 ∧ a.w8 < 2^32

instance (a : W9) : Decidable a.wf := by
  unfold W9.wf; infer_instance

/-- The value of the low eight words: the 256-bit input and result of `InvModP`. -/
def W9.low (a : W9) : Nat :=
  a.w0 + 2^32 * a.w1 + 2^64 * a.w2 + 2^96 * a.w3 + 2^128 * a.w4 + 2^160 * a.w5
    + 2^192 * a.w6 + 2^224 * a.w7

/-- The signed (two's complement) value of nine words. -/
def W9.toInt (a : W9) : Int :=
  if a.toNat < 2^287 then (a.toNat : Int) else (a.toNat : Int) - 2^288

/-- The value an `int` holds after an operation whose mathematical result is `z`
(wrap-around to 32 bits, two's complement). -/
def wrap32 (z : Int) : Int := (z + 2^31) % 2^32 - 2^31

/-- The cast `(u32)z` of an `int`. -/
def toU32 (z : Int) : Nat := (z % 2^32).toNat

/-- The cast `(int)w` of a `u32`. -/
def toI32 (w : Nat) : Int := wrap32 (w : Int)

/-- Number of trailing zero bits of `x`, looking at `fuel` bits at most. -/
def ctz_aux : Nat → Nat → Nat
  | 0, _ => 0
  | fuel + 1, x => if x % 2 = 1 then 0 else 1 + ctz_aux fuel (x / 2)

/-- The device intrinsic `__ffs(x)` on the 32 bits of `x`: the 1-based position of the
least significant set bit, `0` when no bit is set. -/
def ffs (x : Nat) : Nat :=
  if x % 2^32 = 0 then 0 else ctz_aux 32 (x % 2^32) + 1

/-- The device intrinsic `__funnelshift_r(lo, hi, shift)`: the low 32 bits of the 64-bit
value `hi:lo` shifted right by `shift & 31`. -/
def funnelshift_r (lo hi shift : Nat) : Nat :=
  ((lo + 2^32 * hi) / 2^(shift % 32)) % 2^32

/-- `madc_lo_32(res, a, b, c)`: `res = (u32)((u64)a * b + c + __carry); __carry = 0`. -/
def madc_lo_32 (a b c carry : Nat) : Nat × Nat :=
  ((a * b + c + carry) % 2^64 % 2^32, 0)

/-- `add_288(u32* res, u32* val1, u32* val2)`. -/
def add_288 (val1 val2 : W9) : W9 :=
  let r0 := add_cc_32 val1.w0 val2.w0
  let r1 := addc_cc_32 val1.w1 val2.w1 r0.2
  let r2 := addc_cc_32 val1.w2 val2.w2 r1.2
  let r3 := addc_cc_32 val1.w3 val2.w3 r2.2
  let r4 := addc_cc_32 val1.w4 val2.w4 r3.2
  let r5 := addc_cc_32 val1.w5 val2.w5 r4.2
  let r6 := addc_cc_32 val1.w6 val2.w6 r5.2
  let r7 := addc_cc_32 val1.w7 val2.w7 r6.2
  let r8 := addc_32 val1.w8 val2.w8 r7.2
  ⟨r0.1, r1.1, r2.1, r3.1, r4.1, r5.1, r6.1, r7.1, r8.1⟩

/-- `neg_288(u32* res)`: `0 - res` on 288 bits, in place. -/
def neg_288 (res : W9) : W9 :=
  let r0 := sub_cc_32 0 res.w0
  let r1 := subc_cc_32 0 res.w1 r0.2
  let r2 := subc_cc_32 0 res.w2 r1.2
  let r3 := subc_cc_32 0 res.w3 r2.2
  let r4 := subc_cc_32 0 res.w4 r3.2
  let r5 := subc_cc_32 0 res.w5 r4.2
  let r6 := subc_cc_32 0 res.w6 r5.2
  let r7 := subc_cc_32 0 res.w7 r6.2
  let r8 := subc_32 0 res.w8 r7.2
  ⟨r0.1, r1.1, r2.1, r3.1, r4.1, r5.1, r6.1, r7.1, r8.1⟩

/-- `mul_288_by_i32(u32* res, u32* val288, int ival32)`: the 288-bit `val288` times
`abs(ival32)`, truncated to 288 bits, negated when `ival32 < 0`. -/
def mul_288_by_i32 (val288 : W9) (ival32 : Int) : W9 :=
  let val32 := ival32.natAbs % 2^32
  let r32_0 := mul_wide_32 val288.w0 val32
  let r32_1 := mul_wide_32 val288.w2 val32
  let r32_2 := mul_wide_32 val288.w4 val32
  let r32_3 := mul_wide_32 val288.w6 val32
  let tmp64_0 := mul_wide_32 val288.w1 val32
  let tmp64_1 := mul_wide_32 val288.w3 val32
  let tmp64_2 := mul_wide_32 val288.w5 val32
  let tmp64_3 := mul_wide_32 val288.w7 val32
  let c1 := add_cc_32 (hi32 r32_0) (lo32 tmp64_0)
  let c2 := addc_cc_32 (lo32 r32_1) (hi32 tmp64_0) c1.2
  let c3 := addc_cc_32 (hi32 r32_1) (lo32 tmp64_1) c2.2
  let c4 := addc_cc_32 (lo32 r32_2) (hi32 tmp64_1) c3.2
  let c5 := addc_cc_32 (hi32 r32_2) (lo32 tmp64_2) c4.2
  let c6 := addc_cc_32 (lo32 r32_3) (hi32 tmp64_2) c5.2
  let c7 := addc_cc_32 (hi32 r32_3) (lo32 tmp64_3) c6.2
  let c8 := madc_lo_32 val288.w8 val32 (hi32 tmp64_3) c7.2
  let res : W9 := ⟨lo32 r32_0, c1.1, c2.1, c3.1, c4.1, c5.1, c6.1, c7.1, c8.1⟩
  if ival32 < 0 then neg_288 res else res

/-- `set_288_i32(u32* res, int val)`: sign extension of `val` to 288 bits. -/
def set_288_i32 (val : Int) : W9 :=
  let r1 := if val < 0 then 0xFFFFFFFF else 0
  ⟨toU32 val, r1, r1, r1, r1, r1, r1, r1, r1⟩

/-- `mul_P_by_32(u32* res, u32 val)`: `val * P` as a 288-bit value, computed as
`val * 2^256 - val * 0x1000003D1`. -/
def mul_P_by_32 (val : Nat) : W9 :=
  let tmp64 := mul_wide_32 val P_INV32
  let t1 := add_cc_32 (hi32 tmp64) val
  let t2 := addc_32 0 0 t1.2
  let r0 := sub_cc_32 0 (lo32 tmp64)
  let r1 := subc_cc_32 0 t1.1 r0.2
  let r2 := subc_cc_32 0 t2.1 r1.2
  let r3 := subc_cc_32 0 0 r2.2
  let r4 := subc_cc_32 0 0 r3.2
  let r5 := subc_cc_32 0 0 r4.2
  let r6 := subc_cc_32 0 0 r5.2
  let r7 := subc_cc_32 0 0 r6.2
  let r8 := subc_32 val 0 r7.2
  ⟨r0.1, r1.1, r2.1, r3.1, r4.1, r5.1, r6.1, r7.1, r8.1⟩

/-- `shiftR_288_by_30(u32* res)`: arithmetic right shift by 30 bits, in place; every word is
computed from words the function has not overwritten yet. -/
def shiftR_288_by_30 (res : W9) : W9 :=
  ⟨funnelshift_r res.w0 res.w1 30, funnelshift_r res.w1 res.w2 30,
    funnelshift_r res.w2 res.w3 30, funnelshift_r res.w3 res.w4 30,
    funnelshift_r res.w4 res.w5 30, funnelshift_r res.w5 res.w6 30,
    funnelshift_r res.w6 res.w7 30, funnelshift_r res.w7 res.w8 30,
    toU32 (toI32 res.w8 / 2^30)⟩

/-- `add_288_P(u32* res)`: adds `P` on 288 bits. -/
def add_288_P (res : W9) : W9 :=
  let r0 := add_cc_32 res.w0 0xFFFFFC2F
  let r1 := addc_cc_32 res.w1 0xFFFFFFFE r0.2
  let r2 := addc_cc_32 res.w2 0xFFFFFFFF r1.2
  let r3 := addc_cc_32 res.w3 0xFFFFFFFF r2.2
  let r4 := addc_cc_32 res.w4 0xFFFFFFFF r3.2
  let r5 := addc_cc_32 res.w5 0xFFFFFFFF r4.2
  let r6 := addc_cc_32 res.w6 0xFFFFFFFF r5.2
  let r7 := addc_cc_32 res.w7 0xFFFFFFFF r6.2
  let r8 := addc_32 res.w8 0 r7.2
  ⟨r0.1, r1.1, r2.1, r3.1, r4.1, r5.1, r6.1, r7.1, r8.1⟩

/-- `sub_288_P(u32* res)`: subtracts `P` on 288 bits. -/
def sub_288_P (res : W9) : W9 :=
  let r0 := sub_cc_32 res.w0 0xFFFFFC2F
  let r1 := subc_cc_32 res.w1 0xFFFFFFFE r0.2
  let r2 := subc_cc_32 res.w2 0xFFFFFFFF r1.2
  let r3 := subc_cc_32 res.w3 0xFFFFFFFF r2.2
  let r4 := subc_cc_32 res.w4 0xFFFFFFFF r3.2
  let r5 := subc_cc_32 res.w5 0xFFFFFFFF r4.2
  let r6 := subc_cc_32 res.w6 0xFFFFFFFF r5.2
  let r7 := subc_cc_32 res.w7 0xFFFFFFFF r6.2
  let r8 := subc_32 res.w8 0 r7.2
  ⟨r0.1, r1.1, r2.1, r3.1, r4.1, r5.1, r6.1, r7.1, r8.1⟩

/-- The `int` locals of `InvModP` that one batch of 30 bits works on. -/
structure DivState where
  matrix0 : Int
  matrix1 : Int
  matrix2 : Int
  matrix3 : Int
  _val : Int
  _modp : Int
  cnt : Int
  kbnt : Int
deriving DecidableEq, Repr

/-- `APPLY_DIV_SHIFT()`:
`matrix[0] <<= index; matrix[1] <<= index; kbnt -= index; _val >>= index;`. -/
def APPLY_DIV_SHIFT (s : DivState) (index : Int) : DivState :=
  { s with
    matrix0 := wrap32 (s.matrix0 * 2^index.toNat)
    matrix1 := wrap32 (s.matrix1 * 2^index.toNat)
    kbnt := wrap32 (s.kbnt - index)
    _val := s._val / 2^index.toNat }

/-- `DO_INV_STEP()`: `kbnt = -kbnt`, `(_modp, _val) = (_val, -_modp)` and the same exchange
on the rows of `matrix`. -/
def DO_INV_STEP (s : DivState) : DivState :=
  { s with
    kbnt := wrap32 (-s.kbnt)
    _modp := s._val
    _val := wrap32 (-s._modp)
    matrix0 := s.matrix2
    matrix2 := wrap32 (-s.matrix0)
    matrix1 := s.matrix3
    matrix3 := wrap32 (-s.matrix1) }

/-- The statements of the inner loop body that follow the conditional `DO_INV_STEP()`
(lines 809-816 and 848-855): the multiplier `mul`, the addition of `mul` times the first row
to the second, and the shift by the trailing zeros of `_val` (`cnt` at most). -/
def inv_reduce (s : DivState) : DivState :=
  let mx : Int := if wrap32 (s.kbnt + 1) < s.cnt then wrap32 (31 - s.kbnt) else wrap32 (32 - s.cnt)
  let mul : Int := toI32 (toU32 (wrap32 (wrap32 (-s._modp) * s._val)) &&& 7)
  let mul : Int := toI32 (toU32 mul &&& (0xFFFFFFFF >>> mx.toNat))
  let s := { s with
    _val := wrap32 (s._val + wrap32 (s._modp * mul))
    matrix2 := wrap32 (s.matrix2 + wrap32 (s.matrix0 * mul))
    matrix3 := wrap32 (s.matrix3 + wrap32 (s.matrix1 * mul)) }
  let index : Int := (ffs (toU32 s._val ||| toU32 (wrap32 (2^s.cnt.toNat))) : Int) - 1
  let s := APPLY_DIV_SHIFT s index
  { s with cnt := s.cnt - index }

/-- The body of the inner `while (cnt > 0)` loop (lines 807-817 and 846-856). -/
def inv_loop_body (s : DivState) : DivState :=
  inv_reduce (if s.kbnt < 0 then DO_INV_STEP s else s)

/-- The inner loop `while (cnt > 0) { ... }`; `none` when `fuel` iterations do not reach
`cnt <= 0`. -/
def inv_loop : Nat → DivState → Option DivState
  | 0, s => if s.cnt > 0 then none else some s
  | fuel + 1, s => if s.cnt > 0 then inv_loop fuel (inv_loop_body s) else some s

/-- One batch (lines 797-818 and 837-857): the matrix is reset to the identity, `_val` and
`_modp` are the low words of `val` and `modp`, the trailing zeros of `_val` (30 at most) are
shifted out, and the inner loop runs. -/
def div_batch (fuel : Nat) (kbnt : Int) (val0 modp0 : Nat) : Option DivState :=
  let s : DivState := ⟨1, 0, 0, 1, toI32 val0, toI32 modp0, 30, kbnt⟩
  let index : Int := (ffs (toU32 s._val ||| 0x40000000) : Int) - 1
  let s := APPLY_DIV_SHIFT s index
  inv_loop fuel { s with cnt := 30 - index }

/-- The values `InvModP` carries from one batch to the next. -/
structure InvRegs where
  kbnt : Int
  modp : W9
  val : W9
  res : W9
  a : W9
deriving DecidableEq, Repr

/-- The 30-bit Montgomery factor `(x * 0xD2253531) & 0x3FFFFFFF` of a `u32` value `x`. -/
def mont_factor (x : Nat) : Nat :=
  ((x * 0xD2253531) % 2^32) &&& 0x3FFFFFFF

/-- The values at the `break` of the outer loop: the registers and `tmp[0]`, `tmp[1]`. -/
structure InvBreak where
  regs : InvRegs
  tmp0 : W9
  tmp1 : W9
deriving DecidableEq, Repr

/-- The outer loop `while (1) { ... }` (lines 835-882), at most `n` iterations; `fuel`
bounds each inner loop. -/
def inv_outer_loop (fuel : Nat) : Nat → InvRegs → Option InvBreak
  | 0, _ => none
  | n + 1, st =>
    match div_batch fuel st.kbnt st.val.w0 st.modp.w0 with
    | none => none
    | some m =>
      let tmp0 := mul_288_by_i32 st.modp m.matrix0
      let tmp1 := mul_288_by_i32 st.val m.matrix1
      let tmp2 := mul_288_by_i32 st.modp m.matrix2
      let tmp3 := mul_288_by_i32 st.val m.matrix3
      let modp := shiftR_288_by_30 (add_288 tmp0 tmp1)
      let val := shiftR_288_by_30 (add_288 tmp2 tmp3)
      let tmp0 := mul_288_by_i32 st.res m.matrix0
      let tmp1 := mul_288_by_i32 st.a m.matrix1
      if (val.w0 ||| val.w1 ||| val.w2 ||| val.w3 ||| val.w4 ||| val.w5 ||| val.w6 ||| val.w7) = 0
      then some ⟨⟨m.kbnt, modp, val, st.res, st.a⟩, tmp0, tmp1⟩
      else
        let tmp2 := mul_288_by_i32 st.res m.matrix2
        let tmp3 := mul_288_by_i32 st.a m.matrix3
        let res := mul_P_by_32 (mont_factor ((tmp0.w0 + tmp1.w0) % 2^32))
        let res := add_288 res tmp0
        let res := add_288 res tmp1
        let res := shiftR_288_by_30 res
        let a := mul_P_by_32 (mont_factor ((tmp2.w0 + tmp3.w0) % 2^32))
        let a := add_288 a tmp2
        let a := add_288 a tmp3
        let a := shiftR_288_by_30 a
        inv_outer_loop fuel n ⟨m.kbnt, modp, val, res, a⟩

/-- `while ((int)res[8] < 0) add_288_P(res);` -/
def add_P_loop : Nat → W9 → Option W9
  | 0, res => if toI32 res.w8 < 0 then none else some res
  | fuel + 1, res => if toI32 res.w8 < 0 then add_P_loop fuel (add_288_P res) else some res

/-- `while ((int)res[8] > 0) sub_288_P(res);` -/
def sub_P_loop : Nat → W9 → Option W9
  | 0, res => if toI32 res.w8 > 0 then none else some res
  | fuel + 1, res => if toI32 res.w8 > 0 then sub_P_loop fuel (sub_288_P res) else some res

/-- The registers after the batch that precedes the outer loop (lines 788-834), for the
input held in `res[0..7]`. -/
def inv_first_batch (fuel : Nat) (res : W9) : Option InvRegs :=
  let modp : W9 := ⟨lo32 P_0, hi32 P_0, lo32 P_123, hi32 P_123, lo32 P_123, hi32 P_123,
    lo32 P_123, hi32 P_123, 0⟩
  let val : W9 := ⟨res.w0, res.w1, res.w2, res.w3, res.w4, res.w5, res.w6, res.w7, 0⟩
  match div_batch fuel (-1) res.w0 (P_0 % 2^32) with
  | none => none
  | some m =>
    let tmp0 := mul_288_by_i32 modp m.matrix0
    let tmp1 := mul_288_by_i32 val m.matrix1
    let tmp2 := mul_288_by_i32 modp m.matrix2
    let tmp3 := mul_288_by_i32 val m.matrix3
    let modp := shiftR_288_by_30 (add_288 tmp0 tmp1)
    let val := shiftR_288_by_30 (add_288 tmp2 tmp3)
    let tmp1 := set_288_i32 m.matrix1
    let tmp3 := set_288_i32 m.matrix3
    let res := mul_P_by_32 (mont_factor tmp1.w0)
    let res := add_288 res tmp1
    let res := shiftR_288_by_30 res
    let a := mul_P_by_32 (mont_factor tmp3.w0)
    let a := add_288 a tmp3
    let a := shiftR_288_by_30 a
    some ⟨m.kbnt, modp, val, res, a⟩

/-- `InvModP(u32* res)`: the input is `res[0..7]`, the result the nine words left in `res`.
`fuel` bounds the iterations of every loop; `none` when it does not suffice. -/
def InvModP (fuel : Nat) (res : W9) : Option W9 :=
  (inv_first_batch fuel res).bind fun st =>
  (inv_outer_loop fuel fuel st).bind fun b =>
    let res := mul_P_by_32 (mont_factor ((b.tmp0.w0 + b.tmp1.w0) % 2^32))
    let res := add_288 res b.tmp0
    let res := add_288 res b.tmp1
    let res := shiftR_288_by_30 res
    let res := if toI32 b.regs.modp.w8 < 0 then neg_288 res else res
    (add_P_loop fuel res).bind (sub_P_loop fuel)

/-! ## The potential used for the termination of `InvModP` -/

/-- The quadratic form `u^2 - u v + v^2` that measures the size of a divstep state. -/
def Qf (u v : ℚ) : ℚ := u * u - u * v + v * v

/-- The potential of the divstep state `(eta, f, g)`: for `eta ≥ 0` the largest value of `Qf`
over the values `g / 2^eta + t f` that the coming additions can reach, weighted by
`(3/2)^eta`; for `eta < 0` the value of `Qf f (2^(-eta) g)` weighted by `(2/3)^(-eta)`. -/
def Lam (eta : Int) (f g : ℚ) : ℚ :=
  if 0 ≤ eta then
    (3/2)^eta.toNat *
      max (Qf f (g / 2^eta.toNat)) (Qf f (g / 2^eta.toNat + (2 - 1 / 2^eta.toNat) * f))
  else
    (2/3)^(-eta).toNat * Qf f (2^(-eta).toNat * g)

/-- The relation between the `int` locals of a batch and the full-width values `F` (of
`modp`) and `G` (of `val`) the batch started from, after `s` of its 30 bits: the rows of
`matrix` map `(F, G)` to `2^s` times the current pair `(f, g)`, the rows are bounded, and
`_modp`, `_val` agree with `f`, `g` on the `30 - s` bits not consumed yet. Between the
addition and the shift of an iteration the second row is bounded by `2^(s+k)` and `_val` is
divisible by `2^k`. -/
structure BatchInv (F G : Int) (s k : Nat) (st : DivState) (f g : Int) : Prop where
  hs : s + k ≤ 30
  hcnt : st.cnt = 30 - (s : Int)
  row0 : st.matrix0 * F + st.matrix1 * G = 2^s * f
  row1 : st.matrix2 * F + st.matrix3 * G = 2^s * g
  b0 : |st.matrix0| + |st.matrix1| ≤ 2^s
  b1 : |st.matrix2| + |st.matrix3| ≤ 2^(s + k)
  cf : st._modp ≡ f [ZMOD 2^(30 - s)]
  cg : st._val ≡ g [ZMOD 2^(30 - s)]
  fodd : f % 2 = 1
  hk : (2:Int)^k ∣ st._val

/-- The invariant of the inner loop at its head, `s` bits into the batch: `BatchInv` for some
current pair `(f, g)` with `g` odd while bits remain, `|kbnt| ≤ K + s`, and the potential of
`(kbnt, f, g)` at most `B * (2/3)^s`. -/
def LoopInv (F G : Int) (B : ℚ) (K s : Nat) (st : DivState) : Prop :=
  ∃ f g : Int, BatchInv F G s 0 st f g ∧ (s < 30 → g % 2 = 1) ∧ |st.kbnt| ≤ (K : Int) + s ∧
    Lam st.kbnt f g ≤ B * (2/3)^s

/-- The invariant of `InvModP` between batches, after `j` batches: `modp` holds an odd value,
`modp` and `val` are at most `P` in absolute value, `|kbnt| ≤ 1 + 30 j`, and the potential
has shrunk by `(2/3)^(30 j)` from its initial bound `4 P^2`. -/
def DivInv (j : Nat) (kbnt : Int) (modp val : W9) : Prop :=
  modp.wf ∧ val.wf ∧ modp.toInt % 2 = 1 ∧ |modp.toInt| ≤ (PRIME_P : Int) ∧
  |val.toInt| ≤ (PRIME_P : Int) ∧ |kbnt| ≤ 1 + 30 * (j : Int) ∧
  Lam kbnt modp.toInt val.toInt ≤ 4 * (PRIME_P : ℚ)^2 * (2/3)^(30 * j)

/-! ## `GpuKang.cpp`: kangaroo classes and start distances (lines 309-323, 388-397) -/

/-- The three classes of kangaroos. -/
inductive KangClass where
  | tame
  | wildA
  | wildB
deriving DecidableEq, Repr

/-- The class that the loop of `Start` (lines 388-397) gives index `i`: tame when
`i < KangCnt / 3`, wild-A when `i < 2 * KangCnt / 3`, wild-B otherwise. The operands are
`int`: the product wraps at 32 bits and the division truncates. `GenerateRndDistances`
(line 314) uses the first test. -/
def kang_class (KangCnt i : Int) : KangClass :=
  if i < Int.tdiv KangCnt 3 then KangClass.tame
  else if i < Int.tdiv (wrap32 (2 * KangCnt)) 3 then KangClass.wildA
  else KangClass.wildB

/-- The number of indices `i` visited by `for (int i = 0; i < KangCnt; i++)` that get class
`c`. -/
def class_count (KangCnt : Int) (c : KangClass) : Nat :=
  (List.range KangCnt.toNat).countP (fun (i : Nat) => decide (kang_class KangCnt (i : Int) = c))

/-- `GenerateRndDistances` (lines 309-323): the words `priv[0..2]` stored for each index, in
index order. `EcInt::RndBits` is not part of the sources at hand: `rnd i bits` stands for the
words `d.data[0..2]` that the call of `RndBits(bits)` made for index `i` leaves, whatever
they are. -/
def GenerateRndDistances (KangCnt Range : Int) (rnd : Nat → Int → Nat × Nat × Nat) :
    List (Nat × Nat × Nat) :=
  (List.range KangCnt.toNat).map fun (i : Nat) =>
    if (i : Int) < Int.tdiv KangCnt 3 then rnd i (wrap32 (Range - 4))
    else
      let d := rnd i (wrap32 (Range - 1))
      (d.1 &&& 0xFFFFFFFFFFFFFFFE, d.2.1, d.2.2)

/-! ## `ConvertAoStoSoA` (lines 20-38) -/

/-- The limbs of a `TPointPriv` record that `ConvertAoStoSoA` reads: `x[0..3]`, `y[0..3]` and
`priv[0..2]`. -/
structure TPointPriv where
  x0 : Nat
  x1 : Nat
  x2 : Nat
  x3 : Nat
  y0 : Nat
  y1 : Nat
  y2 : Nat
  y3 : Nat
  priv0 : Nat
  priv1 : Nat
  priv2 : Nat
deriving DecidableEq, Repr

/-- Limb `k` of a record, `k = 0..3` the `x` limbs, `4..7` the `y` limbs, `8..10` the
distance limbs `priv[0..2]`. -/
def TPointPriv.limb (p : TPointPriv) : Nat → Nat
  | 0 => p.x0
  | 1 => p.x1
  | 2 => p.x2
  | 3 => p.x3
  | 4 => p.y0
  | 5 => p.y1
  | 6 => p.y2
  | 7 => p.y3
  | 8 => p.priv0
  | 9 => p.priv1
  | 10 => p.priv2
  | _ => 0

/-- The assignment `soa[idx] = v` on the memory around `soa`, a map from word offsets (negative
ones lie before the buffer) to words. -/
def store (soa : Int → Nat) (idx : Int) (v : Nat) : Int → Nat :=
  fun j => if j = idx then v else soa j

/-- The subscript `i + k * count`, computed in `int`. -/
def soa_index (i k count : Int) : Int := wrap32 (i + wrap32 (k * count))

/-- The body of the loop of `ConvertAoStoSoA` for one record (lines 26-36). -/
def ConvertAoStoSoA_body (aos : Nat → TPointPriv) (count : Int) (soa : Int → Nat) (i : Nat) :
    Int → Nat :=
  let soa := store soa (soa_index i 0 count) (aos i).x0
  let soa := store soa (soa_index i 1 count) (aos i).x1
  let soa := store soa (soa_index i 2 count) (aos i).x2
  let soa := store soa (soa_index i 3 count) (aos i).x3
  let soa := store soa (soa_index i 4 count) (aos i).y0
  let soa := store soa (soa_index i 5 count) (aos i).y1
  let soa := store soa (soa_index i 6 count) (aos i).y2
  let soa := store soa (soa_index i 7 count) (aos i).y3
  let soa := store soa (soa_index i 8 count) (aos i).priv0
  let soa := store soa (soa_index i 9 count) (aos i).priv1
  store soa (soa_index i 10 count) (aos i).priv2

/-- `ConvertAoStoSoA(aos, soa, count)`: the loop `for (int i = 0; i < count; i++)` runs the
body for `i = 0, ..., count - 1`. -/
def ConvertAoStoSoA (aos : Nat → TPointPriv) (soa : Int → Nat) (count : Int) : Int → Nat :=
  (List.range count.toNat).foldl (ConvertAoStoSoA_body aos count) soa

/-! ## `AMDGpuKang::Execute` (lines 460-541) -/

/-- What the device and the runtime answer during one pass of the loop of `Execute`: whether
the read-back of the count (line 481) succeeds, the `u32` counter at `Kparams.DPs_out`, and
whether the read-back of the records (line 498) succeeds. -/
structure StepEnv where
  cntOk : Bool
  devCount : Nat
  recOk : Bool
deriving DecidableEq, Repr

/-- The actions of `Execute` that the claims speak about, in program order: the kernel launch
`CallGpuKernelABC`, the overflow message of line 492, the record copy of line 498 with its
`cnt` and its byte count, the call of `AddPointsToList` with its `cnt`, `gTotalErrors++`, and
the call of `Release`. -/
inductive ExecEvent where
  | launch
  | overflowMsg
  | copyRecords (cnt : Int) (bytes : Nat)
  | addPoints (cnt : Int)
  | errorInc
  | release
deriving DecidableEq, Repr

/-- The conversion of an `int` to `size_t` (64 bits). -/
def toU64 (z : Int) : Nat := (z % 2^64).toNat

/-- The byte count `cnt * GPU_DP_SIZE` handed to `hipMemcpy` (line 498): an `int` product,
converted to `size_t`. `GPU_DP_SIZE` is a macro of a header that is not at hand and is a
parameter here. -/
def copy_bytes (GPU_DP_SIZE cnt : Int) : Nat := toU64 (wrap32 (cnt * GPU_DP_SIZE))

/-- The size `MAX_DP_CNT * GPU_DP_SIZE` of the host buffer `DPs_out` (`Prepare`, line 220).
Both macros are parameters. -/
def DPs_out_size (MAX_DP_CNT GPU_DP_SIZE : Int) : Nat := toU64 (wrap32 (MAX_DP_CNT * GPU_DP_SIZE))

/-- One pass of the loop body of `Execute` (lines 475-522): the actions taken and whether the
loop goes on (`false` after a `break`). The counter is read into the `int cnt`. The block
under `DEBUG_MODE` (lines 524-537), which follows both `break` statements, is left out. -/
def Execute_step (MAX_DP_CNT GPU_DP_SIZE : Int) (e : StepEnv) : List ExecEvent × Bool :=
  if e.cntOk = false then ([ExecEvent.launch, ExecEvent.errorInc], false)
  else
    let cnt0 : Int := toI32 e.devCount
    let pre : List ExecEvent :=
      if cnt0 ≥ MAX_DP_CNT then [ExecEvent.launch, ExecEvent.overflowMsg] else [ExecEvent.launch]
    let cnt : Int := if cnt0 ≥ MAX_DP_CNT then MAX_DP_CNT else cnt0
    if cnt ≠ 0 then
      if e.recOk = false then
        (pre ++ [ExecEvent.copyRecords cnt (copy_bytes GPU_DP_SIZE cnt), ExecEvent.errorInc], false)
      else
        (pre ++ [ExecEvent.copyRecords cnt (copy_bytes GPU_DP_SIZE cnt), ExecEvent.addPoints cnt],
          true)
    else (pre, true)

/-- The loop `while (!StopFlag) { ... }` followed by `Release()` (lines 473-540), from pass
number `j` on. `stop j` is the value of `StopFlag` read at the head of pass `j`, `env j` the
answers during that pass. `none` when `fuel` passes do not reach the end. -/
def Execute_loop (MAX_DP_CNT GPU_DP_SIZE : Int) (stop : Nat → Bool) (env : Nat → StepEnv) :
    Nat → Nat → Option (List ExecEvent)
  | 0, _ => none
  | fuel + 1, j =>
    if stop j then some [ExecEvent.release]
    else
      let r := Execute_step MAX_DP_CNT GPU_DP_SIZE (env j)
      if r.2 then
        (Execute_loop MAX_DP_CNT GPU_DP_SIZE stop env fuel (j + 1)).map (fun t => r.1 ++ t)
      else some (r.1 ++ [ExecEvent.release])

/-- `Execute()`: when `Start()` fails, `gTotalErrors++` and return (lines 464-468); otherwise
the loop and `Release()`. -/
def Execute (MAX_DP_CNT GPU_DP_SIZE : Int) (startOk : Bool) (stop : Nat → Bool)
    (env : Nat → StepEnv) (fuel : Nat) : Option (List ExecEvent) :=
  if startOk = false then some [ExecEvent.errorInc]
  else Execute_loop MAX_DP_CNT GPU_DP_SIZE stop env fuel 0

/-- The value of the `u32` counter `gTotalErrors` after the actions `t`, from the value `g`. -/
def gTotalErrors_after (g : Nat) (t : List ExecEvent) : Nat :=
  (g + t.count ExecEvent.errorInc) % 2^32

/-- The number of records that the record copies of `t` ask for. -/
def records_copied : List ExecEvent → Int
  | [] => 0
  | ExecEvent.copyRecords cnt _ :: t => cnt + records_copied t
  | _ :: t => records_copied t

/-- The number of bytes that the record copies of `t` ask for. -/
def bytes_copied : List ExecEvent → Nat
  | [] => 0
  | ExecEvent.copyRecords _ bytes :: t => bytes + bytes_copied t
  | _ :: t => bytes_copied t

/-- The number of records that `t` passes to `AddPointsToList`. -/
def records_listed : List ExecEvent → Int
  | [] => 0
  | ExecEvent.addPoints cnt :: t => cnt + records_listed t
  | _ :: t => records_listed t

/-! ## `AMDGpuKang::Prepare` and `Release` (lines 49-302): the buffers -/

/-- The pointer fields of the context that `Prepare`, `Start` and `Release` handle: the
device buffers of `Kparams`, the host buffer `DPs_out` and the host buffer `RndPnts`. -/
inductive Buf where
  | L2
  | DPs_out_dev
  | Kangs
  | Jumps1
  | Jumps2
  | Jumps3
  | JumpsList
  | DPTable
  | L1S2
  | LastPnts
  | LoopTable
  | dbg_buf
  | LoopedKangs
  | DPs_out_host
  | RndPnts
deriving DecidableEq, Repr

/-- The allocator state: the number of the next block, the blocks allocated and not yet freed
(oldest first), and the blocks passed to `free` or `hipFree` while not allocated (a double or
wild free). A pointer is `none` (null) or the number of a block. -/
structure Heap where
  next : Nat
  live : List Nat
  bad : List Nat
deriving DecidableEq, Repr

/-- `malloc` / `hipMalloc`: a fresh block when the allocation succeeds, no change and a null
pointer otherwise. -/
def Heap.alloc (h : Heap) (ok : Bool) : Heap × Option Nat :=
  if ok then (⟨h.next + 1, h.live ++ [h.next], h.bad⟩, some h.next) else (h, none)

/-- `free(p)` / `hipFree(p)`: nothing for a null pointer, the block is released when it is
allocated, and recorded as a bad free otherwise. -/
def Heap.free (h : Heap) : Option Nat → Heap
  | none => h
  | some b =>
    if b ∈ h.live then ⟨h.next, h.live.erase b, h.bad⟩ else ⟨h.next, h.live, h.bad ++ [b]⟩

/-- The context: `IsOldGpu` and the pointer fields. -/
structure Ctx where
  IsOldGpu : Bool
  ptr : Buf → Option Nat

/-- The assignment of a pointer field. -/
def Ctx.set (c : Ctx) (b : Buf) (p : Option Nat) : Ctx :=
  ⟨c.IsOldGpu, fun x => if x = b then p else c.ptr x⟩

/-- What the runtime answers during `Prepare`: `hipSetDevice`, each allocation (by the field
it is for), the uploads of the three jump tables and `cuSetGpuParams`. -/
structure PrepEnv where
  setDeviceOk : Bool
  ok : Buf → Bool
  cpy1 : Bool
  cpy2 : Bool
  setParams : Bool
  cpy3 : Bool

/-- The checked device allocations of `Prepare` in program order (lines 83-218): `L2` only
when `IsOldGpu` is false. -/
def prepare_steps (IsOldGpu : Bool) : List Buf :=
  (if IsOldGpu then [] else [Buf.L2]) ++
    [Buf.DPs_out_dev, Buf.Kangs, Buf.Jumps1, Buf.Jumps2, Buf.Jumps3, Buf.JumpsList, Buf.DPTable,
      Buf.L1S2, Buf.LastPnts, Buf.LoopTable, Buf.dbg_buf, Buf.LoopedKangs]

/-- A run of statements `err = hipMalloc(&field, size); if (err != hipSuccess) return false;`:
`false` at the first allocation that fails, with the state as it is then. -/
def alloc_steps (ok : Buf → Bool) : List Buf → Ctx → Heap → Bool × Ctx × Heap
  | [], c, h => (true, c, h)
  | b :: rest, c, h =>
    if ok b then alloc_steps ok rest (c.set b (some h.next)) (h.alloc true).1
    else (false, c, h)

/-- `Prepare` (lines 49-282) on the context and the allocator: the value returned and the
state left. The host `malloc` of `DPs_out` (line 220) is not checked. The staging buffers
`buf` and `jmp2_table` are taken to be allocated successfully; they are freed on the paths
on which the code frees them. -/
def Prepare (env : PrepEnv) (c : Ctx) (h : Heap) : Bool × Ctx × Heap :=
  if env.setDeviceOk = false then (false, c, h)
  else
    match alloc_steps env.ok (prepare_steps c.IsOldGpu) c h with
    | (false, c, h) => (false, c, h)
    | (true, c, h) =>
      let a := h.alloc (env.ok Buf.DPs_out_host)
      let c := c.set Buf.DPs_out_host a.2
      let buf := a.1.alloc true
      if env.cpy1 = false then (false, c, buf.1)
      else
        let h := buf.1.free buf.2
        let buf := h.alloc true
        let jmp2_table := buf.1.alloc true
        if env.cpy2 = false then (false, c, jmp2_table.1)
        else
          let h := jmp2_table.1.free buf.2
          if env.setParams = false then (false, c, h.free jmp2_table.2)
          else
            let h := h.free jmp2_table.2
            let buf := h.alloc true
            if env.cpy3 = false then (false, c, buf.1)
            else (true, c, buf.1.free buf.2)

/-- The pointers `Release` passes to `free` and `hipFree`, in program order (lines 286-301):
`L2` only when `IsOldGpu` is false. -/
def release_order (IsOldGpu : Bool) : List Buf :=
  [Buf.RndPnts, Buf.DPs_out_host, Buf.LoopedKangs, Buf.dbg_buf, Buf.LoopTable, Buf.LastPnts,
    Buf.L1S2, Buf.DPTable, Buf.JumpsList, Buf.Jumps3, Buf.Jumps2, Buf.Jumps1, Buf.Kangs,
    Buf.DPs_out_dev] ++ (if IsOldGpu then [] else [Buf.L2])

/-- `Release` (lines 284-302) on the allocator; the pointer fields keep their values. -/
def Release (c : Ctx) (h : Heap) : Heap :=
  (release_order c.IsOldGpu).foldl (fun h b => h.free (c.ptr b)) h

/-! ## The outer loop of `InvModP`, one iteration at a time -/

/-- One pass through the body of the outer loop of `InvModP` (lines 837-881): the values at
the `break` (`Sum.inr`), or the registers the next iteration starts from (`Sum.inl`). -/
def inv_outer_body (fuel : Nat) (st : InvRegs) : Option (InvRegs ⊕ InvBreak) :=
  match div_batch fuel st.kbnt st.val.w0 st.modp.w0 with
  | none => none
  | some m =>
    let tmp0 := mul_288_by_i32 st.modp m.matrix0
    let tmp1 := mul_288_by_i32 st.val m.matrix1
    let tmp2 := mul_288_by_i32 st.modp m.matrix2
    let tmp3 := mul_288_by_i32 st.val m.matrix3
    let modp := shiftR_288_by_30 (add_288 tmp0 tmp1)
    let val := shiftR_288_by_30 (add_288 tmp2 tmp3)
    let tmp0 := mul_288_by_i32 st.res m.matrix0
    let tmp1 := mul_288_by_i32 st.a m.matrix1
    if (val.w0 ||| val.w1 ||| val.w2 ||| val.w3 ||| val.w4 ||| val.w5 ||| val.w6 ||| val.w7) = 0
    then some (Sum.inr ⟨⟨m.kbnt, modp, val, st.res, st.a⟩, tmp0, tmp1⟩)
    else
      let tmp2 := mul_288_by_i32 st.res m.matrix2
      let tmp3 := mul_288_by_i32 st.a m.matrix3
      let res := mul_P_by_32 (mont_factor ((tmp0.w0 + tmp1.w0) % 2^32))
      let res := add_288 res tmp0
      let res := add_288 res tmp1
      let res := shiftR_288_by_30 res
      let a := mul_P_by_32 (mont_factor ((tmp2.w0 + tmp3.w0) % 2^32))
      let a := add_288 a tmp2
      let a := add_288 a tmp3
      let a := shiftR_288_by_30 a
      some (Sum.inl ⟨m.kbnt, modp, val, res, a⟩)

/-- The registers at the start of iteration `n + 1` of the outer loop, when the first
iteration starts from `st`; `none` when the loop has ended before (or `fuel` does not
suffice for an inner loop). -/
def inv_regs_at (fuel : Nat) : Nat → InvRegs → Option InvRegs
  | 0, st => some st
  | n + 1, st =>
    match inv_outer_body fuel st with
    | some (Sum.inl st') => inv_regs_at fuel n st'
    | _ => none

/-- An input of `InvModP` in `(0, P)`, least significant word first: the 210-bit value
`0x220ae8e6ebcd2abaa5fae28b2a4a2e28e798660c18fad4f6705c9`. -/
def InvModP_overflow_input : W9 :=
  ⟨0x4f6705c9, 0x60c18fad, 0xe28e7986, 0x28b2a4a2, 0xabaa5fae, 0x8e6ebcd2, 0x220ae, 0x0, 0x0⟩

/-! ## The shift amounts of a batch of `InvModP` -/

/-- The value of `index` in one pass of the statements of the inner loop body that follow the
conditional `DO_INV_STEP()` (line 814 and line 853): the argument of `APPLY_DIV_SHIFT()` and
the amount subtracted from `cnt`. -/
def inv_reduce_index (s : DivState) : Int :=
  let mx : Int := if wrap32 (s.kbnt + 1) < s.cnt then wrap32 (31 - s.kbnt) else wrap32 (32 - s.cnt)
  let mul : Int := toI32 (toU32 (wrap32 (wrap32 (-s._modp) * s._val)) &&& 7)
  let mul : Int := toI32 (toU32 mul &&& (0xFFFFFFFF >>> mx.toNat))
  let s := { s with
    _val := wrap32 (s._val + wrap32 (s._modp * mul))
    matrix2 := wrap32 (s.matrix2 + wrap32 (s.matrix0 * mul))
    matrix3 := wrap32 (s.matrix3 + wrap32 (s.matrix1 * mul)) }
  (ffs (toU32 s._val ||| toU32 (wrap32 (2^s.cnt.toNat))) : Int) - 1

/-- The shift amounts that the inner loop `while (cnt > 0) { ... }` passes to
`APPLY_DIV_SHIFT()`, one per iteration, in order; `none` when `fuel` iterations do not reach
`cnt <= 0`. -/
def inv_loop_shifts : Nat → DivState → Option (List Int)
  | 0, s => if s.cnt > 0 then none else some []
  | fuel + 1, s =>
    if s.cnt > 0 then
      (inv_loop_shifts fuel (inv_loop_body s)).map fun l =>
        inv_reduce_index (if s.kbnt < 0 then DO_INV_STEP s else s) :: l
    else some []

/-- The shift amounts of one batch: the one of the `APPLY_DIV_SHIFT()` before the inner loop
(line 803 and line 842), then those of the inner loop. -/
def div_batch_shifts (fuel : Nat) (kbnt : Int) (val0 modp0 : Nat) : Option (List Int) :=
  let s : DivState := ⟨1, 0, 0, 1, toI32 val0, toI32 modp0, 30, kbnt⟩
  let index : Int := (ffs (toU32 s._val ||| 0x40000000) : Int) - 1
  let s := APPLY_DIV_SHIFT s index
  (inv_loop_shifts fuel { s with cnt := 30 - index }).map fun l => index :: l

/-! ## `AMDGpuKang::Start` (lines 325-416): the buffers -/

/-- What `Start` finds and what the runtime answers: the member `Failed`, `hipSetDevice`, the
host `malloc` of `RndPnts` (line 345) and of `Kangs_SoA2` (line 398), the upload of the
kangaroos (line 400) and the `hipMemset` of `L1S2` (line 409). -/
structure StartEnv where
  Failed : Bool
  setDeviceOk : Bool
  okRndPnts : Bool
  okSoA : Bool
  cpyOk : Bool
  memsetOk : Bool

/-- `Start` (lines 325-416) on the context and the allocator: the value returned and the
state left. Neither `malloc` is checked; `Kangs_SoA2` is freed before the result of the
upload is looked at. -/
def Start (env : StartEnv) (c : Ctx) (h : Heap) : Bool × Ctx × Heap :=
  if env.Failed then (false, c, h)
  else if env.setDeviceOk = false then (false, c, h)
  else
    let a := h.alloc env.okRndPnts
    let c := c.set Buf.RndPnts a.2
    let Kangs_SoA2 := a.1.alloc env.okSoA
    let h := Kangs_SoA2.1.free Kangs_SoA2.2
    if env.cpyOk = false then (false, c, h)
    else if env.memsetOk = false then (false, c, h)
    else (true, c, h)

/-- The members of `AMDGpuKang` that `Stop`, the head of `Prepare` and the statistics update
of `Execute` write: the flags `StopFlag` and `Failed`, the array `SpeedStats` (as the memory
around it, a map from slot offsets to `int` values) and the write index `cur_stats_ind`.
The window size `STATS_WND_SIZE` is a macro of a header that is not at hand and is a
parameter `N` below. -/
structure KangMembers where
  StopFlag : Bool
  Failed : Bool
  SpeedStats : Int → Int
  cur_stats_ind : Int

/-- `Stop()` (lines 304-307): `StopFlag = true;`. -/
def Stop (s : KangMembers) : KangMembers :=
  { s with StopFlag := true }

/-- The head of `Prepare` (lines 57-62) on these members: `StopFlag = false; Failed = false;
memset(SpeedStats, 0, sizeof(SpeedStats)); cur_stats_ind = 0;`. -/
def Prepare_members (N : Nat) (s : KangMembers) : KangMembers :=
  { StopFlag := false
    Failed := false
    SpeedStats := fun i => if 0 ≤ i ∧ i < (N : Int) then 0 else s.SpeedStats i
    cur_stats_ind := 0 }

/-- The statistics update at the end of a pass of the loop of `Execute` (lines 519-520):
`SpeedStats[cur_stats_ind] = cur_speed; cur_stats_ind = (cur_stats_ind + 1) % STATS_WND_SIZE;`
in `int` arithmetic. -/
def Execute_stats (N : Nat) (s : KangMembers) (cur_speed : Int) : KangMembers :=
  { s with
    SpeedStats := fun i => if i = s.cur_stats_ind then cur_speed else s.SpeedStats i
    cur_stats_ind := Int.tmod (wrap32 (s.cur_stats_ind + 1)) N }

/-- The statistics updates of the passes that complete, one per sample, in order. -/
def Execute_stats_run (N : Nat) (s : KangMembers) (samples : List Int) : KangMembers :=
  samples.foldl (Execute_stats N) s

/-- `GetStatsSpeed()` (lines 543-549): `int res = SpeedStats[0]; for (int i = 1; i <
STATS_WND_SIZE; i++) res += SpeedStats[i]; return res / STATS_WND_SIZE;` with the additions
wrapping at 32 bits and the division truncating. -/
def GetStatsSpeed (N : Nat) (s : KangMembers) : Int :=
  let res := (List.range (N - 1)).foldl
    (fun (res : Int) (k : Nat) => wrap32 (res + s.SpeedStats ((k : Int) + 1))) (s.SpeedStats 0)
  Int.tdiv res N

/-- The actions of `n` passes of the loop of `Execute` that run to their end, from pass `j`
on. -/
def Execute_passes (MAX_DP_CNT GPU_DP_SIZE : Int) (env : Nat → StepEnv) : Nat → Nat → List ExecEvent
  | 0, _ => []
  | n + 1, j =>
    (Execute_step MAX_DP_CNT GPU_DP_SIZE (env j)).1 ++
      Execute_passes MAX_DP_CNT GPU_DP_SIZE env n (j + 1)

/-! ## The columnar buffer of `Start` and the way back from it -/

/-- The number of 64-bit words of the buffer `Kangs_SoA2` that `Start` allocates for
`ConvertAoStoSoA` (line 398, `malloc(KangCnt * 96)`): the product is an `int`, converted to
`size_t`. -/
def Kangs_SoA2_words (KangCnt : Int) : Nat := toU64 (wrap32 (KangCnt * 96)) / 8

/-- The gathering the specification speaks of, written after its words: record `i` read back
from the columnar layout, limb `k` from `soa[i + k * count]`, the subscript computed as
`ConvertAoStoSoA` computes it. -/
def spec_gather (soa : Int → Nat) (count : Int) (i : Nat) : TPointPriv :=
  ⟨soa (soa_index i 0 count), soa (soa_index i 1 count), soa (soa_index i 2 count),
    soa (soa_index i 3 count), soa (soa_index i 4 count), soa (soa_index i 5 count),
    soa (soa_index i 6 count), soa (soa_index i 7 count), soa (soa_index i 8 count),
    soa (soa_index i 9 count), soa (soa_index i 10 count)⟩

/-! ## The words of `buff` that `SqrModP` touches (lines 518-637) -/

/-- A read (`write` false) or a write of the 32-bit word with subscript `index`. -/
structure WordAccess where
  write : Bool
  index : Nat
deriving DecidableEq, Repr

/-- The read and the write of `res[k]` by a statement `add..._32(res[k], res[k], v)`. -/
def rw_word (k : Nat) : List WordAccess := [⟨false, k⟩, ⟨true, k⟩]

/-- The accesses of `add_320_to_256s` (lines 530-548) to `res`, in program order, as
subscripts of the array `res` points into when `res` is that array plus `base` words: the
first pass reads and writes `res[0..8]`, the second `res[1..8]`, and
`addc_32(res[9], 0, 0)` writes `res[9]`. -/
def add_320_to_256s_accesses (base : Nat) : List WordAccess :=
  rw_word (base + 0) ++ rw_word (base + 1) ++ rw_word (base + 2) ++ rw_word (base + 3) ++
  rw_word (base + 4) ++ rw_word (base + 5) ++ rw_word (base + 6) ++ rw_word (base + 7) ++
  rw_word (base + 8) ++
  rw_word (base + 1) ++ rw_word (base + 2) ++ rw_word (base + 3) ++ rw_word (base + 4) ++
  rw_word (base + 5) ++ rw_word (base + 6) ++ rw_word (base + 7) ++ rw_word (base + 8) ++
  [⟨true, base + 9⟩]

/-- The accesses of `SqrModP` to the words of `u64 buff[8]` (through `buff` and through
`b32 = (u32*)buff`), in program order: `mul_wide_32(buff[0], ...)` writes the words 0 and 1,
the first row writes `b32[1..9]` (line 590 also reads `b32[1]`), the seven calls
`add_320_to_256s(b32 + j, ...)` for `j = 1..7`, then in `//fast mod P` the eight words of
`buff + 4` handed to `mul_256_by_P0inv`, the four `add..._64(buff[j], buff[j], tmp[j])` and
the four reads of `buff[j]` by the closing additions. -/
def SqrModP_buff_accesses : List WordAccess :=
  [⟨true, 0⟩, ⟨true, 1⟩] ++
  rw_word 1 ++
  [⟨true, 2⟩, ⟨true, 3⟩, ⟨true, 4⟩, ⟨true, 5⟩, ⟨true, 6⟩, ⟨true, 7⟩, ⟨true, 8⟩, ⟨true, 9⟩] ++
  add_320_to_256s_accesses 1 ++ add_320_to_256s_accesses 2 ++ add_320_to_256s_accesses 3 ++
  add_320_to_256s_accesses 4 ++ add_320_to_256s_accesses 5 ++ add_320_to_256s_accesses 6 ++
  add_320_to_256s_accesses 7 ++
  [⟨false, 8⟩, ⟨false, 9⟩, ⟨false, 10⟩, ⟨false, 11⟩, ⟨false, 12⟩, ⟨false, 13⟩, ⟨false, 14⟩,
    ⟨false, 15⟩] ++
  rw_word 0 ++ rw_word 1 ++ rw_word 2 ++ rw_word 3 ++ rw_word 4 ++ rw_word 5 ++ rw_word 6 ++
  rw_word 7 ++
  [⟨false, 0⟩, ⟨false, 1⟩, ⟨false, 2⟩, ⟨false, 3⟩, ⟨false, 4⟩, ⟨false, 5⟩, ⟨false, 6⟩,
    ⟨false, 7⟩]

/-! ## `Dbg_CheckKangs` (lines 419-454): where it reads a kangaroo -/

/-- The subscript `i * 12 + 0` of the word whose address `Dbg_CheckKangs` hands to
`LoadFromBuffer64` for the point of kangaroo `i` (line 428), computed in `int`. -/
def Dbg_CheckKangs_point_index (i : Int) : Int := wrap32 (wrap32 (i * 12) + 0)

/-- The word of `kangs` from which `memcpy(dist.data, &kangs[i * 12 + 8], 24)` (line 431)
fills `dist.data[j]`, `j = 0..2`: the distance limb `priv[j]`, limb `8 + j` of the record. -/
def Dbg_CheckKangs_dist_index (i : Int) (j : Nat) : Int := wrap32 (wrap32 (i * 12) + 8) + j

/-! ## Theorems -/

/-! ### Word-level facts about the carry helpers -/

theorem add_cc_64_spec (a b : Nat) (ha : a < 2^64) (hb : b < 2^64) :
    (add_cc_64 a b).1 + 2^64 * (add_cc_64 a b).2 = a + b ∧
    (add_cc_64 a b).1 < 2^64 ∧ (add_cc_64 a b).2 ≤ 1 := by
  simp only [add_cc_64]; omega

theorem addc_cc_64_spec (a b c : Nat) (ha : a < 2^64) (hb : b < 2^64) (hc : c ≤ 1) :
    (addc_cc_64 a b c).1 + 2^64 * (addc_cc_64 a b c).2 = a + b + c ∧
    (addc_cc_64 a b c).1 < 2^64 ∧ (addc_cc_64 a b c).2 ≤ 1 := by
  simp only [addc_cc_64]; omega

theorem sub_cc_64_spec (a b : Nat) (ha : a < 2^64) (hb : b < 2^64) :
    (sub_cc_64 a b).1 + b = a + 2^64 * (sub_cc_64 a b).2 ∧
    (sub_cc_64 a b).1 < 2^64 ∧ (sub_cc_64 a b).2 ≤ 1 := by
  simp only [sub_cc_64]; split_ifs <;> omega

theorem subc_cc_64_spec (a b c : Nat) (ha : a < 2^64) (hb : b < 2^64) (hc : c ≤ 1) :
    (subc_cc_64 a b c).1 + b + c = a + 2^64 * (subc_cc_64 a b c).2 ∧
    (subc_cc_64 a b c).1 < 2^64 ∧ (subc_cc_64 a b c).2 ≤ 1 := by
  simp only [subc_cc_64]; split_ifs <;> omega

/-- The flag `carry` that `AddModP` tests is non-zero exactly when the subtraction of `P`
borrowed out of the 257-bit sum. -/
theorem borrow_flag (c b : Nat) (hc : c ≤ 1) (hb : b ≤ 1) :
    ((subc_32 0 0 (subc_cc_32 (addc_32 0 0 c).1 0 b).2).1 ≠ 0) ↔ c < b := by
  simp only [subc_32, subc_cc_32, addc_32]
  split_ifs <;> omega

/-- One inline 128-bit subtraction step without incoming borrow. -/
theorem sub128_first (a b : Nat) (ha : a < 2^64) (hb : b < 2^64) :
    (a + 2^128 - b) % 2^128 % 2^64 + b = a + 2^64 * (if a < b then 1 else 0) ∧
    (a + 2^128 - b) % 2^128 % 2^64 < 2^64 ∧ (if a < b then 1 else 0) ≤ 1 := by
  split_ifs <;> omega

/-- One inline 128-bit subtraction step with incoming borrow `c`. -/
theorem sub128_next (a b c : Nat) (ha : a < 2^64) (hb : b < 2^64) (hc : c ≤ 1) :
    (a + 2^128 - (b + c) % 2^128) % 2^128 % 2^64 + b + c
      = a + 2^64 * (if a < (b + c) % 2^128 then 1 else 0) ∧
    (a + 2^128 - (b + c) % 2^128) % 2^128 % 2^64 < 2^64 ∧
    (if a < (b + c) % 2^128 then 1 else 0) ≤ 1 := by
  split_ifs <;> omega

/-- One inline 128-bit addition step with incoming carry `c`. -/
theorem add128_next (a b c : Nat) (ha : a < 2^64) (hb : b < 2^64) (hc : c ≤ 1) :
    (a + b + c) % 2^128 % 2^64 + 2^64 * ((a + b + c) % 2^128 / 2^64) = a + b + c ∧
    (a + b + c) % 2^128 % 2^64 < 2^64 ∧ (a + b + c) % 2^128 / 2^64 ≤ 1 := by
  omega

/-- The last inline addition of `SubModP`, whose carry out is dropped. -/
theorem add64_last (a b c : Nat) (hc : c ≤ 1) :
    ∃ q, (a + b + c % 2^64) % 2^64 + 2^64 * q = a + b + c ∧
      (a + b + c % 2^64) % 2^64 < 2^64 :=
  ⟨(a + b + c % 2^64) / 2^64, by omega, by omega⟩

/-! ### `U256` -/

theorem P_limbs_toNat : P_limbs.toNat = PRIME_P := by
  simp [P_limbs, U256.toNat, P_0, P_123, PRIME_P]

theorem P_limbs_wf : P_limbs.wf := by decide

theorem U256_eq_of_toNat (a b : U256) (ha : a.wf) (hb : b.wf)
    (h : a.toNat = b.toNat) : a = b := by
  obtain ⟨a0, a1, a2, a3⟩ := a
  obtain ⟨b0, b1, b2, b3⟩ := b
  simp only [U256.wf, U256.toNat] at *
  simp only [U256.mk.injEq]
  omega

theorem U256_toNat_lt (a : U256) (ha : a.wf) : a.toNat < 2^256 := by
  obtain ⟨a0, a1, a2, a3⟩ := a
  simp only [U256.wf, U256.toNat] at *
  omega

/-! ### `NegModP` -/

/-- The value of `NegModP` on any limb array not above `P`. -/
theorem NegModP_toNat (a : U256) (hw : a.wf) (h : a.toNat ≤ PRIME_P) :
    (NegModP a).toNat = PRIME_P - a.toNat ∧ (NegModP a).wf := by
  obtain ⟨a0, a1, a2, a3⟩ := a
  simp only [U256.wf, U256.toNat, PRIME_P, NegModP, P_0, P_123] at *
  split_ifs <;> omega

/-! ### `SubModP` -/

theorem SubModP_select (A B D S c q : Nat)
    (hD : D + B = A + 2^256 * c) (hS : S + 2^256 * q = D + (2^256 - 2^32 - 977))
    (hDlt : D < 2^256) (hSlt : S < 2^256) (hc : c ≤ 1)
    (hA : A ≤ 2^256 - 2^32 - 977) (hB : B < 2^256 - 2^32 - 977) :
    (c = 0 → B ≤ A ∧ D = A - B) ∧
    (c ≠ 0 → A < B ∧ S = A + (2^256 - 2^32 - 977) - B) := by
  omega

/-- The value of `SubModP` for a minuend not above `P` and a canonical subtrahend. -/
theorem SubModP_toNat (a b : U256) (ha : a.wf) (hb : b.wf)
    (hap : a.toNat ≤ PRIME_P) (hbp : b.toNat < PRIME_P) :
    (SubModP a b).wf ∧
    (SubModP a b).toNat =
      if b.toNat ≤ a.toNat then a.toNat - b.toNat else a.toNat + PRIME_P - b.toNat := by
  obtain ⟨a0, a1, a2, a3⟩ := a
  obtain ⟨b0, b1, b2, b3⟩ := b
  simp only [U256.wf, U256.toNat, PRIME_P] at ha hb hap hbp
  obtain ⟨ha0, ha1, ha2, ha3⟩ := ha
  obtain ⟨hb0, hb1, hb2, hb3⟩ := hb
  generalize hr : SubModP ⟨a0, a1, a2, a3⟩ ⟨b0, b1, b2, b3⟩ = r
  unfold SubModP at hr
  lift_lets at hr
  extract_lets temp_a0 temp_b0 r0 borrow0 temp_a1 temp_b1 r1 borrow1 temp_a2 temp_b2 r2 borrow2
    temp_a3 temp_b3 r3 borrow3 temp0 s0 temp1 s1 temp2 s2 s3 at hr
  have k0 : r0 + b0 = a0 + 2^64 * borrow0 ∧ r0 < 2^64 ∧ borrow0 ≤ 1 :=
    sub128_first a0 b0 ha0 hb0
  have k1 : r1 + b1 + borrow0 = a1 + 2^64 * borrow1 ∧ r1 < 2^64 ∧ borrow1 ≤ 1 :=
    sub128_next a1 b1 borrow0 ha1 hb1 k0.2.2
  have k2 : r2 + b2 + borrow1 = a2 + 2^64 * borrow2 ∧ r2 < 2^64 ∧ borrow2 ≤ 1 :=
    sub128_next a2 b2 borrow1 ha2 hb2 k1.2.2
  have k3 : r3 + b3 + borrow2 = a3 + 2^64 * borrow3 ∧ r3 < 2^64 ∧ borrow3 ≤ 1 :=
    sub128_next a3 b3 borrow2 ha3 hb3 k2.2.2
  have e0 : s0 + 2^64 * (temp0 / 2^64) = r0 + P_0 + 0 ∧ s0 < 2^64 ∧ temp0 / 2^64 ≤ 1 :=
    add128_next r0 P_0 0 k0.2.1 (by decide) (by decide)
  have e1 : s1 + 2^64 * (temp1 / 2^64) = r1 + P_123 + temp0 / 2^64 ∧ s1 < 2^64 ∧
      temp1 / 2^64 ≤ 1 :=
    add128_next r1 P_123 (temp0 / 2^64) k1.2.1 (by decide) e0.2.2
  have e2 : s2 + 2^64 * (temp2 / 2^64) = r2 + P_123 + temp1 / 2^64 ∧ s2 < 2^64 ∧
      temp2 / 2^64 ≤ 1 :=
    add128_next r2 P_123 (temp1 / 2^64) k2.2.1 (by decide) e1.2.2
  have e3 : ∃ q, s3 + 2^64 * q = r3 + P_123 + temp2 / 2^64 ∧ s3 < 2^64 :=
    add64_last r3 P_123 (temp2 / 2^64) e2.2.2
  obtain ⟨q, e3, w3⟩ := e3
  generalize temp0 / 2^64 = c0 at e0 e1
  generalize temp1 / 2^64 = c1 at e1 e2
  generalize temp2 / 2^64 = c2 at e2 e3
  clear_value r0 r1 r2 r3 borrow0 borrow1 borrow2 borrow3 s0 s1 s2 s3
  simp only [P_0, P_123] at e0 e1 e2 e3
  subst hr
  have hD : r0 + 2^64 * r1 + 2^128 * r2 + 2^192 * r3
        + (b0 + 2^64 * b1 + 2^128 * b2 + 2^192 * b3)
      = a0 + 2^64 * a1 + 2^128 * a2 + 2^192 * a3 + 2^256 * borrow3 := by
    linear_combination k0.1 + 2^64 * k1.1 + 2^128 * k2.1 + 2^192 * k3.1
  have hS : s0 + 2^64 * s1 + 2^128 * s2 + 2^192 * s3 + 2^256 * q
      = r0 + 2^64 * r1 + 2^128 * r2 + 2^192 * r3 + (2^256 - 2^32 - 977) := by
    linear_combination e0.1 + 2^64 * e1.1 + 2^128 * e2.1 + 2^192 * e3
  obtain ⟨-, v0, -⟩ := k0
  obtain ⟨-, v1, -⟩ := k1
  obtain ⟨-, v2, -⟩ := k2
  obtain ⟨-, v3, hb3'⟩ := k3
  obtain ⟨-, w0, -⟩ := e0
  obtain ⟨-, w1, -⟩ := e1
  obtain ⟨-, w2, -⟩ := e2
  have hDlt : r0 + 2^64 * r1 + 2^128 * r2 + 2^192 * r3 < 2^256 := by
    clear hD hS hap hbp; omega
  have hSlt : s0 + 2^64 * s1 + 2^128 * s2 + 2^192 * s3 < 2^256 := by
    clear hD hS hap hbp hDlt; omega
  have key := SubModP_select _ _ _ _ _ _ hD hS hDlt hSlt hb3' hap hbp
  by_cases hif : borrow3 ≠ 0
  · rw [if_pos hif]
    have hlt := (key.2 hif).1
    simp only [U256.wf, U256.toNat, PRIME_P, if_neg (not_le.2 hlt)]
    exact ⟨⟨w0, w1, w2, w3⟩, (key.2 hif).2⟩
  · rw [if_neg hif]
    have hle := (key.1 (not_not.1 hif)).1
    simp only [U256.wf, U256.toNat, PRIME_P, if_pos hle]
    exact ⟨⟨v0, v1, v2, v3⟩, (key.1 (not_not.1 hif)).2⟩

/-! ### `AddModP` -/

theorem AddModP_select (A B T R c d : Nat)
    (hT : T + 2^256 * c = A + B) (hR : R + (2^256 - 2^32 - 977) = T + 2^256 * d)
    (hRlt : R < 2^256) (hc : c ≤ 1) (hd : d ≤ 1)
    (hs : A + B < 2 * (2^256 - 2^32 - 977)) :
    (c < d → A + B < 2^256 - 2^32 - 977 ∧ T = A + B) ∧
    (¬ c < d → 2^256 - 2^32 - 977 ≤ A + B ∧ R = A + B - (2^256 - 2^32 - 977)) := by
  omega

/-- The value of `AddModP` whenever the sum of the operands is below `2 * P`. -/
theorem AddModP_toNat (a b : U256) (ha : a.wf) (hb : b.wf)
    (hs : a.toNat + b.toNat < 2 * PRIME_P) :
    (AddModP a b).wf ∧
    (AddModP a b).toNat =
      if a.toNat + b.toNat < PRIME_P then a.toNat + b.toNat
      else a.toNat + b.toNat - PRIME_P := by
  obtain ⟨a0, a1, a2, a3⟩ := a
  obtain ⟨b0, b1, b2, b3⟩ := b
  simp only [U256.wf, U256.toNat, PRIME_P] at ha hb hs
  obtain ⟨ha0, ha1, ha2, ha3⟩ := ha
  obtain ⟨hb0, hb1, hb2, hb3⟩ := hb
  generalize hr : AddModP ⟨a0, a1, a2, a3⟩ ⟨b0, b1, b2, b3⟩ = r
  unfold AddModP at hr
  lift_lets at hr
  extract_lets t0 t1 t2 t3 carry r0 r1 r2 r3 carry1 carry2 at hr
  have h0 : t0.1 + 2^64 * t0.2 = a0 + b0 ∧ t0.1 < 2^64 ∧ t0.2 ≤ 1 := add_cc_64_spec _ _ ha0 hb0
  have h1 : t1.1 + 2^64 * t1.2 = a1 + b1 + t0.2 ∧ t1.1 < 2^64 ∧ t1.2 ≤ 1 :=
    addc_cc_64_spec _ _ _ ha1 hb1 h0.2.2
  have h2 : t2.1 + 2^64 * t2.2 = a2 + b2 + t1.2 ∧ t2.1 < 2^64 ∧ t2.2 ≤ 1 :=
    addc_cc_64_spec _ _ _ ha2 hb2 h1.2.2
  have h3 : t3.1 + 2^64 * t3.2 = a3 + b3 + t2.2 ∧ t3.1 < 2^64 ∧ t3.2 ≤ 1 :=
    addc_cc_64_spec _ _ _ ha3 hb3 h2.2.2
  have k0 : r0.1 + P_0 = t0.1 + 2^64 * r0.2 ∧ r0.1 < 2^64 ∧ r0.2 ≤ 1 :=
    sub_cc_64_spec _ _ h0.2.1 (by decide)
  have k1 : r1.1 + P_123 + r0.2 = t1.1 + 2^64 * r1.2 ∧ r1.1 < 2^64 ∧ r1.2 ≤ 1 :=
    subc_cc_64_spec _ _ _ h1.2.1 (by decide) k0.2.2
  have k2 : r2.1 + P_123 + r1.2 = t2.1 + 2^64 * r2.2 ∧ r2.1 < 2^64 ∧ r2.2 ≤ 1 :=
    subc_cc_64_spec _ _ _ h2.2.1 (by decide) k1.2.2
  have k3 : r3.1 + P_123 + r2.2 = t3.1 + 2^64 * r3.2 ∧ r3.1 < 2^64 ∧ r3.2 ≤ 1 :=
    subc_cc_64_spec _ _ _ h3.2.1 (by decide) k2.2.2
  have hc2 : (carry2.1 ≠ 0) ↔ (t3.2 < r3.2) := borrow_flag _ _ h3.2.2 k3.2.2
  clear_value t0 t1 t2 t3 carry r0 r1 r2 r3 carry1 carry2
  simp only [P_0, P_123] at k0 k1 k2 k3
  subst hr
  have hT : t0.1 + 2^64 * t1.1 + 2^128 * t2.1 + 2^192 * t3.1 + 2^256 * t3.2
      = a0 + 2^64 * a1 + 2^128 * a2 + 2^192 * a3 + (b0 + 2^64 * b1 + 2^128 * b2 + 2^192 * b3) := by
    linear_combination h0.1 + 2^64 * h1.1 + 2^128 * h2.1 + 2^192 * h3.1
  have hR : r0.1 + 2^64 * r1.1 + 2^128 * r2.1 + 2^192 * r3.1 + (2^256 - 2^32 - 977)
      = t0.1 + 2^64 * t1.1 + 2^128 * t2.1 + 2^192 * t3.1 + 2^256 * r3.2 := by
    linear_combination k0.1 + 2^64 * k1.1 + 2^128 * k2.1 + 2^192 * k3.1
  obtain ⟨-, w0, -⟩ := h0
  obtain ⟨-, w1, -⟩ := h1
  obtain ⟨-, w2, -⟩ := h2
  obtain ⟨-, w3, ht3⟩ := h3
  obtain ⟨-, v0, -⟩ := k0
  obtain ⟨-, v1, -⟩ := k1
  obtain ⟨-, v2, -⟩ := k2
  obtain ⟨-, v3, hr3⟩ := k3
  have hRlt : r0.1 + 2^64 * r1.1 + 2^128 * r2.1 + 2^192 * r3.1 < 2^256 := by
    clear hT hR hs hc2; omega
  have key := AddModP_select _ _ _ _ _ _ hT hR hRlt ht3 hr3 hs
  by_cases hif : carry2.1 ≠ 0
  · rw [if_pos hif]
    have hlt := (key.1 (hc2.1 hif)).1
    simp only [U256.wf, U256.toNat, PRIME_P, if_pos hlt]
    exact ⟨⟨w0, w1, w2, w3⟩, (key.1 (hc2.1 hif)).2⟩
  · rw [if_neg hif]
    have hge := (key.2 (fun h => hif (hc2.2 h))).1
    simp only [U256.wf, U256.toNat, PRIME_P, if_neg (not_lt.2 hge)]
    exact ⟨⟨v0, v1, v2, v3⟩, (key.2 (fun h => hif (hc2.2 h))).2⟩

/-! ### Word-level facts about the 32-bit helpers -/

theorem lo32_lt (x : Nat) : lo32 x < 2^32 := by
  unfold lo32; omega

theorem hi32_lt (x : Nat) : hi32 x < 2^32 := by
  unfold hi32; omega

/-- A `u64` limb is made of its two 32-bit words. -/
theorem lo32_hi32 (x : Nat) (hx : x < 2^64) : lo32 x + 2^32 * hi32 x = x := by
  unfold lo32 hi32; omega

/-- The product of two `u32` values fits a `u64`, so `mul_wide_32` is exact. -/
theorem mul_wide_32_spec (x y : Nat) (hx : x < 2^32) (hy : y < 2^32) :
    mul_wide_32 x y = x * y ∧ mul_wide_32 x y ≤ (2^32 - 1) * (2^32 - 1) := by
  have h : x * y ≤ (2^32 - 1) * (2^32 - 1) :=
    Nat.mul_le_mul (Nat.le_pred_of_lt hx) (Nat.le_pred_of_lt hy)
  have e : mul_wide_32 x y = x * y := by
    unfold mul_wide_32
    exact Nat.mod_eq_of_lt (lt_of_le_of_lt h (by norm_num))
  exact ⟨e, e ▸ h⟩

/-- The two words of a product of two `u32` values; the high word is at most `2^32 - 2`. -/
theorem lo32_hi32_prod (t : Nat) (ht : t ≤ (2^32 - 1) * (2^32 - 1)) :
    lo32 t + 2^32 * hi32 t = t ∧ lo32 t < 2^32 ∧ hi32 t ≤ 2^32 - 2 := by
  unfold lo32 hi32; omega

theorem add_cc_32_spec (a b : Nat) (ha : a < 2^32) (hb : b < 2^32) :
    (add_cc_32 a b).1 + 2^32 * (add_cc_32 a b).2 = a + b ∧
    (add_cc_32 a b).1 < 2^32 ∧ (add_cc_32 a b).2 ≤ 1 := by
  simp only [add_cc_32]; omega

theorem addc_cc_32_spec (a b c : Nat) (ha : a < 2^32) (hb : b < 2^32) (hc : c ≤ 1) :
    (addc_cc_32 a b c).1 + 2^32 * (addc_cc_32 a b c).2 = a + b + c ∧
    (addc_cc_32 a b c).1 < 2^32 ∧ (addc_cc_32 a b c).2 ≤ 1 := by
  simp only [addc_cc_32]; omega

/-- `addc_32` is exact when the sum fits 32 bits. -/
theorem addc_32_spec (a b c : Nat) (h : a + b + c < 2^32) :
    (addc_32 a b c).1 = a + b + c := by
  simp only [addc_32]; omega

/-- `addc_32 a 0 c` is exact for a word `a ≤ 2^32 - 2` and a carry bit `c`. -/
theorem addc_32_top (a c : Nat) (ha : a ≤ 2^32 - 2) (hc : c ≤ 1) :
    (addc_32 a 0 c).1 = a + 0 + c :=
  addc_32_spec a 0 c (by omega)

theorem addc_32_lt (a b c : Nat) : (addc_32 a b c).1 < 2^32 := by
  simp only [addc_32]; omega

/-- `addc_64` is exact when the sum fits 64 bits. -/
theorem addc_64_spec (a b c : Nat) (h : a + b + c < 2^64) :
    (addc_64 a b c).1 = a + b + c := by
  simp only [addc_64]; omega

theorem addc_64_lt (a b c : Nat) : (addc_64 a b c).1 < 2^64 := by
  simp only [addc_64]; omega

theorem u64_of_words_lt (lo hi : Nat) (hlo : lo < 2^32) (hhi : hi < 2^32) :
    u64_of_words lo hi < 2^64 := by
  unfold u64_of_words; omega

/-- Eight products of `u32` values, placed one word apart, stay below
`(2^32 - 1) * (2^256 - 1)`. -/
theorem row_sum_le (p0 p1 p2 p3 p4 p5 p6 p7 : Nat)
    (h0 : p0 ≤ (2^32 - 1) * (2^32 - 1)) (h1 : p1 ≤ (2^32 - 1) * (2^32 - 1))
    (h2 : p2 ≤ (2^32 - 1) * (2^32 - 1)) (h3 : p3 ≤ (2^32 - 1) * (2^32 - 1))
    (h4 : p4 ≤ (2^32 - 1) * (2^32 - 1)) (h5 : p5 ≤ (2^32 - 1) * (2^32 - 1))
    (h6 : p6 ≤ (2^32 - 1) * (2^32 - 1)) (h7 : p7 ≤ (2^32 - 1) * (2^32 - 1)) :
    p0 + 2^32 * p1 + 2^64 * p2 + 2^96 * p3 + 2^128 * p4 + 2^160 * p5 + 2^192 * p6 + 2^224 * p7
      ≤ (2^32 - 1) * (2^256 - 1) := by
  omega

/-- The top word of a nine-word number that is at most `(2^32 - 1) * (2^256 - 1)`. -/
theorem top_word_le (L k V : Nat) (h : L + 2^256 * k = V)
    (hV : V ≤ (2^32 - 1) * (2^256 - 1)) : k ≤ 2^32 - 2 := by
  omega

/-! ### `mul_256_by_64` -/

/-- `mul_256_by_64` writes the exact 320-bit product. -/
theorem mul_256_by_64_spec (val256 : U256) (val64 : Nat) (hv : val256.wf) (hk : val64 < 2^64) :
    (mul_256_by_64 val256 val64).toNat = val256.toNat * val64 ∧
    (mul_256_by_64 val256 val64).wf := by
  obtain ⟨l0, l1, l2, l3⟩ := val256
  simp only [U256.wf] at hv
  obtain ⟨hl0, hl1, hl2, hl3⟩ := hv
  simp only [U256.toNat]
  generalize hr : mul_256_by_64 ⟨l0, l1, l2, l3⟩ val64 = r
  unfold mul_256_by_64 at hr
  lift_lets at hr
  extract_lets a0 a1 a2 a3 a4 a5 a6 a7 b0 b1 res0 tmp64_0 tmp64_1 tmp64_2 tmp64_3 tmp64_4
    tmp64_5 tmp64_6 c1 c2 c3 c4 c5 c6 c7 c8 kk0 tmp64b_0 tmp64b_1 tmp64b_2 tmp64b_3 tmp64b_4 tmp64b_5
    tmp64b_6 k1 k2 k3 k4 k5 k6 k7 k8 d1 d2 d3 d4 d5 d6 d7 d8 d9 at hr
  have hw0 : a0 + 2^32 * a1 = l0 := lo32_hi32 l0 hl0
  have hw1 : a2 + 2^32 * a3 = l1 := lo32_hi32 l1 hl1
  have hw2 : a4 + 2^32 * a5 = l2 := lo32_hi32 l2 hl2
  have hw3 : a6 + 2^32 * a7 = l3 := lo32_hi32 l3 hl3
  have hwk : b0 + 2^32 * b1 = val64 := lo32_hi32 val64 hk
  have ha0 : a0 < 2^32 := lo32_lt _
  have ha1 : a1 < 2^32 := hi32_lt _
  have ha2 : a2 < 2^32 := lo32_lt _
  have ha3 : a3 < 2^32 := hi32_lt _
  have ha4 : a4 < 2^32 := lo32_lt _
  have ha5 : a5 < 2^32 := hi32_lt _
  have ha6 : a6 < 2^32 := lo32_lt _
  have ha7 : a7 < 2^32 := hi32_lt _
  have hb0 : b0 < 2^32 := lo32_lt _
  have hb1 : b1 < 2^32 := hi32_lt _
  have hp0 : res0 = a0 * b0 ∧ res0 ≤ (2^32 - 1) * (2^32 - 1) := mul_wide_32_spec _ _ ha0 hb0
  have hq0 : kk0 = a0 * b1 ∧ kk0 ≤ (2^32 - 1) * (2^32 - 1) := mul_wide_32_spec _ _ ha0 hb1
  have hp1 : tmp64_0 = a1 * b0 ∧ tmp64_0 ≤ (2^32 - 1) * (2^32 - 1) := mul_wide_32_spec _ _ ha1 hb0
  have hq1 : tmp64b_0 = a1 * b1 ∧ tmp64b_0 ≤ (2^32 - 1) * (2^32 - 1) := mul_wide_32_spec _ _ ha1 hb1
  have hp2 : tmp64_1 = a2 * b0 ∧ tmp64_1 ≤ (2^32 - 1) * (2^32 - 1) := mul_wide_32_spec _ _ ha2 hb0
  have hq2 : tmp64b_1 = a2 * b1 ∧ tmp64b_1 ≤ (2^32 - 1) * (2^32 - 1) := mul_wide_32_spec _ _ ha2 hb1
  have hp3 : tmp64_2 = a3 * b0 ∧ tmp64_2 ≤ (2^32 - 1) * (2^32 - 1) := mul_wide_32_spec _ _ ha3 hb0
  have hq3 : tmp64b_2 = a3 * b1 ∧ tmp64b_2 ≤ (2^32 - 1) * (2^32 - 1) := mul_wide_32_spec _ _ ha3 hb1
  have hp4 : tmp64_3 = a4 * b0 ∧ tmp64_3 ≤ (2^32 - 1) * (2^32 - 1) := mul_wide_32_spec _ _ ha4 hb0
  have hq4 : tmp64b_3 = a4 * b1 ∧ tmp64b_3 ≤ (2^32 - 1) * (2^32 - 1) := mul_wide_32_spec _ _ ha4 hb1
  have hp5 : tmp64_4 = a5 * b0 ∧ tmp64_4 ≤ (2^32 - 1) * (2^32 - 1) := mul_wide_32_spec _ _ ha5 hb0
  have hq5 : tmp64b_4 = a5 * b1 ∧ tmp64b_4 ≤ (2^32 - 1) * (2^32 - 1) := mul_wide_32_spec _ _ ha5 hb1
  have hp6 : tmp64_5 = a6 * b0 ∧ tmp64_5 ≤ (2^32 - 1) * (2^32 - 1) := mul_wide_32_spec _ _ ha6 hb0
  have hq6 : tmp64b_5 = a6 * b1 ∧ tmp64b_5 ≤ (2^32 - 1) * (2^32 - 1) := mul_wide_32_spec _ _ ha6 hb1
  have hp7 : tmp64_6 = a7 * b0 ∧ tmp64_6 ≤ (2^32 - 1) * (2^32 - 1) := mul_wide_32_spec _ _ ha7 hb0
  have hq7 : tmp64b_6 = a7 * b1 ∧ tmp64b_6 ≤ (2^32 - 1) * (2^32 - 1) := mul_wide_32_spec _ _ ha7 hb1
  have sp0 : lo32 res0 + 2^32 * hi32 res0 = res0 ∧ lo32 res0 < 2^32 ∧ hi32 res0 ≤ 2^32 - 2 :=
    lo32_hi32_prod _ hp0.2
  have sq0 : lo32 kk0 + 2^32 * hi32 kk0 = kk0 ∧ lo32 kk0 < 2^32 ∧ hi32 kk0 ≤ 2^32 - 2 :=
    lo32_hi32_prod _ hq0.2
  have sp1 : lo32 tmp64_0 + 2^32 * hi32 tmp64_0 = tmp64_0 ∧ lo32 tmp64_0 < 2^32 ∧ hi32 tmp64_0 ≤ 2^32 - 2 :=
    lo32_hi32_prod _ hp1.2
  have sq1 : lo32 tmp64b_0 + 2^32 * hi32 tmp64b_0 = tmp64b_0 ∧ lo32 tmp64b_0 < 2^32 ∧ hi32 tmp64b_0 ≤ 2^32 - 2 :=
    lo32_hi32_prod _ hq1.2
  have sp2 : lo32 tmp64_1 + 2^32 * hi32 tmp64_1 = tmp64_1 ∧ lo32 tmp64_1 < 2^32 ∧ hi32 tmp64_1 ≤ 2^32 - 2 :=
    lo32_hi32_prod _ hp2.2
  have sq2 : lo32 tmp64b_1 + 2^32 * hi32 tmp64b_1 = tmp64b_1 ∧ lo32 tmp64b_1 < 2^32 ∧ hi32 tmp64b_1 ≤ 2^32 - 2 :=
    lo32_hi32_prod _ hq2.2
  have sp3 : lo32 tmp64_2 + 2^32 * hi32 tmp64_2 = tmp64_2 ∧ lo32 tmp64_2 < 2^32 ∧ hi32 tmp64_2 ≤ 2^32 - 2 :=
    lo32_hi32_prod _ hp3.2
  have sq3 : lo32 tmp64b_2 + 2^32 * hi32 tmp64b_2 = tmp64b_2 ∧ lo32 tmp64b_2 < 2^32 ∧ hi32 tmp64b_2 ≤ 2^32 - 2 :=
    lo32_hi32_prod _ hq3.2
  have sp4 : lo32 tmp64_3 + 2^32 * hi32 tmp64_3 = tmp64_3 ∧ lo32 tmp64_3 < 2^32 ∧ hi32 tmp64_3 ≤ 2^32 - 2 :=
    lo32_hi32_prod _ hp4.2
  have sq4 : lo32 tmp64b_3 + 2^32 * hi32 tmp64b_3 = tmp64b_3 ∧ lo32 tmp64b_3 < 2^32 ∧ hi32 tmp64b_3 ≤ 2^32 - 2 :=
    lo32_hi32_prod _ hq4.2
  have sp5 : lo32 tmp64_4 + 2^32 * hi32 tmp64_4 = tmp64_4 ∧ lo32 tmp64_4 < 2^32 ∧ hi32 tmp64_4 ≤ 2^32 - 2 :=
    lo32_hi32_prod _ hp5.2
  have sq5 : lo32 tmp64b_4 + 2^32 * hi32 tmp64b_4 = tmp64b_4 ∧ lo32 tmp64b_4 < 2^32 ∧ hi32 tmp64b_4 ≤ 2^32 - 2 :=
    lo32_hi32_prod _ hq5.2
  have sp6 : lo32 tmp64_5 + 2^32 * hi32 tmp64_5 = tmp64_5 ∧ lo32 tmp64_5 < 2^32 ∧ hi32 tmp64_5 ≤ 2^32 - 2 :=
    lo32_hi32_prod _ hp6.2
  have sq6 : lo32 tmp64b_5 + 2^32 * hi32 tmp64b_5 = tmp64b_5 ∧ lo32 tmp64b_5 < 2^32 ∧ hi32 tmp64b_5 ≤ 2^32 - 2 :=
    lo32_hi32_prod _ hq6.2
  have sp7 : lo32 tmp64_6 + 2^32 * hi32 tmp64_6 = tmp64_6 ∧ lo32 tmp64_6 < 2^32 ∧ hi32 tmp64_6 ≤ 2^32 - 2 :=
    lo32_hi32_prod _ hp7.2
  have sq7 : lo32 tmp64b_6 + 2^32 * hi32 tmp64b_6 = tmp64b_6 ∧ lo32 tmp64b_6 < 2^32 ∧ hi32 tmp64b_6 ≤ 2^32 - 2 :=
    lo32_hi32_prod _ hq7.2
  have hc1 : c1.1 + 2^32 * c1.2 = hi32 res0 + lo32 tmp64_0 ∧ c1.1 < 2^32 ∧
      c1.2 ≤ 1 := add_cc_32_spec _ _ (hi32_lt _) (lo32_lt _)
  have hc2 : c2.1 + 2^32 * c2.2 = hi32 tmp64_0 + lo32 tmp64_1 + c1.2 ∧
      c2.1 < 2^32 ∧ c2.2 ≤ 1 := addc_cc_32_spec _ _ _ (hi32_lt _) (lo32_lt _) hc1.2.2
  have hc3 : c3.1 + 2^32 * c3.2 = hi32 tmp64_1 + lo32 tmp64_2 + c2.2 ∧
      c3.1 < 2^32 ∧ c3.2 ≤ 1 := addc_cc_32_spec _ _ _ (hi32_lt _) (lo32_lt _) hc2.2.2
  have hc4 : c4.1 + 2^32 * c4.2 = hi32 tmp64_2 + lo32 tmp64_3 + c3.2 ∧
      c4.1 < 2^32 ∧ c4.2 ≤ 1 := addc_cc_32_spec _ _ _ (hi32_lt _) (lo32_lt _) hc3.2.2
  have hc5 : c5.1 + 2^32 * c5.2 = hi32 tmp64_3 + lo32 tmp64_4 + c4.2 ∧
      c5.1 < 2^32 ∧ c5.2 ≤ 1 := addc_cc_32_spec _ _ _ (hi32_lt _) (lo32_lt _) hc4.2.2
  have hc6 : c6.1 + 2^32 * c6.2 = hi32 tmp64_4 + lo32 tmp64_5 + c5.2 ∧
      c6.1 < 2^32 ∧ c6.2 ≤ 1 := addc_cc_32_spec _ _ _ (hi32_lt _) (lo32_lt _) hc5.2.2
  have hc7 : c7.1 + 2^32 * c7.2 = hi32 tmp64_5 + lo32 tmp64_6 + c6.2 ∧
      c7.1 < 2^32 ∧ c7.2 ≤ 1 := addc_cc_32_spec _ _ _ (hi32_lt _) (lo32_lt _) hc6.2.2
  have hc8 : c8.1 = hi32 tmp64_6 + 0 + c7.2 :=
    addc_32_top _ _ sp7.2.2 hc7.2.2
  have hk1 : k1.1 + 2^32 * k1.2 = hi32 kk0 + lo32 tmp64b_0 ∧ k1.1 < 2^32 ∧
      k1.2 ≤ 1 := add_cc_32_spec _ _ (hi32_lt _) (lo32_lt _)
  have hk2 : k2.1 + 2^32 * k2.2 = hi32 tmp64b_0 + lo32 tmp64b_1 + k1.2 ∧
      k2.1 < 2^32 ∧ k2.2 ≤ 1 := addc_cc_32_spec _ _ _ (hi32_lt _) (lo32_lt _) hk1.2.2
  have hk3 : k3.1 + 2^32 * k3.2 = hi32 tmp64b_1 + lo32 tmp64b_2 + k2.2 ∧
      k3.1 < 2^32 ∧ k3.2 ≤ 1 := addc_cc_32_spec _ _ _ (hi32_lt _) (lo32_lt _) hk2.2.2
  have hk4 : k4.1 + 2^32 * k4.2 = hi32 tmp64b_2 + lo32 tmp64b_3 + k3.2 ∧
      k4.1 < 2^32 ∧ k4.2 ≤ 1 := addc_cc_32_spec _ _ _ (hi32_lt _) (lo32_lt _) hk3.2.2
  have hk5 : k5.1 + 2^32 * k5.2 = hi32 tmp64b_3 + lo32 tmp64b_4 + k4.2 ∧
      k5.1 < 2^32 ∧ k5.2 ≤ 1 := addc_cc_32_spec _ _ _ (hi32_lt _) (lo32_lt _) hk4.2.2
  have hk6 : k6.1 + 2^32 * k6.2 = hi32 tmp64b_4 + lo32 tmp64b_5 + k5.2 ∧
      k6.1 < 2^32 ∧ k6.2 ≤ 1 := addc_cc_32_spec _ _ _ (hi32_lt _) (lo32_lt _) hk5.2.2
  have hk7 : k7.1 + 2^32 * k7.2 = hi32 tmp64b_5 + lo32 tmp64b_6 + k6.2 ∧
      k7.1 < 2^32 ∧ k7.2 ≤ 1 := addc_cc_32_spec _ _ _ (hi32_lt _) (lo32_lt _) hk6.2.2
  have hk8 : k8.1 = hi32 tmp64b_6 + 0 + k7.2 :=
    addc_32_top _ _ sq7.2.2 hk7.2.2
  have hC : lo32 res0 + 2^32 * c1.1 + 2^64 * c2.1 + 2^96 * c3.1 + 2^128 * c4.1 + 2^160 * c5.1 + 2^192 * c6.1 + 2^224 * c7.1 + 2^256 * c8.1
      = res0 + 2^32 * tmp64_0 + 2^64 * tmp64_1 + 2^96 * tmp64_2 + 2^128 * tmp64_3 + 2^160 * tmp64_4 + 2^192 * tmp64_5 + 2^224 * tmp64_6 := by
    linear_combination sp0.1 + 2^32 * sp1.1 + 2^64 * sp2.1 + 2^96 * sp3.1 + 2^128 * sp4.1 + 2^160 * sp5.1 + 2^192 * sp6.1 + 2^224 * sp7.1 + 2^32 * hc1.1 + 2^64 * hc2.1 + 2^96 * hc3.1 + 2^128 * hc4.1 + 2^160 * hc5.1 + 2^192 * hc6.1 + 2^224 * hc7.1 + 2^256 * hc8
  have hK : lo32 kk0 + 2^32 * k1.1 + 2^64 * k2.1 + 2^96 * k3.1 + 2^128 * k4.1 + 2^160 * k5.1 + 2^192 * k6.1 + 2^224 * k7.1 + 2^256 * k8.1
      = kk0 + 2^32 * tmp64b_0 + 2^64 * tmp64b_1 + 2^96 * tmp64b_2 + 2^128 * tmp64b_3 + 2^160 * tmp64b_4 + 2^192 * tmp64b_5 + 2^224 * tmp64b_6 := by
    linear_combination sq0.1 + 2^32 * sq1.1 + 2^64 * sq2.1 + 2^96 * sq3.1 + 2^128 * sq4.1 + 2^160 * sq5.1 + 2^192 * sq6.1 + 2^224 * sq7.1 + 2^32 * hk1.1 + 2^64 * hk2.1 + 2^96 * hk3.1 + 2^128 * hk4.1 + 2^160 * hk5.1 + 2^192 * hk6.1 + 2^224 * hk7.1 + 2^256 * hk8
  have hKle := row_sum_le _ _ _ _ _ _ _ _ hq0.2 hq1.2 hq2.2 hq3.2 hq4.2 hq5.2 hq6.2 hq7.2
  have hk8le : k8.1 ≤ 2^32 - 2 := top_word_le (lo32 kk0 + 2^32 * k1.1 + 2^64 * k2.1 + 2^96 * k3.1 + 2^128 * k4.1 + 2^160 * k5.1 + 2^192 * k6.1 + 2^224 * k7.1) k8.1 _ hK hKle
  have hc8lt : c8.1 < 2^32 := addc_32_lt _ _ _
  have hk8lt : k8.1 < 2^32 := addc_32_lt _ _ _
  have hd1 : d1.1 + 2^32 * d1.2 = c1.1 + lo32 kk0 ∧ d1.1 < 2^32 ∧ d1.2 ≤ 1 :=
    add_cc_32_spec _ _ hc1.2.1 (lo32_lt _)
  have hd2 : d2.1 + 2^32 * d2.2 = c2.1 + k1.1 + d1.2 ∧ d2.1 < 2^32 ∧ d2.2 ≤ 1 :=
    addc_cc_32_spec _ _ _ hc2.2.1 hk1.2.1 hd1.2.2
  have hd3 : d3.1 + 2^32 * d3.2 = c3.1 + k2.1 + d2.2 ∧ d3.1 < 2^32 ∧ d3.2 ≤ 1 :=
    addc_cc_32_spec _ _ _ hc3.2.1 hk2.2.1 hd2.2.2
  have hd4 : d4.1 + 2^32 * d4.2 = c4.1 + k3.1 + d3.2 ∧ d4.1 < 2^32 ∧ d4.2 ≤ 1 :=
    addc_cc_32_spec _ _ _ hc4.2.1 hk3.2.1 hd3.2.2
  have hd5 : d5.1 + 2^32 * d5.2 = c5.1 + k4.1 + d4.2 ∧ d5.1 < 2^32 ∧ d5.2 ≤ 1 :=
    addc_cc_32_spec _ _ _ hc5.2.1 hk4.2.1 hd4.2.2
  have hd6 : d6.1 + 2^32 * d6.2 = c6.1 + k5.1 + d5.2 ∧ d6.1 < 2^32 ∧ d6.2 ≤ 1 :=
    addc_cc_32_spec _ _ _ hc6.2.1 hk5.2.1 hd5.2.2
  have hd7 : d7.1 + 2^32 * d7.2 = c7.1 + k6.1 + d6.2 ∧ d7.1 < 2^32 ∧ d7.2 ≤ 1 :=
    addc_cc_32_spec _ _ _ hc7.2.1 hk6.2.1 hd6.2.2
  have hd8 : d8.1 + 2^32 * d8.2 = c8.1 + k7.1 + d7.2 ∧ d8.1 < 2^32 ∧ d8.2 ≤ 1 :=
    addc_cc_32_spec _ _ _ hc8lt hk7.2.1 hd7.2.2
  have hd9 : d9.1 = k8.1 + 0 + d8.2 :=
    addc_32_top _ _ hk8le hd8.2.2
  have hd9lt : d9.1 < 2^32 := addc_32_lt _ _ _
  have hD : lo32 res0 + 2^32 * d1.1 + 2^64 * d2.1 + 2^96 * d3.1 + 2^128 * d4.1 + 2^160 * d5.1 + 2^192 * d6.1 + 2^224 * d7.1 + 2^256 * d8.1 + 2^288 * d9.1
      = (lo32 res0 + 2^32 * c1.1 + 2^64 * c2.1 + 2^96 * c3.1 + 2^128 * c4.1 + 2^160 * c5.1 + 2^192 * c6.1 + 2^224 * c7.1 + 2^256 * c8.1)
        + 2^32 * (lo32 kk0 + 2^32 * k1.1 + 2^64 * k2.1 + 2^96 * k3.1 + 2^128 * k4.1 + 2^160 * k5.1 + 2^192 * k6.1 + 2^224 * k7.1 + 2^256 * k8.1) := by
    linear_combination 2^32 * hd1.1 + 2^64 * hd2.1 + 2^96 * hd3.1 + 2^128 * hd4.1 + 2^160 * hd5.1 + 2^192 * hd6.1 + 2^224 * hd7.1 + 2^256 * hd8.1 + 2^288 * hd9
  subst hr
  refine ⟨?_, ?_⟩
  · simp only [U320.toNat, u64_of_words]
    linear_combination hD + hC + 2^32 * hK + hp0.1 + 2^32 * hp1.1 + 2^64 * hp2.1 + 2^96 * hp3.1 + 2^128 * hp4.1 + 2^160 * hp5.1 + 2^192 * hp6.1 + 2^224 * hp7.1 + 2^32 * hq0.1 + 2^64 * hq1.1 + 2^96 * hq2.1 + 2^128 * hq3.1 + 2^160 * hq4.1 + 2^192 * hq5.1 + 2^224 * hq6.1 + 2^256 * hq7.1 + (b0 + 2^32 * b1) * (hw0 + 2^64 * hw1 + 2^128 * hw2 + 2^192 * hw3) + (l0 + 2^64 * l1 + 2^128 * l2 + 2^192 * l3) * hwk
  · exact ⟨u64_of_words_lt _ _ (lo32_lt _) hd1.2.1, u64_of_words_lt _ _ hd2.2.1 hd3.2.1,
      u64_of_words_lt _ _ hd4.2.1 hd5.2.1, u64_of_words_lt _ _ hd6.2.1 hd7.2.1,
      u64_of_words_lt _ _ hd8.2.1 hd9lt⟩

/-! ### `add_320_to_256` and `mul_512` -/

/-- When a five-limb sum does not overflow, its top limb plus the incoming carry fits a
limb. -/
theorem top_limb_fits (L c T v : Nat) (h : L + 2^256 * c = T)
    (hno : T + 2^256 * v < 2^320) : v + 0 + c < 2^64 := by
  omega

/-- `add_320_to_256` adds exactly, as long as the sum fits 320 bits. -/
theorem add_320_to_256_spec (res0 res1 res2 res3 : Nat) (val : U320)
    (h0 : res0 < 2^64) (h1 : res1 < 2^64) (h2 : res2 < 2^64) (h3 : res3 < 2^64) (hv : val.wf)
    (hno : res0 + 2^64 * res1 + 2^128 * res2 + 2^192 * res3 + val.toNat < 2^320) :
    (add_320_to_256 res0 res1 res2 res3 val).toNat
      = res0 + 2^64 * res1 + 2^128 * res2 + 2^192 * res3 + val.toNat ∧
    (add_320_to_256 res0 res1 res2 res3 val).wf := by
  obtain ⟨v0, v1, v2, v3, v4⟩ := val
  simp only [U320.wf] at hv
  obtain ⟨hv0, hv1, hv2, hv3, hv4⟩ := hv
  simp only [U320.toNat] at hno ⊢
  generalize hr : add_320_to_256 res0 res1 res2 res3 ⟨v0, v1, v2, v3, v4⟩ = r
  unfold add_320_to_256 at hr
  lift_lets at hr
  extract_lets r0 r1 r2 r3 r4 at hr
  have e0 : r0.1 + 2^64 * r0.2 = res0 + v0 ∧ r0.1 < 2^64 ∧ r0.2 ≤ 1 :=
    add_cc_64_spec _ _ h0 hv0
  have e1 : r1.1 + 2^64 * r1.2 = res1 + v1 + r0.2 ∧ r1.1 < 2^64 ∧ r1.2 ≤ 1 :=
    addc_cc_64_spec _ _ _ h1 hv1 e0.2.2
  have e2 : r2.1 + 2^64 * r2.2 = res2 + v2 + r1.2 ∧ r2.1 < 2^64 ∧ r2.2 ≤ 1 :=
    addc_cc_64_spec _ _ _ h2 hv2 e1.2.2
  have e3 : r3.1 + 2^64 * r3.2 = res3 + v3 + r2.2 ∧ r3.1 < 2^64 ∧ r3.2 ≤ 1 :=
    addc_cc_64_spec _ _ _ h3 hv3 e2.2.2
  have hL : r0.1 + 2^64 * r1.1 + 2^128 * r2.1 + 2^192 * r3.1 + 2^256 * r3.2
      = res0 + 2^64 * res1 + 2^128 * res2 + 2^192 * res3
        + (v0 + 2^64 * v1 + 2^128 * v2 + 2^192 * v3) := by
    linear_combination e0.1 + 2^64 * e1.1 + 2^128 * e2.1 + 2^192 * e3.1
  have hno' : res0 + 2^64 * res1 + 2^128 * res2 + 2^192 * res3
        + (v0 + 2^64 * v1 + 2^128 * v2 + 2^192 * v3) + 2^256 * v4 < 2^320 := by
    have e : res0 + 2^64 * res1 + 2^128 * res2 + 2^192 * res3
        + (v0 + 2^64 * v1 + 2^128 * v2 + 2^192 * v3) + 2^256 * v4
        = res0 + 2^64 * res1 + 2^128 * res2 + 2^192 * res3
          + (v0 + 2^64 * v1 + 2^128 * v2 + 2^192 * v3 + 2^256 * v4) := by ring
    rw [e]; exact hno
  have e4 : r4.1 = v4 + 0 + r3.2 :=
    addc_64_spec _ _ _ (top_limb_fits _ _ _ _ hL hno')
  have h4lt : r4.1 < 2^64 := addc_64_lt _ _ _
  subst hr
  refine ⟨?_, e0.2.1, e1.2.1, e2.2.1, e3.2.1, h4lt⟩
  simp only [U320.toNat]
  linear_combination hL + 2^256 * e4

theorem U320_toNat_lt (a : U320) (ha : a.wf) : a.toNat < 2^320 := by
  obtain ⟨a0, a1, a2, a3, a4⟩ := a
  simp only [U320.wf, U320.toNat] at *
  omega

/-- The high four limbs of one partial product plus the next partial product fit 320
bits. -/
theorem partial_sum_fits (m1 m2 m3 m4 M A b : Nat)
    (h1 : m1 < 2^64) (h2 : m2 < 2^64) (h3 : m3 < 2^64) (h4 : m4 < 2^64)
    (hM : M = A * b) (hA : A < 2^256) (hb : b < 2^64) :
    m1 + 2^64 * m2 + 2^128 * m3 + 2^192 * m4 + M < 2^320 := by
  have hle : A * b ≤ (2^256 - 1) * (2^64 - 1) :=
    Nat.mul_le_mul (Nat.le_pred_of_lt hA) (Nat.le_pred_of_lt hb)
  rw [← hM] at hle
  clear hM hA hb
  omega

/-- The `//calc 512 bits` block of `MulModP` leaves the exact 512-bit product in `buff`. -/
theorem mul_512_spec (val1 val2 : U256) (h1 : val1.wf) (h2 : val2.wf) :
    (mul_512 val1 val2).toNat = val1.toNat * val2.toNat ∧ (mul_512 val1 val2).wf := by
  have hA := U256_toNat_lt val1 h1
  obtain ⟨b0, b1, b2, b3⟩ := val2
  simp only [U256.wf] at h2
  obtain ⟨hb0, hb1, hb2, hb3⟩ := h2
  generalize hr : mul_512 val1 ⟨b0, b1, b2, b3⟩ = r
  unfold mul_512 at hr
  lift_lets at hr
  extract_lets tmp1 buff s1 tmp2 s2 tmp3 s3 at hr
  have hM0 : buff.toNat = val1.toNat * b0 ∧ buff.wf := mul_256_by_64_spec val1 b0 h1 hb0
  have hM1 : tmp1.toNat = val1.toNat * b1 ∧ tmp1.wf := mul_256_by_64_spec val1 b1 h1 hb1
  have hM2 : tmp2.toNat = val1.toNat * b2 ∧ tmp2.wf := mul_256_by_64_spec val1 b2 h1 hb2
  have hM3 : tmp3.toNat = val1.toNat * b3 ∧ tmp3.wf := mul_256_by_64_spec val1 b3 h1 hb3
  have hs1 : s1.toNat = buff.l1 + 2^64 * buff.l2 + 2^128 * buff.l3 + 2^192 * buff.l4 + tmp1.toNat
      ∧ s1.wf :=
    add_320_to_256_spec _ _ _ _ _ hM0.2.2.1 hM0.2.2.2.1 hM0.2.2.2.2.1 hM0.2.2.2.2.2 hM1.2
      (partial_sum_fits _ _ _ _ _ _ _ hM0.2.2.1 hM0.2.2.2.1 hM0.2.2.2.2.1 hM0.2.2.2.2.2
        hM1.1 hA hb1)
  have hs2 : s2.toNat = s1.l1 + 2^64 * s1.l2 + 2^128 * s1.l3 + 2^192 * s1.l4 + tmp2.toNat
      ∧ s2.wf :=
    add_320_to_256_spec _ _ _ _ _ hs1.2.2.1 hs1.2.2.2.1 hs1.2.2.2.2.1 hs1.2.2.2.2.2 hM2.2
      (partial_sum_fits _ _ _ _ _ _ _ hs1.2.2.1 hs1.2.2.2.1 hs1.2.2.2.2.1 hs1.2.2.2.2.2
        hM2.1 hA hb2)
  have hs3 : s3.toNat = s2.l1 + 2^64 * s2.l2 + 2^128 * s2.l3 + 2^192 * s2.l4 + tmp3.toNat
      ∧ s3.wf :=
    add_320_to_256_spec _ _ _ _ _ hs2.2.2.1 hs2.2.2.2.1 hs2.2.2.2.2.1 hs2.2.2.2.2.2 hM3.2
      (partial_sum_fits _ _ _ _ _ _ _ hs2.2.2.1 hs2.2.2.2.1 hs2.2.2.2.2.1 hs2.2.2.2.2.2
        hM3.1 hA hb3)
  clear_value tmp1 buff s1 tmp2 s2 tmp3 s3
  subst hr
  obtain ⟨e0, w0⟩ := hM0
  obtain ⟨e1, -⟩ := hM1
  obtain ⟨e2, -⟩ := hM2
  obtain ⟨e3, -⟩ := hM3
  obtain ⟨f1, w1⟩ := hs1
  obtain ⟨f2, w2⟩ := hs2
  obtain ⟨f3, w3⟩ := hs3
  simp only [U320.toNat] at e0 e1 e2 e3 f1 f2 f3
  refine ⟨?_, w0.1, w1.1, w2.1, w3.1, w3.2.1, w3.2.2.1, w3.2.2.2.1, w3.2.2.2.2⟩
  simp only [U512.toNat, U256.toNat]
  simp only [U256.toNat] at e0 e1 e2 e3
  linear_combination e0 + 2^64 * f1 + 2^128 * f2 + 2^192 * f3
    + 2^64 * e1 + 2^128 * e2 + 2^192 * e3

/-- When a nine-word sum does not overflow, its top word plus the incoming carry fits a
word. -/
theorem top_word_fits (L c T r : Nat) (h : L + 2^256 * c = T)
    (hno : T + 2^256 * r < 2^288) : r + 0 + c < 2^32 := by
  omega

theorem addc_32_carry (c : Nat) (hc : c ≤ 1) : (addc_32 0 0 c).1 = c :=
  (addc_32_spec 0 0 c (by omega)).trans (by omega)

/-- `add_320_to_256s` adds the eight 64-bit values, placed one word apart, to the nine words
`res[0..8]`; the result is exact as long as its first pass does not overflow nine words. -/
theorem add_320_to_256s_spec (res0 res1 res2 res3 res4 res5 res6 res7 res8 v1 v2 v3 v4 v5 v6 v7 v8 : Nat)
    (hr0 : res0 < 2^32) (hr1 : res1 < 2^32) (hr2 : res2 < 2^32) (hr3 : res3 < 2^32) (hr4 : res4 < 2^32)
    (hr5 : res5 < 2^32) (hr6 : res6 < 2^32) (hr7 : res7 < 2^32)
    (hv1 : v1 ≤ (2^32 - 1) * (2^32 - 1)) (hv2 : v2 ≤ (2^32 - 1) * (2^32 - 1)) (hv3 : v3 ≤ (2^32 - 1) * (2^32 - 1)) (hv4 : v4 ≤ (2^32 - 1) * (2^32 - 1))
    (hv5 : v5 ≤ (2^32 - 1) * (2^32 - 1)) (hv6 : v6 ≤ (2^32 - 1) * (2^32 - 1)) (hv7 : v7 ≤ (2^32 - 1) * (2^32 - 1)) (hv8 : v8 ≤ (2^32 - 1) * (2^32 - 1))
    (hno : res0 + 2^32 * res1 + 2^64 * res2 + 2^96 * res3 + 2^128 * res4 + 2^160 * res5 + 2^192 * res6 + 2^224 * res7 + 2^256 * res8
      + (v1 + 2^64 * v3 + 2^128 * v5 + 2^192 * v7) < 2^288) :
    (add_320_to_256s res0 res1 res2 res3 res4 res5 res6 res7 res8 v1 v2 v3 v4 v5 v6 v7 v8).toNat
      = res0 + 2^32 * res1 + 2^64 * res2 + 2^96 * res3 + 2^128 * res4 + 2^160 * res5 + 2^192 * res6 + 2^224 * res7 + 2^256 * res8
        + (v1 + 2^32 * v2 + 2^64 * v3 + 2^96 * v4 + 2^128 * v5 + 2^160 * v6 + 2^192 * v7 + 2^224 * v8) ∧
    (add_320_to_256s res0 res1 res2 res3 res4 res5 res6 res7 res8 v1 v2 v3 v4 v5 v6 v7 v8).wf := by
  generalize hr : add_320_to_256s res0 res1 res2 res3 res4 res5 res6 res7 res8 v1 v2 v3 v4 v5 v6 v7 v8 = r
  unfold add_320_to_256s at hr
  lift_lets at hr
  extract_lets p0 p1 p2 p3 p4 p5 p6 p7 p8 q1 q2 q3 q4 q5 q6 q7 q8 q9 at hr
  have s1 : lo32 v1 + 2^32 * hi32 v1 = v1 ∧ lo32 v1 < 2^32 ∧ hi32 v1 ≤ 2^32 - 2 :=
    lo32_hi32_prod _ hv1
  have s2 : lo32 v2 + 2^32 * hi32 v2 = v2 ∧ lo32 v2 < 2^32 ∧ hi32 v2 ≤ 2^32 - 2 :=
    lo32_hi32_prod _ hv2
  have s3 : lo32 v3 + 2^32 * hi32 v3 = v3 ∧ lo32 v3 < 2^32 ∧ hi32 v3 ≤ 2^32 - 2 :=
    lo32_hi32_prod _ hv3
  have s4 : lo32 v4 + 2^32 * hi32 v4 = v4 ∧ lo32 v4 < 2^32 ∧ hi32 v4 ≤ 2^32 - 2 :=
    lo32_hi32_prod _ hv4
  have s5 : lo32 v5 + 2^32 * hi32 v5 = v5 ∧ lo32 v5 < 2^32 ∧ hi32 v5 ≤ 2^32 - 2 :=
    lo32_hi32_prod _ hv5
  have s6 : lo32 v6 + 2^32 * hi32 v6 = v6 ∧ lo32 v6 < 2^32 ∧ hi32 v6 ≤ 2^32 - 2 :=
    lo32_hi32_prod _ hv6
  have s7 : lo32 v7 + 2^32 * hi32 v7 = v7 ∧ lo32 v7 < 2^32 ∧ hi32 v7 ≤ 2^32 - 2 :=
    lo32_hi32_prod _ hv7
  have s8 : lo32 v8 + 2^32 * hi32 v8 = v8 ∧ lo32 v8 < 2^32 ∧ hi32 v8 ≤ 2^32 - 2 :=
    lo32_hi32_prod _ hv8
  have hp0 : p0.1 + 2^32 * p0.2 = res0 + lo32 v1 ∧ p0.1 < 2^32 ∧ p0.2 ≤ 1 :=
    add_cc_32_spec _ _ hr0 (lo32_lt _)
  have hp1 : p1.1 + 2^32 * p1.2 = res1 + hi32 v1 + p0.2 ∧ p1.1 < 2^32 ∧ p1.2 ≤ 1 :=
    addc_cc_32_spec _ _ _ hr1 (hi32_lt _) hp0.2.2
  have hp2 : p2.1 + 2^32 * p2.2 = res2 + lo32 v3 + p1.2 ∧ p2.1 < 2^32 ∧ p2.2 ≤ 1 :=
    addc_cc_32_spec _ _ _ hr2 (lo32_lt _) hp1.2.2
  have hp3 : p3.1 + 2^32 * p3.2 = res3 + hi32 v3 + p2.2 ∧ p3.1 < 2^32 ∧ p3.2 ≤ 1 :=
    addc_cc_32_spec _ _ _ hr3 (hi32_lt _) hp2.2.2
  have hp4 : p4.1 + 2^32 * p4.2 = res4 + lo32 v5 + p3.2 ∧ p4.1 < 2^32 ∧ p4.2 ≤ 1 :=
    addc_cc_32_spec _ _ _ hr4 (lo32_lt _) hp3.2.2
  have hp5 : p5.1 + 2^32 * p5.2 = res5 + hi32 v5 + p4.2 ∧ p5.1 < 2^32 ∧ p5.2 ≤ 1 :=
    addc_cc_32_spec _ _ _ hr5 (hi32_lt _) hp4.2.2
  have hp6 : p6.1 + 2^32 * p6.2 = res6 + lo32 v7 + p5.2 ∧ p6.1 < 2^32 ∧ p6.2 ≤ 1 :=
    addc_cc_32_spec _ _ _ hr6 (lo32_lt _) hp5.2.2
  have hp7 : p7.1 + 2^32 * p7.2 = res7 + hi32 v7 + p6.2 ∧ p7.1 < 2^32 ∧ p7.2 ≤ 1 :=
    addc_cc_32_spec _ _ _ hr7 (hi32_lt _) hp6.2.2
  have hP : p0.1 + 2^32 * p1.1 + 2^64 * p2.1 + 2^96 * p3.1 + 2^128 * p4.1 + 2^160 * p5.1 + 2^192 * p6.1 + 2^224 * p7.1 + 2^256 * p7.2
      = res0 + 2^32 * res1 + 2^64 * res2 + 2^96 * res3 + 2^128 * res4 + 2^160 * res5 + 2^192 * res6 + 2^224 * res7
        + (v1 + 2^64 * v3 + 2^128 * v5 + 2^192 * v7) := by
    linear_combination hp0.1 + 2^32 * hp1.1 + 2^64 * hp2.1 + 2^96 * hp3.1 + 2^128 * hp4.1 + 2^160 * hp5.1 + 2^192 * hp6.1 + 2^224 * hp7.1 + s1.1 + 2^64 * s3.1 + 2^128 * s5.1 + 2^192 * s7.1
  have hno2 : res0 + 2^32 * res1 + 2^64 * res2 + 2^96 * res3 + 2^128 * res4 + 2^160 * res5 + 2^192 * res6 + 2^224 * res7
      + (v1 + 2^64 * v3 + 2^128 * v5 + 2^192 * v7) + 2^256 * res8 < 2^288 := by
    have e : res0 + 2^32 * res1 + 2^64 * res2 + 2^96 * res3 + 2^128 * res4 + 2^160 * res5 + 2^192 * res6 + 2^224 * res7
        + (v1 + 2^64 * v3 + 2^128 * v5 + 2^192 * v7) + 2^256 * res8
        = res0 + 2^32 * res1 + 2^64 * res2 + 2^96 * res3 + 2^128 * res4 + 2^160 * res5 + 2^192 * res6 + 2^224 * res7 + 2^256 * res8
          + (v1 + 2^64 * v3 + 2^128 * v5 + 2^192 * v7) := by ring
    rw [e]; exact hno
  have hp8 : p8.1 = res8 + 0 + p7.2 := addc_32_spec _ _ _ (top_word_fits _ _ _ _ hP hno2)
  have hp8lt : p8.1 < 2^32 := addc_32_lt _ _ _
  have hq1 : q1.1 + 2^32 * q1.2 = p1.1 + lo32 v2 ∧ q1.1 < 2^32 ∧ q1.2 ≤ 1 :=
    add_cc_32_spec _ _ hp1.2.1 (lo32_lt _)
  have hq2 : q2.1 + 2^32 * q2.2 = p2.1 + hi32 v2 + q1.2 ∧ q2.1 < 2^32 ∧ q2.2 ≤ 1 :=
    addc_cc_32_spec _ _ _ hp2.2.1 (hi32_lt _) hq1.2.2
  have hq3 : q3.1 + 2^32 * q3.2 = p3.1 + lo32 v4 + q2.2 ∧ q3.1 < 2^32 ∧ q3.2 ≤ 1 :=
    addc_cc_32_spec _ _ _ hp3.2.1 (lo32_lt _) hq2.2.2
  have hq4 : q4.1 + 2^32 * q4.2 = p4.1 + hi32 v4 + q3.2 ∧ q4.1 < 2^32 ∧ q4.2 ≤ 1 :=
    addc_cc_32_spec _ _ _ hp4.2.1 (hi32_lt _) hq3.2.2
  have hq5 : q5.1 + 2^32 * q5.2 = p5.1 + lo32 v6 + q4.2 ∧ q5.1 < 2^32 ∧ q5.2 ≤ 1 :=
    addc_cc_32_spec _ _ _ hp5.2.1 (lo32_lt _) hq4.2.2
  have hq6 : q6.1 + 2^32 * q6.2 = p6.1 + hi32 v6 + q5.2 ∧ q6.1 < 2^32 ∧ q6.2 ≤ 1 :=
    addc_cc_32_spec _ _ _ hp6.2.1 (hi32_lt _) hq5.2.2
  have hq7 : q7.1 + 2^32 * q7.2 = p7.1 + lo32 v8 + q6.2 ∧ q7.1 < 2^32 ∧ q7.2 ≤ 1 :=
    addc_cc_32_spec _ _ _ hp7.2.1 (lo32_lt _) hq6.2.2
  have hq8 : q8.1 + 2^32 * q8.2 = p8.1 + hi32 v8 + q7.2 ∧ q8.1 < 2^32 ∧ q8.2 ≤ 1 :=
    addc_cc_32_spec _ _ _ hp8lt (hi32_lt _) hq7.2.2
  have hq9 : q9.1 = q8.2 := addc_32_carry _ hq8.2.2
  have hq9lt : q9.1 < 2^32 := addc_32_lt _ _ _
  subst hr
  refine ⟨?_, hp0.2.1, hq1.2.1, hq2.2.1, hq3.2.1, hq4.2.1, hq5.2.1, hq6.2.1, hq7.2.1, hq8.2.1,
    hq9lt⟩
  simp only [W10.toNat]
  linear_combination hP + 2^256 * hp8 + 2^32 * hq1.1 + 2^64 * hq2.1 + 2^96 * hq3.1 + 2^128 * hq4.1 + 2^160 * hq5.1 + 2^192 * hq6.1 + 2^224 * hq7.1 + 2^256 * hq8.1 + 2^288 * hq9 + 2^32 * s2.1 + 2^96 * s4.1 + 2^160 * s6.1 + 2^224 * s8.1

/-- `addc_cc_32 a 0 c` stores the exact sum for a word `a ≤ 2^32 - 2` and a carry bit. -/
theorem addc_cc_32_top (a c : Nat) (ha : a ≤ 2^32 - 2) (hc : c ≤ 1) :
    (addc_cc_32 a 0 c).1 = a + 0 + c ∧ (addc_cc_32 a 0 c).1 < 2^32 := by
  simp only [addc_cc_32]; omega

/-- The first pass of a row of `SqrModP` cannot overflow nine words when the words it
starts from are below `2^256`. -/
theorem sqr_row_fits (H v1 v3 v5 v7 : Nat) (hH : H ≤ 2^256 - 1)
    (h1 : v1 ≤ (2^32 - 1) * (2^32 - 1)) (h3 : v3 ≤ (2^32 - 1) * (2^32 - 1))
    (h5 : v5 ≤ (2^32 - 1) * (2^32 - 1)) (h7 : v7 ≤ (2^32 - 1) * (2^32 - 1)) :
    H + (v1 + 2^64 * v3 + 2^128 * v5 + 2^192 * v7) < 2^288 := by
  omega

/-- After a row of `SqrModP` the words above the lowest one are again below `2^256`. -/
theorem sqr_row_next (w Hn Hc R : Nat) (hV : w + 2^32 * Hn = Hc + R) (hH : Hc ≤ 2^256 - 1)
    (hR : R ≤ (2^32 - 1) * (2^256 - 1)) : Hn ≤ 2^256 - 1 := by
  omega

/-- Nine words whose value is below `2^256` have a zero top word. -/
theorem top_word_zero (L k : Nat) (h : L + 2^256 * k ≤ 2^256 - 1) : k = 0 := by
  omega

/-- The `//calc 512 bits` block of `SqrModP` leaves the exact 512-bit square in `buff`. -/
theorem sqr_512_spec (val : U256) (hv : val.wf) :
    (sqr_512 val).toNat = val.toNat * val.toNat ∧ (sqr_512 val).wf := by
  obtain ⟨l0, l1, l2, l3⟩ := val
  simp only [U256.wf] at hv
  obtain ⟨hl0, hl1, hl2, hl3⟩ := hv
  simp only [U256.toNat]
  generalize hr : sqr_512 ⟨l0, l1, l2, l3⟩ = r
  unfold sqr_512 at hr
  lift_lets at hr
  extract_lets a0 a1 a2 a3 a4 a5 a6 a7 mar0 mar1 mar2 mar3 mar4 mar5 mar6 mar7 mar8 mar9 mar10
    mar11 mar12 mar13 mar14 mar15 mar16 mar17 mar18 mar19 mar20 mar21 mar22 mar23 mar24 mar25
    mar26 mar27 buff0 g1 g2 g3 g4 g5 g6 g7 g8 b32_9 mm1 row1 mm2 row2 mm3 row3 mm4 row4 mm5 row5
    mm6 row6 mm7 row7 at hr
  have hw0 : a0 + 2^32 * a1 = l0 := lo32_hi32 l0 hl0
  have hw1 : a2 + 2^32 * a3 = l1 := lo32_hi32 l1 hl1
  have hw2 : a4 + 2^32 * a5 = l2 := lo32_hi32 l2 hl2
  have hw3 : a6 + 2^32 * a7 = l3 := lo32_hi32 l3 hl3
  have ha0 : a0 < 2^32 := lo32_lt _
  have ha1 : a1 < 2^32 := hi32_lt _
  have ha2 : a2 < 2^32 := lo32_lt _
  have ha3 : a3 < 2^32 := hi32_lt _
  have ha4 : a4 < 2^32 := lo32_lt _
  have ha5 : a5 < 2^32 := hi32_lt _
  have ha6 : a6 < 2^32 := lo32_lt _
  have ha7 : a7 < 2^32 := hi32_lt _
  have hm0 : mar0 = a1 * a0 ∧ mar0 ≤ (2^32 - 1) * (2^32 - 1) :=
    mul_wide_32_spec _ _ ha1 ha0
  have hm1 : mar1 = a2 * a0 ∧ mar1 ≤ (2^32 - 1) * (2^32 - 1) :=
    mul_wide_32_spec _ _ ha2 ha0
  have hm2 : mar2 = a3 * a0 ∧ mar2 ≤ (2^32 - 1) * (2^32 - 1) :=
    mul_wide_32_spec _ _ ha3 ha0
  have hm3 : mar3 = a4 * a0 ∧ mar3 ≤ (2^32 - 1) * (2^32 - 1) :=
    mul_wide_32_spec _ _ ha4 ha0
  have hm4 : mar4 = a5 * a0 ∧ mar4 ≤ (2^32 - 1) * (2^32 - 1) :=
    mul_wide_32_spec _ _ ha5 ha0
  have hm5 : mar5 = a6 * a0 ∧ mar5 ≤ (2^32 - 1) * (2^32 - 1) :=
    mul_wide_32_spec _ _ ha6 ha0
  have hm6 : mar6 = a7 * a0 ∧ mar6 ≤ (2^32 - 1) * (2^32 - 1) :=
    mul_wide_32_spec _ _ ha7 ha0
  have hm7 : mar7 = a2 * a1 ∧ mar7 ≤ (2^32 - 1) * (2^32 - 1) :=
    mul_wide_32_spec _ _ ha2 ha1
  have hm8 : mar8 = a3 * a1 ∧ mar8 ≤ (2^32 - 1) * (2^32 - 1) :=
    mul_wide_32_spec _ _ ha3 ha1
  have hm9 : mar9 = a4 * a1 ∧ mar9 ≤ (2^32 - 1) * (2^32 - 1) :=
    mul_wide_32_spec _ _ ha4 ha1
  have hm10 : mar10 = a5 * a1 ∧ mar10 ≤ (2^32 - 1) * (2^32 - 1) :=
    mul_wide_32_spec _ _ ha5 ha1
  have hm11 : mar11 = a6 * a1 ∧ mar11 ≤ (2^32 - 1) * (2^32 - 1) :=
    mul_wide_32_spec _ _ ha6 ha1
  have hm12 : mar12 = a7 * a1 ∧ mar12 ≤ (2^32 - 1) * (2^32 - 1) :=
    mul_wide_32_spec _ _ ha7 ha1
  have hm13 : mar13 = a3 * a2 ∧ mar13 ≤ (2^32 - 1) * (2^32 - 1) :=
    mul_wide_32_spec _ _ ha3 ha2
  have hm14 : mar14 = a4 * a2 ∧ mar14 ≤ (2^32 - 1) * (2^32 - 1) :=
    mul_wide_32_spec _ _ ha4 ha2
  have hm15 : mar15 = a5 * a2 ∧ mar15 ≤ (2^32 - 1) * (2^32 - 1) :=
    mul_wide_32_spec _ _ ha5 ha2
  have hm16 : mar16 = a6 * a2 ∧ mar16 ≤ (2^32 - 1) * (2^32 - 1) :=
    mul_wide_32_spec _ _ ha6 ha2
  have hm17 : mar17 = a7 * a2 ∧ mar17 ≤ (2^32 - 1) * (2^32 - 1) :=
    mul_wide_32_spec _ _ ha7 ha2
  have hm18 : mar18 = a4 * a3 ∧ mar18 ≤ (2^32 - 1) * (2^32 - 1) :=
    mul_wide_32_spec _ _ ha4 ha3
  have hm19 : mar19 = a5 * a3 ∧ mar19 ≤ (2^32 - 1) * (2^32 - 1) :=
    mul_wide_32_spec _ _ ha5 ha3
  have hm20 : mar20 = a6 * a3 ∧ mar20 ≤ (2^32 - 1) * (2^32 - 1) :=
    mul_wide_32_spec _ _ ha6 ha3
  have hm21 : mar21 = a7 * a3 ∧ mar21 ≤ (2^32 - 1) * (2^32 - 1) :=
    mul_wide_32_spec _ _ ha7 ha3
  have hm22 : mar22 = a5 * a4 ∧ mar22 ≤ (2^32 - 1) * (2^32 - 1) :=
    mul_wide_32_spec _ _ ha5 ha4
  have hm23 : mar23 = a6 * a4 ∧ mar23 ≤ (2^32 - 1) * (2^32 - 1) :=
    mul_wide_32_spec _ _ ha6 ha4
  have hm24 : mar24 = a7 * a4 ∧ mar24 ≤ (2^32 - 1) * (2^32 - 1) :=
    mul_wide_32_spec _ _ ha7 ha4
  have hm25 : mar25 = a6 * a5 ∧ mar25 ≤ (2^32 - 1) * (2^32 - 1) :=
    mul_wide_32_spec _ _ ha6 ha5
  have hm26 : mar26 = a7 * a5 ∧ mar26 ≤ (2^32 - 1) * (2^32 - 1) :=
    mul_wide_32_spec _ _ ha7 ha5
  have hm27 : mar27 = a7 * a6 ∧ mar27 ≤ (2^32 - 1) * (2^32 - 1) :=
    mul_wide_32_spec _ _ ha7 ha6
  have hd0 : buff0 = a0 * a0 ∧ buff0 ≤ (2^32 - 1) * (2^32 - 1) :=
    mul_wide_32_spec _ _ ha0 ha0
  have hd1 : mm1 = a1 * a1 ∧ mm1 ≤ (2^32 - 1) * (2^32 - 1) :=
    mul_wide_32_spec _ _ ha1 ha1
  have hd2 : mm2 = a2 * a2 ∧ mm2 ≤ (2^32 - 1) * (2^32 - 1) :=
    mul_wide_32_spec _ _ ha2 ha2
  have hd3 : mm3 = a3 * a3 ∧ mm3 ≤ (2^32 - 1) * (2^32 - 1) :=
    mul_wide_32_spec _ _ ha3 ha3
  have hd4 : mm4 = a4 * a4 ∧ mm4 ≤ (2^32 - 1) * (2^32 - 1) :=
    mul_wide_32_spec _ _ ha4 ha4
  have hd5 : mm5 = a5 * a5 ∧ mm5 ≤ (2^32 - 1) * (2^32 - 1) :=
    mul_wide_32_spec _ _ ha5 ha5
  have hd6 : mm6 = a6 * a6 ∧ mm6 ≤ (2^32 - 1) * (2^32 - 1) :=
    mul_wide_32_spec _ _ ha6 ha6
  have hd7 : mm7 = a7 * a7 ∧ mm7 ≤ (2^32 - 1) * (2^32 - 1) :=
    mul_wide_32_spec _ _ ha7 ha7
  have sp0 : lo32 buff0 + 2^32 * hi32 buff0 = buff0 ∧ lo32 buff0 < 2^32 ∧ hi32 buff0 ≤ 2^32 - 2 :=
    lo32_hi32_prod _ hd0.2
  have sp1 : lo32 mar0 + 2^32 * hi32 mar0 = mar0 ∧ lo32 mar0 < 2^32 ∧ hi32 mar0 ≤ 2^32 - 2 :=
    lo32_hi32_prod _ hm0.2
  have sp2 : lo32 mar1 + 2^32 * hi32 mar1 = mar1 ∧ lo32 mar1 < 2^32 ∧ hi32 mar1 ≤ 2^32 - 2 :=
    lo32_hi32_prod _ hm1.2
  have sp3 : lo32 mar2 + 2^32 * hi32 mar2 = mar2 ∧ lo32 mar2 < 2^32 ∧ hi32 mar2 ≤ 2^32 - 2 :=
    lo32_hi32_prod _ hm2.2
  have sp4 : lo32 mar3 + 2^32 * hi32 mar3 = mar3 ∧ lo32 mar3 < 2^32 ∧ hi32 mar3 ≤ 2^32 - 2 :=
    lo32_hi32_prod _ hm3.2
  have sp5 : lo32 mar4 + 2^32 * hi32 mar4 = mar4 ∧ lo32 mar4 < 2^32 ∧ hi32 mar4 ≤ 2^32 - 2 :=
    lo32_hi32_prod _ hm4.2
  have sp6 : lo32 mar5 + 2^32 * hi32 mar5 = mar5 ∧ lo32 mar5 < 2^32 ∧ hi32 mar5 ≤ 2^32 - 2 :=
    lo32_hi32_prod _ hm5.2
  have sp7 : lo32 mar6 + 2^32 * hi32 mar6 = mar6 ∧ lo32 mar6 < 2^32 ∧ hi32 mar6 ≤ 2^32 - 2 :=
    lo32_hi32_prod _ hm6.2
  have hg1 : g1.1 + 2^32 * g1.2 = hi32 buff0 + lo32 mar0 ∧ g1.1 < 2^32 ∧ g1.2 ≤ 1 :=
    add_cc_32_spec _ _ (hi32_lt _) (lo32_lt _)
  have hg2 : g2.1 + 2^32 * g2.2 = hi32 mar0 + lo32 mar1 + g1.2 ∧
      g2.1 < 2^32 ∧ g2.2 ≤ 1 := addc_cc_32_spec _ _ _ (hi32_lt _) (lo32_lt _) hg1.2.2
  have hg3 : g3.1 + 2^32 * g3.2 = hi32 mar1 + lo32 mar2 + g2.2 ∧
      g3.1 < 2^32 ∧ g3.2 ≤ 1 := addc_cc_32_spec _ _ _ (hi32_lt _) (lo32_lt _) hg2.2.2
  have hg4 : g4.1 + 2^32 * g4.2 = hi32 mar2 + lo32 mar3 + g3.2 ∧
      g4.1 < 2^32 ∧ g4.2 ≤ 1 := addc_cc_32_spec _ _ _ (hi32_lt _) (lo32_lt _) hg3.2.2
  have hg5 : g5.1 + 2^32 * g5.2 = hi32 mar3 + lo32 mar4 + g4.2 ∧
      g5.1 < 2^32 ∧ g5.2 ≤ 1 := addc_cc_32_spec _ _ _ (hi32_lt _) (lo32_lt _) hg4.2.2
  have hg6 : g6.1 + 2^32 * g6.2 = hi32 mar4 + lo32 mar5 + g5.2 ∧
      g6.1 < 2^32 ∧ g6.2 ≤ 1 := addc_cc_32_spec _ _ _ (hi32_lt _) (lo32_lt _) hg5.2.2
  have hg7 : g7.1 + 2^32 * g7.2 = hi32 mar5 + lo32 mar6 + g6.2 ∧
      g7.1 < 2^32 ∧ g7.2 ≤ 1 := addc_cc_32_spec _ _ _ (hi32_lt _) (lo32_lt _) hg6.2.2
  have hg8 : g8.1 = hi32 mar6 + 0 + g7.2 ∧ g8.1 < 2^32 := addc_cc_32_top _ _ sp7.2.2 hg7.2.2
  have hb9 : b32_9 = 0 := rfl
  have hb9lt : b32_9 < 2^32 := by rw [hb9]; norm_num
  have hV0 : lo32 buff0 + 2^32 * (g1.1 + 2^32 * g2.1 + 2^64 * g3.1 + 2^96 * g4.1 + 2^128 * g5.1 + 2^160 * g6.1 + 2^192 * g7.1 + 2^224 * g8.1 + 2^256 * b32_9)
      = 0 + (buff0 + 2^32 * mar0 + 2^64 * mar1 + 2^96 * mar2 + 2^128 * mar3 + 2^160 * mar4 + 2^192 * mar5 + 2^224 * mar6) := by
    linear_combination sp0.1 + 2^32 * sp1.1 + 2^64 * sp2.1 + 2^96 * sp3.1 + 2^128 * sp4.1 + 2^160 * sp5.1 + 2^192 * sp6.1 + 2^224 * sp7.1 + 2^32 * hg1.1 + 2^64 * hg2.1 + 2^96 * hg3.1 + 2^128 * hg4.1 + 2^160 * hg5.1 + 2^192 * hg6.1 + 2^224 * hg7.1 + 2^256 * hg8.1 + 2^288 * hb9
  have hR0 := row_sum_le _ _ _ _ _ _ _ _ hd0.2 hm0.2 hm1.2 hm2.2 hm3.2 hm4.2 hm5.2 hm6.2
  have hH1 : g1.1 + 2^32 * g2.1 + 2^64 * g3.1 + 2^96 * g4.1 + 2^128 * g5.1 + 2^160 * g6.1 + 2^192 * g7.1 + 2^224 * g8.1 + 2^256 * b32_9 ≤ 2^256 - 1 :=
    sqr_row_next _ _ 0 _ hV0 (Nat.zero_le _) hR0
  have hrow1 := add_320_to_256s_spec g1.1 g2.1 g3.1 g4.1 g5.1 g6.1 g7.1 g8.1 b32_9
    mar0 mm1 mar7 mar8 mar9 mar10 mar11 mar12
    hg1.2.1 hg2.2.1 hg3.2.1 hg4.2.1 hg5.2.1 hg6.2.1 hg7.2.1 hg8.2
    hm0.2 hd1.2 hm7.2 hm8.2 hm9.2 hm10.2 hm11.2 hm12.2
    (sqr_row_fits _ _ _ _ _ hH1 hm0.2 hm7.2 hm9.2 hm11.2)
  have hW1 : row1.wf := hrow1.2
  have hE1 : row1.toNat = g1.1 + 2^32 * g2.1 + 2^64 * g3.1 + 2^96 * g4.1 + 2^128 * g5.1 + 2^160 * g6.1 + 2^192 * g7.1 + 2^224 * g8.1 + 2^256 * b32_9
      + (mar0 + 2^32 * mm1 + 2^64 * mar7 + 2^96 * mar8 + 2^128 * mar9 + 2^160 * mar10 + 2^192 * mar11 + 2^224 * mar12) := hrow1.1
  simp only [W10.toNat] at hE1
  simp only [W10.wf] at hW1
  have hV1 : row1.w0 + 2^32 * (row1.w1 + 2^32 * row1.w2 + 2^64 * row1.w3 + 2^96 * row1.w4 + 2^128 * row1.w5 + 2^160 * row1.w6 + 2^192 * row1.w7 + 2^224 * row1.w8 + 2^256 * row1.w9)
      = g1.1 + 2^32 * g2.1 + 2^64 * g3.1 + 2^96 * g4.1 + 2^128 * g5.1 + 2^160 * g6.1 + 2^192 * g7.1 + 2^224 * g8.1 + 2^256 * b32_9
        + (mar0 + 2^32 * mm1 + 2^64 * mar7 + 2^96 * mar8 + 2^128 * mar9 + 2^160 * mar10 + 2^192 * mar11 + 2^224 * mar12) := by
    linear_combination hE1
  have hR1 := row_sum_le _ _ _ _ _ _ _ _ hm0.2 hd1.2 hm7.2 hm8.2 hm9.2 hm10.2 hm11.2 hm12.2
  have hH2 : row1.w1 + 2^32 * row1.w2 + 2^64 * row1.w3 + 2^96 * row1.w4 + 2^128 * row1.w5 + 2^160 * row1.w6 + 2^192 * row1.w7 + 2^224 * row1.w8 + 2^256 * row1.w9 ≤ 2^256 - 1 :=
    sqr_row_next _ _ _ _ hV1 hH1 hR1
  have hrow2 := add_320_to_256s_spec row1.w1 row1.w2 row1.w3 row1.w4 row1.w5 row1.w6 row1.w7 row1.w8 row1.w9
    mar1 mar7 mm2 mar13 mar14 mar15 mar16 mar17
    hW1.2.1 hW1.2.2.1 hW1.2.2.2.1 hW1.2.2.2.2.1 hW1.2.2.2.2.2.1 hW1.2.2.2.2.2.2.1 hW1.2.2.2.2.2.2.2.1 hW1.2.2.2.2.2.2.2.2.1
    hm1.2 hm7.2 hd2.2 hm13.2 hm14.2 hm15.2 hm16.2 hm17.2
    (sqr_row_fits _ _ _ _ _ hH2 hm1.2 hd2.2 hm14.2 hm16.2)
  have hW2 : row2.wf := hrow2.2
  have hE2 : row2.toNat = row1.w1 + 2^32 * row1.w2 + 2^64 * row1.w3 + 2^96 * row1.w4 + 2^128 * row1.w5 + 2^160 * row1.w6 + 2^192 * row1.w7 + 2^224 * row1.w8 + 2^256 * row1.w9
      + (mar1 + 2^32 * mar7 + 2^64 * mm2 + 2^96 * mar13 + 2^128 * mar14 + 2^160 * mar15 + 2^192 * mar16 + 2^224 * mar17) := hrow2.1
  simp only [W10.toNat] at hE2
  simp only [W10.wf] at hW2
  have hV2 : row2.w0 + 2^32 * (row2.w1 + 2^32 * row2.w2 + 2^64 * row2.w3 + 2^96 * row2.w4 + 2^128 * row2.w5 + 2^160 * row2.w6 + 2^192 * row2.w7 + 2^224 * row2.w8 + 2^256 * row2.w9)
      = row1.w1 + 2^32 * row1.w2 + 2^64 * row1.w3 + 2^96 * row1.w4 + 2^128 * row1.w5 + 2^160 * row1.w6 + 2^192 * row1.w7 + 2^224 * row1.w8 + 2^256 * row1.w9
        + (mar1 + 2^32 * mar7 + 2^64 * mm2 + 2^96 * mar13 + 2^128 * mar14 + 2^160 * mar15 + 2^192 * mar16 + 2^224 * mar17) := by
    linear_combination hE2
  have hR2 := row_sum_le _ _ _ _ _ _ _ _ hm1.2 hm7.2 hd2.2 hm13.2 hm14.2 hm15.2 hm16.2 hm17.2
  have hH3 : row2.w1 + 2^32 * row2.w2 + 2^64 * row2.w3 + 2^96 * row2.w4 + 2^128 * row2.w5 + 2^160 * row2.w6 + 2^192 * row2.w7 + 2^224 * row2.w8 + 2^256 * row2.w9 ≤ 2^256 - 1 :=
    sqr_row_next _ _ _ _ hV2 hH2 hR2
  have hrow3 := add_320_to_256s_spec row2.w1 row2.w2 row2.w3 row2.w4 row2.w5 row2.w6 row2.w7 row2.w8 row2.w9
    mar2 mar8 mar13 mm3 mar18 mar19 mar20 mar21
    hW2.2.1 hW2.2.2.1 hW2.2.2.2.1 hW2.2.2.2.2.1 hW2.2.2.2.2.2.1 hW2.2.2.2.2.2.2.1 hW2.2.2.2.2.2.2.2.1 hW2.2.2.2.2.2.2.2.2.1
    hm2.2 hm8.2 hm13.2 hd3.2 hm18.2 hm19.2 hm20.2 hm21.2
    (sqr_row_fits _ _ _ _ _ hH3 hm2.2 hm13.2 hm18.2 hm20.2)
  have hW3 : row3.wf := hrow3.2
  have hE3 : row3.toNat = row2.w1 + 2^32 * row2.w2 + 2^64 * row2.w3 + 2^96 * row2.w4 + 2^128 * row2.w5 + 2^160 * row2.w6 + 2^192 * row2.w7 + 2^224 * row2.w8 + 2^256 * row2.w9
      + (mar2 + 2^32 * mar8 + 2^64 * mar13 + 2^96 * mm3 + 2^128 * mar18 + 2^160 * mar19 + 2^192 * mar20 + 2^224 * mar21) := hrow3.1
  simp only [W10.toNat] at hE3
  simp only [W10.wf] at hW3
  have hV3 : row3.w0 + 2^32 * (row3.w1 + 2^32 * row3.w2 + 2^64 * row3.w3 + 2^96 * row3.w4 + 2^128 * row3.w5 + 2^160 * row3.w6 + 2^192 * row3.w7 + 2^224 * row3.w8 + 2^256 * row3.w9)
      = row2.w1 + 2^32 * row2.w2 + 2^64 * row2.w3 + 2^96 * row2.w4 + 2^128 * row2.w5 + 2^160 * row2.w6 + 2^192 * row2.w7 + 2^224 * row2.w8 + 2^256 * row2.w9
        + (mar2 + 2^32 * mar8 + 2^64 * mar13 + 2^96 * mm3 + 2^128 * mar18 + 2^160 * mar19 + 2^192 * mar20 + 2^224 * mar21) := by
    linear_combination hE3
  have hR3 := row_sum_le _ _ _ _ _ _ _ _ hm2.2 hm8.2 hm13.2 hd3.2 hm18.2 hm19.2 hm20.2 hm21.2
  have hH4 : row3.w1 + 2^32 * row3.w2 + 2^64 * row3.w3 + 2^96 * row3.w4 + 2^128 * row3.w5 + 2^160 * row3.w6 + 2^192 * row3.w7 + 2^224 * row3.w8 + 2^256 * row3.w9 ≤ 2^256 - 1 :=
    sqr_row_next _ _ _ _ hV3 hH3 hR3
  have hrow4 := add_320_to_256s_spec row3.w1 row3.w2 row3.w3 row3.w4 row3.w5 row3.w6 row3.w7 row3.w8 row3.w9
    mar3 mar9 mar14 mar18 mm4 mar22 mar23 mar24
    hW3.2.1 hW3.2.2.1 hW3.2.2.2.1 hW3.2.2.2.2.1 hW3.2.2.2.2.2.1 hW3.2.2.2.2.2.2.1 hW3.2.2.2.2.2.2.2.1 hW3.2.2.2.2.2.2.2.2.1
    hm3.2 hm9.2 hm14.2 hm18.2 hd4.2 hm22.2 hm23.2 hm24.2
    (sqr_row_fits _ _ _ _ _ hH4 hm3.2 hm14.2 hd4.2 hm23.2)
  have hW4 : row4.wf := hrow4.2
  have hE4 : row4.toNat = row3.w1 + 2^32 * row3.w2 + 2^64 * row3.w3 + 2^96 * row3.w4 + 2^128 * row3.w5 + 2^160 * row3.w6 + 2^192 * row3.w7 + 2^224 * row3.w8 + 2^256 * row3.w9
      + (mar3 + 2^32 * mar9 + 2^64 * mar14 + 2^96 * mar18 + 2^128 * mm4 + 2^160 * mar22 + 2^192 * mar23 + 2^224 * mar24) := hrow4.1
  simp only [W10.toNat] at hE4
  simp only [W10.wf] at hW4
  have hV4 : row4.w0 + 2^32 * (row4.w1 + 2^32 * row4.w2 + 2^64 * row4.w3 + 2^96 * row4.w4 + 2^128 * row4.w5 + 2^160 * row4.w6 + 2^192 * row4.w7 + 2^224 * row4.w8 + 2^256 * row4.w9)
      = row3.w1 + 2^32 * row3.w2 + 2^64 * row3.w3 + 2^96 * row3.w4 + 2^128 * row3.w5 + 2^160 * row3.w6 + 2^192 * row3.w7 + 2^224 * row3.w8 + 2^256 * row3.w9
        + (mar3 + 2^32 * mar9 + 2^64 * mar14 + 2^96 * mar18 + 2^128 * mm4 + 2^160 * mar22 + 2^192 * mar23 + 2^224 * mar24) := by
    linear_combination hE4
  have hR4 := row_sum_le _ _ _ _ _ _ _ _ hm3.2 hm9.2 hm14.2 hm18.2 hd4.2 hm22.2 hm23.2 hm24.2
  have hH5 : row4.w1 + 2^32 * row4.w2 + 2^64 * row4.w3 + 2^96 * row4.w4 + 2^128 * row4.w5 + 2^160 * row4.w6 + 2^192 * row4.w7 + 2^224 * row4.w8 + 2^256 * row4.w9 ≤ 2^256 - 1 :=
    sqr_row_next _ _ _ _ hV4 hH4 hR4
  have hrow5 := add_320_to_256s_spec row4.w1 row4.w2 row4.w3 row4.w4 row4.w5 row4.w6 row4.w7 row4.w8 row4.w9
    mar4 mar10 mar15 mar19 mar22 mm5 mar25 mar26
    hW4.2.1 hW4.2.2.1 hW4.2.2.2.1 hW4.2.2.2.2.1 hW4.2.2.2.2.2.1 hW4.2.2.2.2.2.2.1 hW4.2.2.2.2.2.2.2.1 hW4.2.2.2.2.2.2.2.2.1
    hm4.2 hm10.2 hm15.2 hm19.2 hm22.2 hd5.2 hm25.2 hm26.2
    (sqr_row_fits _ _ _ _ _ hH5 hm4.2 hm15.2 hm22.2 hm25.2)
  have hW5 : row5.wf := hrow5.2
  have hE5 : row5.toNat = row4.w1 + 2^32 * row4.w2 + 2^64 * row4.w3 + 2^96 * row4.w4 + 2^128 * row4.w5 + 2^160 * row4.w6 + 2^192 * row4.w7 + 2^224 * row4.w8 + 2^256 * row4.w9
      + (mar4 + 2^32 * mar10 + 2^64 * mar15 + 2^96 * mar19 + 2^128 * mar22 + 2^160 * mm5 + 2^192 * mar25 + 2^224 * mar26) := hrow5.1
  simp only [W10.toNat] at hE5
  simp only [W10.wf] at hW5
  have hV5 : row5.w0 + 2^32 * (row5.w1 + 2^32 * row5.w2 + 2^64 * row5.w3 + 2^96 * row5.w4 + 2^128 * row5.w5 + 2^160 * row5.w6 + 2^192 * row5.w7 + 2^224 * row5.w8 + 2^256 * row5.w9)
      = row4.w1 + 2^32 * row4.w2 + 2^64 * row4.w3 + 2^96 * row4.w4 + 2^128 * row4.w5 + 2^160 * row4.w6 + 2^192 * row4.w7 + 2^224 * row4.w8 + 2^256 * row4.w9
        + (mar4 + 2^32 * mar10 + 2^64 * mar15 + 2^96 * mar19 + 2^128 * mar22 + 2^160 * mm5 + 2^192 * mar25 + 2^224 * mar26) := by
    linear_combination hE5
  have hR5 := row_sum_le _ _ _ _ _ _ _ _ hm4.2 hm10.2 hm15.2 hm19.2 hm22.2 hd5.2 hm25.2 hm26.2
  have hH6 : row5.w1 + 2^32 * row5.w2 + 2^64 * row5.w3 + 2^96 * row5.w4 + 2^128 * row5.w5 + 2^160 * row5.w6 + 2^192 * row5.w7 + 2^224 * row5.w8 + 2^256 * row5.w9 ≤ 2^256 - 1 :=
    sqr_row_next _ _ _ _ hV5 hH5 hR5
  have hrow6 := add_320_to_256s_spec row5.w1 row5.w2 row5.w3 row5.w4 row5.w5 row5.w6 row5.w7 row5.w8 row5.w9
    mar5 mar11 mar16 mar20 mar23 mar25 mm6 mar27
    hW5.2.1 hW5.2.2.1 hW5.2.2.2.1 hW5.2.2.2.2.1 hW5.2.2.2.2.2.1 hW5.2.2.2.2.2.2.1 hW5.2.2.2.2.2.2.2.1 hW5.2.2.2.2.2.2.2.2.1
    hm5.2 hm11.2 hm16.2 hm20.2 hm23.2 hm25.2 hd6.2 hm27.2
    (sqr_row_fits _ _ _ _ _ hH6 hm5.2 hm16.2 hm23.2 hd6.2)
  have hW6 : row6.wf := hrow6.2
  have hE6 : row6.toNat = row5.w1 + 2^32 * row5.w2 + 2^64 * row5.w3 + 2^96 * row5.w4 + 2^128 * row5.w5 + 2^160 * row5.w6 + 2^192 * row5.w7 + 2^224 * row5.w8 + 2^256 * row5.w9
      + (mar5 + 2^32 * mar11 + 2^64 * mar16 + 2^96 * mar20 + 2^128 * mar23 + 2^160 * mar25 + 2^192 * mm6 + 2^224 * mar27) := hrow6.1
  simp only [W10.toNat] at hE6
  simp only [W10.wf] at hW6
  have hV6 : row6.w0 + 2^32 * (row6.w1 + 2^32 * row6.w2 + 2^64 * row6.w3 + 2^96 * row6.w4 + 2^128 * row6.w5 + 2^160 * row6.w6 + 2^192 * row6.w7 + 2^224 * row6.w8 + 2^256 * row6.w9)
      = row5.w1 + 2^32 * row5.w2 + 2^64 * row5.w3 + 2^96 * row5.w4 + 2^128 * row5.w5 + 2^160 * row5.w6 + 2^192 * row5.w7 + 2^224 * row5.w8 + 2^256 * row5.w9
        + (mar5 + 2^32 * mar11 + 2^64 * mar16 + 2^96 * mar20 + 2^128 * mar23 + 2^160 * mar25 + 2^192 * mm6 + 2^224 * mar27) := by
    linear_combination hE6
  have hR6 := row_sum_le _ _ _ _ _ _ _ _ hm5.2 hm11.2 hm16.2 hm20.2 hm23.2 hm25.2 hd6.2 hm27.2
  have hH7 : row6.w1 + 2^32 * row6.w2 + 2^64 * row6.w3 + 2^96 * row6.w4 + 2^128 * row6.w5 + 2^160 * row6.w6 + 2^192 * row6.w7 + 2^224 * row6.w8 + 2^256 * row6.w9 ≤ 2^256 - 1 :=
    sqr_row_next _ _ _ _ hV6 hH6 hR6
  have hrow7 := add_320_to_256s_spec row6.w1 row6.w2 row6.w3 row6.w4 row6.w5 row6.w6 row6.w7 row6.w8 row6.w9
    mar6 mar12 mar17 mar21 mar24 mar26 mar27 mm7
    hW6.2.1 hW6.2.2.1 hW6.2.2.2.1 hW6.2.2.2.2.1 hW6.2.2.2.2.2.1 hW6.2.2.2.2.2.2.1 hW6.2.2.2.2.2.2.2.1 hW6.2.2.2.2.2.2.2.2.1
    hm6.2 hm12.2 hm17.2 hm21.2 hm24.2 hm26.2 hm27.2 hd7.2
    (sqr_row_fits _ _ _ _ _ hH7 hm6.2 hm17.2 hm24.2 hm27.2)
  have hW7 : row7.wf := hrow7.2
  have hE7 : row7.toNat = row6.w1 + 2^32 * row6.w2 + 2^64 * row6.w3 + 2^96 * row6.w4 + 2^128 * row6.w5 + 2^160 * row6.w6 + 2^192 * row6.w7 + 2^224 * row6.w8 + 2^256 * row6.w9
      + (mar6 + 2^32 * mar12 + 2^64 * mar17 + 2^96 * mar21 + 2^128 * mar24 + 2^160 * mar26 + 2^192 * mar27 + 2^224 * mm7) := hrow7.1
  simp only [W10.toNat] at hE7
  simp only [W10.wf] at hW7
  have hV7 : row7.w0 + 2^32 * (row7.w1 + 2^32 * row7.w2 + 2^64 * row7.w3 + 2^96 * row7.w4 + 2^128 * row7.w5 + 2^160 * row7.w6 + 2^192 * row7.w7 + 2^224 * row7.w8 + 2^256 * row7.w9)
      = row6.w1 + 2^32 * row6.w2 + 2^64 * row6.w3 + 2^96 * row6.w4 + 2^128 * row6.w5 + 2^160 * row6.w6 + 2^192 * row6.w7 + 2^224 * row6.w8 + 2^256 * row6.w9
        + (mar6 + 2^32 * mar12 + 2^64 * mar17 + 2^96 * mar21 + 2^128 * mar24 + 2^160 * mar26 + 2^192 * mar27 + 2^224 * mm7) := by
    linear_combination hE7
  have hR7 := row_sum_le _ _ _ _ _ _ _ _ hm6.2 hm12.2 hm17.2 hm21.2 hm24.2 hm26.2 hm27.2 hd7.2
  have hH8 : row7.w1 + 2^32 * row7.w2 + 2^64 * row7.w3 + 2^96 * row7.w4 + 2^128 * row7.w5 + 2^160 * row7.w6 + 2^192 * row7.w7 + 2^224 * row7.w8 + 2^256 * row7.w9 ≤ 2^256 - 1 :=
    sqr_row_next _ _ _ _ hV7 hH7 hR7
  have hZ : row7.w9 = 0 := top_word_zero (row7.w1 + 2^32 * row7.w2 + 2^64 * row7.w3 + 2^96 * row7.w4 + 2^128 * row7.w5 + 2^160 * row7.w6 + 2^192 * row7.w7 + 2^224 * row7.w8) row7.w9 hH8
  subst hr
  refine ⟨?_, ?_⟩
  · simp only [U512.toNat, u64_of_words]
    linear_combination hV0 + 2^32 * hV1 + 2^64 * hV2 + 2^96 * hV3 + 2^128 * hV4 + 2^160 * hV5 +
      2^192 * hV6 + 2^224 * hV7 + 2^512 * hZ.symm + (2 * 2^32) * hm0.1 + (2 * 2^64) * hm1.1 +
      (2 * 2^96) * hm2.1 + (2 * 2^128) * hm3.1 + (2 * 2^160) * hm4.1 + (2 * 2^192) * hm5.1 +
      (2 * 2^224) * hm6.1 + (2 * 2^96) * hm7.1 + (2 * 2^128) * hm8.1 + (2 * 2^160) * hm9.1 +
      (2 * 2^192) * hm10.1 + (2 * 2^224) * hm11.1 + (2 * 2^256) * hm12.1 + (2 * 2^160) * hm13.1 +
      (2 * 2^192) * hm14.1 + (2 * 2^224) * hm15.1 + (2 * 2^256) * hm16.1 + (2 * 2^288) * hm17.1 +
      (2 * 2^224) * hm18.1 + (2 * 2^256) * hm19.1 + (2 * 2^288) * hm20.1 + (2 * 2^320) * hm21.1 +
      (2 * 2^288) * hm22.1 + (2 * 2^320) * hm23.1 + (2 * 2^352) * hm24.1 + (2 * 2^352) * hm25.1 +
      (2 * 2^384) * hm26.1 + (2 * 2^416) * hm27.1 + hd0.1 + 2^64 * hd1.1 + 2^128 * hd2.1 +
      2^192 * hd3.1 + 2^256 * hd4.1 + 2^320 * hd5.1 + 2^384 * hd6.1 + 2^448 * hd7.1 +
      ((a0 + 2^32 * a1 + 2^64 * a2 + 2^96 * a3 + 2^128 * a4 + 2^160 * a5 + 2^192 * a6 + 2^224 * a7) + (l0 + 2^64 * l1 + 2^128 * l2 + 2^192 * l3)) * (hw0 + 2^64 * hw1 + 2^128 * hw2 + 2^192 * hw3)
  · exact ⟨u64_of_words_lt _ _ (lo32_lt _) hW1.1, u64_of_words_lt _ _ hW2.1 hW3.1,
      u64_of_words_lt _ _ hW4.1 hW5.1, u64_of_words_lt _ _ hW6.1 hW7.1,
      u64_of_words_lt _ _ hW7.2.1 hW7.2.2.1, u64_of_words_lt _ _ hW7.2.2.2.1 hW7.2.2.2.2.1,
      u64_of_words_lt _ _ hW7.2.2.2.2.2.1 hW7.2.2.2.2.2.2.1,
      u64_of_words_lt _ _ hW7.2.2.2.2.2.2.2.1 hW7.2.2.2.2.2.2.2.2.1⟩

/-! ### Claims on `AddModP`, `SubModP`, `NegModP` -/

/-- C4: for canonical operands `a, b` in `[0, P)`, `AddModP` returns the integer
`(a + b) mod P`, and this result lies in `[0, P)`. -/
theorem C4_AddModP_canonical (a b : U256) (ha : a.wf) (hb : b.wf)
    (hap : a.toNat < PRIME_P) (hbp : b.toNat < PRIME_P) :
    (AddModP a b).toNat = (a.toNat + b.toNat) % PRIME_P ∧ (AddModP a b).toNat < PRIME_P := by
  have h := (AddModP_toNat a b ha hb (by omega)).2
  have hP : 0 < PRIME_P := by decide
  by_cases hlt : a.toNat + b.toNat < PRIME_P
  · rw [if_pos hlt] at h
    rw [h, Nat.mod_eq_of_lt hlt]
    exact ⟨rfl, hlt⟩
  · rw [if_neg hlt] at h
    have hge : PRIME_P ≤ a.toNat + b.toNat := not_lt.1 hlt
    have hlt2 : a.toNat + b.toNat - PRIME_P < PRIME_P := by omega
    rw [h, Nat.mod_eq_sub_mod hge, Nat.mod_eq_of_lt hlt2]
    exact ⟨rfl, hlt2⟩

theorem C4_AddModP_canonical_witness :
    (U256.mk (P_0 - 1) P_123 P_123 P_123).wf ∧ (U256.mk 5 0 0 0).wf ∧
    (U256.mk (P_0 - 1) P_123 P_123 P_123).toNat < PRIME_P ∧ (U256.mk 5 0 0 0).toNat < PRIME_P ∧
    (AddModP (U256.mk (P_0 - 1) P_123 P_123 P_123) (U256.mk 5 0 0 0)).toNat
        = ((U256.mk (P_0 - 1) P_123 P_123 P_123).toNat + (U256.mk 5 0 0 0).toNat) % PRIME_P ∧
    (AddModP (U256.mk (P_0 - 1) P_123 P_123 P_123) (U256.mk 5 0 0 0)).toNat < PRIME_P :=
  ⟨by decide, by decide, by decide, by decide,
    C4_AddModP_canonical (U256.mk (P_0 - 1) P_123 P_123 P_123) (U256.mk 5 0 0 0)
      (by decide) (by decide) (by decide) (by decide)⟩

/-- C5: for canonical operands `a, b` in `[0, P)`, `SubModP` returns `(a - b) mod P`, a value
in `[0, P)`: it is `a - b` when `a ≥ b`, and `a - b + P` (`P` added back once) when
`a < b`. -/
theorem C5_SubModP_canonical (a b : U256) (ha : a.wf) (hb : b.wf)
    (hap : a.toNat < PRIME_P) (hbp : b.toNat < PRIME_P) :
    ((SubModP a b).toNat : Int) = ((a.toNat : Int) - (b.toNat : Int)) % (PRIME_P : Int) ∧
    (SubModP a b).toNat < PRIME_P ∧
    (b.toNat ≤ a.toNat → ((SubModP a b).toNat : Int) = (a.toNat : Int) - (b.toNat : Int)) ∧
    (a.toNat < b.toNat →
      ((SubModP a b).toNat : Int) = (a.toNat : Int) - (b.toNat : Int) + (PRIME_P : Int)) := by
  have h := (SubModP_toNat a b ha hb (le_of_lt hap) hbp).2
  by_cases hle : b.toNat ≤ a.toNat
  · rw [if_pos hle] at h
    have hval : ((SubModP a b).toNat : Int) = (a.toNat : Int) - (b.toNat : Int) := by omega
    refine ⟨?_, by omega, fun _ => hval, fun hlt => absurd hle (not_le.2 hlt)⟩
    rw [hval, Int.emod_eq_of_lt (by omega) (by omega)]
  · rw [if_neg hle] at h
    have hval : ((SubModP a b).toNat : Int)
        = (a.toNat : Int) - (b.toNat : Int) + (PRIME_P : Int) := by omega
    refine ⟨?_, by omega, fun hle' => absurd hle' hle, fun _ => hval⟩
    rw [hval, ← Int.add_emod_self, Int.emod_eq_of_lt (by omega) (by omega)]

theorem C5_SubModP_canonical_witness :
    (U256.mk 5 0 0 0).wf ∧ (U256.mk 7 1 0 0).wf ∧
    (U256.mk 5 0 0 0).toNat < PRIME_P ∧ (U256.mk 7 1 0 0).toNat < PRIME_P ∧
    (((SubModP (U256.mk 5 0 0 0) (U256.mk 7 1 0 0)).toNat : Int)
        = (((U256.mk 5 0 0 0).toNat : Int) - ((U256.mk 7 1 0 0).toNat : Int)) % (PRIME_P : Int) ∧
      (SubModP (U256.mk 5 0 0 0) (U256.mk 7 1 0 0)).toNat < PRIME_P ∧
      ((U256.mk 7 1 0 0).toNat ≤ (U256.mk 5 0 0 0).toNat →
        ((SubModP (U256.mk 5 0 0 0) (U256.mk 7 1 0 0)).toNat : Int)
          = ((U256.mk 5 0 0 0).toNat : Int) - ((U256.mk 7 1 0 0).toNat : Int)) ∧
      ((U256.mk 5 0 0 0).toNat < (U256.mk 7 1 0 0).toNat →
        ((SubModP (U256.mk 5 0 0 0) (U256.mk 7 1 0 0)).toNat : Int)
          = ((U256.mk 5 0 0 0).toNat : Int) - ((U256.mk 7 1 0 0).toNat : Int)
            + (PRIME_P : Int))) :=
  ⟨by decide, by decide, by decide, by decide,
    C5_SubModP_canonical (U256.mk 5 0 0 0) (U256.mk 7 1 0 0)
      (by decide) (by decide) (by decide) (by decide)⟩

/-- C7: for every `a` in `[0, P]`, `NegModP` replaces `a` by the integer `P - a`; in
particular `NegModP(0)` is the limb array of `P` (the non-canonical representative of zero),
not the zero array. -/
theorem C7_NegModP_eq_P_sub (a : U256) (ha : a.wf) (hap : a.toNat ≤ PRIME_P) :
    (NegModP a).toNat = PRIME_P - a.toNat ∧
    (a.toNat = 0 → NegModP a = P_limbs ∧ NegModP a ≠ U256.mk 0 0 0 0) := by
  have h := NegModP_toNat a ha hap
  refine ⟨h.1, fun h0 => ?_⟩
  have heq : NegModP a = P_limbs := by
    apply U256_eq_of_toNat _ _ h.2 P_limbs_wf
    rw [h.1, h0, P_limbs_toNat, Nat.sub_zero]
  refine ⟨heq, ?_⟩
  rw [heq]
  decide

theorem C7_NegModP_eq_P_sub_witness :
    (U256.mk 0 0 0 0).wf ∧ (U256.mk 0 0 0 0).toNat ≤ PRIME_P ∧
    ((NegModP (U256.mk 0 0 0 0)).toNat = PRIME_P - (U256.mk 0 0 0 0).toNat ∧
      ((U256.mk 0 0 0 0).toNat = 0 →
        NegModP (U256.mk 0 0 0 0) = P_limbs ∧ NegModP (U256.mk 0 0 0 0) ≠ U256.mk 0 0 0 0)) :=
  ⟨by decide, by decide, C7_NegModP_eq_P_sub (U256.mk 0 0 0 0) (by decide) (by decide)⟩

/-- C8: for every canonical non-zero `a` in `(0, P)`, `NegModP(NegModP(a))` is `a` again,
limb for limb. -/
theorem C8_NegModP_involutive (a : U256) (ha : a.wf)
    (hpos : 0 < a.toNat) (hap : a.toNat < PRIME_P) :
    NegModP (NegModP a) = a := by
  have h1 := NegModP_toNat a ha (le_of_lt hap)
  have h2 := NegModP_toNat (NegModP a) h1.2 (by rw [h1.1]; omega)
  apply U256_eq_of_toNat _ _ h2.2 ha
  rw [h2.1, h1.1]
  omega

theorem C8_NegModP_involutive_witness :
    (U256.mk 7 0 3 0).wf ∧ 0 < (U256.mk 7 0 3 0).toNat ∧ (U256.mk 7 0 3 0).toNat < PRIME_P ∧
    NegModP (NegModP (U256.mk 7 0 3 0)) = U256.mk 7 0 3 0 :=
  ⟨by decide, by decide, by decide,
    C8_NegModP_involutive (U256.mk 7 0 3 0) (by decide) (by decide) (by decide)⟩

/-- C9: for every canonical non-zero `a` in `(0, P)`, `AddModP(a, SubModP(P, a))` is the zero
array, where the limbs of the literal value `P` are `SubModP`'s first operand. -/
theorem C9_AddModP_SubModP_P (a : U256) (ha : a.wf)
    (_hpos : 0 < a.toNat) (hap : a.toNat < PRIME_P) :
    AddModP a (SubModP P_limbs a) = U256.mk 0 0 0 0 := by
  have hs := SubModP_toNat P_limbs a P_limbs_wf ha (by rw [P_limbs_toNat]) hap
  rw [P_limbs_toNat, if_pos (le_of_lt hap)] at hs
  have hsum : a.toNat + (SubModP P_limbs a).toNat = PRIME_P := by rw [hs.2]; omega
  have hP : 0 < PRIME_P := by decide
  have hadd := AddModP_toNat a (SubModP P_limbs a) ha hs.1 (by rw [hsum]; omega)
  rw [hsum, if_neg (lt_irrefl _), Nat.sub_self] at hadd
  exact U256_eq_of_toNat _ _ hadd.1 (by decide) (by rw [hadd.2]; rfl)

theorem C9_AddModP_SubModP_P_witness :
    (U256.mk 7 0 3 0).wf ∧ 0 < (U256.mk 7 0 3 0).toNat ∧ (U256.mk 7 0 3 0).toNat < PRIME_P ∧
    AddModP (U256.mk 7 0 3 0) (SubModP P_limbs (U256.mk 7 0 3 0)) = U256.mk 0 0 0 0 :=
  ⟨by decide, by decide, by decide,
    C9_AddModP_SubModP_P (U256.mk 7 0 3 0) (by decide) (by decide) (by decide)⟩

/-! ### `MulModP` and `SqrModP` -/

theorem add_cc_64_lt (a b : Nat) : (add_cc_64 a b).1 < 2^64 := by
  simp only [add_cc_64]; omega

theorem addc_cc_64_lt (a b c : Nat) : (addc_cc_64 a b c).1 < 2^64 := by
  simp only [addc_cc_64]; omega

/-- Whatever the product buffer holds, the `//fast mod P` block returns four `u64` limbs. -/
theorem fast_mod_P_wf (buff : U512) : (fast_mod_P buff).wf := by
  generalize hr : fast_mod_P buff = r
  unfold fast_mod_P at hr
  lift_lets at hr
  extract_lets t tmp0 tmp1 tmp2 tmp3 tmp4 b0 b1 b2 b3 tmp4' t32_8 t32_9 tmp2_0 tmp3' e1 e2 f1 f2
    f3 r0 r1 r2 r3 at hr
  subst hr
  exact ⟨add_cc_64_lt _ _, addc_cc_64_lt _ _ _, addc_cc_64_lt _ _ _, addc_64_lt _ _ _⟩

/-- A number has only one representation by a limb below `2^64` and a rest. -/
theorem limb_unique (a b a' b' : Nat) (ha : a < 2^64) (ha' : a' < 2^64)
    (h : a + 2^64 * b = a' + 2^64 * b') : a = a' ∧ b = b' := by
  omega

theorem U512_eq_of_toNat (a b : U512) (ha : a.wf) (hb : b.wf)
    (h : a.toNat = b.toNat) : a = b := by
  obtain ⟨a0, a1, a2, a3, a4, a5, a6, a7⟩ := a
  obtain ⟨b0, b1, b2, b3, b4, b5, b6, b7⟩ := b
  simp only [U512.wf] at ha hb
  simp only [U512.toNat] at h
  obtain ⟨ha0, ha1, ha2, ha3, ha4, ha5, ha6, ha7⟩ := ha
  obtain ⟨hb0, hb1, hb2, hb3, hb4, hb5, hb6, hb7⟩ := hb
  have h0 : a0 + 2^64 * (a1 + 2^64 * (a2 + 2^64 * (a3 + 2^64 * (a4 + 2^64 * (a5 + 2^64 *
        (a6 + 2^64 * a7))))))
      = b0 + 2^64 * (b1 + 2^64 * (b2 + 2^64 * (b3 + 2^64 * (b4 + 2^64 * (b5 + 2^64 *
        (b6 + 2^64 * b7)))))) := by
    linear_combination h
  obtain ⟨e0, h1⟩ := limb_unique _ _ _ _ ha0 hb0 h0
  obtain ⟨e1, h2⟩ := limb_unique _ _ _ _ ha1 hb1 h1
  obtain ⟨e2, h3⟩ := limb_unique _ _ _ _ ha2 hb2 h2
  obtain ⟨e3, h4⟩ := limb_unique _ _ _ _ ha3 hb3 h3
  obtain ⟨e4, h5⟩ := limb_unique _ _ _ _ ha4 hb4 h4
  obtain ⟨e5, h6⟩ := limb_unique _ _ _ _ ha5 hb5 h5
  obtain ⟨e6, e7⟩ := limb_unique _ _ _ _ ha6 hb6 h6
  subst e0 e1 e2 e3 e4 e5 e6 e7
  rfl

/-- C1 (the code departs from the claim): at the canonical operands `a = P - 1` and
`b = P - 0x1000003D1` the last addition of the `//fast mod P` block carries out of 256 bits;
`MulModP` drops that carry and returns `0`, while `a * b mod P` is `0x1000003D1`. -/
theorem C1_MulModP_failing_input :
    (U256.mk 0xFFFFFFFEFFFFFC2E P_123 P_123 P_123).wf ∧
    (U256.mk 0xFFFFFFFDFFFFF85E P_123 P_123 P_123).wf ∧
    (U256.mk 0xFFFFFFFEFFFFFC2E P_123 P_123 P_123).toNat = PRIME_P - 1 ∧
    (U256.mk 0xFFFFFFFDFFFFF85E P_123 P_123 P_123).toNat = PRIME_P - 0x1000003D1 ∧
    MulModP (U256.mk 0xFFFFFFFEFFFFFC2E P_123 P_123 P_123)
        (U256.mk 0xFFFFFFFDFFFFF85E P_123 P_123 P_123) = U256.mk 0 0 0 0 ∧
    ((U256.mk 0xFFFFFFFEFFFFFC2E P_123 P_123 P_123).toNat
        * (U256.mk 0xFFFFFFFDFFFFF85E P_123 P_123 P_123).toNat) % PRIME_P = 0x1000003D1 ∧
    (MulModP (U256.mk 0xFFFFFFFEFFFFFC2E P_123 P_123 P_123)
        (U256.mk 0xFFFFFFFDFFFFF85E P_123 P_123 P_123)).toNat % PRIME_P
      ≠ ((U256.mk 0xFFFFFFFEFFFFFC2E P_123 P_123 P_123).toNat
        * (U256.mk 0xFFFFFFFDFFFFF85E P_123 P_123 P_123).toNat) % PRIME_P := by
  refine ⟨by decide, by decide, by decide, by decide, by decide, by decide, by decide⟩

/-- C3 (counterexample): for the canonical operands `a = 3` and `b = (2 * P + 1) / 3` the
value `MulModP` returns is `P + 1`, which is not below `P`. -/
theorem C3_MulModP_not_canonical :
    (U256.mk 3 0 0 0).wf ∧
    (U256.mk 0xAAAAAAA9FFFFFD75 0xAAAAAAAAAAAAAAAA 0xAAAAAAAAAAAAAAAA 0xAAAAAAAAAAAAAAAA).wf ∧
    (U256.mk 3 0 0 0).toNat < PRIME_P ∧
    (U256.mk 0xAAAAAAA9FFFFFD75 0xAAAAAAAAAAAAAAAA 0xAAAAAAAAAAAAAAAA
      0xAAAAAAAAAAAAAAAA).toNat < PRIME_P ∧
    (MulModP (U256.mk 3 0 0 0)
      (U256.mk 0xAAAAAAA9FFFFFD75 0xAAAAAAAAAAAAAAAA 0xAAAAAAAAAAAAAAAA
        0xAAAAAAAAAAAAAAAA)).toNat = PRIME_P + 1 ∧
    ¬ (MulModP (U256.mk 3 0 0 0)
      (U256.mk 0xAAAAAAA9FFFFFD75 0xAAAAAAAAAAAAAAAA 0xAAAAAAAAAAAAAAAA
        0xAAAAAAAAAAAAAAAA)).toNat < PRIME_P := by
  refine ⟨by decide, by decide, by decide, by decide, by decide, by decide⟩

/-- C3 (amended): for every `a, b` in `[0, P)` the value `MulModP` returns is a 256-bit
value, so it lies in the relaxed range `[0, 2 * P)`. -/
theorem C3_MulModP_relaxed (a b : U256) (_ha : a.wf) (_hb : b.wf)
    (_hap : a.toNat < PRIME_P) (_hbp : b.toNat < PRIME_P) :
    (MulModP a b).wf ∧ (MulModP a b).toNat < 2^256 ∧ (MulModP a b).toNat < 2 * PRIME_P := by
  have hw : (MulModP a b).wf := fast_mod_P_wf _
  have hlt := U256_toNat_lt _ hw
  have hP : 2^256 < 2 * PRIME_P := by decide
  exact ⟨hw, hlt, lt_trans hlt hP⟩

theorem C3_MulModP_relaxed_witness :
    (U256.mk 3 0 0 0).wf ∧ (U256.mk 5 7 0 0).wf ∧
    (U256.mk 3 0 0 0).toNat < PRIME_P ∧ (U256.mk 5 7 0 0).toNat < PRIME_P ∧
    ((MulModP (U256.mk 3 0 0 0) (U256.mk 5 7 0 0)).wf ∧
      (MulModP (U256.mk 3 0 0 0) (U256.mk 5 7 0 0)).toNat < 2^256 ∧
      (MulModP (U256.mk 3 0 0 0) (U256.mk 5 7 0 0)).toNat < 2 * PRIME_P) :=
  ⟨by decide, by decide, by decide, by decide,
    C3_MulModP_relaxed (U256.mk 3 0 0 0) (U256.mk 5 7 0 0)
      (by decide) (by decide) (by decide) (by decide)⟩

/-- C6: for every 256-bit value `a` (four 64-bit limbs, canonical or not), `SqrModP(a)`
returns exactly the same four limbs as `MulModP(a, a)`. -/
theorem C6_SqrModP_eq_MulModP (a : U256) (ha : a.wf) : SqrModP a = MulModP a a := by
  have hs := sqr_512_spec a ha
  have hm := mul_512_spec a a ha ha
  have hbuff : sqr_512 a = mul_512 a a :=
    U512_eq_of_toNat _ _ hs.2 hm.2 (hs.1.trans hm.1.symm)
  unfold SqrModP MulModP
  rw [hbuff]

theorem C6_SqrModP_eq_MulModP_witness :
    (U256.mk 0xFFFFFFFFFFFFFFFF 0x123456789ABCDEF0 0 0xFFFFFFFFFFFFFFFF).wf ∧
    SqrModP (U256.mk 0xFFFFFFFFFFFFFFFF 0x123456789ABCDEF0 0 0xFFFFFFFFFFFFFFFF)
      = MulModP (U256.mk 0xFFFFFFFFFFFFFFFF 0x123456789ABCDEF0 0 0xFFFFFFFFFFFFFFFF)
          (U256.mk 0xFFFFFFFFFFFFFFFF 0x123456789ABCDEF0 0 0xFFFFFFFFFFFFFFFF) :=
  ⟨by decide,
    C6_SqrModP_eq_MulModP (U256.mk 0xFFFFFFFFFFFFFFFF 0x123456789ABCDEF0 0 0xFFFFFFFFFFFFFFFF)
      (by decide)⟩

/-! ## `InvModP` -/

/-! ### `int` and `u32` conversions, `__ffs` -/

theorem wrap32_eq_self (z : Int) (h1 : -2^31 ≤ z) (h2 : z < 2^31) : wrap32 z = z := by
  unfold wrap32; omega

theorem wrap32_ge (z : Int) : -2^31 ≤ wrap32 z := by
  unfold wrap32; omega

theorem wrap32_lt (z : Int) : wrap32 z < 2^31 := by
  unfold wrap32; omega

theorem wrap32_modEq (z : Int) : wrap32 z ≡ z [ZMOD 2^32] := by
  unfold wrap32 Int.ModEq; omega

theorem toU32_lt (z : Int) : toU32 z < 2^32 := by
  unfold toU32; omega

theorem toU32_cast (z : Int) : ((toU32 z : Nat) : Int) = z % 2^32 := by
  unfold toU32; omega

theorem toU32_modEq (z : Int) : ((toU32 z : Nat) : Int) ≡ z [ZMOD 2^32] := by
  unfold toU32 Int.ModEq; omega

theorem toU32_of_nat (n : Nat) (h : n < 2^32) : toU32 (n : Int) = n := by
  unfold toU32; omega

theorem toI32_modEq (w : Nat) : toI32 w ≡ (w : Int) [ZMOD 2^32] :=
  wrap32_modEq _

theorem toI32_small (w : Nat) (h : w < 2^31) : toI32 w = w := by
  unfold toI32 wrap32; omega

/-- A congruence modulo `2^32` holds modulo every `2^c` with `c ≤ 32`. -/
theorem modEq_pow_of_le (a b : Int) (c : Nat) (hc : c ≤ 32) (h : a ≡ b [ZMOD 2^32]) :
    a ≡ b [ZMOD 2^c] :=
  Int.ModEq.of_dvd (pow_dvd_pow 2 hc) h

theorem modEq_pow_mono (a b : Int) (c d : Nat) (hc : c ≤ d) (h : a ≡ b [ZMOD 2^d]) :
    a ≡ b [ZMOD 2^c] :=
  Int.ModEq.of_dvd (pow_dvd_pow 2 hc) h

/-- The trailing zero count of `a | 2^c`: at most `c`, a power of two dividing `a`, and the
exact 2-adic valuation of `a` when it is below `c`. -/
theorem ctz_aux_or (fuel : Nat) : ∀ (a c : Nat), c < fuel →
    ctz_aux fuel (a ||| 2^c) ≤ c ∧ 2^(ctz_aux fuel (a ||| 2^c)) ∣ a ∧
    (ctz_aux fuel (a ||| 2^c) < c → (a / 2^(ctz_aux fuel (a ||| 2^c))) % 2 = 1) := by
  induction fuel with
  | zero => intro a c h; omega
  | succ n ih =>
    intro a c hc
    rcases Nat.eq_zero_or_pos c with h0 | hpos
    · subst h0
      have : (a ||| 2^0) % 2 = 1 := by
        rw [Nat.or_mod_two_eq_one]; right; norm_num
      simp [ctz_aux, this]
    · obtain ⟨c', rfl⟩ : ∃ c', c = c' + 1 := ⟨c - 1, by omega⟩
      by_cases hodd : a % 2 = 1
      · have : (a ||| 2^(c'+1)) % 2 = 1 := by
          rw [Nat.or_mod_two_eq_one]; left; exact hodd
        simp [ctz_aux, this, hodd]
      · have hx : ¬ (a ||| 2^(c'+1)) % 2 = 1 := by
          rw [Nat.or_mod_two_eq_one]
          have : (2:Nat)^(c'+1) % 2 = 0 := by rw [pow_succ]; omega
          omega
        have hdiv : (a ||| 2^(c'+1)) / 2 = a / 2 ||| 2^c' := by
          rw [Nat.or_div_two]
          congr 1
          rw [pow_succ]; omega
        have hstep : ctz_aux (n+1) (a ||| 2^(c'+1)) = 1 + ctz_aux n (a / 2 ||| 2^c') := by
          rw [ctz_aux, if_neg hx, hdiv]
        obtain ⟨i1, i2, i3⟩ := ih (a / 2) c' (by omega)
        rw [hstep]
        set i := ctz_aux n (a / 2 ||| 2^c') with hi
        have ha2 : a = 2 * (a / 2) := by omega
        refine ⟨by omega, ?_, ?_⟩
        · rw [ha2, show 1 + i = i + 1 by ring, pow_succ, mul_comm]
          exact Nat.mul_dvd_mul_left 2 i2
        · intro hlt
          have := i3 (by omega)
          rw [show 1 + i = i + 1 by ring, pow_succ, mul_comm, ← Nat.div_div_eq_div_mul]
          exact this

theorem or_two_pow_lt (a c : Nat) (ha : a < 2^32) (hc : c < 32) : a ||| 2^c < 2^32 :=
  Nat.or_lt_two_pow ha (Nat.pow_lt_pow_right (by norm_num) hc)

theorem or_two_pow_ne_zero (a c : Nat) : a ||| 2^c ≠ 0 := by
  intro h
  have := Nat.testBit_two_pow_self (n := c)
  have h2 : (a ||| 2^c).testBit c = true := by
    rw [Nat.testBit_or, this]; simp
  rw [h] at h2
  simp at h2

/-- The shift amount `__ffs(_val | (1 << c)) - 1` that the code computes: it is at most `c`,
`_val` is divisible by that power of two, and the quotient is odd unless the amount is `c`. -/
theorem ffs_spec (v : Int) (c : Nat) (hc : c ≤ 30) :
    1 ≤ ffs (toU32 v ||| 2^c) ∧
    ffs (toU32 v ||| 2^c) - 1 ≤ c ∧
    ((2:Int)^(ffs (toU32 v ||| 2^c) - 1)) ∣ v ∧
    (ffs (toU32 v ||| 2^c) - 1 < c → (v / 2^(ffs (toU32 v ||| 2^c) - 1)) % 2 = 1) := by
  have hlt := or_two_pow_lt (toU32 v) c (toU32_lt v) (by omega)
  have hne := or_two_pow_ne_zero (toU32 v) c
  have hmod : (toU32 v ||| 2^c) % 2^32 = toU32 v ||| 2^c := Nat.mod_eq_of_lt hlt
  have hf : ffs (toU32 v ||| 2^c) = ctz_aux 32 (toU32 v ||| 2^c) + 1 := by
    unfold ffs; rw [hmod, if_neg hne]
  obtain ⟨i1, i2, i3⟩ := ctz_aux_or 32 (toU32 v) c (by omega)
  rw [hf, Nat.add_sub_cancel]
  set i := ctz_aux 32 (toU32 v ||| 2^c) with hi
  have hcast := toU32_cast v
  have hdvd32 : ((2:Int)^i) ∣ 2^32 := pow_dvd_pow 2 (by omega)
  have hdvdu : ((2:Int)^i) ∣ ((toU32 v : Nat) : Int) := by
    have := Int.natCast_dvd_natCast.2 i2
    simpa using this
  have hdv : ((2:Int)^i) ∣ v := by
    rw [hcast] at hdvdu
    have h1 : ((2:Int)^i) ∣ v % 2^32 + 2^32 * (v / 2^32) :=
      dvd_add hdvdu (Dvd.dvd.mul_right hdvd32 _)
    rwa [Int.emod_add_ediv] at h1
  refine ⟨by omega, i1, hdv, ?_⟩
  intro hlt2
  have hq := i3 hlt2
  -- v = toU32 v + 2^32 * k
  obtain ⟨k, hk⟩ : ∃ k : Int, v = (toU32 v : Int) + 2^32 * k :=
    ⟨v / 2^32, by rw [hcast, Int.emod_add_ediv]⟩
  obtain ⟨q, hq2⟩ := i2
  have h32 : (2:Int)^32 = 2^i * (2 * 2^(31 - i)) := by
    rw [← pow_succ', ← pow_add]; congr 1; omega
  have hpos : (0:Int) < 2^i := by positivity
  have hv : v = 2^i * ((q : Int) + 2 * 2^(31 - i) * k) := by
    rw [hk, hq2, h32]; push_cast; ring
  have hqodd : q % 2 = 1 := by
    rw [hq2, Nat.mul_div_cancel_left _ (by positivity)] at hq
    exact hq
  rw [hv, Int.mul_ediv_cancel_left _ hpos.ne',
    show (q : Int) + 2 * 2^(31 - i) * k = (q : Int) + 2 * (2^(31 - i) * k) by ring]
  generalize (2:Int)^(31 - i) * k = t
  omega

/-! ### One batch of `InvModP` -/

theorem mask_spec (m : Nat) (hm : m ≤ 32) : 0xFFFFFFFF >>> m = 2^(32 - m) - 1 := by
  interval_cases m <;> rfl

theorem mod_mod_pow_min (x a b : Nat) : x % 2^a % 2^b = x % 2^(min a b) := by
  rcases le_total a b with h | h
  · rw [min_eq_left h]
    exact Nat.mod_eq_of_lt (lt_of_lt_of_le (Nat.mod_lt _ (by positivity))
      (Nat.pow_le_pow_right (by norm_num) h))
  · rw [min_eq_right h]
    exact Nat.mod_mod_of_dvd _ (pow_dvd_pow 2 h)

/-- The multiplier `mul` of an iteration: the low `min 3 κ` bits of `-_modp * _val`. -/
theorem mul_spec (a b : Int) (κ : Nat) :
    ∃ w : Nat, toI32 (toU32 (toI32 (toU32 (wrap32 (wrap32 (-a) * b)) &&& 7)) &&& (2^κ - 1))
        = (w : Int) ∧ w < 2^(min 3 κ) ∧ (w : Int) ≡ -a * b [ZMOD 2^(min 3 κ)] := by
  set X := toU32 (wrap32 (wrap32 (-a) * b)) with hX
  have h7 : X &&& 7 = X % 2^3 := Nat.and_pow_two_sub_one_eq_mod X 3
  have hu : X % 2^3 < 8 := Nat.mod_lt _ (by norm_num)
  have e1 : toI32 (X &&& 7) = ((X % 2^3 : Nat) : Int) := by
    rw [h7]; exact toI32_small _ (by omega)
  have e2 : toU32 (toI32 (X &&& 7)) = X % 2^3 := by
    rw [e1]; exact toU32_of_nat _ (by omega)
  have e3 : X % 2^3 &&& (2^κ - 1) = X % 2^(min 3 κ) := by
    rw [Nat.and_pow_two_sub_one_eq_mod, mod_mod_pow_min]
  have hm : min 3 κ ≤ 3 := min_le_left _ _
  have hlt : X % 2^(min 3 κ) < 2^(min 3 κ) := Nat.mod_lt _ (by positivity)
  have hlt8 : (2:Nat)^(min 3 κ) ≤ 2^3 := Nat.pow_le_pow_right (by norm_num) hm
  refine ⟨X % 2^(min 3 κ), ?_, hlt, ?_⟩
  · rw [e2, e3]; exact toI32_small _ (by omega)
  · have c1 : ((X : Nat) : Int) ≡ wrap32 (-a) * b [ZMOD 2^32] :=
      (toU32_modEq _).trans (wrap32_modEq _)
    have c2 : wrap32 (-a) * b ≡ -a * b [ZMOD 2^32] := (wrap32_modEq _).mul_right _
    have c3 : ((X : Nat) : Int) ≡ -a * b [ZMOD 2^(min 3 κ)] :=
      modEq_pow_of_le _ _ _ (by omega) (c1.trans c2)
    have c4 : ((X % 2^(min 3 κ) : Nat) : Int) ≡ (X : Int) [ZMOD 2^(min 3 κ)] := by
      have : ((X % 2^(min 3 κ) : Nat) : Int) = (X : Int) % 2^(min 3 κ) := by push_cast; rfl
      rw [this]
      exact Int.mod_modEq _ _
    exact c4.trans c3

theorem odd_sq_modEq (f : Int) (hf : f % 2 = 1) : f * f ≡ 1 [ZMOD 2^3] := by
  have h : f % 8 = 1 ∨ f % 8 = 3 ∨ f % 8 = 5 ∨ f % 8 = 7 := by omega
  have e : f * f % 8 = ((f % 8) * (f % 8)) % 8 := Int.mul_emod f f 8
  unfold Int.ModEq
  norm_num
  rcases h with h | h | h | h <;> rw [e, h] <;> norm_num

theorem abs_row_add (m0 m1 m2 m3 w A B : Int) (h0 : |m0| + |m1| ≤ A) (h1 : |m2| + |m3| ≤ B)
    (hw : 0 ≤ w) : |m2 + m0 * w| + |m3 + m1 * w| ≤ B + w * A := by
  have a1 : |m2 + m0 * w| ≤ |m2| + |m0| * w := by
    calc |m2 + m0 * w| ≤ |m2| + |m0 * w| := abs_add _ _
      _ = |m2| + |m0| * w := by rw [abs_mul, abs_of_nonneg hw]
  have a2 : |m3 + m1 * w| ≤ |m3| + |m1| * w := by
    calc |m3 + m1 * w| ≤ |m3| + |m1 * w| := abs_add _ _
      _ = |m3| + |m1| * w := by rw [abs_mul, abs_of_nonneg hw]
  have a3 : w * (|m0| + |m1|) ≤ w * A := mul_le_mul_of_nonneg_left h0 hw
  linarith

theorem abs_le_of_sum_le (a b B : Int) (h : |a| + |b| ≤ B) : |a| ≤ B ∧ |b| ≤ B := by
  have := abs_nonneg a
  have := abs_nonneg b
  constructor <;> linarith

theorem pow_le_two_pow_30 (n : Nat) (h : n ≤ 30) : (2:Int)^n ≤ 2^30 :=
  pow_le_pow_right₀ (by norm_num) h

theorem wrap32_of_abs_le (z : Int) (h : |z| ≤ 2^30) : wrap32 z = z := by
  have := abs_le.1 h
  exact wrap32_eq_self z (by linarith [this.1]) (by linarith [this.2])

theorem abs_mul_pow_le (m : Int) (s i : Nat) (h : |m| ≤ 2^s) : |m * 2^i| ≤ 2^(s + i) := by
  rw [abs_mul, abs_of_nonneg (by positivity : (0:Int) ≤ 2^i), pow_add]
  exact mul_le_mul_of_nonneg_right h (by positivity)

/-- The shift that ends an iteration (and the one that opens a batch): `index` bits of `_val`
are shifted out, the first row of `matrix` is doubled `index` times. -/
theorem shift_inv (F G : Int) (s k : Nat) (st : DivState) (f g : Int)
    (hI : BatchInv F G s k st f g) (idx : Nat)
    (hidx : idx = ffs (toU32 st._val ||| 2^(30 - s)) - 1) :
    k ≤ idx ∧ s + idx ≤ 30 ∧ (2:Int)^idx ∣ g ∧ (s + idx < 30 → (g / 2^idx) % 2 = 1) ∧
    BatchInv F G (s + idx) 0
      ⟨wrap32 (st.matrix0 * 2^idx), wrap32 (st.matrix1 * 2^idx), st.matrix2, st.matrix3,
        st._val / 2^idx, st._modp, st.cnt - idx, wrap32 (st.kbnt - idx)⟩ f (g / 2^idx) := by
  obtain ⟨hs, hcnt, row0, row1, b0, b1, cf, cg, fodd, hk⟩ := hI
  obtain ⟨_, hle, hdv, hodd⟩ := ffs_spec st._val (30 - s) (by omega)
  rw [← hidx] at hle hdv hodd
  have hpos : (0:Int) < 2^idx := by positivity
  have hki : k ≤ idx := by
    by_contra hlt
    have h1 : idx + 1 ≤ k := by omega
    have h2 := hodd (by omega)
    obtain ⟨t, ht⟩ := dvd_trans (pow_dvd_pow (2:Int) h1) hk
    have : st._val = 2^idx * (2 * t) := by rw [ht, pow_succ]; ring
    rw [this, Int.mul_ediv_cancel_left _ hpos.ne'] at h2
    omega
  have hsi : s + idx ≤ 30 := by omega
  have hsplit : (2:Int)^(30 - s) = 2^idx * 2^(30 - (s + idx)) := by
    rw [← pow_add]; congr 1; omega
  have hdiff : (2:Int)^(30 - s) ∣ g - st._val := cg.dvd
  have hdg : (2:Int)^idx ∣ g := by
    have h1 : (2:Int)^idx ∣ g - st._val := dvd_trans (Dvd.intro _ hsplit.symm) hdiff
    have : g = (g - st._val) + st._val := by ring
    rw [this]; exact dvd_add h1 hdv
  have hv : st._val = 2^idx * (st._val / 2^idx) := (Int.mul_ediv_cancel' hdv).symm
  have hg : g = 2^idx * (g / 2^idx) := (Int.mul_ediv_cancel' hdg).symm
  have hcg : st._val / 2^idx ≡ g / 2^idx [ZMOD 2^(30 - (s + idx))] := by
    rw [Int.modEq_iff_dvd]
    have : (2:Int)^idx * 2^(30 - (s + idx)) ∣ 2^idx * (g / 2^idx - st._val / 2^idx) := by
      rw [← hsplit, mul_sub, ← hv, ← hg]; exact hdiff
    exact Int.dvd_of_mul_dvd_mul_left hpos.ne' this
  have hgodd : s + idx < 30 → (g / 2^idx) % 2 = 1 := by
    intro hlt
    have h2 := hodd (by omega)
    have h3 : st._val / 2^idx ≡ g / 2^idx [ZMOD 2^1] :=
      modEq_pow_mono _ _ 1 _ (by omega) hcg
    have h4 : (st._val / 2^idx) % 2 = (g / 2^idx) % 2 := by simpa [Int.ModEq] using h3
    omega
  have hb := abs_le_of_sum_le _ _ _ b0
  have hm0 := abs_mul_pow_le st.matrix0 s idx hb.1
  have hm1 := abs_mul_pow_le st.matrix1 s idx hb.2
  have h30 := pow_le_two_pow_30 (s + idx) hsi
  have w0 : wrap32 (st.matrix0 * 2^idx) = st.matrix0 * 2^idx :=
    wrap32_of_abs_le _ (le_trans hm0 h30)
  have w1 : wrap32 (st.matrix1 * 2^idx) = st.matrix1 * 2^idx :=
    wrap32_of_abs_le _ (le_trans hm1 h30)
  refine ⟨hki, hsi, hdg, hgodd, ?_⟩
  refine ⟨by omega, ?_, ?_, ?_, ?_, ?_, ?_, hcg, fodd, ?_⟩
  · show st.cnt - (idx : Int) = 30 - ((s + idx : Nat) : Int)
    rw [hcnt]; push_cast; ring
  · show wrap32 (st.matrix0 * 2^idx) * F + wrap32 (st.matrix1 * 2^idx) * G = 2^(s + idx) * f
    rw [w0, w1, pow_add]
    linear_combination (2:Int)^idx * row0
  · show st.matrix2 * F + st.matrix3 * G = 2^(s + idx) * (g / 2^idx)
    rw [pow_add, mul_assoc, ← hg]; exact row1
  · show |wrap32 (st.matrix0 * 2^idx)| + |wrap32 (st.matrix1 * 2^idx)| ≤ 2^(s + idx)
    rw [w0, w1, abs_mul, abs_mul, abs_of_nonneg hpos.le, pow_add]
    have := mul_le_mul_of_nonneg_right b0 hpos.le
    linarith
  · show |st.matrix2| + |st.matrix3| ≤ 2^(s + idx + 0)
    have : (2:Int)^(s + k) ≤ 2^(s + idx + 0) := pow_le_pow_right₀ (by norm_num) (by omega)
    linarith
  · show st._modp ≡ f [ZMOD 2^(30 - (s + idx))]
    exact modEq_pow_mono _ _ _ _ (by omega) cf
  · show (2:Int)^0 ∣ st._val / 2^idx
    simp

/-- The exchange `DO_INV_STEP()` at the head of an iteration. -/
theorem swap_inv (F G : Int) (s : Nat) (st : DivState) (f g : Int)
    (hI : BatchInv F G s 0 st f g) (hg : g % 2 = 1) :
    BatchInv F G s 0 (DO_INV_STEP st) g (-f) := by
  obtain ⟨hs, hcnt, row0, row1, b0, b1, cf, cg, fodd, hk⟩ := hI
  have hb := abs_le_of_sum_le _ _ _ b0
  have h30 := pow_le_two_pow_30 s (by omega)
  have w0 : wrap32 (-st.matrix0) = -st.matrix0 :=
    wrap32_of_abs_le _ (by rw [abs_neg]; exact le_trans hb.1 h30)
  have w1 : wrap32 (-st.matrix1) = -st.matrix1 :=
    wrap32_of_abs_le _ (by rw [abs_neg]; exact le_trans hb.2 h30)
  refine ⟨hs, hcnt, ?_, ?_, ?_, ?_, ?_, ?_, hg, ?_⟩
  · show st.matrix2 * F + st.matrix3 * G = 2^s * g
    exact row1
  · show wrap32 (-st.matrix0) * F + wrap32 (-st.matrix1) * G = 2^s * (-f)
    rw [w0, w1]; linear_combination -row0
  · show |st.matrix2| + |st.matrix3| ≤ 2^s
    simpa using b1
  · show |wrap32 (-st.matrix0)| + |wrap32 (-st.matrix1)| ≤ 2^(s + 0)
    rw [w0, w1, abs_neg, abs_neg]; simpa using b0
  · show st._val ≡ g [ZMOD 2^(30 - s)]
    exact cg
  · show wrap32 (-st._modp) ≡ -f [ZMOD 2^(30 - s)]
    exact (modEq_pow_of_le _ _ _ (by omega) (wrap32_modEq _)).trans cf.neg
  · show (2:Int)^0 ∣ wrap32 (-st._modp)
    simp

/-- The addition step of an iteration: `_val += _modp * mul` and the same on the rows of
`matrix`, for a multiplier `w < 2^k` with `w ≡ -_modp * _val` modulo `2^k`, `k ≤ 3`. -/
theorem add_inv (F G : Int) (s : Nat) (st : DivState) (f g : Int)
    (hI : BatchInv F G s 0 st f g) (k : Nat) (hk1 : 1 ≤ k) (hk3 : k ≤ 3) (hks : s + k ≤ 30)
    (w : Nat) (hw : w < 2^k) (hwc : (w : Int) ≡ -st._modp * st._val [ZMOD 2^k]) :
    (g % 2 = 1 → w % 2 = 1) ∧ (2:Int)^k ∣ g + w * f ∧
    BatchInv F G s k
      ⟨st.matrix0, st.matrix1, wrap32 (st.matrix2 + wrap32 (st.matrix0 * (w : Int))),
        wrap32 (st.matrix3 + wrap32 (st.matrix1 * (w : Int))),
        wrap32 (st._val + wrap32 (st._modp * (w : Int))), st._modp, st.cnt, st.kbnt⟩
      f (g + w * f) := by
  obtain ⟨hs, hcnt, row0, row1, b0, b1, cf, cg, fodd, hk⟩ := hI
  have hw0 : (0:Int) ≤ (w : Int) := Int.natCast_nonneg _
  have hwZ : (w : Int) + 1 ≤ 2^k := by exact_mod_cast hw
  have hps : (0:Int) < 2^s := by positivity
  have hb := abs_le_of_sum_le _ _ _ b0
  have hsk30 := pow_le_two_pow_30 (s + k) hks
  have hrow := abs_row_add st.matrix0 st.matrix1 st.matrix2 st.matrix3 (w : Int) _ _ b0
    (by simpa using b1) hw0
  have hsum : (2:Int)^s + (w : Int) * 2^s ≤ 2^(s + k) := by
    rw [pow_add]
    have := mul_le_mul_of_nonneg_right hwZ hps.le
    linarith
  have hrow2 := abs_le_of_sum_le _ _ _ (le_trans hrow hsum)
  have hmw (m : Int) (hm : |m| ≤ 2^s) : |m * (w : Int)| ≤ 2^30 := by
    rw [abs_mul, abs_of_nonneg hw0]
    have h1 : |m| * (w : Int) ≤ 2^s * (w : Int) := mul_le_mul_of_nonneg_right hm hw0
    linarith
  have w0 : wrap32 (st.matrix0 * (w : Int)) = st.matrix0 * w :=
    wrap32_of_abs_le _ (hmw _ hb.1)
  have w1 : wrap32 (st.matrix1 * (w : Int)) = st.matrix1 * w :=
    wrap32_of_abs_le _ (hmw _ hb.2)
  have w2 : wrap32 (st.matrix2 + st.matrix0 * (w : Int)) = st.matrix2 + st.matrix0 * w :=
    wrap32_of_abs_le _ (le_trans hrow2.1 hsk30)
  have w3 : wrap32 (st.matrix3 + st.matrix1 * (w : Int)) = st.matrix3 + st.matrix1 * w :=
    wrap32_of_abs_le _ (le_trans hrow2.2 hsk30)
  -- congruences
  have cfk : st._modp ≡ f [ZMOD 2^k] := modEq_pow_mono _ _ _ _ (by omega) cf
  have cgk : st._val ≡ g [ZMOD 2^k] := modEq_pow_mono _ _ _ _ (by omega) cg
  have hsq : f * f ≡ 1 [ZMOD 2^k] := modEq_pow_mono _ _ _ _ hk3 (odd_sq_modEq f fodd)
  have hwfg : (w : Int) ≡ -f * g [ZMOD 2^k] := hwc.trans ((cfk.neg).mul cgk)
  have hzero : g + (w : Int) * f ≡ 0 [ZMOD 2^k] := by
    have h1 : g + (w : Int) * f ≡ g + (-f * g) * f [ZMOD 2^k] :=
      Int.ModEq.add_left _ (hwfg.mul_right _)
    have h2 : g + (-f * g) * f = g * (1 - f * f) := by ring
    have h3 : g * (1 - f * f) ≡ g * (1 - 1) [ZMOD 2^k] :=
      Int.ModEq.mul_left _ (Int.ModEq.sub_left _ hsq)
    rw [h2] at h1
    simpa using h1.trans h3
  have hdvd : (2:Int)^k ∣ g + w * f := (Int.modEq_zero_iff_dvd).1 hzero
  have hnew32 : wrap32 (st._val + wrap32 (st._modp * (w : Int))) ≡ st._val + st._modp * w
      [ZMOD 2^32] :=
    (wrap32_modEq _).trans (Int.ModEq.add_left _ (wrap32_modEq _))
  have hnew (c : Nat) (hc : c ≤ 30 - s) :
      wrap32 (st._val + wrap32 (st._modp * (w : Int))) ≡ g + w * f [ZMOD 2^c] := by
    have h1 := modEq_pow_of_le _ _ c (by omega) hnew32
    have h2 : st._val + st._modp * (w : Int) ≡ g + f * w [ZMOD 2^c] :=
      (modEq_pow_mono _ _ _ _ hc cg).add ((modEq_pow_mono _ _ _ _ hc cf).mul_right _)
    rw [mul_comm f] at h2
    exact h1.trans h2
  refine ⟨?_, hdvd, ?_⟩
  · intro hg
    have h2 : (w : Int) ≡ -f * g [ZMOD 2^1] := modEq_pow_mono _ _ 1 k hk1 hwfg
    have h3 : (w : Int) % 2 = (-f * g) % 2 := by simpa [Int.ModEq] using h2
    have h4 : (-f * g) % 2 = ((-f) % 2) * (g % 2) % 2 := Int.mul_emod _ _ _
    have h5 : (-f) % 2 = 1 := by omega
    rw [h4, h5, hg] at h3
    omega
  · refine ⟨hks, hcnt, row0, ?_, b0, ?_, cf, hnew _ le_rfl, fodd, ?_⟩
    · show wrap32 (st.matrix2 + wrap32 (st.matrix0 * (w : Int))) * F
          + wrap32 (st.matrix3 + wrap32 (st.matrix1 * (w : Int))) * G = 2^s * (g + w * f)
      rw [w0, w1, w2, w3]
      linear_combination row1 + (w : Int) * row0
    · show |wrap32 (st.matrix2 + wrap32 (st.matrix0 * (w : Int)))|
          + |wrap32 (st.matrix3 + wrap32 (st.matrix1 * (w : Int)))| ≤ 2^(s + k)
      rw [w0, w1, w2, w3]
      exact le_trans hrow hsum
    · show (2:Int)^k ∣ wrap32 (st._val + wrap32 (st._modp * (w : Int)))
      exact (Int.modEq_zero_iff_dvd).1 ((hnew k (by omega)).trans hzero)

/-- The mask `0xFFFFFFFF >> mx` keeps `κ` bits, where `1 ≤ κ ≤ min (kbnt + 1) cnt`. -/
theorem mx_spec (kb cnt : Int) (h0 : 0 ≤ kb) (hkb : kb ≤ 2^30) (hc1 : 1 ≤ cnt) (hc : cnt ≤ 30) :
    ∃ κ : Nat, 1 ≤ κ ∧ (κ : Int) ≤ cnt ∧ (κ : Int) ≤ kb + 1 ∧
      0xFFFFFFFF >>> (if wrap32 (kb + 1) < cnt then wrap32 (31 - kb)
        else wrap32 (32 - cnt)).toNat = 2^κ - 1 := by
  have e1 : wrap32 (kb + 1) = kb + 1 := wrap32_eq_self _ (by omega) (by omega)
  rw [e1]
  obtain ⟨n, rfl⟩ := Int.eq_ofNat_of_zero_le h0
  obtain ⟨c, rfl⟩ := Int.eq_ofNat_of_zero_le (by omega : (0:Int) ≤ cnt)
  by_cases h : (n : Int) + 1 < (c : Int)
  · rw [if_pos h, wrap32_eq_self _ (by omega) (by omega)]
    have e2 : ((31 : Int) - (n : Int)).toNat = 31 - n := by omega
    rw [e2, mask_spec _ (by omega)]
    have e3 : 32 - (31 - n) = n + 1 := by omega
    rw [e3]
    exact ⟨n + 1, by omega, by omega, by omega, rfl⟩
  · rw [if_neg h, wrap32_eq_self _ (by omega) (by omega)]
    have e2 : ((32 : Int) - (c : Int)).toNat = 32 - c := by omega
    rw [e2, mask_spec _ (by omega)]
    have e3 : 32 - (32 - c) = c := by omega
    rw [e3]
    exact ⟨c, by omega, by omega, by omega, rfl⟩

/-! ### The potential decreases along divsteps -/

theorem Qf_nonneg (u v : ℚ) : 0 ≤ Qf u v := by
  unfold Qf; nlinarith [sq_nonneg (u - v), sq_nonneg u, sq_nonneg v, sq_nonneg (u + v)]

theorem Qf_ge_left (u v : ℚ) : 3 / 4 * (u * u) ≤ Qf u v := by
  unfold Qf; nlinarith [sq_nonneg (u - 2 * v)]

theorem Qf_ge_right (u v : ℚ) : 3 / 4 * (v * v) ≤ Qf u v := by
  unfold Qf; nlinarith [sq_nonneg (2 * u - v)]

/-- Convexity of `t ↦ Qf f (v + t f)` on `[0, c]`. -/
theorem Qf_convex (f v t c : ℚ) (h0 : 0 ≤ t) (h1 : t ≤ c) :
    Qf f (v + t * f) ≤ max (Qf f v) (Qf f (v + c * f)) := by
  rcases eq_or_lt_of_le (le_trans h0 h1) with hc | hc
  · have : t = 0 := le_antisymm (hc ▸ h1) h0
    subst this; simp
  · have key : c * Qf f (v + t * f) ≤ (c - t) * Qf f v + t * Qf f (v + c * f) := by
      have : (c - t) * Qf f v + t * Qf f (v + c * f) - c * Qf f (v + t * f)
          = f * f * (c * t * (c - t)) := by unfold Qf; ring
      have h2 : 0 ≤ f * f * (c * t * (c - t)) :=
        mul_nonneg (mul_self_nonneg f) (mul_nonneg (mul_nonneg hc.le h0) (sub_nonneg.2 h1))
      linarith
    have hm1 : Qf f v ≤ max (Qf f v) (Qf f (v + c * f)) := le_max_left _ _
    have hm2 : Qf f (v + c * f) ≤ max (Qf f v) (Qf f (v + c * f)) := le_max_right _ _
    have : c * Qf f (v + t * f) ≤ c * max (Qf f v) (Qf f (v + c * f)) := by
      have a1 := mul_le_mul_of_nonneg_left hm1 (sub_nonneg.2 h1)
      have a2 := mul_le_mul_of_nonneg_left hm2 h0
      linarith
    exact le_of_mul_le_mul_left this hc

theorem Lam_of_nat (n : Nat) (f g : ℚ) :
    Lam (n : Int) f g = (3/2)^n * max (Qf f (g / 2^n)) (Qf f (g / 2^n + (2 - 1 / 2^n) * f)) := by
  unfold Lam; simp

theorem Lam_of_neg (e : Nat) (he : 1 ≤ e) (f g : ℚ) :
    Lam (-(e : Int)) f g = (2/3)^e * Qf f (2^e * g) := by
  unfold Lam
  have : ¬ (0 ≤ -(e : Int)) := by omega
  simp [this]


theorem pow_cancel (n : Nat) : ((3:ℚ)/2)^n * (2/3)^n = 1 := by
  rw [← mul_pow]; norm_num

/-- A step without exchange: `g ← (g + w f) / 2^i`, `eta ← eta - i`, from `eta = n ≥ 0`. -/
theorem Lam_step_nonneg (n i : Nat) (f g w : ℚ) (hw0 : 0 ≤ w) (hwi : w ≤ 2^i - 1)
    (hwn : w ≤ 2^(n+1) - 1) :
    Lam ((n : Int) - i) f ((g + w * f) / 2^i) ≤ Lam n f g * (2/3)^i := by
  have hn : (0:ℚ) < 2^n := by positivity
  have hi : (0:ℚ) < 2^i := by positivity
  have ht1 : w / 2^n ≤ 2 - 1 / 2^n := by
    rw [div_le_iff₀ hn]
    have : (2 - 1 / 2^n) * (2:ℚ)^n = 2^(n+1) - 1 := by field_simp; ring
    linarith
  have ht0 : 0 ≤ w / 2^n := div_nonneg hw0 hn.le
  rw [Lam_of_nat n]
  set Φ := max (Qf f (g / 2^n)) (Qf f (g / 2^n + (2 - 1 / 2^n) * f)) with hΦ
  rcases le_or_lt i n with h | h
  · obtain ⟨m, rfl⟩ := Nat.exists_eq_add_of_le h
    have e1 : (((i + m : Nat) : Int) - (i : Int)) = (m : Int) := by push_cast; ring
    rw [e1, Lam_of_nat m]
    have hm : (0:ℚ) < 2^m := by positivity
    have ev : (g + w * f) / 2^i / 2^m = g / 2^(i+m) + (w / 2^(i+m)) * f := by
      rw [pow_add]; field_simp
    have A : Qf f ((g + w * f) / 2^i / 2^m) ≤ Φ := by
      rw [ev]; exact Qf_convex f _ _ _ ht0 ht1
    have B : Qf f ((g + w * f) / 2^i / 2^m + (2 - 1 / 2^m) * f) ≤ Φ := by
      have : (g + w * f) / 2^i / 2^m + (2 - 1 / 2^m) * f
          = g / 2^(i+m) + (w / 2^(i+m) + (2 - 1 / 2^m)) * f := by rw [ev]; ring
      rw [this]
      refine Qf_convex f _ _ _ (by have : (1:ℚ) / 2^m ≤ 1 := by
                                    rw [div_le_one hm]; exact one_le_pow₀ (by norm_num)
                                   linarith) ?_
      have : w / 2^(i+m) ≤ 1 / 2^m - 1 / 2^(i+m) := by
        rw [div_le_iff₀ hn]
        have : (1 / 2^m - 1 / 2^(i+m)) * (2:ℚ)^(i+m) = 2^i - 1 := by
          rw [pow_add]; field_simp
        linarith
      linarith
    have hΦ0 : 0 ≤ Φ := le_trans (Qf_nonneg _ _) (le_max_left _ _)
    calc (3/2 : ℚ)^m * max _ _ ≤ (3/2)^m * Φ :=
          mul_le_mul_of_nonneg_left (max_le A B) (by positivity)
      _ = (3/2)^(i+m) * Φ * (2/3)^i := by
          rw [pow_add]
          have := pow_cancel i
          linear_combination (-(3/2 : ℚ)^m * Φ) * this
  · obtain ⟨e, rfl⟩ := Nat.exists_eq_add_of_lt h
    have e1 : ((n : Int) - ((n + e + 1 : Nat) : Int)) = -((e + 1 : Nat) : Int) := by
      push_cast; ring
    rw [e1, Lam_of_neg (e+1) (by omega)]
    have ev : 2^(e+1) * ((g + w * f) / 2^(n + e + 1)) = g / 2^n + (w / 2^n) * f := by
      rw [show n + e + 1 = n + (e + 1) by ring, pow_add]; field_simp; ring
    rw [ev]
    have A : Qf f (g / 2^n + (w / 2^n) * f) ≤ Φ := Qf_convex f _ _ _ ht0 ht1
    calc (2/3 : ℚ)^(e+1) * Qf f (g / 2^n + (w / 2^n) * f) ≤ (2/3)^(e+1) * Φ :=
          mul_le_mul_of_nonneg_left A (by positivity)
      _ = (3/2)^n * Φ * (2/3)^(n + e + 1) := by
          rw [show n + e + 1 = n + (e + 1) by ring, pow_add]
          have := pow_cancel n
          linear_combination (-(2/3 : ℚ)^(e+1) * Φ) * this

/-- A pure shift from `eta = -e < 0`. -/
theorem Lam_shift_neg (e i : Nat) (he : 1 ≤ e) (f g : ℚ) :
    Lam (-(e : Int) - i) f (g / 2^i) = Lam (-(e : Int)) f g * (2/3)^i := by
  have e1 : (-(e : Int) - (i : Int)) = -((e + i : Nat) : Int) := by push_cast; ring
  rw [e1, Lam_of_neg (e + i) (by omega), Lam_of_neg e he]
  have : (2:ℚ)^(e+i) * (g / 2^i) = 2^e * g := by rw [pow_add]; field_simp; ring
  rw [this, pow_add]; ring


theorem Qf_swap_one (u V x : ℚ) (h0 : 1 / 2 ≤ x) (h1 : x ≤ 3 / 2) :
    9 * Qf V (x * V - u) ≤ 16 * Qf u V := by
  have id1 : 16 * Qf u V - 9 * Qf V (x * V - u)
      = (3 / 2 - x) * (7 * u * u - 16 * u * V + 37 / 4 * (V * V))
        + (x - 1 / 2) * (7 * u * u + 2 * u * V + 1 / 4 * (V * V))
        + 9 * (V * V) * ((x - 1 / 2) * (3 / 2 - x)) := by unfold Qf; ring
  have a1 : 0 ≤ 7 * u * u - 16 * u * V + 37 / 4 * (V * V) := by
    nlinarith [sq_nonneg (7 * u - 8 * V), sq_nonneg V]
  have a2 : 0 ≤ 7 * u * u + 2 * u * V + 1 / 4 * (V * V) := by
    nlinarith [sq_nonneg (7 * u + V), sq_nonneg V]
  have b1 : 0 ≤ 3 / 2 - x := by linarith
  have b2 : 0 ≤ x - 1 / 2 := by linarith
  have t1 := mul_nonneg b1 a1
  have t2 := mul_nonneg b2 a2
  have t3 := mul_nonneg (mul_nonneg (by norm_num : (0:ℚ) ≤ 9) (mul_self_nonneg V))
    (mul_nonneg b2 b1)
  linarith

theorem Qf_swap_any (u V x : ℚ) (h0 : 0 ≤ x) (h1 : x ≤ 2) :
    Qf V (x * V - u) ≤ 3 * Qf u V := by
  have id1 : 3 * Qf u V - Qf V (x * V - u)
      = (2 - x) * ((u - V) * (u - V)) + x * (u * u) + (V * V) * (x * (2 - x)) := by
    unfold Qf; ring
  have b1 : 0 ≤ 2 - x := by linarith
  have t1 := mul_nonneg b1 (mul_self_nonneg (u - V))
  have t2 := mul_nonneg h0 (mul_self_nonneg u)
  have t3 := mul_nonneg (mul_self_nonneg V) (mul_nonneg h0 b1)
  linarith

theorem three_nine_pow (e : Nat) (he : 2 ≤ e) : (3:ℚ) * 9^e ≤ 16^e := by
  induction e, he using Nat.le_induction with
  | base => norm_num
  | succ n _ ih =>
    rw [pow_succ, pow_succ]
    have : (0:ℚ) ≤ 16^n := by positivity
    linarith

/-- The exchange `(f, g) ← (g, -f)` at `eta = -e` followed by the addition of `X g` with
`1 ≤ X ≤ 2^(e+1) - 1`. -/
theorem Qf_swap (e : Nat) (he : 1 ≤ e) (f g X : ℚ) (hX1 : 1 ≤ X) (hX2 : X ≤ 2^(e+1) - 1) :
    (9/4)^e * Qf g ((-f + X * g) / 2^e) ≤ Qf f (2^e * g) := by
  have hp : (0:ℚ) < 2^e := by positivity
  have h4 : (0:ℚ) < 4^e := by positivity
  have h16 : (0:ℚ) < 16^e := by positivity
  have e4 : (4:ℚ)^e = 2^e * 2^e := by rw [← mul_pow]; norm_num
  have e16 : (16:ℚ)^e = 4^e * 4^e := by rw [← mul_pow]; norm_num
  have e94 : ((9:ℚ)/4)^e * 4^e = 9^e := by rw [← mul_pow]; norm_num
  have ex : Qf g ((-f + X * g) / 2^e) * 4^e = Qf (2^e * g) (X / 2^e * (2^e * g) - f) := by
    rw [e4]; unfold Qf; field_simp; ring
  have hx0 : 0 ≤ X / 2^e := div_nonneg (by linarith) hp.le
  have hx2 : X / 2^e ≤ 2 := by
    rw [div_le_iff₀ hp]
    have : (2:ℚ)^(e+1) = 2 * 2^e := by rw [pow_succ]; ring
    linarith
  have main : 9^e * Qf (2^e * g) (X / 2^e * (2^e * g) - f) ≤ 16^e * Qf f (2^e * g) := by
    rcases eq_or_lt_of_le he with h1 | h2
    · subst h1
      have a : (1:ℚ) / 2 ≤ X / 2^1 := by rw [pow_one]; linarith
      have b : X / 2^1 ≤ (3:ℚ) / 2 := by
        rw [pow_one]
        have : (2:ℚ)^(1+1) = 4 := by norm_num
        rw [this] at hX2
        linarith
      have := Qf_swap_one f (2^1 * g) (X / 2^1) a b
      simpa using this
    · have k := Qf_swap_any f (2^e * g) (X / 2^e) hx0 hx2
      have k3 := three_nine_pow e h2
      have q0 := Qf_nonneg f (2^e * g)
      have p9 : (0:ℚ) ≤ 9^e := by positivity
      calc (9:ℚ)^e * Qf (2^e * g) (X / 2^e * (2^e * g) - f)
          ≤ 9^e * (3 * Qf f (2^e * g)) := mul_le_mul_of_nonneg_left k p9
        _ = (3 * 9^e) * Qf f (2^e * g) := by ring
        _ ≤ 16^e * Qf f (2^e * g) := mul_le_mul_of_nonneg_right k3 q0
  have : (9/4)^e * Qf g ((-f + X * g) / 2^e) * 16^e ≤ Qf f (2^e * g) * 16^e := by
    calc (9/4)^e * Qf g ((-f + X * g) / 2^e) * 16^e
        = ((9/4)^e * 4^e) * (Qf g ((-f + X * g) / 2^e) * 4^e) := by rw [e16]; ring
      _ = 9^e * Qf (2^e * g) (X / 2^e * (2^e * g) - f) := by rw [e94, ex]
      _ ≤ 16^e * Qf f (2^e * g) := main
      _ = Qf f (2^e * g) * 16^e := by ring
  exact le_of_mul_le_mul_right this h16


theorem Qf_swap_le (e : Nat) (he : 1 ≤ e) (f g X : ℚ) (hX1 : 1 ≤ X) (hX2 : X ≤ 2^(e+1) - 1) :
    Qf g ((-f + X * g) / 2^e) ≤ (4/9)^e * Qf f (2^e * g) := by
  have h := Qf_swap e he f g X hX1 hX2
  have c : ((4:ℚ)/9)^e * (9/4)^e = 1 := by rw [← mul_pow]; norm_num
  have p : (0:ℚ) ≤ (4/9)^e := by positivity
  have := mul_le_mul_of_nonneg_left h p
  calc Qf g ((-f + X * g) / 2^e) = ((4/9)^e * (9/4)^e) * Qf g ((-f + X * g) / 2^e) := by
        rw [c, one_mul]
    _ = (4/9)^e * ((9/4)^e * Qf g ((-f + X * g) / 2^e)) := by ring
    _ ≤ _ := this

/-- A step with exchange, from `eta = -e < 0`: `(f, g) ← (g, (-f + w g) / 2^i)`,
`eta ← e - i`. -/
theorem Lam_step_swap (e i : Nat) (he : 1 ≤ e) (f g w : ℚ) (hw1 : 1 ≤ w) (hwi : w ≤ 2^i - 1)
    (hwe : w ≤ 2^(e+1) - 1) :
    Lam ((e : Int) - i) g ((-f + w * g) / 2^i) ≤ Lam (-(e : Int)) f g * (2/3)^i := by
  rw [Lam_of_neg e he]
  have hQ := Qf_nonneg f (2^e * g)
  set QQ := Qf f (2^e * g) with hQQ
  have c49 : ((4:ℚ)/9)^i = (2/3)^i * (2/3)^i := by rw [← mul_pow]; norm_num
  rcases le_or_lt i e with h | h
  · obtain ⟨m, rfl⟩ := Nat.exists_eq_add_of_le h
    have e1 : (((i + m : Nat) : Int) - (i : Int)) = (m : Int) := by push_cast; ring
    rw [e1, Lam_of_nat m]
    have hm : (0:ℚ) < 2^m := by positivity
    have hi : (0:ℚ) < 2^i := by positivity
    have ev : (-f + w * g) / 2^i / 2^m = (-f + w * g) / 2^(i+m) := by
      rw [pow_add]; field_simp
    have ev2 : (-f + w * g) / 2^i / 2^m + (2 - 1 / 2^m) * g
        = (-f + (w + 2^(i+m+1) - 2^i) * g) / 2^(i+m) := by
      rw [pow_succ, pow_add]; field_simp; ring
    have hge : (2:ℚ)^i ≤ 2^(i+m+1) :=
      pow_le_pow_right₀ (by norm_num) (by omega)
    have A := Qf_swap_le (i+m) he f g w hw1 hwe
    have B := Qf_swap_le (i+m) he f g (w + 2^(i+m+1) - 2^i) (by linarith) (by linarith)
    rw [← ev] at A
    rw [← ev2] at B
    have c : ((3:ℚ)/2)^m * (4/9)^(i+m) = (2/3)^(i+m) * (2/3)^i := by
      rw [pow_add, pow_add, c49]
      have h1 : ((3:ℚ)/2)^m * (4/9)^m = (2/3)^m := by rw [← mul_pow]; norm_num
      linear_combination ((2/3 : ℚ)^i * (2/3)^i) * h1
    calc (3/2 : ℚ)^m * max _ _ ≤ (3/2)^m * ((4/9)^(i+m) * QQ) :=
          mul_le_mul_of_nonneg_left (max_le A B) (by positivity)
      _ = ((3/2)^m * (4/9)^(i+m)) * QQ := by ring
      _ = (2/3)^(i+m) * QQ * (2/3)^i := by rw [c]; ring
  · obtain ⟨k, rfl⟩ := Nat.exists_eq_add_of_lt h
    have e1 : ((e : Int) - ((e + k + 1 : Nat) : Int)) = -((k + 1 : Nat) : Int) := by
      push_cast; ring
    rw [e1, Lam_of_neg (k+1) (by omega)]
    have ev : 2^(k+1) * ((-f + w * g) / 2^(e + k + 1)) = (-f + w * g) / 2^e := by
      rw [show e + k + 1 = e + (k + 1) by ring, pow_add]; field_simp; ring
    rw [ev]
    have A := Qf_swap_le e he f g w hw1 hwe
    have c : ((2:ℚ)/3)^(k+1) * (4/9)^e = (2/3)^e * (2/3)^(e+k+1) := by
      have h49 : ((4:ℚ)/9)^e = (2/3)^e * (2/3)^e := by rw [← mul_pow]; norm_num
      rw [show e + k + 1 = e + (k + 1) by ring, pow_add, h49]
      ring
    calc (2/3 : ℚ)^(k+1) * Qf g ((-f + w * g) / 2^e) ≤ (2/3)^(k+1) * ((4/9)^e * QQ) :=
          mul_le_mul_of_nonneg_left A (by positivity)
      _ = ((2/3)^(k+1) * (4/9)^e) * QQ := by ring
      _ = (2/3)^e * QQ * (2/3)^(e+k+1) := by rw [c]; ring

/-- The potential of a state with odd `f` and non-zero `g` is at least `3/4`. -/
theorem Lam_lower (eta f g : Int) (hf : f % 2 = 1) (hg : g ≠ 0) :
    3 / 4 ≤ Lam eta (f : ℚ) (g : ℚ) := by
  have hf1 : (1:ℚ) ≤ (f : ℚ) * f := by
    have : (1:Int) ≤ f * f := by
      have : f ≠ 0 := by intro h; rw [h] at hf; simp at hf
      nlinarith [sq_nonneg f, Int.one_le_abs this, abs_mul_abs_self f]
    exact_mod_cast this
  have hg1 : (1:ℚ) ≤ (g : ℚ) * g := by
    have : (1:Int) ≤ g * g := by
      nlinarith [sq_nonneg g, Int.one_le_abs hg, abs_mul_abs_self g]
    exact_mod_cast this
  rcases le_or_lt 0 eta with h | h
  · obtain ⟨n, rfl⟩ := Int.eq_ofNat_of_zero_le h
    rw [Lam_of_nat]
    have a := Qf_ge_left (f : ℚ) ((g : ℚ) / 2^n)
    have b : Qf (f : ℚ) ((g : ℚ) / 2^n) ≤ max (Qf (f : ℚ) ((g : ℚ) / 2^n))
      (Qf (f : ℚ) ((g : ℚ) / 2^n + (2 - 1 / 2^n) * f)) := le_max_left _ _
    have c : (1:ℚ) ≤ (3/2)^n := one_le_pow₀ (by norm_num)
    have d : (3:ℚ)/4 ≤ max (Qf (f : ℚ) ((g : ℚ) / 2^n))
      (Qf (f : ℚ) ((g : ℚ) / 2^n + (2 - 1 / 2^n) * f)) := by linarith
    calc (3:ℚ)/4 ≤ 1 * max _ _ := by rw [one_mul]; exact d
      _ ≤ (3/2)^n * max _ _ := mul_le_mul_of_nonneg_right c (by linarith)
  · obtain ⟨e, he⟩ := Int.exists_eq_neg_ofNat h.le
    have he1 : 1 ≤ e := by omega
    rw [he, Lam_of_neg e he1]
    have a := Qf_ge_right (f : ℚ) (2^e * (g : ℚ))
    have c : (1:ℚ) ≤ (8/3)^e := one_le_pow₀ (by norm_num)
    have e83 : ((2:ℚ)/3)^e * (2^e * 2^e) = (8/3)^e := by
      rw [← mul_pow, ← mul_pow]; norm_num
    have p : (0:ℚ) ≤ (2/3)^e := by positivity
    calc (3:ℚ)/4 ≤ (8/3)^e * (3/4 * ((g : ℚ) * g)) := by nlinarith
      _ = (2/3)^e * (3/4 * (2^e * (g : ℚ) * (2^e * g))) := by rw [← e83]; ring
      _ ≤ (2/3)^e * Qf (f : ℚ) (2^e * (g : ℚ)) := mul_le_mul_of_nonneg_left a p

theorem cast_div_pow (g : Int) (i : Nat) (h : (2:Int)^i ∣ g) :
    ((g / 2^i : Int) : ℚ) = (g : ℚ) / 2^i := by
  rw [Int.cast_div h (by simp)]; push_cast; rfl

/-- A pure shift of `g` by `i` bits lowers the potential by `(2/3)^i`. -/
theorem Lam_int_shift (eta f g : Int) (i : Nat) (h : (2:Int)^i ∣ g) :
    Lam (eta - i) (f : ℚ) ((g / 2^i : Int) : ℚ) ≤ Lam eta f g * (2/3)^i := by
  rw [cast_div_pow g i h]
  rcases le_or_lt 0 eta with h0 | h0
  · obtain ⟨n, rfl⟩ := Int.eq_ofNat_of_zero_le h0
    have := Lam_step_nonneg n i (f : ℚ) (g : ℚ) 0 le_rfl
      (by have : (1:ℚ) ≤ 2^i := one_le_pow₀ (by norm_num)
          linarith)
      (by have : (1:ℚ) ≤ 2^(n+1) := one_le_pow₀ (by norm_num)
          linarith)
    simpa using this
  · obtain ⟨e, he⟩ := Int.exists_eq_neg_ofNat h0.le
    have he1 : 1 ≤ e := by omega
    rw [he]
    exact le_of_eq (Lam_shift_neg e i he1 _ _)

/-- An iteration without exchange lowers the potential by `(2/3)^i`. -/
theorem Lam_int_add (eta f g : Int) (w i : Nat) (h0 : 0 ≤ eta) (hwi : w < 2^i)
    (hwe : w < 2^(eta.toNat + 1)) (h : (2:Int)^i ∣ g + w * f) :
    Lam (eta - i) (f : ℚ) (((g + w * f) / 2^i : Int) : ℚ) ≤ Lam eta f g * (2/3)^i := by
  rw [cast_div_pow _ i h]
  obtain ⟨n, rfl⟩ := Int.eq_ofNat_of_zero_le h0
  have a1 : (w : ℚ) ≤ 2^i - 1 := by
    have : ((w + 1 : Nat) : ℚ) ≤ ((2^i : Nat) : ℚ) := by exact_mod_cast hwi
    push_cast at this; linarith
  have a2 : (w : ℚ) ≤ 2^(n + 1) - 1 := by
    have h' : w < 2^(n + 1) := by simpa using hwe
    have : ((w + 1 : Nat) : ℚ) ≤ ((2^(n + 1) : Nat) : ℚ) := by exact_mod_cast h'
    push_cast at this; linarith
  have := Lam_step_nonneg n i (f : ℚ) (g : ℚ) (w : ℚ) (by positivity) a1 a2
  push_cast
  exact this

/-- An iteration with exchange lowers the potential by `(2/3)^i`. -/
theorem Lam_int_swap (eta f g : Int) (w i : Nat) (h0 : eta < 0) (hw1 : 1 ≤ w) (hwi : w < 2^i)
    (hwe : w < 2^((-eta).toNat + 1)) (h : (2:Int)^i ∣ -f + w * g) :
    Lam (-eta - i) (g : ℚ) (((-f + w * g) / 2^i : Int) : ℚ) ≤ Lam eta f g * (2/3)^i := by
  rw [cast_div_pow _ i h]
  obtain ⟨e, he⟩ := Int.exists_eq_neg_ofNat h0.le
  have he1 : 1 ≤ e := by omega
  subst he
  have a0 : (1:ℚ) ≤ (w : ℚ) := by exact_mod_cast hw1
  have a1 : (w : ℚ) ≤ 2^i - 1 := by
    have : ((w + 1 : Nat) : ℚ) ≤ ((2^i : Nat) : ℚ) := by exact_mod_cast hwi
    push_cast at this; linarith
  have a2 : (w : ℚ) ≤ 2^(e + 1) - 1 := by
    have h' : w < 2^(e + 1) := by simpa using hwe
    have : ((w + 1 : Nat) : ℚ) ≤ ((2^(e + 1) : Nat) : ℚ) := by exact_mod_cast h'
    push_cast at this; linarith
  have := Lam_step_swap e i he1 (f : ℚ) (g : ℚ) (w : ℚ) a0 a1 a2
  rw [neg_neg]
  push_cast
  exact this

/-- The statements after the exchange, from a state with `kbnt ≥ 0` and odd `g`: some
`w < 2^idx` times `f` is added to `g` and `idx ≥ 1` bits are shifted out. -/
theorem reduce_inv (F G : Int) (s : Nat) (st : DivState) (f g : Int)
    (hI : BatchInv F G s 0 st f g) (hs : s < 30) (hg : g % 2 = 1)
    (hkb0 : 0 ≤ st.kbnt) (hkb : st.kbnt ≤ 2^29) :
    ∃ idx w : Nat, 1 ≤ idx ∧ 1 ≤ w ∧ w < 2^idx ∧ w < 2^(st.kbnt.toNat + 1) ∧
      (2:Int)^idx ∣ g + w * f ∧ s + idx ≤ 30 ∧
      (s + idx < 30 → ((g + w * f) / 2^idx) % 2 = 1) ∧
      BatchInv F G (s + idx) 0 (inv_reduce st) f ((g + w * f) / 2^idx) ∧
      (inv_reduce st).kbnt = st.kbnt - idx := by
  have hcnt := hI.hcnt
  obtain ⟨κ, hκ1, hκc, hκk, hmask⟩ := mx_spec st.kbnt st.cnt hkb0 (by omega) (by omega) (by omega)
  obtain ⟨w, hw, hwlt, hwc⟩ := mul_spec st._modp st._val κ
  have hk1 : 1 ≤ min 3 κ := le_min (by norm_num) hκ1
  have hk3 : min 3 κ ≤ 3 := min_le_left _ _
  have hkκ : min 3 κ ≤ κ := min_le_right _ _
  obtain ⟨hwodd, hdvk, hA⟩ := add_inv F G s st f g hI (min 3 κ) hk1 hk3 (by omega) w hwlt hwc
  obtain ⟨hki, hsi, hdvd, hodd, hS⟩ := shift_inv F G s (min 3 κ) _ f (g + w * f) hA
    (ffs (toU32 (wrap32 (st._val + wrap32 (st._modp * (w : Int)))) ||| 2^(30 - s)) - 1) rfl
  obtain ⟨hf1, -, -, -⟩ := ffs_spec (wrap32 (st._val + wrap32 (st._modp * (w : Int)))) (30 - s)
    (by omega)
  set idx := ffs (toU32 (wrap32 (st._val + wrap32 (st._modp * (w : Int)))) ||| 2^(30 - s)) - 1
    with hidx
  have hwi : w < 2^idx := lt_of_lt_of_le hwlt (Nat.pow_le_pow_right (by norm_num) hki)
  have hwk : w < 2^(st.kbnt.toNat + 1) :=
    lt_of_lt_of_le hwlt (Nat.pow_le_pow_right (by norm_num) (by omega))
  have hcN : st.cnt.toNat = 30 - s := by omega
  have hpow : toU32 (wrap32 ((2:Int)^(30 - s))) = 2^(30 - s) := by
    have h1 : (2:Nat)^(30 - s) ≤ 2^30 := Nat.pow_le_pow_right (by norm_num) (by omega)
    have h2 : wrap32 ((2:Int)^(30 - s)) = ((2^(30 - s) : Nat) : Int) := by
      push_cast
      exact wrap32_eq_self _ (by have : (0:Int) ≤ 2^(30 - s) := by positivity
                                 linarith)
        (lt_of_le_of_lt (pow_le_two_pow_30 _ (by omega)) (by norm_num))
    rw [h2]; exact toU32_of_nat _ (by omega)
  have hidxZ : ((ffs (toU32 (wrap32 (st._val + wrap32 (st._modp * (w : Int)))) ||| 2^(30 - s))
      : Nat) : Int) - 1 = (idx : Int) := by
    rw [hidx]; omega
  have hres : inv_reduce st =
      ⟨wrap32 (st.matrix0 * 2^idx), wrap32 (st.matrix1 * 2^idx),
        wrap32 (st.matrix2 + wrap32 (st.matrix0 * (w : Int))),
        wrap32 (st.matrix3 + wrap32 (st.matrix1 * (w : Int))),
        wrap32 (st._val + wrap32 (st._modp * (w : Int))) / 2^idx, st._modp,
        st.cnt - idx, wrap32 (st.kbnt - idx)⟩ := by
    unfold inv_reduce APPLY_DIV_SHIFT
    simp only [hmask, hw, hcN, hpow, hidxZ, Int.toNat_ofNat]
  have hkbn : (inv_reduce st).kbnt = st.kbnt - idx := by
    rw [hres]
    show wrap32 (st.kbnt - idx) = st.kbnt - idx
    exact wrap32_eq_self _ (by omega) (by omega)
  refine ⟨idx, w, by omega, ?_, hwi, hwk, hdvd, hsi, hodd, ?_, hkbn⟩
  · have := hwodd hg
    omega
  · rw [hres]; exact hS

/-- One iteration of the inner loop consumes at least one bit and keeps the invariant. -/
theorem loop_body_inv (F G : Int) (B : ℚ) (K s : Nat) (st : DivState)
    (hL : LoopInv F G B K s st) (hs : s < 30) (hK : K ≤ 2^20) :
    ∃ s', s < s' ∧ s' ≤ 30 ∧ LoopInv F G B K s' (inv_loop_body st) := by
  obtain ⟨f, g, hI, hg, hkb, hLam⟩ := hL
  have hkb' := abs_le.1 hkb
  have hgo := hg hs
  have hpow (idx : Nat) : B * (2/3 : ℚ)^s * (2/3)^idx = B * (2/3)^(s + idx) := by
    rw [pow_add]; ring
  have hp23 (idx : Nat) : (0:ℚ) ≤ (2/3)^idx := by positivity
  unfold inv_loop_body
  by_cases h : st.kbnt < 0
  · rw [if_pos h]
    have hsw := swap_inv F G s st f g hI hgo
    have hkbs : (DO_INV_STEP st).kbnt = -st.kbnt := by
      show wrap32 (-st.kbnt) = -st.kbnt
      exact wrap32_eq_self _ (by omega) (by omega)
    obtain ⟨idx, w, hi1, hw1, hwi, hwk, hdvd, hsi, hodd, hS, hkn⟩ :=
      reduce_inv F G s (DO_INV_STEP st) g (-f) hsw hs (by have := hI.fodd; omega)
        (by rw [hkbs]; omega) (by rw [hkbs]; omega)
    rw [hkbs] at hwk hkn
    have hpot := Lam_int_swap st.kbnt f g w idx h hw1 hwi hwk hdvd
    refine ⟨s + idx, by omega, hsi, g, (-f + w * g) / 2^idx, hS, hodd, ?_, ?_⟩
    · rw [hkn, abs_le]; push_cast; constructor <;> omega
    · rw [hkn]
      calc Lam (-st.kbnt - idx) (g : ℚ) (((-f + w * g) / 2^idx : Int) : ℚ)
          ≤ Lam st.kbnt f g * (2/3)^idx := hpot
        _ ≤ B * (2/3)^s * (2/3)^idx := mul_le_mul_of_nonneg_right hLam (hp23 idx)
        _ = B * (2/3)^(s + idx) := hpow idx
  · rw [if_neg h]
    have h0 : 0 ≤ st.kbnt := not_lt.1 h
    obtain ⟨idx, w, hi1, hw1, hwi, hwk, hdvd, hsi, hodd, hS, hkn⟩ :=
      reduce_inv F G s st f g hI hs hgo h0 (by omega)
    have hpot := Lam_int_add st.kbnt f g w idx h0 hwi hwk hdvd
    refine ⟨s + idx, by omega, hsi, f, (g + w * f) / 2^idx, hS, hodd, ?_, ?_⟩
    · rw [hkn, abs_le]; push_cast; constructor <;> omega
    · rw [hkn]
      calc Lam (st.kbnt - idx) (f : ℚ) (((g + w * f) / 2^idx : Int) : ℚ)
          ≤ Lam st.kbnt f g * (2/3)^idx := hpot
        _ ≤ B * (2/3)^s * (2/3)^idx := mul_le_mul_of_nonneg_right hLam (hp23 idx)
        _ = B * (2/3)^(s + idx) := hpow idx

/-- The inner loop ends after at most `30 - s` iterations, with all 30 bits consumed. -/
theorem inv_loop_terminates (F G : Int) (B : ℚ) (K : Nat) (hK : K ≤ 2^20) (fuel : Nat) :
    ∀ (s : Nat) (st : DivState), LoopInv F G B K s st → s ≤ 30 → 30 - s ≤ fuel →
      ∃ st', inv_loop fuel st = some st' ∧ LoopInv F G B K 30 st' := by
  induction fuel with
  | zero =>
    intro s st hL hs hf
    have hs30 : s = 30 := by omega
    subst hs30
    obtain ⟨f, g, hI, hr⟩ := hL
    have hc : ¬ st.cnt > 0 := by have := hI.hcnt; omega
    exact ⟨st, by simp only [inv_loop, if_neg hc], f, g, hI, hr⟩
  | succ n ih =>
    intro s st hL hs hf
    by_cases hlt : s < 30
    · have hc : st.cnt > 0 := by
        obtain ⟨f, g, hI, -⟩ := hL
        have := hI.hcnt; omega
      obtain ⟨s', h1, h2, hL'⟩ := loop_body_inv F G B K s st hL hlt hK
      obtain ⟨st', e, hL''⟩ := ih s' _ hL' h2 (by omega)
      exact ⟨st', by simp only [inv_loop, if_pos hc]; exact e, hL''⟩
    · have hs30 : s = 30 := by omega
      subst hs30
      obtain ⟨f, g, hI, hr⟩ := hL
      have hc : ¬ st.cnt > 0 := by have := hI.hcnt; omega
      exact ⟨st, by simp only [inv_loop, if_neg hc], f, g, hI, hr⟩

/-- A whole batch, started from full-width values `F` (odd) and `G` whose low words are
`modp0` and `val0`: the inner loop ends and the batch invariant holds with 30 bits consumed. -/
theorem div_batch_inv (F G eta : Int) (val0 modp0 : Nat) (B : ℚ) (K : Nat) (hF : F % 2 = 1)
    (hv : toI32 val0 ≡ G [ZMOD 2^32]) (hm : toI32 modp0 ≡ F [ZMOD 2^32])
    (hK : K ≤ 2^20) (heta : |eta| ≤ (K : Int)) (hB : Lam eta F G ≤ B)
    (fuel : Nat) (hfuel : 30 ≤ fuel) :
    ∃ m, div_batch fuel eta val0 modp0 = some m ∧ LoopInv F G B K 30 m := by
  have heta' := abs_le.1 heta
  have h0 : BatchInv F G 0 0 ⟨1, 0, 0, 1, toI32 val0, toI32 modp0, 30, eta⟩ F G := by
    refine ⟨by omega, ?_, ?_, ?_, ?_, ?_, ?_, ?_, hF, ?_⟩
    · show (30 : Int) = 30 - ((0 : Nat) : Int)
      simp
    · show (1 : Int) * F + 0 * G = 2^0 * F
      ring
    · show (0 : Int) * F + 1 * G = 2^0 * G
      ring
    · show |(1 : Int)| + |(0 : Int)| ≤ 2^0
      simp
    · show |(0 : Int)| + |(1 : Int)| ≤ 2^(0 + 0)
      simp
    · show toI32 modp0 ≡ F [ZMOD 2^(30 - 0)]
      exact modEq_pow_of_le _ _ _ (by omega) hm
    · show toI32 val0 ≡ G [ZMOD 2^(30 - 0)]
      exact modEq_pow_of_le _ _ _ (by omega) hv
    · show (2 : Int)^0 ∣ toI32 val0
      simp
  obtain ⟨-, hsi, hdvd, hodd, hS⟩ := shift_inv F G 0 0 _ F G h0
    (ffs (toU32 (toI32 val0) ||| 2^(30 - 0)) - 1) rfl
  obtain ⟨hf1, -, -, -⟩ := ffs_spec (toI32 val0) (30 - 0) (by omega)
  set idx := ffs (toU32 (toI32 val0) ||| 2^(30 - 0)) - 1 with hidx
  have hidxZ : ((ffs (toU32 (toI32 val0) ||| 0x40000000) : Nat) : Int) - 1 = (idx : Int) := by
    have e : (0x40000000 : Nat) = 2^(30 - 0) := by norm_num
    rw [hidx, e]; omega
  clear_value idx
  have hkk : wrap32 (eta - idx) = eta - idx := wrap32_eq_self _ (by omega) (by omega)
  have hpot := Lam_int_shift eta F G idx hdvd
  have hL : LoopInv F G B K (0 + idx)
      ⟨wrap32 (1 * 2^idx), wrap32 (0 * 2^idx), 0, 1, toI32 val0 / 2^idx, toI32 modp0,
        30 - idx, wrap32 (eta - idx)⟩ := by
    refine ⟨F, G / 2^idx, hS, hodd, ?_, ?_⟩
    · show |wrap32 (eta - idx)| ≤ (K : Int) + ((0 + idx : Nat) : Int)
      rw [hkk, abs_le]; push_cast; constructor <;> omega
    · show Lam (wrap32 (eta - idx)) (F : ℚ) ((G / 2^idx : Int) : ℚ) ≤ B * (2/3)^(0 + idx)
      rw [hkk, zero_add]
      exact le_trans hpot (mul_le_mul_of_nonneg_right hB (by positivity))
  obtain ⟨m, e, hm'⟩ := inv_loop_terminates F G B K hK fuel (0 + idx) _ hL hsi
    (le_trans (Nat.sub_le _ _) hfuel)
  refine ⟨m, ?_, hm'⟩
  unfold div_batch APPLY_DIV_SHIFT
  dsimp only
  rw [hidxZ, Int.toNat_ofNat]
  exact e

/-! ### The 288-bit helpers of `InvModP` -/

theorem sub_cc_32_spec (a b : Nat) (ha : a < 2^32) (hb : b < 2^32) :
    (sub_cc_32 a b).1 + b = a + 2^32 * (sub_cc_32 a b).2 ∧
    (sub_cc_32 a b).1 < 2^32 ∧ (sub_cc_32 a b).2 ≤ 1 := by
  simp only [sub_cc_32]; split_ifs <;> omega

theorem subc_cc_32_spec (a b c : Nat) (ha : a < 2^32) (hb : b < 2^32) (hc : c ≤ 1) :
    (subc_cc_32 a b c).1 + b + c = a + 2^32 * (subc_cc_32 a b c).2 ∧
    (subc_cc_32 a b c).1 < 2^32 ∧ (subc_cc_32 a b c).2 ≤ 1 := by
  simp only [subc_cc_32]; split_ifs <;> omega

theorem subc_32_spec (a b c : Nat) (ha : a < 2^32) (hb : b < 2^32) (hc : c ≤ 1) :
    ∃ q, (subc_32 a b c).1 + b + c = a + 2^32 * q := by
  simp only [subc_32]
  exact ⟨((a + 2^32 + 2^32 - b - c % 2^32) % 2^32 + b + c - a) / 2^32, by omega⟩

theorem subc_32_lt (a b c : Nat) : (subc_32 a b c).1 < 2^32 := by
  simp only [subc_32]; omega

theorem addc_32_mod (a b c : Nat) :
    ∃ q, (addc_32 a b c).1 + 2^32 * q = a + b + c := by
  simp only [addc_32]
  exact ⟨(a + b + c) / 2^32, by omega⟩

theorem madc_lo_32_mod (a b c carry : Nat) :
    ∃ q, (madc_lo_32 a b c carry).1 + 2^32 * q = a * b + c + carry := by
  simp only [madc_lo_32]
  generalize a * b = t
  exact ⟨(t + c + carry) / 2^32, by omega⟩

theorem madc_lo_32_lt (a b c carry : Nat) : (madc_lo_32 a b c carry).1 < 2^32 := by
  simp only [madc_lo_32]; omega

theorem W9_toNat_lt (a : W9) (ha : a.wf) : a.toNat < 2^288 := by
  obtain ⟨a0, a1, a2, a3, a4, a5, a6, a7, a8⟩ := a
  simp only [W9.wf, W9.toNat] at *
  omega

/-- `add_288` adds modulo `2^288`. -/
theorem add_288_spec (a b : W9) (ha : a.wf) (hb : b.wf) :
    (add_288 a b).wf ∧ ∃ q, (add_288 a b).toNat + 2^288 * q = a.toNat + b.toNat := by
  obtain ⟨a0, a1, a2, a3, a4, a5, a6, a7, a8⟩ := a
  obtain ⟨b0, b1, b2, b3, b4, b5, b6, b7, b8⟩ := b
  simp only [W9.wf] at ha hb
  obtain ⟨ha0, ha1, ha2, ha3, ha4, ha5, ha6, ha7, ha8⟩ := ha
  obtain ⟨hb0, hb1, hb2, hb3, hb4, hb5, hb6, hb7, hb8⟩ := hb
  generalize hr : add_288 ⟨a0, a1, a2, a3, a4, a5, a6, a7, a8⟩
    ⟨b0, b1, b2, b3, b4, b5, b6, b7, b8⟩ = r
  unfold add_288 at hr
  lift_lets at hr
  extract_lets r0 r1 r2 r3 r4 r5 r6 r7 r8 at hr
  have e0 : r0.1 + 2^32 * r0.2 = a0 + b0 ∧ r0.1 < 2^32 ∧ r0.2 ≤ 1 := add_cc_32_spec _ _ ha0 hb0
  have e1 : r1.1 + 2^32 * r1.2 = a1 + b1 + r0.2 ∧ r1.1 < 2^32 ∧ r1.2 ≤ 1 :=
    addc_cc_32_spec _ _ _ ha1 hb1 e0.2.2
  have e2 : r2.1 + 2^32 * r2.2 = a2 + b2 + r1.2 ∧ r2.1 < 2^32 ∧ r2.2 ≤ 1 :=
    addc_cc_32_spec _ _ _ ha2 hb2 e1.2.2
  have e3 : r3.1 + 2^32 * r3.2 = a3 + b3 + r2.2 ∧ r3.1 < 2^32 ∧ r3.2 ≤ 1 :=
    addc_cc_32_spec _ _ _ ha3 hb3 e2.2.2
  have e4 : r4.1 + 2^32 * r4.2 = a4 + b4 + r3.2 ∧ r4.1 < 2^32 ∧ r4.2 ≤ 1 :=
    addc_cc_32_spec _ _ _ ha4 hb4 e3.2.2
  have e5 : r5.1 + 2^32 * r5.2 = a5 + b5 + r4.2 ∧ r5.1 < 2^32 ∧ r5.2 ≤ 1 :=
    addc_cc_32_spec _ _ _ ha5 hb5 e4.2.2
  have e6 : r6.1 + 2^32 * r6.2 = a6 + b6 + r5.2 ∧ r6.1 < 2^32 ∧ r6.2 ≤ 1 :=
    addc_cc_32_spec _ _ _ ha6 hb6 e5.2.2
  have e7 : r7.1 + 2^32 * r7.2 = a7 + b7 + r6.2 ∧ r7.1 < 2^32 ∧ r7.2 ≤ 1 :=
    addc_cc_32_spec _ _ _ ha7 hb7 e6.2.2
  obtain ⟨q, e8⟩ : ∃ q, r8.1 + 2^32 * q = a8 + b8 + r7.2 := addc_32_mod _ _ _
  have h8 : r8.1 < 2^32 := addc_32_lt _ _ _
  subst hr
  refine ⟨⟨e0.2.1, e1.2.1, e2.2.1, e3.2.1, e4.2.1, e5.2.1, e6.2.1, e7.2.1, h8⟩, q, ?_⟩
  simp only [W9.toNat]
  linear_combination e0.1 + 2^32 * e1.1 + 2^64 * e2.1 + 2^96 * e3.1 + 2^128 * e4.1
    + 2^160 * e5.1 + 2^192 * e6.1 + 2^224 * e7.1 + 2^256 * e8

/-- `neg_288` negates modulo `2^288`. -/
theorem neg_288_spec (a : W9) (ha : a.wf) :
    (neg_288 a).wf ∧ ∃ q, (neg_288 a).toNat + a.toNat = 2^288 * q := by
  obtain ⟨a0, a1, a2, a3, a4, a5, a6, a7, a8⟩ := a
  simp only [W9.wf] at ha
  obtain ⟨ha0, ha1, ha2, ha3, ha4, ha5, ha6, ha7, ha8⟩ := ha
  generalize hr : neg_288 ⟨a0, a1, a2, a3, a4, a5, a6, a7, a8⟩ = r
  unfold neg_288 at hr
  lift_lets at hr
  extract_lets r0 r1 r2 r3 r4 r5 r6 r7 r8 at hr
  have z : (0:Nat) < 2^32 := by norm_num
  have e0 : r0.1 + a0 = 0 + 2^32 * r0.2 ∧ r0.1 < 2^32 ∧ r0.2 ≤ 1 := sub_cc_32_spec _ _ z ha0
  have e1 : r1.1 + a1 + r0.2 = 0 + 2^32 * r1.2 ∧ r1.1 < 2^32 ∧ r1.2 ≤ 1 :=
    subc_cc_32_spec _ _ _ z ha1 e0.2.2
  have e2 : r2.1 + a2 + r1.2 = 0 + 2^32 * r2.2 ∧ r2.1 < 2^32 ∧ r2.2 ≤ 1 :=
    subc_cc_32_spec _ _ _ z ha2 e1.2.2
  have e3 : r3.1 + a3 + r2.2 = 0 + 2^32 * r3.2 ∧ r3.1 < 2^32 ∧ r3.2 ≤ 1 :=
    subc_cc_32_spec _ _ _ z ha3 e2.2.2
  have e4 : r4.1 + a4 + r3.2 = 0 + 2^32 * r4.2 ∧ r4.1 < 2^32 ∧ r4.2 ≤ 1 :=
    subc_cc_32_spec _ _ _ z ha4 e3.2.2
  have e5 : r5.1 + a5 + r4.2 = 0 + 2^32 * r5.2 ∧ r5.1 < 2^32 ∧ r5.2 ≤ 1 :=
    subc_cc_32_spec _ _ _ z ha5 e4.2.2
  have e6 : r6.1 + a6 + r5.2 = 0 + 2^32 * r6.2 ∧ r6.1 < 2^32 ∧ r6.2 ≤ 1 :=
    subc_cc_32_spec _ _ _ z ha6 e5.2.2
  have e7 : r7.1 + a7 + r6.2 = 0 + 2^32 * r7.2 ∧ r7.1 < 2^32 ∧ r7.2 ≤ 1 :=
    subc_cc_32_spec _ _ _ z ha7 e6.2.2
  obtain ⟨q, e8⟩ : ∃ q, r8.1 + a8 + r7.2 = 0 + 2^32 * q := subc_32_spec _ _ _ z ha8 e7.2.2
  have h8 : r8.1 < 2^32 := subc_32_lt _ _ _
  subst hr
  refine ⟨⟨e0.2.1, e1.2.1, e2.2.1, e3.2.1, e4.2.1, e5.2.1, e6.2.1, e7.2.1, h8⟩, q, ?_⟩
  simp only [W9.toNat]
  linear_combination e0.1 + 2^32 * e1.1 + 2^64 * e2.1 + 2^96 * e3.1 + 2^128 * e4.1
    + 2^160 * e5.1 + 2^192 * e6.1 + 2^224 * e7.1 + 2^256 * e8

theorem W9_toInt_modEq (a : W9) : a.toInt ≡ (a.toNat : Int) [ZMOD 2^288] := by
  unfold W9.toInt
  split_ifs
  · exact Int.ModEq.refl _
  · have : ((a.toNat : Int) - 2^288) = (a.toNat : Int) + 2^288 * (-1) := by ring
    rw [this]
    exact Int.modEq_add_fac_self

theorem W9_toInt_range (a : W9) (ha : a.wf) : -2^287 ≤ a.toInt ∧ a.toInt < 2^287 := by
  have h := W9_toNat_lt a ha
  unfold W9.toInt
  split_ifs <;> omega

/-- A 288-bit value is determined by its residue modulo `2^288` among the integers of the
signed range. -/
theorem W9_toInt_eq_of_modEq (a : W9) (ha : a.wf) (z : Int)
    (h : (a.toNat : Int) ≡ z [ZMOD 2^288]) (h1 : -2^287 ≤ z) (h2 : z < 2^287) :
    a.toInt = z := by
  have hr := W9_toInt_range a ha
  have hm := (W9_toInt_modEq a).trans h
  generalize a.toInt = t at hr hm
  unfold Int.ModEq at hm
  omega

/-- `mul_288_by_i32` multiplies modulo `2^288`. -/
theorem mul_288_by_i32_spec (a : W9) (ha : a.wf) (m : Int) (hm : |m| < 2^32) :
    (mul_288_by_i32 a m).wf ∧
    ((mul_288_by_i32 a m).toNat : Int) ≡ (a.toNat : Int) * m [ZMOD 2^288] := by
  obtain ⟨a0, a1, a2, a3, a4, a5, a6, a7, a8⟩ := a
  simp only [W9.wf] at ha
  obtain ⟨ha0, ha1, ha2, ha3, ha4, ha5, ha6, ha7, ha8⟩ := ha
  have hv : m.natAbs % 2^32 = m.natAbs := by
    have := abs_lt.1 hm
    omega
  have hvlt : m.natAbs < 2^32 := by
    have := abs_lt.1 hm
    omega
  generalize hr : mul_288_by_i32 ⟨a0, a1, a2, a3, a4, a5, a6, a7, a8⟩ m = r
  unfold mul_288_by_i32 at hr
  lift_lets at hr
  extract_lets val32 r32_0 r32_1 r32_2 r32_3 t0 t1 t2 t3 c1 c2 c3 c4 c5 c6 c7 c8 res at hr
  have hval : val32 = m.natAbs := hv
  have hvl : val32 < 2^32 := hval ▸ hvlt
  have p0 := mul_wide_32_spec a0 val32 ha0 hvl
  have p2 := mul_wide_32_spec a2 val32 ha2 hvl
  have p4 := mul_wide_32_spec a4 val32 ha4 hvl
  have p6 := mul_wide_32_spec a6 val32 ha6 hvl
  have p1 := mul_wide_32_spec a1 val32 ha1 hvl
  have p3 := mul_wide_32_spec a3 val32 ha3 hvl
  have p5 := mul_wide_32_spec a5 val32 ha5 hvl
  have p7 := mul_wide_32_spec a7 val32 ha7 hvl
  have q0 : lo32 r32_0 + 2^32 * hi32 r32_0 = r32_0 ∧ lo32 r32_0 < 2^32 ∧ hi32 r32_0 ≤ 2^32 - 2 :=
    lo32_hi32_prod _ p0.2
  have q2 : lo32 r32_1 + 2^32 * hi32 r32_1 = r32_1 ∧ lo32 r32_1 < 2^32 ∧ hi32 r32_1 ≤ 2^32 - 2 :=
    lo32_hi32_prod _ p2.2
  have q4 : lo32 r32_2 + 2^32 * hi32 r32_2 = r32_2 ∧ lo32 r32_2 < 2^32 ∧ hi32 r32_2 ≤ 2^32 - 2 :=
    lo32_hi32_prod _ p4.2
  have q6 : lo32 r32_3 + 2^32 * hi32 r32_3 = r32_3 ∧ lo32 r32_3 < 2^32 ∧ hi32 r32_3 ≤ 2^32 - 2 :=
    lo32_hi32_prod _ p6.2
  have q1 : lo32 t0 + 2^32 * hi32 t0 = t0 ∧ lo32 t0 < 2^32 ∧ hi32 t0 ≤ 2^32 - 2 :=
    lo32_hi32_prod _ p1.2
  have q3 : lo32 t1 + 2^32 * hi32 t1 = t1 ∧ lo32 t1 < 2^32 ∧ hi32 t1 ≤ 2^32 - 2 :=
    lo32_hi32_prod _ p3.2
  have q5 : lo32 t2 + 2^32 * hi32 t2 = t2 ∧ lo32 t2 < 2^32 ∧ hi32 t2 ≤ 2^32 - 2 :=
    lo32_hi32_prod _ p5.2
  have q7 : lo32 t3 + 2^32 * hi32 t3 = t3 ∧ lo32 t3 < 2^32 ∧ hi32 t3 ≤ 2^32 - 2 :=
    lo32_hi32_prod _ p7.2
  have e1 : c1.1 + 2^32 * c1.2 = hi32 r32_0 + lo32 t0 ∧ c1.1 < 2^32 ∧ c1.2 ≤ 1 :=
    add_cc_32_spec _ _ (hi32_lt _) q1.2.1
  have e2 : c2.1 + 2^32 * c2.2 = lo32 r32_1 + hi32 t0 + c1.2 ∧ c2.1 < 2^32 ∧ c2.2 ≤ 1 :=
    addc_cc_32_spec _ _ _ q2.2.1 (hi32_lt _) e1.2.2
  have e3 : c3.1 + 2^32 * c3.2 = hi32 r32_1 + lo32 t1 + c2.2 ∧ c3.1 < 2^32 ∧ c3.2 ≤ 1 :=
    addc_cc_32_spec _ _ _ (hi32_lt _) q3.2.1 e2.2.2
  have e4 : c4.1 + 2^32 * c4.2 = lo32 r32_2 + hi32 t1 + c3.2 ∧ c4.1 < 2^32 ∧ c4.2 ≤ 1 :=
    addc_cc_32_spec _ _ _ q4.2.1 (hi32_lt _) e3.2.2
  have e5 : c5.1 + 2^32 * c5.2 = hi32 r32_2 + lo32 t2 + c4.2 ∧ c5.1 < 2^32 ∧ c5.2 ≤ 1 :=
    addc_cc_32_spec _ _ _ (hi32_lt _) q5.2.1 e4.2.2
  have e6 : c6.1 + 2^32 * c6.2 = lo32 r32_3 + hi32 t2 + c5.2 ∧ c6.1 < 2^32 ∧ c6.2 ≤ 1 :=
    addc_cc_32_spec _ _ _ q6.2.1 (hi32_lt _) e5.2.2
  have e7 : c7.1 + 2^32 * c7.2 = hi32 r32_3 + lo32 t3 + c6.2 ∧ c7.1 < 2^32 ∧ c7.2 ≤ 1 :=
    addc_cc_32_spec _ _ _ (hi32_lt _) q7.2.1 e6.2.2
  obtain ⟨q, e8⟩ : ∃ q, c8.1 + 2^32 * q = a8 * val32 + hi32 t3 + c7.2 := madc_lo_32_mod _ _ _ _
  have h8 : c8.1 < 2^32 := madc_lo_32_lt _ _ _ _
  have hres : res.wf := ⟨q0.2.1, e1.2.1, e2.2.1, e3.2.1, e4.2.1, e5.2.1, e6.2.1, e7.2.1, h8⟩
  have hval9 : res.toNat + 2^288 * q
      = (a0 + 2^32 * a1 + 2^64 * a2 + 2^96 * a3 + 2^128 * a4 + 2^160 * a5 + 2^192 * a6
          + 2^224 * a7 + 2^256 * a8) * val32 := by
    simp only [W9.toNat, res]
    linear_combination q0.1 + 2^32 * e1.1 + 2^64 * e2.1 + 2^96 * e3.1 + 2^128 * e4.1
      + 2^160 * e5.1 + 2^192 * e6.1 + 2^224 * e7.1 + 2^256 * e8
      + p0.1 + 2^32 * p1.1 + 2^64 * p2.1 + 2^96 * p3.1 + 2^128 * p4.1 + 2^160 * p5.1
      + 2^192 * p6.1 + 2^224 * p7.1
      + 2^32 * q1.1 + 2^64 * q2.1 + 2^96 * q3.1 + 2^128 * q4.1 + 2^160 * q5.1
      + 2^192 * q6.1 + 2^224 * q7.1
  clear_value res c1 c2 c3 c4 c5 c6 c7 c8 r32_0 r32_1 r32_2 r32_3 t0 t1 t2 t3
  simp only [W9.toNat]
  set A := a0 + 2^32 * a1 + 2^64 * a2 + 2^96 * a3 + 2^128 * a4 + 2^160 * a5 + 2^192 * a6
          + 2^224 * a7 + 2^256 * a8 with hA
  have hresZ : ((res.toNat : Nat) : Int) ≡ (A : Int) * (m.natAbs : Int) [ZMOD 2^288] := by
    have h1 : ((res.toNat : Nat) : Int) + 2^288 * (q : Int) = (A : Int) * (val32 : Int) := by
      exact_mod_cast hval9
    rw [← hval, ← h1]
    exact (Int.modEq_add_fac_self).symm
  by_cases hneg : m < 0
  · rw [if_pos hneg] at hr
    obtain ⟨hw, q2, hq2⟩ := neg_288_spec res hres
    subst hr
    refine ⟨hw, ?_⟩
    have h2 : ((neg_288 res).toNat : Int) + (res.toNat : Int) = 2^288 * (q2 : Int) := by
      have := congrArg (fun n : Nat => (n : Int)) hq2
      simpa only [Nat.cast_add, Nat.cast_mul, Nat.cast_pow, Nat.cast_ofNat] using this
    have h3 : ((neg_288 res).toNat : Int) ≡ -(res.toNat : Int) [ZMOD 2^288] := by
      have : ((neg_288 res).toNat : Int) = -(res.toNat : Int) + 2^288 * (q2 : Int) := by
        linarith
      rw [this]; exact Int.modEq_add_fac_self
    have h4 : (A : Int) * m = -((A : Int) * (m.natAbs : Int)) := by
      have : (m.natAbs : Int) = -m := by omega
      rw [this]; ring
    rw [h4]
    exact h3.trans hresZ.neg
  · rw [if_neg hneg] at hr
    subst hr
    refine ⟨hres, ?_⟩
    have : (m.natAbs : Int) = m := by omega
    rw [this] at hresZ
    exact hresZ

theorem funnelshift_r_30 (x y : Nat) (hx : x < 2^32) :
    funnelshift_r x y 30 = x / 2^30 + 4 * (y % 2^30) := by
  unfold funnelshift_r
  norm_num
  omega

theorem funnelshift_r_lt (x y n : Nat) : funnelshift_r x y n < 2^32 := by
  unfold funnelshift_r
  exact Nat.mod_lt _ (by norm_num)

/-- The arithmetic shift of the top word: quotient and remainder of the signed top word. -/
theorem top_word_shift (w : Nat) :
    toI32 w = 2^30 * (toI32 w / 2^30) + ((w % 2^30 : Nat) : Int) ∧
    toI32 (toU32 (toI32 w / 2^30)) = toI32 w / 2^30 := by
  unfold toI32 toU32 wrap32
  constructor <;> omega

/-- The signed value of nine words: the low eight words plus `2^256` times the signed top
word. -/
theorem W9_toInt_split (a : W9) (ha : a.wf) :
    a.toInt = ((a.w0 + 2^32 * a.w1 + 2^64 * a.w2 + 2^96 * a.w3 + 2^128 * a.w4 + 2^160 * a.w5
      + 2^192 * a.w6 + 2^224 * a.w7 : Nat) : Int) + 2^256 * toI32 a.w8 := by
  obtain ⟨a0, a1, a2, a3, a4, a5, a6, a7, a8⟩ := a
  simp only [W9.wf] at ha
  obtain ⟨ha0, ha1, ha2, ha3, ha4, ha5, ha6, ha7, ha8⟩ := ha
  have hL : a0 + 2^32 * a1 + 2^64 * a2 + 2^96 * a3 + 2^128 * a4 + 2^160 * a5
      + 2^192 * a6 + 2^224 * a7 < 2^256 := by omega
  simp only [W9.toInt, W9.toNat]
  generalize a0 + 2^32 * a1 + 2^64 * a2 + 2^96 * a3 + 2^128 * a4 + 2^160 * a5
      + 2^192 * a6 + 2^224 * a7 = L at hL ⊢
  unfold toI32 wrap32
  split_ifs <;> omega

theorem shiftR_288_by_30_wf (a : W9) : (shiftR_288_by_30 a).wf := by
  simp only [W9.wf, shiftR_288_by_30]
  exact ⟨funnelshift_r_lt _ _ _, funnelshift_r_lt _ _ _, funnelshift_r_lt _ _ _,
    funnelshift_r_lt _ _ _, funnelshift_r_lt _ _ _, funnelshift_r_lt _ _ _,
    funnelshift_r_lt _ _ _, funnelshift_r_lt _ _ _, toU32_lt _⟩

theorem shift_div (r X : Int) (h0 : 0 ≤ r) (h1 : r < 2^30) : (r + 2^30 * X) / 2^30 = X := by
  omega

/-- `shiftR_288_by_30` is the arithmetic shift: the floor of the signed value over `2^30`. -/
theorem shiftR_288_by_30_spec (a : W9) (ha : a.wf) :
    (shiftR_288_by_30 a).wf ∧ (shiftR_288_by_30 a).toInt = a.toInt / 2^30 := by
  have hwf : (shiftR_288_by_30 a).wf := shiftR_288_by_30_wf a
  refine ⟨hwf, ?_⟩
  rw [W9_toInt_split _ hwf, W9_toInt_split a ha]
  obtain ⟨a0, a1, a2, a3, a4, a5, a6, a7, a8⟩ := a
  simp only [W9.wf] at ha
  obtain ⟨ha0, ha1, ha2, ha3, ha4, ha5, ha6, ha7, ha8⟩ := ha
  simp only [shiftR_288_by_30]
  rw [funnelshift_r_30 a0 a1 ha0, funnelshift_r_30 a1 a2 ha1,
    funnelshift_r_30 a2 a3 ha2, funnelshift_r_30 a3 a4 ha3,
    funnelshift_r_30 a4 a5 ha4, funnelshift_r_30 a5 a6 ha5,
    funnelshift_r_30 a6 a7 ha6, funnelshift_r_30 a7 a8 ha7]
  obtain ⟨ht1, ht2⟩ := top_word_shift a8
  rw [ht2]
  have d0 := Nat.div_add_mod a0 (2^30)
  have d1 := Nat.div_add_mod a1 (2^30)
  have d2 := Nat.div_add_mod a2 (2^30)
  have d3 := Nat.div_add_mod a3 (2^30)
  have d4 := Nat.div_add_mod a4 (2^30)
  have d5 := Nat.div_add_mod a5 (2^30)
  have d6 := Nat.div_add_mod a6 (2^30)
  have d7 := Nat.div_add_mod a7 (2^30)
  have hr0 : a0 % 2^30 < 2^30 := Nat.mod_lt _ (by norm_num)
  generalize a0 / 2^30 = b0 at d0 ⊢
  generalize a1 / 2^30 = b1 at d1 ⊢
  generalize a2 / 2^30 = b2 at d2 ⊢
  generalize a3 / 2^30 = b3 at d3 ⊢
  generalize a4 / 2^30 = b4 at d4 ⊢
  generalize a5 / 2^30 = b5 at d5 ⊢
  generalize a6 / 2^30 = b6 at d6 ⊢
  generalize a7 / 2^30 = b7 at d7 ⊢
  generalize a0 % 2^30 = r0 at d0 hr0 ⊢
  generalize a1 % 2^30 = r1 at d1 ⊢
  generalize a2 % 2^30 = r2 at d2 ⊢
  generalize a3 % 2^30 = r3 at d3 ⊢
  generalize a4 % 2^30 = r4 at d4 ⊢
  generalize a5 % 2^30 = r5 at d5 ⊢
  generalize a6 % 2^30 = r6 at d6 ⊢
  generalize a7 % 2^30 = r7 at d7 ⊢
  generalize a8 % 2^30 = r8 at ht1 ⊢
  generalize toI32 a8 / 2^30 = t at ht1 ⊢
  generalize toI32 a8 = T at ht1 ⊢
  have key : (((a0 + 2^32 * a1 + 2^64 * a2 + 2^96 * a3 + 2^128 * a4 + 2^160 * a5
      + 2^192 * a6 + 2^224 * a7 : Nat) : Int) + 2^256 * T)
      = (r0 : Int) + 2^30 * ((((b0 + 4 * r1 + 2^32 * (b1 + 4 * r2) + 2^64 * (b2 + 4 * r3)
        + 2^96 * (b3 + 4 * r4) + 2^128 * (b4 + 4 * r5) + 2^160 * (b5 + 4 * r6)
        + 2^192 * (b6 + 4 * r7) + 2^224 * (b7 + 4 * r8) : Nat) : Int)) + 2^256 * t) := by
    have e0 : (a0 : Int) = 2^30 * b0 + r0 := by exact_mod_cast d0.symm
    have e1 : (a1 : Int) = 2^30 * b1 + r1 := by exact_mod_cast d1.symm
    have e2 : (a2 : Int) = 2^30 * b2 + r2 := by exact_mod_cast d2.symm
    have e3 : (a3 : Int) = 2^30 * b3 + r3 := by exact_mod_cast d3.symm
    have e4 : (a4 : Int) = 2^30 * b4 + r4 := by exact_mod_cast d4.symm
    have e5 : (a5 : Int) = 2^30 * b5 + r5 := by exact_mod_cast d5.symm
    have e6 : (a6 : Int) = 2^30 * b6 + r6 := by exact_mod_cast d6.symm
    have e7 : (a7 : Int) = 2^30 * b7 + r7 := by exact_mod_cast d7.symm
    push_cast
    linear_combination e0 + 2^32 * e1 + 2^64 * e2 + 2^96 * e3 + 2^128 * e4 + 2^160 * e5
      + 2^192 * e6 + 2^224 * e7 + 2^256 * ht1
  rw [key, shift_div _ _ (Int.natCast_nonneg r0) (by exact_mod_cast hr0)]

/-! ### The outer loop of `InvModP` -/

/-- The low word of a 288-bit value, read as an `int`, agrees with its signed value modulo
`2^32`. -/
theorem W9_low_word (a : W9) : toI32 a.w0 ≡ a.toInt [ZMOD 2^32] := by
  have h1 : a.toInt ≡ (a.toNat : Int) [ZMOD 2^32] :=
    Int.ModEq.of_dvd (pow_dvd_pow 2 (by norm_num : 32 ≤ 288)) (W9_toInt_modEq a)
  have h2 : (a.toNat : Int) ≡ (a.w0 : Int) [ZMOD 2^32] := by
    have : (a.toNat : Int) = (a.w0 : Int) + 2^32 * ((a.w1 + 2^32 * a.w2 + 2^64 * a.w3
        + 2^96 * a.w4 + 2^128 * a.w5 + 2^160 * a.w6 + 2^192 * a.w7 + 2^224 * a.w8 : Nat) : Int) := by
      simp only [W9.toNat]; push_cast; ring
    rw [this]; exact Int.modEq_add_fac_self
  exact (toI32_modEq _).trans (h1.trans h2).symm

theorem abs_row_le (m0 m1 F G M : Int) (hF : |F| ≤ M) (hG : |G| ≤ M) :
    |m0 * F + m1 * G| ≤ (|m0| + |m1|) * M := by
  have h1 : |m0 * F| ≤ |m0| * M := by
    rw [abs_mul]; exact mul_le_mul_of_nonneg_left hF (abs_nonneg _)
  have h2 : |m1 * G| ≤ |m1| * M := by
    rw [abs_mul]; exact mul_le_mul_of_nonneg_left hG (abs_nonneg _)
  have := abs_add (m0 * F) (m1 * G)
  linarith

/-- One row of the matrix applied to the full-width pair: the products and the sum stay in
the signed 288-bit range and the shift returns the exact quotient by `2^30`. -/
theorem apply_row (X Y : W9) (hX : X.wf) (hY : Y.wf) (m0 m1 f M : Int)
    (hFb : |X.toInt| ≤ M) (hGb : |Y.toInt| ≤ M) (hM : M ≤ 2^256)
    (hb : |m0| + |m1| ≤ 2^30) (hrow : m0 * X.toInt + m1 * Y.toInt = 2^30 * f) :
    (shiftR_288_by_30 (add_288 (mul_288_by_i32 X m0) (mul_288_by_i32 Y m1))).wf ∧
    (shiftR_288_by_30 (add_288 (mul_288_by_i32 X m0) (mul_288_by_i32 Y m1))).toInt = f ∧
    |f| ≤ M := by
  have hbb := abs_le_of_sum_le _ _ _ hb
  obtain ⟨w0, c0⟩ := mul_288_by_i32_spec X hX m0 (lt_of_le_of_lt hbb.1 (by norm_num))
  obtain ⟨w1, c1⟩ := mul_288_by_i32_spec Y hY m1 (lt_of_le_of_lt hbb.2 (by norm_num))
  obtain ⟨wa, q, hq⟩ := add_288_spec _ _ w0 w1
  have hM0 : 0 ≤ M := le_trans (abs_nonneg _) hFb
  have hbound : |(2:Int)^30 * f| ≤ 2^30 * M := by
    rw [← hrow]
    exact le_trans (abs_row_le m0 m1 _ _ M hFb hGb) (mul_le_mul_of_nonneg_right hb hM0)
  have hfM : |f| ≤ M := by
    rw [abs_mul, abs_of_nonneg (by positivity : (0:Int) ≤ 2^30)] at hbound
    exact le_of_mul_le_mul_left hbound (by positivity)
  have hsum : ((add_288 (mul_288_by_i32 X m0) (mul_288_by_i32 Y m1)).toNat : Int)
      ≡ 2^30 * f [ZMOD 2^288] := by
    have h1 : ((add_288 (mul_288_by_i32 X m0) (mul_288_by_i32 Y m1)).toNat : Int)
        + 2^288 * (q : Int)
        = ((mul_288_by_i32 X m0).toNat : Int) + ((mul_288_by_i32 Y m1).toNat : Int) := by
      have := congrArg (fun n : Nat => (n : Int)) hq
      simpa only [Nat.cast_add, Nat.cast_mul, Nat.cast_pow, Nat.cast_ofNat] using this
    have h2 : ((add_288 (mul_288_by_i32 X m0) (mul_288_by_i32 Y m1)).toNat : Int)
        ≡ ((mul_288_by_i32 X m0).toNat : Int) + ((mul_288_by_i32 Y m1).toNat : Int)
          [ZMOD 2^288] := by
      rw [← h1]; exact (Int.modEq_add_fac_self).symm
    have h3 : ((mul_288_by_i32 X m0).toNat : Int) ≡ m0 * X.toInt [ZMOD 2^288] := by
      rw [mul_comm m0]
      exact c0.trans ((W9_toInt_modEq X).symm.mul_right _)
    have h4 : ((mul_288_by_i32 Y m1).toNat : Int) ≡ m1 * Y.toInt [ZMOD 2^288] := by
      rw [mul_comm m1]
      exact c1.trans ((W9_toInt_modEq Y).symm.mul_right _)
    rw [← hrow]
    exact h2.trans (h3.add h4)
  have hr := abs_le.1 (le_trans hbound (mul_le_mul_of_nonneg_left hM (by positivity)))
  have e286 : (2:Int)^30 * 2^256 = 2^286 := by norm_num
  have hto : (add_288 (mul_288_by_i32 X m0) (mul_288_by_i32 Y m1)).toInt = 2^30 * f :=
    W9_toInt_eq_of_modEq _ wa _ hsum (by rw [e286] at hr; linarith [hr.1])
      (by rw [e286] at hr; linarith [hr.2])
  obtain ⟨ws, hs⟩ := shiftR_288_by_30_spec _ wa
  refine ⟨ws, ?_, hfM⟩
  rw [hs, hto]
  exact Int.mul_ediv_cancel_left _ (by positivity)

theorem PRIME_P_le : (PRIME_P : Int) ≤ 2^256 := by
  have : PRIME_P ≤ 2^256 := by unfold PRIME_P; omega
  exact_mod_cast this

/-- One batch and the update of `modp` and `val` keep the invariant between batches. -/
theorem batch_step (j : Nat) (kbnt : Int) (modp val : W9) (h : DivInv j kbnt modp val)
    (hj : j ≤ 31) (fuel : Nat) (hfuel : 30 ≤ fuel) :
    ∃ m, div_batch fuel kbnt val.w0 modp.w0 = some m ∧
      DivInv (j + 1) m.kbnt
        (shiftR_288_by_30 (add_288 (mul_288_by_i32 modp m.matrix0) (mul_288_by_i32 val m.matrix1)))
        (shiftR_288_by_30 (add_288 (mul_288_by_i32 modp m.matrix2) (mul_288_by_i32 val m.matrix3)))
    := by
  obtain ⟨wm, wv, hodd, hFb, hGb, hk, hpot⟩ := h
  have hK : 1 + 30 * j ≤ 2^20 := by omega
  obtain ⟨m, hm, f, g, hI, -, hkb, hLam⟩ :=
    div_batch_inv modp.toInt val.toInt kbnt val.w0 modp.w0
      (4 * (PRIME_P : ℚ)^2 * (2/3)^(30 * j)) (1 + 30 * j) hodd (W9_low_word val)
      (W9_low_word modp) hK (by push_cast; exact hk) hpot fuel hfuel
  obtain ⟨-, -, row0, row1, b0, b1, -, -, fodd, -⟩ := hI
  obtain ⟨w0, e0, hf⟩ := apply_row modp val wm wv m.matrix0 m.matrix1 f _ hFb hGb PRIME_P_le
    b0 row0
  obtain ⟨w1, e1, hg⟩ := apply_row modp val wm wv m.matrix2 m.matrix3 g _ hFb hGb PRIME_P_le
    (by simpa using b1) row1
  refine ⟨m, hm, w0, w1, ?_, ?_, ?_, ?_, ?_⟩
  · rw [e0]; exact fodd
  · rw [e0]; exact hf
  · rw [e1]; exact hg
  · have := abs_le.1 hkb
    rw [abs_le]; push_cast at this ⊢; constructor <;> omega
  · rw [e0, e1]
    have : 4 * (PRIME_P : ℚ)^2 * (2/3)^(30 * j) * (2/3)^30
        = 4 * (PRIME_P : ℚ)^2 * (2/3)^(30 * (j + 1)) := by
      rw [mul_add, mul_one, pow_add]; ring
    rw [← this]
    exact hLam

/-- The potential of the initial state `(-1, P, x)`. -/
theorem Lam_init (x : Int) (h0 : 0 ≤ x) (h1 : x ≤ (PRIME_P : Int)) :
    Lam (-1) ((PRIME_P : Int) : ℚ) (x : ℚ) ≤ 4 * (PRIME_P : ℚ)^2 := by
  have e := Lam_of_neg 1 le_rfl ((PRIME_P : Int) : ℚ) (x : ℚ)
  have e' : Lam (-1) ((PRIME_P : Int) : ℚ) (x : ℚ)
      = (2/3)^1 * Qf ((PRIME_P : Int) : ℚ) (2^1 * (x : ℚ)) := by
    simpa using e
  rw [e']
  have a0 : (0:ℚ) ≤ (x : ℚ) := by exact_mod_cast h0
  have a1 : (x : ℚ) ≤ (PRIME_P : ℚ) := by exact_mod_cast h1
  have a2 : (0:ℚ) ≤ (PRIME_P : ℚ) := Nat.cast_nonneg _
  unfold Qf
  push_cast
  nlinarith [mul_nonneg a0 a2, mul_nonneg a0 a0, mul_le_mul a1 a1 a0 a2]

/-- After 32 batches the bound on the potential is below the value `3/4` that every state
with a non-zero `val` has. -/
theorem pot_small (j : Nat) (hj : 32 ≤ j) :
    4 * (PRIME_P : ℚ)^2 * (2/3)^(30 * j) < 3 / 4 := by
  have hP : (PRIME_P : ℚ) ≤ 2^256 := by
    have : PRIME_P ≤ 2^256 := by unfold PRIME_P; omega
    exact_mod_cast this
  have hP0 : (0:ℚ) ≤ (PRIME_P : ℚ) := Nat.cast_nonneg _
  have hP2 : (PRIME_P : ℚ)^2 ≤ (2^256)^2 := pow_le_pow_left₀ hP0 hP 2
  have hy : ((2:ℚ)/3)^30 ≤ 1 / 2^17 := by norm_num
  have hy0 : (0:ℚ) ≤ (2/3)^30 := by positivity
  have hj' : ((2:ℚ)/3)^(30 * j) ≤ (1 / 2^17)^32 := by
    rw [pow_mul]
    calc (((2:ℚ)/3)^30)^j ≤ (((2:ℚ)/3)^30)^32 :=
          pow_le_pow_of_le_one hy0 (le_trans hy (by norm_num)) hj
      _ ≤ (1 / 2^17)^32 := pow_le_pow_left₀ hy0 hy 32
  have h3 : (0:ℚ) ≤ (2/3)^(30 * j) := by positivity
  calc 4 * (PRIME_P : ℚ)^2 * (2/3)^(30 * j)
      ≤ 4 * (2^256)^2 * (1 / 2^17)^32 := by
        apply mul_le_mul (by linarith) hj' h3 (by positivity)
    _ < 3 / 4 := by norm_num

/-- A 288-bit value that is zero has all its words zero. -/
theorem W9_or_zero (a : W9) (ha : a.wf) (h : a.toInt = 0) :
    (a.w0 ||| a.w1 ||| a.w2 ||| a.w3 ||| a.w4 ||| a.w5 ||| a.w6 ||| a.w7) = 0 := by
  have hlt := W9_toNat_lt a ha
  have h0 : a.toNat = 0 := by
    unfold W9.toInt at h
    split_ifs at h <;> omega
  obtain ⟨a0, a1, a2, a3, a4, a5, a6, a7, a8⟩ := a
  simp only [W9.toNat] at h0
  have e0 : a0 = 0 := by omega
  have e1 : a1 = 0 := by omega
  have e2 : a2 = 0 := by omega
  have e3 : a3 = 0 := by omega
  have e4 : a4 = 0 := by omega
  have e5 : a5 = 0 := by omega
  have e6 : a6 = 0 := by omega
  have e7 : a7 = 0 := by omega
  subst e0 e1 e2 e3 e4 e5 e6 e7
  simp

/-- The outer loop leaves through its `break` within 32 batches. -/
theorem inv_outer_loop_terminates (fuel : Nat) (hfuel : 30 ≤ fuel) :
    ∀ (n j : Nat) (st : InvRegs), DivInv j st.kbnt st.modp st.val → j ≤ 31 → 33 ≤ j + n →
      1 ≤ n → ∃ b, inv_outer_loop fuel n st = some b := by
  intro n
  induction n with
  | zero => intro j st _ _ _ h; omega
  | succ n ih =>
    intro j st hD hj hjn _
    obtain ⟨m, hm, hD'⟩ := batch_step j st.kbnt st.modp st.val hD hj fuel hfuel
    rw [inv_outer_loop]
    simp only [hm]
    split_ifs with hz
    · exact ⟨_, rfl⟩
    · have hG : (shiftR_288_by_30 (add_288 (mul_288_by_i32 st.modp m.matrix2)
          (mul_288_by_i32 st.val m.matrix3))).toInt ≠ 0 :=
        fun h0 => hz (W9_or_zero _ hD'.2.1 h0)
      have hlow := Lam_lower m.kbnt _ _ hD'.2.2.1 hG
      have hup := hD'.2.2.2.2.2.2
      have hj1 : j + 1 ≤ 31 := by
        by_contra hc
        have := pot_small (j + 1) (by omega)
        linarith
      exact ih (j + 1) _ hD' hj1 (by omega) (by omega)

/-! ### The closing loops and the termination of `InvModP` -/

theorem PRIME_P_words :
    (⟨0xFFFFFC2F, 0xFFFFFFFE, 0xFFFFFFFF, 0xFFFFFFFF, 0xFFFFFFFF, 0xFFFFFFFF, 0xFFFFFFFF,
      0xFFFFFFFF, 0⟩ : W9).toNat = PRIME_P := by
  unfold PRIME_P W9.toNat; norm_num

/-- `add_288_P` adds `P` modulo `2^288`. -/
theorem add_288_P_spec (a : W9) (ha : a.wf) :
    (add_288_P a).wf ∧ ∃ q, (add_288_P a).toNat + 2^288 * q = a.toNat + PRIME_P := by
  have e : add_288_P a = add_288 a ⟨0xFFFFFC2F, 0xFFFFFFFE, 0xFFFFFFFF, 0xFFFFFFFF, 0xFFFFFFFF,
      0xFFFFFFFF, 0xFFFFFFFF, 0xFFFFFFFF, 0⟩ := rfl
  rw [e, ← PRIME_P_words]
  exact add_288_spec a _ ha (by simp only [W9.wf]; norm_num)

/-- `sub_288_P` subtracts `P` modulo `2^288`. -/
theorem sub_288_P_spec (a : W9) (ha : a.wf) :
    (sub_288_P a).wf ∧ ∃ q, (sub_288_P a).toNat + PRIME_P = a.toNat + 2^288 * q := by
  obtain ⟨a0, a1, a2, a3, a4, a5, a6, a7, a8⟩ := a
  simp only [W9.wf] at ha
  obtain ⟨ha0, ha1, ha2, ha3, ha4, ha5, ha6, ha7, ha8⟩ := ha
  generalize hr : sub_288_P ⟨a0, a1, a2, a3, a4, a5, a6, a7, a8⟩ = r
  unfold sub_288_P at hr
  lift_lets at hr
  extract_lets r0 r1 r2 r3 r4 r5 r6 r7 r8 at hr
  have z : (0:Nat) < 2^32 := by norm_num
  have k0 : (0xFFFFFC2F : Nat) < 2^32 := by norm_num
  have k1 : (0xFFFFFFFE : Nat) < 2^32 := by norm_num
  have k2 : (0xFFFFFFFF : Nat) < 2^32 := by norm_num
  have e0 : r0.1 + 0xFFFFFC2F = a0 + 2^32 * r0.2 ∧ r0.1 < 2^32 ∧ r0.2 ≤ 1 :=
    sub_cc_32_spec _ _ ha0 k0
  have e1 : r1.1 + 0xFFFFFFFE + r0.2 = a1 + 2^32 * r1.2 ∧ r1.1 < 2^32 ∧ r1.2 ≤ 1 :=
    subc_cc_32_spec _ _ _ ha1 k1 e0.2.2
  have e2 : r2.1 + 0xFFFFFFFF + r1.2 = a2 + 2^32 * r2.2 ∧ r2.1 < 2^32 ∧ r2.2 ≤ 1 :=
    subc_cc_32_spec _ _ _ ha2 k2 e1.2.2
  have e3 : r3.1 + 0xFFFFFFFF + r2.2 = a3 + 2^32 * r3.2 ∧ r3.1 < 2^32 ∧ r3.2 ≤ 1 :=
    subc_cc_32_spec _ _ _ ha3 k2 e2.2.2
  have e4 : r4.1 + 0xFFFFFFFF + r3.2 = a4 + 2^32 * r4.2 ∧ r4.1 < 2^32 ∧ r4.2 ≤ 1 :=
    subc_cc_32_spec _ _ _ ha4 k2 e3.2.2
  have e5 : r5.1 + 0xFFFFFFFF + r4.2 = a5 + 2^32 * r5.2 ∧ r5.1 < 2^32 ∧ r5.2 ≤ 1 :=
    subc_cc_32_spec _ _ _ ha5 k2 e4.2.2
  have e6 : r6.1 + 0xFFFFFFFF + r5.2 = a6 + 2^32 * r6.2 ∧ r6.1 < 2^32 ∧ r6.2 ≤ 1 :=
    subc_cc_32_spec _ _ _ ha6 k2 e5.2.2
  have e7 : r7.1 + 0xFFFFFFFF + r6.2 = a7 + 2^32 * r7.2 ∧ r7.1 < 2^32 ∧ r7.2 ≤ 1 :=
    subc_cc_32_spec _ _ _ ha7 k2 e6.2.2
  obtain ⟨q, e8⟩ : ∃ q, r8.1 + 0 + r7.2 = a8 + 2^32 * q := subc_32_spec _ _ _ ha8 z e7.2.2
  have h8 : r8.1 < 2^32 := subc_32_lt _ _ _
  subst hr
  refine ⟨⟨e0.2.1, e1.2.1, e2.2.1, e3.2.1, e4.2.1, e5.2.1, e6.2.1, e7.2.1, h8⟩, q, ?_⟩
  have hP : PRIME_P = 0xFFFFFC2F + 2^32 * 0xFFFFFFFE + 2^64 * 0xFFFFFFFF + 2^96 * 0xFFFFFFFF
      + 2^128 * 0xFFFFFFFF + 2^160 * 0xFFFFFFFF + 2^192 * 0xFFFFFFFF + 2^224 * 0xFFFFFFFF := by
    unfold PRIME_P; norm_num
  simp only [W9.toNat]
  rw [hP]
  linear_combination e0.1 + 2^32 * e1.1 + 2^64 * e2.1 + 2^96 * e3.1 + 2^128 * e4.1
    + 2^160 * e5.1 + 2^192 * e6.1 + 2^224 * e7.1 + 2^256 * e8

/-- The value of nine words lies between `2^256` times the top word and the next multiple. -/
theorem W9_top (a : W9) (ha : a.wf) :
    2^256 * a.w8 ≤ a.toNat ∧ a.toNat < 2^256 * (a.w8 + 1) := by
  obtain ⟨a0, a1, a2, a3, a4, a5, a6, a7, a8⟩ := a
  simp only [W9.wf, W9.toNat] at *
  omega

theorem toI32_neg_iff (w : Nat) (hw : w < 2^32) : toI32 w < 0 ↔ 2^31 ≤ w := by
  unfold toI32 wrap32; omega

theorem toI32_pos_iff (w : Nat) (hw : w < 2^32) : toI32 w > 0 ↔ (1 ≤ w ∧ w < 2^31) := by
  unfold toI32 wrap32; omega

theorem PRIME_P_bounds : 0 < PRIME_P ∧ PRIME_P < 2^256 ∧ 2^255 < PRIME_P := by
  unfold PRIME_P; norm_num

theorem add_P_step (A A' q P n : Nat) (hA : A < 2^288) (hP : P < 2^256)
    (h : A' + 2^288 * q = A + P) (hn : 2^288 ≤ A + (n * P + P)) (hneg : 2^287 ≤ A') :
    2^288 ≤ A' + n * P := by
  omega

/-- The loop `while ((int)res[8] < 0) add_288_P(res)` ends when the fuel covers the distance
to `2^288`. -/
theorem add_P_loop_terminates (fuel : Nat) : ∀ (a : W9), a.wf →
    (toI32 a.w8 < 0 → 2^288 ≤ a.toNat + fuel * PRIME_P) →
    ∃ r, add_P_loop fuel a = some r ∧ r.wf := by
  induction fuel with
  | zero =>
    intro a ha h
    have hlt := W9_toNat_lt a ha
    have hn : ¬ toI32 a.w8 < 0 := by
      intro hneg
      have := h hneg
      omega
    exact ⟨a, by simp only [add_P_loop, if_neg hn], ha⟩
  | succ n ih =>
    intro a ha h
    by_cases hneg : toI32 a.w8 < 0
    · obtain ⟨hw, q, hq⟩ := add_288_P_spec a ha
      have hlt := W9_toNat_lt a ha
      have hcond : toI32 (add_288_P a).w8 < 0 → 2^288 ≤ (add_288_P a).toNat + n * PRIME_P := by
        intro hneg'
        have h1 := (toI32_neg_iff _ hw.2.2.2.2.2.2.2.2).1 hneg'
        have h2 := (W9_top _ hw).1
        have h3 := h hneg
        rw [Nat.succ_mul] at h3
        exact add_P_step _ _ q _ n hlt PRIME_P_bounds.2.1 hq h3 (by omega)
      obtain ⟨r, e, hr⟩ := ih _ hw hcond
      exact ⟨r, by simp only [add_P_loop, if_pos hneg]; exact e, hr⟩
    · exact ⟨a, by simp only [add_P_loop, if_neg hneg], ha⟩

theorem sub_P_step (A A' q P n : Nat) (hA' : A' < 2^288) (hP : P < 2^256)
    (h : A' + P = A + 2^288 * q) (hn : A ≤ n * P + P) (hpos : 2^256 ≤ A) :
    A' ≤ n * P := by
  omega

/-- The loop `while ((int)res[8] > 0) sub_288_P(res)` ends when the fuel covers the value. -/
theorem sub_P_loop_terminates (fuel : Nat) : ∀ (a : W9), a.wf →
    (toI32 a.w8 > 0 → a.toNat ≤ fuel * PRIME_P) →
    ∃ r, sub_P_loop fuel a = some r ∧ r.wf := by
  induction fuel with
  | zero =>
    intro a ha h
    have hn : ¬ toI32 a.w8 > 0 := by
      intro hpos
      have h1 := (toI32_pos_iff _ ha.2.2.2.2.2.2.2.2).1 hpos
      have h2 := (W9_top _ ha).1
      have := h hpos
      omega
    exact ⟨a, by simp only [sub_P_loop, if_neg hn], ha⟩
  | succ n ih =>
    intro a ha h
    by_cases hpos : toI32 a.w8 > 0
    · obtain ⟨hw, q, hq⟩ := sub_288_P_spec a ha
      have hlt := W9_toNat_lt _ hw
      have hcond : toI32 (sub_288_P a).w8 > 0 → (sub_288_P a).toNat ≤ n * PRIME_P := by
        intro _
        have h1 := (toI32_pos_iff _ ha.2.2.2.2.2.2.2.2).1 hpos
        have h2 := (W9_top _ ha).1
        have h3 := h hpos
        rw [Nat.succ_mul] at h3
        exact sub_P_step _ _ q _ n hlt PRIME_P_bounds.2.1 hq h3 (by omega)
      obtain ⟨r, e, hr⟩ := ih _ hw hcond
      exact ⟨r, by simp only [sub_P_loop, if_pos hpos]; exact e, hr⟩
    · exact ⟨a, by simp only [sub_P_loop, if_neg hpos], ha⟩

/-- The batch before the outer loop establishes the invariant between batches. -/
theorem inv_first_batch_inv (res : W9) (hw : res.wf) (h0 : 0 < res.low)
    (h1 : res.low < PRIME_P) (fuel : Nat) (hfuel : 30 ≤ fuel) :
    ∃ st, inv_first_batch fuel res = some st ∧ DivInv 1 st.kbnt st.modp st.val := by
  obtain ⟨hw0, hw1, hw2, hw3, hw4, hw5, hw6, hw7, -⟩ := hw
  have hPb := PRIME_P_bounds
  have hmw : (⟨lo32 P_0, hi32 P_0, lo32 P_123, hi32 P_123, lo32 P_123, hi32 P_123,
      lo32 P_123, hi32 P_123, 0⟩ : W9).wf :=
    ⟨lo32_lt _, hi32_lt _, lo32_lt _, hi32_lt _, lo32_lt _, hi32_lt _, lo32_lt _, hi32_lt _,
      by norm_num⟩
  have hvw : (⟨res.w0, res.w1, res.w2, res.w3, res.w4, res.w5, res.w6, res.w7, 0⟩ : W9).wf :=
    ⟨hw0, hw1, hw2, hw3, hw4, hw5, hw6, hw7, by norm_num⟩
  have hmN : (⟨lo32 P_0, hi32 P_0, lo32 P_123, hi32 P_123, lo32 P_123, hi32 P_123,
      lo32 P_123, hi32 P_123, 0⟩ : W9).toNat = PRIME_P := by
    simp [W9.toNat, lo32, hi32, P_0, P_123, PRIME_P]
  have hvN : (⟨res.w0, res.w1, res.w2, res.w3, res.w4, res.w5, res.w6, res.w7, 0⟩ : W9).toNat
      = res.low := by
    simp [W9.toNat, W9.low]
  have hmZ : (⟨lo32 P_0, hi32 P_0, lo32 P_123, hi32 P_123, lo32 P_123, hi32 P_123,
      lo32 P_123, hi32 P_123, 0⟩ : W9).toInt = (PRIME_P : Int) :=
    W9_toInt_eq_of_modEq _ hmw _ (by rw [hmN]) (by omega) (by omega)
  have hvZ : (⟨res.w0, res.w1, res.w2, res.w3, res.w4, res.w5, res.w6, res.w7, 0⟩ : W9).toInt
      = (res.low : Int) :=
    W9_toInt_eq_of_modEq _ hvw _ (by rw [hvN]) (by omega) (by omega)
  have hodd : (PRIME_P : Int) % 2 = 1 := by
    have : PRIME_P % 2 = 1 := by unfold PRIME_P; norm_num
    omega
  have hD0 : DivInv 0 (-1)
      ⟨lo32 P_0, hi32 P_0, lo32 P_123, hi32 P_123, lo32 P_123, hi32 P_123, lo32 P_123,
        hi32 P_123, 0⟩
      ⟨res.w0, res.w1, res.w2, res.w3, res.w4, res.w5, res.w6, res.w7, 0⟩ := by
    refine ⟨hmw, hvw, ?_, ?_, ?_, ?_, ?_⟩
    · rw [hmZ]; exact hodd
    · rw [hmZ, abs_of_nonneg (Int.natCast_nonneg _)]
    · rw [hvZ, abs_of_nonneg (Int.natCast_nonneg _)]
      exact_mod_cast h1.le
    · norm_num
    · rw [hmZ, hvZ]
      have := Lam_init (res.low : Int) (Int.natCast_nonneg _) (by exact_mod_cast h1.le)
      simpa using this
  obtain ⟨m, hm, hD1⟩ := batch_step 0 (-1) _ _ hD0 (by norm_num) fuel hfuel
  have hm' : div_batch fuel (-1) res.w0 (P_0 % 2^32) = some m := hm
  unfold inv_first_batch
  simp only [hm']
  exact ⟨_, rfl, hD1⟩

theorem fuel_covers (fuel : Nat) (hfuel : 2^32 ≤ fuel) : 2^287 ≤ fuel * PRIME_P :=
  calc 2^287 = 2^32 * 2^255 := by norm_num
    _ ≤ fuel * PRIME_P := Nat.mul_le_mul hfuel PRIME_P_bounds.2.2.le

/-- The closing loops end for every 288-bit value. -/
theorem closing_terminates (fuel : Nat) (hfuel : 2^32 ≤ fuel) (a : W9) (ha : a.wf) :
    ∃ r, (add_P_loop fuel a).bind (sub_P_loop fuel) = some r := by
  have hf := fuel_covers fuel hfuel
  obtain ⟨r1, e1, hr1⟩ := add_P_loop_terminates fuel a ha (by
    intro hneg
    have h1 := (toI32_neg_iff _ ha.2.2.2.2.2.2.2.2).1 hneg
    have h2 := (W9_top _ ha).1
    omega)
  obtain ⟨r2, e2, -⟩ := sub_P_loop_terminates fuel r1 hr1 (by
    intro hpos
    have h1 := (toI32_pos_iff _ hr1.2.2.2.2.2.2.2.2).1 hpos
    have h2 := (W9_top _ hr1).2
    omega)
  exact ⟨r2, by rw [e1, Option.some_bind, e2]⟩

/-- C10: for every input `a` in `(0, P)` held in the low eight words of `res`, `InvModP`
terminates: every inner loop ends, the outer loop reaches its `break` (the low 256 bits of
`val` are zero) within 33 batches, and the closing add-`P` / subtract-`P` loops end; fuel
`2^32` suffices for every loop. -/
theorem C10_InvModP_terminates (res : W9) (hw : res.wf) (h0 : 0 < res.low)
    (h1 : res.low < PRIME_P) (fuel : Nat) (hfuel : 2^32 ≤ fuel) :
    ∃ r, InvModP fuel res = some r := by
  have hf30 : 30 ≤ fuel := le_trans (by norm_num) hfuel
  obtain ⟨st, hst, hD⟩ := inv_first_batch_inv res hw h0 h1 fuel hf30
  obtain ⟨b, hb⟩ := inv_outer_loop_terminates fuel hf30 fuel 1 st hD (by norm_num)
    (by have : 32 ≤ fuel := le_trans (by norm_num) hfuel
        omega)
    (le_trans (by norm_num) hfuel)
  unfold InvModP
  rw [hst, Option.some_bind, hb, Option.some_bind]
  refine closing_terminates fuel hfuel _ ?_
  split_ifs
  · exact (neg_288_spec _ (shiftR_288_by_30_wf _)).1
  · exact shiftR_288_by_30_wf _

theorem C10_InvModP_terminates_witness :
    (W9.mk 7 0 0 0 0 0 0 0 0).wf ∧ 0 < (W9.mk 7 0 0 0 0 0 0 0 0).low ∧
    (W9.mk 7 0 0 0 0 0 0 0 0).low < PRIME_P ∧ 2^32 ≤ 2^32 ∧
    ∃ r, InvModP (2^32) (W9.mk 7 0 0 0 0 0 0 0 0) = some r :=
  ⟨by decide, by decide, by decide, le_refl _,
    C10_InvModP_terminates (W9.mk 7 0 0 0 0 0 0 0 0) (by decide) (by decide) (by decide)
      (2^32) (le_refl _)⟩

/-! ## The closing canonicalisation of `InvModP` -/

theorem add_P_loop_done (fuel : Nat) (a : W9) (h : ¬ toI32 a.w8 < 0) :
    add_P_loop fuel a = some a := by
  cases fuel <;> simp only [add_P_loop, if_neg h]

theorem sub_P_loop_done (fuel : Nat) (a : W9) (h : ¬ toI32 a.w8 > 0) :
    sub_P_loop fuel a = some a := by
  cases fuel <;> simp only [sub_P_loop, if_neg h]

/-- The sign of the top word is the sign of the 288-bit value, and the top word is positive
exactly from `2^256` on. -/
theorem W9_top_sign (a : W9) (ha : a.wf) :
    (toI32 a.w8 < 0 ↔ a.toInt < 0) ∧ (toI32 a.w8 > 0 ↔ 2^256 ≤ a.toInt) ∧
    (0 ≤ a.toInt → a.toInt < 2^256 → a.w8 = 0 ∧ (a.low : Int) = a.toInt) := by
  have hs := W9_toInt_split a ha
  have hl : a.low < 2^256 := by
    obtain ⟨h0, h1, h2, h3, h4, h5, h6, h7, -⟩ := ha
    unfold W9.low; omega
  have h8 := ha.2.2.2.2.2.2.2.2
  have hlow : ((a.w0 + 2^32 * a.w1 + 2^64 * a.w2 + 2^96 * a.w3 + 2^128 * a.w4 + 2^160 * a.w5
      + 2^192 * a.w6 + 2^224 * a.w7 : Nat) : Int) = (a.low : Int) := rfl
  rw [hlow] at hs
  generalize a.toInt = v at hs ⊢
  generalize a.low = L at hs hl ⊢
  generalize a.w8 = w at hs h8 ⊢
  unfold toI32 wrap32 at hs ⊢
  refine ⟨?_, ?_, ?_⟩ <;> omega

theorem add_288_P_exact (a : W9) (ha : a.wf) (h1 : -2^287 ≤ a.toInt + PRIME_P)
    (h2 : a.toInt + PRIME_P < 2^287) :
    (add_288_P a).wf ∧ (add_288_P a).toInt = a.toInt + PRIME_P := by
  obtain ⟨hw, q, hq⟩ := add_288_P_spec a ha
  refine ⟨hw, W9_toInt_eq_of_modEq _ hw _ ?_ h1 h2⟩
  have e : ((add_288_P a).toNat : Int) + 2^288 * (q : Int) = (a.toNat : Int) + PRIME_P := by
    have := congrArg (fun n : Nat => (n : Int)) hq
    simpa only [Nat.cast_add, Nat.cast_mul, Nat.cast_pow, Nat.cast_ofNat] using this
  have e1 : ((add_288_P a).toNat : Int) ≡ (a.toNat : Int) + PRIME_P [ZMOD 2^288] := by
    rw [← e]; exact (Int.modEq_add_fac_self).symm
  exact e1.trans ((W9_toInt_modEq a).symm.add_right _)

theorem sub_288_P_exact (a : W9) (ha : a.wf) (h1 : -2^287 ≤ a.toInt - PRIME_P)
    (h2 : a.toInt - PRIME_P < 2^287) :
    (sub_288_P a).wf ∧ (sub_288_P a).toInt = a.toInt - PRIME_P := by
  obtain ⟨hw, q, hq⟩ := sub_288_P_spec a ha
  refine ⟨hw, W9_toInt_eq_of_modEq _ hw _ ?_ h1 h2⟩
  have e : ((sub_288_P a).toNat : Int) + PRIME_P = (a.toNat : Int) + 2^288 * (q : Int) := by
    have := congrArg (fun n : Nat => (n : Int)) hq
    simpa only [Nat.cast_add, Nat.cast_mul, Nat.cast_pow, Nat.cast_ofNat] using this
  have e1 : ((sub_288_P a).toNat : Int) ≡ (a.toNat : Int) - PRIME_P [ZMOD 2^288] := by
    have : ((sub_288_P a).toNat : Int) = (a.toNat : Int) - PRIME_P + 2^288 * (q : Int) := by
      linarith
    rw [this]; exact Int.modEq_add_fac_self
  exact e1.trans ((W9_toInt_modEq a).symm.sub_right _)

theorem PRIME_P_int_bounds : (2:Int)^255 < (PRIME_P : Int) ∧ (PRIME_P : Int) < 2^256 := by
  have h := PRIME_P_bounds
  constructor
  · exact_mod_cast h.2.2
  · exact_mod_cast h.2.1

/-- The loop `while ((int)res[8] < 0) add_288_P(res)` from a value in `(-2P, 2P)`: two
iterations at most, and non-negative values are left alone. -/
theorem add_phase (a : W9) (ha : a.wf) (h1 : -2 * (PRIME_P : Int) < a.toInt) (n : Nat) :
    ∃ b, add_P_loop (n + 2) a = some b ∧ b.wf ∧
      b.toInt = (if a.toInt < -(PRIME_P : Int) then a.toInt + 2 * PRIME_P
        else if a.toInt < 0 then a.toInt + PRIME_P else a.toInt) := by
  obtain ⟨hP1, hP2⟩ := PRIME_P_int_bounds
  have hs := (W9_top_sign a ha).1
  by_cases hneg : a.toInt < 0
  · have htop : toI32 a.w8 < 0 := hs.2 hneg
    obtain ⟨hw1, e1⟩ := add_288_P_exact a ha (by linarith) (by linarith)
    have hs1 := (W9_top_sign _ hw1).1
    by_cases hneg1 : a.toInt < -(PRIME_P : Int)
    · have htop1 : toI32 (add_288_P a).w8 < 0 := hs1.2 (by rw [e1]; linarith)
      obtain ⟨hw2, e2⟩ := add_288_P_exact _ hw1 (by rw [e1]; linarith) (by rw [e1]; linarith)
      have hs2 := (W9_top_sign _ hw2).1
      have hdone : ¬ toI32 (add_288_P (add_288_P a)).w8 < 0 := by
        intro h
        have := hs2.1 h
        rw [e2, e1] at this
        linarith
      refine ⟨add_288_P (add_288_P a), ?_, hw2, ?_⟩
      · rw [add_P_loop, if_pos htop, add_P_loop, if_pos htop1]
        exact add_P_loop_done _ _ hdone
      · rw [if_pos hneg1, e2, e1]; ring
    · have hdone : ¬ toI32 (add_288_P a).w8 < 0 := by
        intro h
        have := hs1.1 h
        rw [e1] at this
        linarith
      refine ⟨add_288_P a, ?_, hw1, ?_⟩
      · rw [add_P_loop, if_pos htop]
        exact add_P_loop_done _ _ hdone
      · rw [if_neg hneg1, if_pos hneg, e1]
  · have hdone : ¬ toI32 a.w8 < 0 := fun h => hneg (hs.1 h)
    refine ⟨a, add_P_loop_done _ _ hdone, ha, ?_⟩
    rw [if_neg (by linarith), if_neg hneg]

/-- The loop `while ((int)res[8] > 0) sub_288_P(res)` from a value in `[0, 2P)`: one
iteration when the value is `2^256` or more, none below `2^256`. -/
theorem sub_phase (b : W9) (hb : b.wf) (h1 : 0 ≤ b.toInt) (h2 : b.toInt < 2 * (PRIME_P : Int))
    (n : Nat) :
    ∃ r, sub_P_loop (n + 1) b = some r ∧ r.wf ∧ r.w8 = 0 ∧
      (r.low : Int) = (if b.toInt < 2^256 then b.toInt else b.toInt - PRIME_P) := by
  obtain ⟨hP1, hP2⟩ := PRIME_P_int_bounds
  obtain ⟨-, hs, hz⟩ := W9_top_sign b hb
  by_cases hlt : b.toInt < 2^256
  · have hdone : ¬ toI32 b.w8 > 0 := by
      intro h
      have := hs.1 h
      linarith
    obtain ⟨z1, z2⟩ := hz h1 hlt
    exact ⟨b, sub_P_loop_done _ _ hdone, hb, z1, by rw [if_pos hlt, z2]⟩
  · have hge : (2:Int)^256 ≤ b.toInt := not_lt.1 hlt
    have htop : toI32 b.w8 > 0 := hs.2 hge
    obtain ⟨hw1, e1⟩ := sub_288_P_exact b hb (by linarith) (by linarith)
    obtain ⟨-, hs1, hz1⟩ := W9_top_sign _ hw1
    have hdone : ¬ toI32 (sub_288_P b).w8 > 0 := by
      intro h
      have := hs1.1 h
      rw [e1] at this
      linarith
    obtain ⟨z1, z2⟩ := hz1 (by rw [e1]; linarith) (by rw [e1]; linarith)
    refine ⟨sub_288_P b, ?_, hw1, z1, ?_⟩
    · rw [sub_P_loop, if_pos htop]
      exact sub_P_loop_done _ _ hdone
    · rw [if_neg hlt, z2, e1]

/-- C11 (counterexample): the accumulator holding exactly `P` (top word zero) lies in
`(-2P, 2P)`, both closing loops leave it unchanged, and `P` is not in `[0, P)`. -/
theorem C11_closing_not_canonical :
    (W9.mk 0xFFFFFC2F 0xFFFFFFFE 0xFFFFFFFF 0xFFFFFFFF 0xFFFFFFFF 0xFFFFFFFF 0xFFFFFFFF
      0xFFFFFFFF 0).wf ∧
    -2 * (PRIME_P : Int) < (W9.mk 0xFFFFFC2F 0xFFFFFFFE 0xFFFFFFFF 0xFFFFFFFF 0xFFFFFFFF
      0xFFFFFFFF 0xFFFFFFFF 0xFFFFFFFF 0).toInt ∧
    (W9.mk 0xFFFFFC2F 0xFFFFFFFE 0xFFFFFFFF 0xFFFFFFFF 0xFFFFFFFF 0xFFFFFFFF 0xFFFFFFFF
      0xFFFFFFFF 0).toInt < 2 * (PRIME_P : Int) ∧
    (add_P_loop 4 (W9.mk 0xFFFFFC2F 0xFFFFFFFE 0xFFFFFFFF 0xFFFFFFFF 0xFFFFFFFF 0xFFFFFFFF
      0xFFFFFFFF 0xFFFFFFFF 0)).bind (sub_P_loop 4)
      = some (W9.mk 0xFFFFFC2F 0xFFFFFFFE 0xFFFFFFFF 0xFFFFFFFF 0xFFFFFFFF 0xFFFFFFFF
        0xFFFFFFFF 0xFFFFFFFF 0) ∧
    ¬ (W9.mk 0xFFFFFC2F 0xFFFFFFFE 0xFFFFFFFF 0xFFFFFFFF 0xFFFFFFFF 0xFFFFFFFF 0xFFFFFFFF
      0xFFFFFFFF 0).low < PRIME_P := by
  have hw : (W9.mk 0xFFFFFC2F 0xFFFFFFFE 0xFFFFFFFF 0xFFFFFFFF 0xFFFFFFFF 0xFFFFFFFF 0xFFFFFFFF
      0xFFFFFFFF 0).wf := by decide
  have hv : (W9.mk 0xFFFFFC2F 0xFFFFFFFE 0xFFFFFFFF 0xFFFFFFFF 0xFFFFFFFF 0xFFFFFFFF 0xFFFFFFFF
      0xFFFFFFFF 0).toInt = (PRIME_P : Int) := by
    have hb := PRIME_P_int_bounds
    exact W9_toInt_eq_of_modEq _ hw _ (by rw [PRIME_P_words]) (by linarith [hb.1])
      (by linarith [hb.2])
  have hb := PRIME_P_int_bounds
  refine ⟨hw, by rw [hv]; linarith [hb.1], by rw [hv]; linarith [hb.1], by decide, by decide⟩

/-- C11 (amended): from every signed 288-bit value `v` with `-2P < v < 2P` the closing
loops end (two iterations of each suffice) and leave a value `r` with top word zero, so
`0 ≤ r < 2^256`, congruent to `v` modulo `P`; `r` is canonical (`r < P`) exactly when `v` is
not in `[P, 2^256)`, the values the loops leave unchanged. -/
theorem C11_closing_relaxed (a : W9) (ha : a.wf) (h1 : -2 * (PRIME_P : Int) < a.toInt)
    (h2 : a.toInt < 2 * (PRIME_P : Int)) (fuel : Nat) (hfuel : 2 ≤ fuel) :
    ∃ r, (add_P_loop fuel a).bind (sub_P_loop fuel) = some r ∧ r.w8 = 0 ∧ r.low < 2^256 ∧
      (r.low : Int) ≡ a.toInt [ZMOD (PRIME_P : Int)] ∧
      (r.low < PRIME_P ↔ ¬ ((PRIME_P : Int) ≤ a.toInt ∧ a.toInt < 2^256)) := by
  obtain ⟨n, rfl⟩ : ∃ n, fuel = n + 2 := ⟨fuel - 2, by omega⟩
  obtain ⟨hP1, hP2⟩ := PRIME_P_int_bounds
  obtain ⟨b, eb, hb, vb⟩ := add_phase a ha h1 n
  have hb0 : 0 ≤ b.toInt ∧ b.toInt < 2 * (PRIME_P : Int) := by
    rw [vb]; split_ifs <;> constructor <;> linarith
  obtain ⟨r, er, hr, r8, vr⟩ := sub_phase b hb hb0.1 hb0.2 (n + 1)
  have hlow : r.low < 2^256 := by
    obtain ⟨h0, h1, h2, h3, h4, h5, h6, h7, -⟩ := hr
    unfold W9.low; omega
  refine ⟨r, by rw [eb, Option.some_bind, er], r8, hlow, ?_, ?_⟩
  · have hk : ∃ k : Int, (r.low : Int) = a.toInt + (PRIME_P : Int) * k := by
      rw [vr, vb]
      split_ifs
      exacts [⟨2, by ring⟩, ⟨1, by ring⟩, ⟨1, by ring⟩, ⟨0, by ring⟩, ⟨0, by ring⟩,
        ⟨-1, by ring⟩]
    obtain ⟨k, hk⟩ := hk
    rw [hk]
    exact Int.modEq_add_fac_self
  · have hc : (r.low < PRIME_P) ↔ ((r.low : Int) < (PRIME_P : Int)) := by
      constructor <;> intro h <;> exact_mod_cast h
    rw [hc, vr, vb]
    generalize (PRIME_P : Int) = p at *
    generalize a.toInt = v at *
    clear hc vr vb er eb hb hr hb0 hlow r8 ha
    split_ifs <;> omega

theorem C11_closing_relaxed_witness :
    (W9.mk 5 0 0 0 0 0 0 0 1).wf ∧
    -2 * (PRIME_P : Int) < (W9.mk 5 0 0 0 0 0 0 0 1).toInt ∧
    (W9.mk 5 0 0 0 0 0 0 0 1).toInt < 2 * (PRIME_P : Int) ∧ 2 ≤ 2 ∧
    ∃ r, (add_P_loop 2 (W9.mk 5 0 0 0 0 0 0 0 1)).bind (sub_P_loop 2) = some r ∧
      r.w8 = 0 ∧ r.low < 2^256 ∧
      (r.low : Int) ≡ (W9.mk 5 0 0 0 0 0 0 0 1).toInt [ZMOD (PRIME_P : Int)] ∧
      (r.low < PRIME_P ↔ ¬ ((PRIME_P : Int) ≤ (W9.mk 5 0 0 0 0 0 0 0 1).toInt ∧
        (W9.mk 5 0 0 0 0 0 0 0 1).toInt < 2^256)) :=
  ⟨by decide, by rw [W9_toInt_split _ (by decide)]; norm_num [toI32, wrap32, PRIME_P],
    by rw [W9_toInt_split _ (by decide)]; norm_num [toI32, wrap32, PRIME_P], le_refl _,
    C11_closing_relaxed (W9.mk 5 0 0 0 0 0 0 0 1) (by decide)
      (by rw [W9_toInt_split _ (by decide)]; norm_num [toI32, wrap32, PRIME_P])
      (by rw [W9_toInt_split _ (by decide)]; norm_num [toI32, wrap32, PRIME_P]) 2 (le_refl _)⟩

/-! ## Kangaroo classes and start distances -/

theorem countP_range_lt (n k : Nat) :
    (List.range n).countP (fun i => decide (i < k)) = min n k := by
  induction n with
  | zero => simp
  | succ n ih =>
    rw [List.range_succ, List.countP_append, ih]
    by_cases h : n < k
    · simp [List.countP_cons, h]; omega
    · simp [List.countP_cons, h]; omega

theorem countP_range_between (n a b : Nat) (hab : a ≤ b) :
    (List.range n).countP (fun i => decide (a ≤ i ∧ i < b)) = min n b - min n a := by
  induction n with
  | zero => simp
  | succ n ih =>
    rw [List.range_succ, List.countP_append, ih]
    by_cases h : a ≤ n ∧ n < b
    · simp [List.countP_cons, h]; omega
    · simp [List.countP_cons, h]; omega

theorem countP_range_ge (n a : Nat) :
    (List.range n).countP (fun i => decide (a ≤ i)) = n - min n a := by
  induction n with
  | zero => simp
  | succ n ih =>
    rw [List.range_succ, List.countP_append, ih]
    by_cases h : a ≤ n
    · simp [List.countP_cons, h]; omega
    · simp [List.countP_cons, h]; omega

/-- The class of index `i` among `N < 2^30` kangaroos, in natural numbers. -/
theorem kang_class_nat (N i : Nat) (hN : N < 2^30) :
    (kang_class N i = KangClass.tame ↔ i < N / 3) ∧
    (kang_class N i = KangClass.wildA ↔ (N / 3 ≤ i ∧ i < 2 * N / 3)) ∧
    (kang_class N i = KangClass.wildB ↔ 2 * N / 3 ≤ i) := by
  have e1 : Int.tdiv (N : Int) 3 = ((N / 3 : Nat) : Int) := by
    rw [Int.tdiv_eq_ediv (by omega) (by omega)]; omega
  have e2 : wrap32 (2 * (N : Int)) = 2 * (N : Int) := wrap32_eq_self _ (by omega) (by omega)
  have e3 : Int.tdiv (2 * (N : Int)) 3 = ((2 * N / 3 : Nat) : Int) := by
    rw [Int.tdiv_eq_ediv (by omega) (by omega)]; omega
  unfold kang_class
  rw [e2, e1, e3]
  have h3 : N / 3 ≤ 2 * N / 3 := by omega
  refine ⟨?_, ?_, ?_⟩ <;> split_ifs <;> simp <;> omega

theorem class_count_nat (N : Nat) (hN : N < 2^30) :
    class_count N KangClass.tame = N / 3 ∧
    class_count N KangClass.wildA = 2 * N / 3 - N / 3 ∧
    class_count N KangClass.wildB = N - 2 * N / 3 := by
  have h3 : N / 3 ≤ 2 * N / 3 := by omega
  have hN3 : N / 3 ≤ N := by omega
  have hN23 : 2 * N / 3 ≤ N := by omega
  unfold class_count
  rw [Int.toNat_ofNat]
  refine ⟨?_, ?_, ?_⟩
  · rw [← min_eq_right hN3, ← countP_range_lt N (N / 3)]
    apply List.countP_congr
    intro i _
    simpa using (kang_class_nat N i hN).1
  · have := countP_range_between N (N / 3) (2 * N / 3) h3
    rw [min_eq_right hN3, min_eq_right hN23] at this
    rw [← this]
    apply List.countP_congr
    intro i _
    simpa using (kang_class_nat N i hN).2.1
  · have := countP_range_ge N (2 * N / 3)
    rw [min_eq_right hN23] at this
    rw [← this]
    apply List.countP_congr
    intro i _
    simpa using (kang_class_nat N i hN).2.2

/-- C12: for every kangaroo count `N` with `0 ≤ N < 2^30`, the class assignment of `Start`
and `GenerateRndDistances` makes exactly `N / 3` kangaroos tame, and the two wild counts sum
to `N - N / 3` and differ by at most 1. -/
theorem C12_class_partition (N : Nat) (hN : N < 2^30) :
    class_count N KangClass.tame = N / 3 ∧
    class_count N KangClass.wildA + class_count N KangClass.wildB = N - N / 3 ∧
    class_count N KangClass.wildA ≤ class_count N KangClass.wildB + 1 ∧
    class_count N KangClass.wildB ≤ class_count N KangClass.wildA + 1 := by
  obtain ⟨h1, h2, h3⟩ := class_count_nat N hN
  rw [h1, h2, h3]
  omega

theorem C12_class_partition_witness :
    10 < 2^30 ∧
    (class_count ((10 : Nat) : Int) KangClass.tame = 10 / 3 ∧
    class_count ((10 : Nat) : Int) KangClass.wildA + class_count ((10 : Nat) : Int) KangClass.wildB
      = 10 - 10 / 3 ∧
    class_count ((10 : Nat) : Int) KangClass.wildA
      ≤ class_count ((10 : Nat) : Int) KangClass.wildB + 1 ∧
    class_count ((10 : Nat) : Int) KangClass.wildB
      ≤ class_count ((10 : Nat) : Int) KangClass.wildA + 1) :=
  ⟨by decide, C12_class_partition 10 (by decide)⟩

/-- Clearing bit 0 of a word leaves an even word. -/
theorem and_mask_even (x : Nat) : (x &&& 0xFFFFFFFFFFFFFFFE) % 2 = 0 := by
  have h : ¬ (x &&& 0xFFFFFFFFFFFFFFFE) % 2 = 1 := by
    rw [Nat.and_mod_two_eq_one]
    rintro ⟨-, h⟩
    norm_num at h
  omega

/-- C13: for every count, every range and every outcome of the random generator, the start
distance that `GenerateRndDistances` stores for a wild kangaroo (index `i < KangCnt` that
fails the test `i < KangCnt / 3`) has least-significant bit 0. -/
theorem C13_wild_distance_even (KangCnt Range : Int) (rnd : Nat → Int → Nat × Nat × Nat)
    (i : Nat) (hi : (i : Int) < KangCnt) (hw : Int.tdiv KangCnt 3 ≤ (i : Int)) :
    ∃ d, (GenerateRndDistances KangCnt Range rnd)[i]? = some d ∧ d.1 % 2 = 0 ∧
      (d.1 + 2^64 * d.2.1 + 2^128 * d.2.2) % 2 = 0 := by
  have hlt : i < KangCnt.toNat := by omega
  have hnot : ¬ (i : Int) < Int.tdiv KangCnt 3 := not_lt.2 hw
  have he := and_mask_even (rnd i (wrap32 (Range - 1))).1
  refine ⟨((rnd i (wrap32 (Range - 1))).1 &&& 0xFFFFFFFFFFFFFFFE,
    (rnd i (wrap32 (Range - 1))).2.1, (rnd i (wrap32 (Range - 1))).2.2), ?_, he, ?_⟩
  · unfold GenerateRndDistances
    rw [List.getElem?_map, List.getElem?_range hlt]
    simp only [Option.map_some', if_neg hnot]
  · show (((rnd i (wrap32 (Range - 1))).1 &&& 0xFFFFFFFFFFFFFFFE)
      + 2^64 * (rnd i (wrap32 (Range - 1))).2.1 + 2^128 * (rnd i (wrap32 (Range - 1))).2.2) % 2 = 0
    omega

theorem C13_wild_distance_even_witness :
    ((5 : Nat) : Int) < 9 ∧ Int.tdiv 9 3 ≤ ((5 : Nat) : Int) ∧
    ∃ d, (GenerateRndDistances 9 20 (fun i _ => (2 * i + 1, 7, 9)))[5]? = some d ∧ d.1 % 2 = 0 ∧
      (d.1 + 2^64 * d.2.1 + 2^128 * d.2.2) % 2 = 0 :=
  ⟨by decide, by decide,
    C13_wild_distance_even 9 20 (fun i _ => (2 * i + 1, 7, 9)) 5 (by decide) (by decide)⟩

/-! ## `ConvertAoStoSoA` -/

theorem soa_index_range (i k count : Int) :
    -2^31 ≤ soa_index i k count ∧ soa_index i k count < 2^31 :=
  ⟨wrap32_ge _, wrap32_lt _⟩

theorem store_other (soa : Int → Nat) (idx : Int) (v : Nat) (j : Int) (h : j ≠ idx) :
    store soa idx v j = soa j := by
  unfold store; rw [if_neg h]

theorem store_same (soa : Int → Nat) (idx : Int) (v : Nat) : store soa idx v idx = v := by
  unfold store; rw [if_pos rfl]

/-- One record's stores leave every word untouched whose offset is none of the eleven
subscripts. -/
theorem body_other (aos : Nat → TPointPriv) (count : Int) (soa : Int → Nat) (i : Nat) (j : Int)
    (h : ∀ k : Int, 0 ≤ k → k ≤ 10 → j ≠ soa_index i k count) :
    ConvertAoStoSoA_body aos count soa i j = soa j := by
  unfold ConvertAoStoSoA_body
  rw [store_other _ _ _ _ (h 10 (by norm_num) (by norm_num)),
    store_other _ _ _ _ (h 9 (by norm_num) (by norm_num)),
    store_other _ _ _ _ (h 8 (by norm_num) (by norm_num)),
    store_other _ _ _ _ (h 7 (by norm_num) (by norm_num)),
    store_other _ _ _ _ (h 6 (by norm_num) (by norm_num)),
    store_other _ _ _ _ (h 5 (by norm_num) (by norm_num)),
    store_other _ _ _ _ (h 4 (by norm_num) (by norm_num)),
    store_other _ _ _ _ (h 3 (by norm_num) (by norm_num)),
    store_other _ _ _ _ (h 2 (by norm_num) (by norm_num)),
    store_other _ _ _ _ (h 1 (by norm_num) (by norm_num)),
    store_other _ _ _ _ (h 0 (by norm_num) (by norm_num))]

/-- Every subscript is an `int`: words at offsets outside the `int` range are never
written. -/
theorem ConvertAoStoSoA_outside (aos : Nat → TPointPriv) (count : Int) (j : Int)
    (hj : j < -2^31 ∨ 2^31 ≤ j) (l : List Nat) :
    ∀ soa : Int → Nat, l.foldl (ConvertAoStoSoA_body aos count) soa j = soa j := by
  induction l with
  | nil => intro soa; rfl
  | cons i l ih =>
    intro soa
    rw [List.foldl_cons, ih]
    apply body_other
    intro k _ _ he
    have := soa_index_range i k count
    rw [← he] at this
    omega

/-- The subscript `i + k * count` does not wrap when `11 * count ≤ 2^31`. -/
theorem soa_index_exact (i k count : Int) (h0 : 0 ≤ i) (hi : i < count) (hk0 : 0 ≤ k)
    (hk : k ≤ 10) (hc : 11 * count ≤ 2^31) : soa_index i k count = i + k * count := by
  have hc0 : 0 ≤ count := by omega
  have h1 : 0 ≤ k * count := mul_nonneg hk0 hc0
  have h2 : k * count ≤ 10 * count := mul_le_mul_of_nonneg_right hk hc0
  unfold soa_index
  rw [wrap32_eq_self (k * count) (by omega) (by omega)]
  exact wrap32_eq_self _ (by omega) (by omega)

/-- Two subscripts of records below `count` agree only for the same record and limb. -/
theorem soa_index_inj (i i' k k' count : Int) (h0 : 0 ≤ i) (hi : i < count) (h0' : 0 ≤ i')
    (hi' : i' < count) (h : i + k * count = i' + k' * count) : i = i' ∧ k = k' := by
  have hc : 0 < count := by omega
  have e : (k - k') * count = i' - i := by linear_combination h
  have hk : k - k' = 0 := by
    by_contra hne
    rcases lt_or_gt_of_ne hne with hlt | hgt
    · have : (k - k') * count ≤ (-1) * count := mul_le_mul_of_nonneg_right (by omega) hc.le
      omega
    · have : 1 * count ≤ (k - k') * count := mul_le_mul_of_nonneg_right (by omega) hc.le
      omega
  rw [hk, zero_mul] at e
  constructor <;> omega

/-- The value one record's stores leave at the subscript of each limb. -/
theorem body_at (aos : Nat → TPointPriv) (count : Int) (soa : Int → Nat) (i : Nat)
    (hi : (i : Int) < count) (hc : 11 * count ≤ 2^31) :
    ConvertAoStoSoA_body aos count soa i ((i : Int) + 0 * count) = (aos i).x0 ∧
    ConvertAoStoSoA_body aos count soa i ((i : Int) + 1 * count) = (aos i).x1 ∧
    ConvertAoStoSoA_body aos count soa i ((i : Int) + 2 * count) = (aos i).x2 ∧
    ConvertAoStoSoA_body aos count soa i ((i : Int) + 3 * count) = (aos i).x3 ∧
    ConvertAoStoSoA_body aos count soa i ((i : Int) + 4 * count) = (aos i).y0 ∧
    ConvertAoStoSoA_body aos count soa i ((i : Int) + 5 * count) = (aos i).y1 ∧
    ConvertAoStoSoA_body aos count soa i ((i : Int) + 6 * count) = (aos i).y2 ∧
    ConvertAoStoSoA_body aos count soa i ((i : Int) + 7 * count) = (aos i).y3 ∧
    ConvertAoStoSoA_body aos count soa i ((i : Int) + 8 * count) = (aos i).priv0 ∧
    ConvertAoStoSoA_body aos count soa i ((i : Int) + 9 * count) = (aos i).priv1 ∧
    ConvertAoStoSoA_body aos count soa i ((i : Int) + 10 * count) = (aos i).priv2 := by
  have h0 : (0 : Int) ≤ (i : Int) := Int.natCast_nonneg _
  have e0 := soa_index_exact i 0 count h0 hi (by norm_num) (by norm_num) hc
  have e1 := soa_index_exact i 1 count h0 hi (by norm_num) (by norm_num) hc
  have e2 := soa_index_exact i 2 count h0 hi (by norm_num) (by norm_num) hc
  have e3 := soa_index_exact i 3 count h0 hi (by norm_num) (by norm_num) hc
  have e4 := soa_index_exact i 4 count h0 hi (by norm_num) (by norm_num) hc
  have e5 := soa_index_exact i 5 count h0 hi (by norm_num) (by norm_num) hc
  have e6 := soa_index_exact i 6 count h0 hi (by norm_num) (by norm_num) hc
  have e7 := soa_index_exact i 7 count h0 hi (by norm_num) (by norm_num) hc
  have e8 := soa_index_exact i 8 count h0 hi (by norm_num) (by norm_num) hc
  have e9 := soa_index_exact i 9 count h0 hi (by norm_num) (by norm_num) hc
  have e10 := soa_index_exact i 10 count h0 hi (by norm_num) (by norm_num) hc
  have hpos : 0 < count := by omega
  unfold ConvertAoStoSoA_body
  rw [e0, e1, e2, e3, e4, e5, e6, e7, e8, e9, e10]
  clear e0 e1 e2 e3 e4 e5 e6 e7 e8 e9 e10 hc hi h0
  refine ⟨?_, ?_, ?_, ?_, ?_, ?_, ?_, ?_, ?_, ?_, ?_⟩
  · rw [store_other _ _ _ _ (by omega : (i : Int) + 0 * count ≠ (i : Int) + 10 * count),
      store_other _ _ _ _ (by omega : (i : Int) + 0 * count ≠ (i : Int) + 9 * count),
      store_other _ _ _ _ (by omega : (i : Int) + 0 * count ≠ (i : Int) + 8 * count),
      store_other _ _ _ _ (by omega : (i : Int) + 0 * count ≠ (i : Int) + 7 * count),
      store_other _ _ _ _ (by omega : (i : Int) + 0 * count ≠ (i : Int) + 6 * count),
      store_other _ _ _ _ (by omega : (i : Int) + 0 * count ≠ (i : Int) + 5 * count),
      store_other _ _ _ _ (by omega : (i : Int) + 0 * count ≠ (i : Int) + 4 * count),
      store_other _ _ _ _ (by omega : (i : Int) + 0 * count ≠ (i : Int) + 3 * count),
      store_other _ _ _ _ (by omega : (i : Int) + 0 * count ≠ (i : Int) + 2 * count),
      store_other _ _ _ _ (by omega : (i : Int) + 0 * count ≠ (i : Int) + 1 * count),
      store_same]
  · rw [store_other _ _ _ _ (by omega : (i : Int) + 1 * count ≠ (i : Int) + 10 * count),
      store_other _ _ _ _ (by omega : (i : Int) + 1 * count ≠ (i : Int) + 9 * count),
      store_other _ _ _ _ (by omega : (i : Int) + 1 * count ≠ (i : Int) + 8 * count),
      store_other _ _ _ _ (by omega : (i : Int) + 1 * count ≠ (i : Int) + 7 * count),
      store_other _ _ _ _ (by omega : (i : Int) + 1 * count ≠ (i : Int) + 6 * count),
      store_other _ _ _ _ (by omega : (i : Int) + 1 * count ≠ (i : Int) + 5 * count),
      store_other _ _ _ _ (by omega : (i : Int) + 1 * count ≠ (i : Int) + 4 * count),
      store_other _ _ _ _ (by omega : (i : Int) + 1 * count ≠ (i : Int) + 3 * count),
      store_other _ _ _ _ (by omega : (i : Int) + 1 * count ≠ (i : Int) + 2 * count),
      store_same]
  · rw [store_other _ _ _ _ (by omega : (i : Int) + 2 * count ≠ (i : Int) + 10 * count),
      store_other _ _ _ _ (by omega : (i : Int) + 2 * count ≠ (i : Int) + 9 * count),
      store_other _ _ _ _ (by omega : (i : Int) + 2 * count ≠ (i : Int) + 8 * count),
      store_other _ _ _ _ (by omega : (i : Int) + 2 * count ≠ (i : Int) + 7 * count),
      store_other _ _ _ _ (by omega : (i : Int) + 2 * count ≠ (i : Int) + 6 * count),
      store_other _ _ _ _ (by omega : (i : Int) + 2 * count ≠ (i : Int) + 5 * count),
      store_other _ _ _ _ (by omega : (i : Int) + 2 * count ≠ (i : Int) + 4 * count),
      store_other _ _ _ _ (by omega : (i : Int) + 2 * count ≠ (i : Int) + 3 * count),
      store_same]
  · rw [store_other _ _ _ _ (by omega : (i : Int) + 3 * count ≠ (i : Int) + 10 * count),
      store_other _ _ _ _ (by omega : (i : Int) + 3 * count ≠ (i : Int) + 9 * count),
      store_other _ _ _ _ (by omega : (i : Int) + 3 * count ≠ (i : Int) + 8 * count),
      store_other _ _ _ _ (by omega : (i : Int) + 3 * count ≠ (i : Int) + 7 * count),
      store_other _ _ _ _ (by omega : (i : Int) + 3 * count ≠ (i : Int) + 6 * count),
      store_other _ _ _ _ (by omega : (i : Int) + 3 * count ≠ (i : Int) + 5 * count),
      store_other _ _ _ _ (by omega : (i : Int) + 3 * count ≠ (i : Int) + 4 * count),
      store_same]
  · rw [store_other _ _ _ _ (by omega : (i : Int) + 4 * count ≠ (i : Int) + 10 * count),
      store_other _ _ _ _ (by omega : (i : Int) + 4 * count ≠ (i : Int) + 9 * count),
      store_other _ _ _ _ (by omega : (i : Int) + 4 * count ≠ (i : Int) + 8 * count),
      store_other _ _ _ _ (by omega : (i : Int) + 4 * count ≠ (i : Int) + 7 * count),
      store_other _ _ _ _ (by omega : (i : Int) + 4 * count ≠ (i : Int) + 6 * count),
      store_other _ _ _ _ (by omega : (i : Int) + 4 * count ≠ (i : Int) + 5 * count),
      store_same]
  · rw [store_other _ _ _ _ (by omega : (i : Int) + 5 * count ≠ (i : Int) + 10 * count),
      store_other _ _ _ _ (by omega : (i : Int) + 5 * count ≠ (i : Int) + 9 * count),
      store_other _ _ _ _ (by omega : (i : Int) + 5 * count ≠ (i : Int) + 8 * count),
      store_other _ _ _ _ (by omega : (i : Int) + 5 * count ≠ (i : Int) + 7 * count),
      store_other _ _ _ _ (by omega : (i : Int) + 5 * count ≠ (i : Int) + 6 * count),
      store_same]
  · rw [store_other _ _ _ _ (by omega : (i : Int) + 6 * count ≠ (i : Int) + 10 * count),
      store_other _ _ _ _ (by omega : (i : Int) + 6 * count ≠ (i : Int) + 9 * count),
      store_other _ _ _ _ (by omega : (i : Int) + 6 * count ≠ (i : Int) + 8 * count),
      store_other _ _ _ _ (by omega : (i : Int) + 6 * count ≠ (i : Int) + 7 * count),
      store_same]
  · rw [store_other _ _ _ _ (by omega : (i : Int) + 7 * count ≠ (i : Int) + 10 * count),
      store_other _ _ _ _ (by omega : (i : Int) + 7 * count ≠ (i : Int) + 9 * count),
      store_other _ _ _ _ (by omega : (i : Int) + 7 * count ≠ (i : Int) + 8 * count),
      store_same]
  · rw [store_other _ _ _ _ (by omega : (i : Int) + 8 * count ≠ (i : Int) + 10 * count),
      store_other _ _ _ _ (by omega : (i : Int) + 8 * count ≠ (i : Int) + 9 * count),
      store_same]
  · rw [store_other _ _ _ _ (by omega : (i : Int) + 9 * count ≠ (i : Int) + 10 * count),
      store_same]
  · rw [store_same]

/-- One record's stores put limb `k` of the record at offset `i + k * count`. -/
theorem body_same (aos : Nat → TPointPriv) (count : Int) (soa : Int → Nat) (i k : Nat)
    (hk : k ≤ 10) (hi : (i : Int) < count) (hc : 11 * count ≤ 2^31) :
    ConvertAoStoSoA_body aos count soa i ((i : Int) + (k : Int) * count) = (aos i).limb k := by
  obtain ⟨a0, a1, a2, a3, a4, a5, a6, a7, a8, a9, a10⟩ := body_at aos count soa i hi hc
  interval_cases k
  · exact a0
  · exact a1
  · exact a2
  · exact a3
  · exact a4
  · exact a5
  · exact a6
  · exact a7
  · exact a8
  · exact a9
  · exact a10

/-- The words written for the records `0, ..., m - 1`. -/
theorem ConvertAoStoSoA_prefix (aos : Nat → TPointPriv) (soa : Int → Nat) (count : Int)
    (hc : 11 * count ≤ 2^31) (m : Nat) (hm : (m : Int) ≤ count) :
    ∀ (i k : Nat), i < m → k ≤ 10 →
      (List.range m).foldl (ConvertAoStoSoA_body aos count) soa ((i : Int) + (k : Int) * count)
        = (aos i).limb k := by
  induction m with
  | zero => intro i k hi; omega
  | succ m ih =>
    intro i k hi hk
    rw [List.range_succ, List.foldl_append, List.foldl_cons, List.foldl_nil]
    have hmc : (m : Int) < count := by push_cast at hm; omega
    rcases Nat.lt_succ_iff_lt_or_eq.1 hi with hlt | heq
    · rw [body_other]
      · exact ih (by omega) i k hlt hk
      · intro k' hk0 hk10 he
        rw [soa_index_exact m k' count (Int.natCast_nonneg _) hmc hk0 hk10 hc] at he
        have := soa_index_inj i m k k' count (Int.natCast_nonneg _) (by omega)
          (Int.natCast_nonneg _) hmc he
        omega
    · subst heq
      exact body_same aos count _ i k hk hmc hc

/-- C14 (amended): for every count with `0 ≤ count` and `11 * count ≤ 2^31` (so that no
subscript `i + k * count` leaves the `int` range), every record index `i < count` and every
limb `k` in `0..10`, after `ConvertAoStoSoA(aos, soa, count)` the word `soa[k * count + i]`
equals limb `k` of `aos[i]`. -/
theorem C14_soa_layout (aos : Nat → TPointPriv) (soa : Int → Nat) (count : Int)
    (hc : 11 * count ≤ 2^31) (i k : Nat) (hi : (i : Int) < count) (hk : k ≤ 10) :
    ConvertAoStoSoA aos soa count ((k : Int) * count + (i : Int)) = (aos i).limb k := by
  have h0 : 0 ≤ count := by omega
  unfold ConvertAoStoSoA
  rw [add_comm]
  exact ConvertAoStoSoA_prefix aos soa count hc count.toNat (by omega) i k (by omega) hk

theorem C14_soa_layout_witness :
    11 * (3 : Int) ≤ 2^31 ∧ ((2 : Nat) : Int) < 3 ∧ 9 ≤ 10 ∧
    ConvertAoStoSoA (fun n => ⟨n, 1, 2, 3, 4, 5, 6, 7, 8, 100 + n, 10⟩) (fun _ => 0) 3
      (((9 : Nat) : Int) * 3 + ((2 : Nat) : Int))
      = (TPointPriv.mk 2 1 2 3 4 5 6 7 8 (100 + 2) 10).limb 9 :=
  ⟨by decide, by decide, by decide,
    C14_soa_layout (fun n => ⟨n, 1, 2, 3, 4, 5, 6, 7, 8, 100 + n, 10⟩) (fun _ => 0) 3
      (by decide) 2 9 (by decide) (by decide)⟩

/-- C14 (counterexample): with `count = 2^28` the product `10 * count` does not fit an `int`;
the store for limb 10 of record 0 goes to a wrapped offset, and the word at offset
`10 * count + 0` is not limb 10 of `aos[0]` (it keeps its old value 0, the limb is 1). -/
theorem C14_soa_layout_overflow :
    (0 : Int) ≤ 2^28 ∧ ((0 : Nat) : Int) < 2^28 ∧
    ConvertAoStoSoA (fun _ => ⟨1, 1, 1, 1, 1, 1, 1, 1, 1, 1, 1⟩) (fun _ => 0) (2^28)
      (((10 : Nat) : Int) * 2^28 + ((0 : Nat) : Int))
      ≠ (TPointPriv.mk 1 1 1 1 1 1 1 1 1 1 1).limb 10 := by
  refine ⟨by norm_num, by norm_num, ?_⟩
  unfold ConvertAoStoSoA
  rw [ConvertAoStoSoA_outside _ _ _ (Or.inr (by norm_num))]
  decide

/-! ## One pass of the loop of `Execute` -/

theorem toI32_nonneg_iff (w : Nat) (hw : w < 2^32) : 0 ≤ toI32 w ↔ w < 2^31 := by
  unfold toI32 wrap32; omega

/-- The actions of a pass whose count read-back succeeds, by the capped count. -/
theorem Execute_step_ok (MAX_DP_CNT GPU_DP_SIZE : Int) (e : StepEnv) (h : e.cntOk = true) :
    Execute_step MAX_DP_CNT GPU_DP_SIZE e =
      (if (if toI32 e.devCount ≥ MAX_DP_CNT then MAX_DP_CNT else toI32 e.devCount) ≠ 0 then
        if e.recOk = false then
          ((if toI32 e.devCount ≥ MAX_DP_CNT then [ExecEvent.launch, ExecEvent.overflowMsg]
              else [ExecEvent.launch]) ++
            [ExecEvent.copyRecords
              (if toI32 e.devCount ≥ MAX_DP_CNT then MAX_DP_CNT else toI32 e.devCount)
              (copy_bytes GPU_DP_SIZE
                (if toI32 e.devCount ≥ MAX_DP_CNT then MAX_DP_CNT else toI32 e.devCount)),
              ExecEvent.errorInc], false)
        else
          ((if toI32 e.devCount ≥ MAX_DP_CNT then [ExecEvent.launch, ExecEvent.overflowMsg]
              else [ExecEvent.launch]) ++
            [ExecEvent.copyRecords
              (if toI32 e.devCount ≥ MAX_DP_CNT then MAX_DP_CNT else toI32 e.devCount)
              (copy_bytes GPU_DP_SIZE
                (if toI32 e.devCount ≥ MAX_DP_CNT then MAX_DP_CNT else toI32 e.devCount)),
              ExecEvent.addPoints
                (if toI32 e.devCount ≥ MAX_DP_CNT then MAX_DP_CNT else toI32 e.devCount)], true)
      else
        (if toI32 e.devCount ≥ MAX_DP_CNT then [ExecEvent.launch, ExecEvent.overflowMsg]
          else [ExecEvent.launch], true)) := by
  unfold Execute_step
  rw [if_neg (by rw [h]; decide)]

/-- C15: for every device-reported count `c ≥ 0` (read back successfully), the number of
records that `Execute` asks the record copy for is `min c MAX_DP_CNT`, and when the copy
succeeds that is the number it passes to `AddPointsToList`; a count above `MAX_DP_CNT`
leaves exactly `MAX_DP_CNT` records. -/
theorem C15_records_capped (MAX_DP_CNT GPU_DP_SIZE : Int) (e : StepEnv) (hok : e.cntOk = true)
    (_hc : 0 ≤ toI32 e.devCount) :
    records_copied (Execute_step MAX_DP_CNT GPU_DP_SIZE e).1 = min (toI32 e.devCount) MAX_DP_CNT ∧
    (e.recOk = true →
      records_listed (Execute_step MAX_DP_CNT GPU_DP_SIZE e).1
        = min (toI32 e.devCount) MAX_DP_CNT) := by
  rw [Execute_step_ok _ _ _ hok]
  generalize toI32 e.devCount = c
  by_cases hge : c ≥ MAX_DP_CNT
  · have hmin : min c MAX_DP_CNT = MAX_DP_CNT := min_eq_right hge
    simp only [if_pos hge, hmin]
    by_cases h0 : MAX_DP_CNT ≠ 0
    · rw [if_pos h0]
      cases hr : e.recOk <;> simp [records_copied, records_listed]
    · rw [if_neg h0]
      have : MAX_DP_CNT = 0 := not_not.1 h0
      simp [records_copied, records_listed, this]
  · have hmin : min c MAX_DP_CNT = c := min_eq_left (by omega)
    simp only [if_neg hge, hmin]
    by_cases h0 : c ≠ 0
    · rw [if_pos h0]
      cases hr : e.recOk <;> simp [records_copied, records_listed]
    · rw [if_neg h0]
      have : c = 0 := not_not.1 h0
      simp [records_copied, records_listed, this]

theorem C15_records_capped_witness :
    (StepEnv.mk true 300000 true).cntOk = true ∧ 0 ≤ toI32 (StepEnv.mk true 300000 true).devCount ∧
    (records_copied (Execute_step 262144 48 (StepEnv.mk true 300000 true)).1
      = min (toI32 (StepEnv.mk true 300000 true).devCount) 262144 ∧
    ((StepEnv.mk true 300000 true).recOk = true →
      records_listed (Execute_step 262144 48 (StepEnv.mk true 300000 true)).1
        = min (toI32 (StepEnv.mk true 300000 true).devCount) 262144)) :=
  ⟨rfl, by decide, C15_records_capped 262144 48 (StepEnv.mk true 300000 true) rfl (by decide)⟩

/-- C16 (failing input): when the device counter reads `0xFFFFFFFF`, the `int cnt` is `-1`,
the test `cnt >= MAX_DP_CNT` fails, and the record copy asks for `(size_t)(-GPU_DP_SIZE)`
bytes, `2^64 - GPU_DP_SIZE`, far above the `MAX_DP_CNT * GPU_DP_SIZE` bytes of `DPs_out`. -/
theorem C16_negative_count_copy (MAX_DP_CNT GPU_DP_SIZE : Int) (recOk : Bool)
    (hM : 0 < MAX_DP_CNT) (hS : 0 < GPU_DP_SIZE) (hMS : MAX_DP_CNT * GPU_DP_SIZE < 2^31) :
    bytes_copied (Execute_step MAX_DP_CNT GPU_DP_SIZE ⟨true, 0xFFFFFFFF, recOk⟩).1
      = 2^64 - GPU_DP_SIZE.toNat ∧
    DPs_out_size MAX_DP_CNT GPU_DP_SIZE = (MAX_DP_CNT * GPU_DP_SIZE).toNat ∧
    DPs_out_size MAX_DP_CNT GPU_DP_SIZE
      < bytes_copied (Execute_step MAX_DP_CNT GPU_DP_SIZE ⟨true, 0xFFFFFFFF, recOk⟩).1 := by
  have hc : toI32 0xFFFFFFFF = -1 := by decide
  have hS31 : GPU_DP_SIZE < 2^31 := by
    have : 1 * GPU_DP_SIZE ≤ MAX_DP_CNT * GPU_DP_SIZE :=
      mul_le_mul_of_nonneg_right (by omega) hS.le
    omega
  have hMS0 : 0 < MAX_DP_CNT * GPU_DP_SIZE := mul_pos hM hS
  have hlt : ¬ ((-1 : Int) ≥ MAX_DP_CNT) := by omega
  have hb : copy_bytes GPU_DP_SIZE (-1) = 2^64 - GPU_DP_SIZE.toNat := by
    unfold copy_bytes toU64
    rw [wrap32_eq_self _ (by omega) (by omega)]
    omega
  have hsz : DPs_out_size MAX_DP_CNT GPU_DP_SIZE = (MAX_DP_CNT * GPU_DP_SIZE).toNat := by
    unfold DPs_out_size toU64
    rw [wrap32_eq_self _ (by omega) (by omega)]
    generalize MAX_DP_CNT * GPU_DP_SIZE = p at *
    omega
  have hbytes : bytes_copied (Execute_step MAX_DP_CNT GPU_DP_SIZE ⟨true, 0xFFFFFFFF, recOk⟩).1
      = 2^64 - GPU_DP_SIZE.toNat := by
    rw [Execute_step_ok _ _ _ rfl]
    simp only [hc, if_neg hlt]
    rw [if_pos (by decide)]
    cases recOk <;> simp [bytes_copied, hb]
  refine ⟨hbytes, hsz, ?_⟩
  rw [hbytes, hsz]
  generalize MAX_DP_CNT * GPU_DP_SIZE = p at *
  omega

theorem C16_negative_count_copy_witness :
    (0 : Int) < 262144 ∧ (0 : Int) < 48 ∧ (262144 : Int) * 48 < 2^31 ∧
    (bytes_copied (Execute_step 262144 48 ⟨true, 0xFFFFFFFF, true⟩).1 = 2^64 - (48 : Int).toNat ∧
    DPs_out_size 262144 48 = ((262144 : Int) * 48).toNat ∧
    DPs_out_size 262144 48 < bytes_copied (Execute_step 262144 48 ⟨true, 0xFFFFFFFF, true⟩).1) :=
  ⟨by decide, by decide, by decide,
    C16_negative_count_copy 262144 48 true (by decide) (by decide) (by decide)⟩

/-- C17 (counterexample): a batch whose count is exactly `MAX_DP_CNT` (here 262144) does not
exceed the bound, and `Execute` prints the overflow message. -/
theorem C17_overflow_at_bound :
    ExecEvent.overflowMsg ∈ (Execute_step 262144 48 ⟨true, 262144, true⟩).1 ∧
    ¬ ((262144 : Int) > 262144) := by
  decide

/-- C17 (amended): in a batch whose count `c` is read back successfully and fits the `int`
it is read into (`c < 2^31`), `Execute` prints the overflow message if and only if
`c ≥ MAX_DP_CNT`: the bound reached or exceeded. A batch with `c < MAX_DP_CNT` prints
none. -/
theorem C17_overflow_iff_ge (MAX_DP_CNT GPU_DP_SIZE : Int) (e : StepEnv) (hok : e.cntOk = true)
    (hc : e.devCount < 2^31) :
    ExecEvent.overflowMsg ∈ (Execute_step MAX_DP_CNT GPU_DP_SIZE e).1
      ↔ MAX_DP_CNT ≤ (e.devCount : Int) := by
  have hcv : toI32 e.devCount = (e.devCount : Int) := toI32_small _ hc
  rw [Execute_step_ok _ _ _ hok, hcv]
  generalize (e.devCount : Int) = c
  by_cases hge : c ≥ MAX_DP_CNT
  · simp only [if_pos hge]
    split_ifs <;> simp [hge]
  · simp only [if_neg hge]
    split_ifs <;> simp [hge]

theorem C17_overflow_iff_ge_witness :
    (StepEnv.mk true 5 true).cntOk = true ∧ (StepEnv.mk true 5 true).devCount < 2^31 ∧
    (ExecEvent.overflowMsg ∈ (Execute_step 262144 48 (StepEnv.mk true 5 true)).1
      ↔ (262144 : Int) ≤ ((StepEnv.mk true 5 true).devCount : Int)) :=
  ⟨rfl, by decide, C17_overflow_iff_ge 262144 48 (StepEnv.mk true 5 true) rfl (by decide)⟩

/-- C18: when the read-back of the count fails in pass `j`, or the read-back of the records
fails (the capped count is non-zero, so the copy is made), the loop ends with this pass:
the pass launches the kernel once, `gTotalErrors++` runs once, right after the failed
read-back, `Release()` follows at once, and nothing else happens; `gTotalErrors` goes up by
exactly 1. -/
theorem C18_transfer_failure (MAX_DP_CNT GPU_DP_SIZE : Int) (stop : Nat → Bool)
    (env : Nat → StepEnv) (fuel j g : Nat) (hstop : stop j = false)
    (hfail : (env j).cntOk = false ∨
      ((env j).cntOk = true ∧ (env j).recOk = false ∧
        (if toI32 (env j).devCount ≥ MAX_DP_CNT then MAX_DP_CNT else toI32 (env j).devCount) ≠ 0)) :
    ∃ pre, Execute_loop MAX_DP_CNT GPU_DP_SIZE stop env (fuel + 1) j
        = some (pre ++ [ExecEvent.errorInc, ExecEvent.release]) ∧
      pre.count ExecEvent.launch = 1 ∧ pre.count ExecEvent.errorInc = 0 ∧
      pre.count ExecEvent.release = 0 ∧
      gTotalErrors_after g (pre ++ [ExecEvent.errorInc, ExecEvent.release]) = (g + 1) % 2^32 := by
  rcases hfail with h1 | ⟨h1, h2, h3⟩
  · refine ⟨[ExecEvent.launch], ?_, by decide, by decide, by decide, ?_⟩
    · rw [Execute_loop, if_neg (by rw [hstop]; decide)]
      simp [Execute_step, h1]
    · simp [gTotalErrors_after]
  · by_cases hge : toI32 (env j).devCount ≥ MAX_DP_CNT
    · rw [if_pos hge] at h3
      refine ⟨[ExecEvent.launch, ExecEvent.overflowMsg,
        ExecEvent.copyRecords MAX_DP_CNT (copy_bytes GPU_DP_SIZE MAX_DP_CNT)], ?_, ?_, ?_, ?_, ?_⟩
      · rw [Execute_loop, if_neg (by rw [hstop]; decide)]
        simp only [Execute_step_ok _ _ _ h1, if_pos hge, if_pos h3, h2]
        simp
      · simp [List.count_cons]
      · simp [List.count_cons]
      · simp [List.count_cons]
      · simp [gTotalErrors_after, List.count_cons]
    · rw [if_neg hge] at h3
      refine ⟨[ExecEvent.launch,
        ExecEvent.copyRecords (toI32 (env j).devCount)
          (copy_bytes GPU_DP_SIZE (toI32 (env j).devCount))], ?_, ?_, ?_, ?_, ?_⟩
      · rw [Execute_loop, if_neg (by rw [hstop]; decide)]
        simp only [Execute_step_ok _ _ _ h1, if_neg hge, if_pos h3, h2]
        simp
      · simp [List.count_cons]
      · simp [List.count_cons]
      · simp [List.count_cons]
      · simp [gTotalErrors_after, List.count_cons]

theorem C18_transfer_failure_witness :
    (fun _ : Nat => false) 3 = false ∧
    (((fun _ : Nat => StepEnv.mk true 7 false) 3).cntOk = false ∨
      (((fun _ : Nat => StepEnv.mk true 7 false) 3).cntOk = true ∧
        ((fun _ : Nat => StepEnv.mk true 7 false) 3).recOk = false ∧
        (if toI32 ((fun _ : Nat => StepEnv.mk true 7 false) 3).devCount ≥ 262144 then 262144
          else toI32 ((fun _ : Nat => StepEnv.mk true 7 false) 3).devCount) ≠ 0)) ∧
    ∃ pre, Execute_loop 262144 48 (fun _ => false) (fun _ => StepEnv.mk true 7 false) (0 + 1) 3
        = some (pre ++ [ExecEvent.errorInc, ExecEvent.release]) ∧
      pre.count ExecEvent.launch = 1 ∧ pre.count ExecEvent.errorInc = 0 ∧
      pre.count ExecEvent.release = 0 ∧
      gTotalErrors_after 41 (pre ++ [ExecEvent.errorInc, ExecEvent.release]) = (41 + 1) % 2^32 :=
  ⟨rfl, Or.inr ⟨rfl, rfl, by decide⟩,
    C18_transfer_failure 262144 48 (fun _ => false) (fun _ => StepEnv.mk true 7 false) 0 3 41 rfl
      (Or.inr ⟨rfl, rfl, by decide⟩)⟩

/-! ## `Prepare` and `Release` -/

/-- C19 (counterexample): on a new GPU (`IsOldGpu` false) let the allocation of `L2` succeed
and the next one, of the device buffer `DPs_out`, fail. `Prepare` returns false and the
block of `L2` is still allocated. -/
theorem C19_prepare_leaks_on_failure :
    (Prepare ⟨true, fun b => decide (b ≠ Buf.DPs_out_dev), true, true, true, true⟩
      ⟨false, fun _ => none⟩ ⟨0, [], []⟩).1 = false ∧
    (Prepare ⟨true, fun b => decide (b ≠ Buf.DPs_out_dev), true, true, true, true⟩
      ⟨false, fun _ => none⟩ ⟨0, [], []⟩).2.2.live = [0] ∧
    (Prepare ⟨true, fun b => decide (b ≠ Buf.DPs_out_dev), true, true, true, true⟩
      ⟨false, fun _ => none⟩ ⟨0, [], []⟩).2.1.ptr Buf.L2 = some 0 := by
  decide

/-- A run of checked allocations that stops at its step number `k`: the result is `false`,
the `k` earlier blocks are allocated and stay so, nothing is freed. -/
theorem alloc_steps_fail (ok : Buf → Bool) : ∀ (l : List Buf) (k : Nat) (c : Ctx) (h : Heap)
    (hk : k < l.length), (∀ i (hi : i < k), ok (l.get ⟨i, lt_trans hi hk⟩) = true) →
    ok (l.get ⟨k, hk⟩) = false →
    (alloc_steps ok l c h).1 = false ∧
    (alloc_steps ok l c h).2.2.live = h.live ++ List.range' h.next k ∧
    (alloc_steps ok l c h).2.2.bad = h.bad ∧
    (alloc_steps ok l c h).2.2.next = h.next + k := by
  intro l
  induction l with
  | nil => intro k c h hk; simp at hk
  | cons b rest ih =>
    intro k c h hk hpre hfail
    cases k with
    | zero =>
      have hb : ok b = false := hfail
      simp [alloc_steps, hb]
    | succ k =>
      have hb : ok b = true := hpre 0 (Nat.succ_pos _)
      have hk' : k < rest.length := by simpa using hk
      have := ih k (c.set b (some h.next)) (h.alloc true).1 hk'
        (fun i hi => hpre (i + 1) (Nat.succ_lt_succ hi)) hfail
      simp only [alloc_steps, hb, if_true]
      obtain ⟨t1, t2, t3, t4⟩ := this
      refine ⟨t1, ?_, ?_, ?_⟩
      · rw [t2]; simp [Heap.alloc, List.range'_succ]
      · rw [t3]; simp [Heap.alloc]
      · rw [t4]; simp [Heap.alloc]; omega

/-- C19 (amended): when `hipSetDevice` succeeds and the checked device allocation number `k`
of `Prepare` is the first that fails, `Prepare` returns false at once and frees nothing: the
blocks of the `k` earlier allocations of the same call remain allocated (none when `k = 0`),
next to every block allocated before the call. -/
theorem C19_prepare_failure (env : PrepEnv) (c : Ctx) (h : Heap) (k : Nat)
    (hdev : env.setDeviceOk = true) (hk : k < (prepare_steps c.IsOldGpu).length)
    (hpre : ∀ i (hi : i < k), env.ok ((prepare_steps c.IsOldGpu).get ⟨i, lt_trans hi hk⟩) = true)
    (hfail : env.ok ((prepare_steps c.IsOldGpu).get ⟨k, hk⟩) = false) :
    (Prepare env c h).1 = false ∧
    (Prepare env c h).2.2.live = h.live ++ List.range' h.next k ∧
    (Prepare env c h).2.2.bad = h.bad := by
  obtain ⟨t1, t2, t3, -⟩ := alloc_steps_fail env.ok _ k c h hk hpre hfail
  unfold Prepare
  rw [if_neg (by rw [hdev]; decide)]
  revert t1 t2 t3
  generalize alloc_steps env.ok (prepare_steps c.IsOldGpu) c h = r
  obtain ⟨r1, r2, r3⟩ := r
  intro t1 t2 t3
  simp only at t1 t2 t3
  subst t1
  exact ⟨rfl, t2, t3⟩

theorem C19_prepare_failure_witness :
    (PrepEnv.mk true (fun b => decide (b ≠ Buf.Jumps1)) true true true true).setDeviceOk = true ∧
    ∃ (hk : 3 < (prepare_steps (Ctx.mk false (fun _ => none)).IsOldGpu).length),
    (∀ i (hi : i < 3), (PrepEnv.mk true (fun b => decide (b ≠ Buf.Jumps1)) true true true true).ok
      ((prepare_steps (Ctx.mk false (fun _ => none)).IsOldGpu).get ⟨i, lt_trans hi hk⟩) = true) ∧
    (PrepEnv.mk true (fun b => decide (b ≠ Buf.Jumps1)) true true true true).ok
      ((prepare_steps (Ctx.mk false (fun _ => none)).IsOldGpu).get ⟨3, hk⟩) = false ∧
    ((Prepare (PrepEnv.mk true (fun b => decide (b ≠ Buf.Jumps1)) true true true true)
      (Ctx.mk false (fun _ => none)) ⟨7, [2, 5], []⟩).1 = false ∧
    (Prepare (PrepEnv.mk true (fun b => decide (b ≠ Buf.Jumps1)) true true true true)
      (Ctx.mk false (fun _ => none)) ⟨7, [2, 5], []⟩).2.2.live
        = (Heap.mk 7 [2, 5] []).live ++ List.range' (Heap.mk 7 [2, 5] []).next 3 ∧
    (Prepare (PrepEnv.mk true (fun b => decide (b ≠ Buf.Jumps1)) true true true true)
      (Ctx.mk false (fun _ => none)) ⟨7, [2, 5], []⟩).2.2.bad = (Heap.mk 7 [2, 5] []).bad) :=
  ⟨rfl, by decide, by decide, by decide,
    C19_prepare_failure (PrepEnv.mk true (fun b => decide (b ≠ Buf.Jumps1)) true true true true)
      (Ctx.mk false (fun _ => none)) ⟨7, [2, 5], []⟩ 3 rfl (by decide) (by decide) (by decide)⟩

theorem alloc_steps_true (ok : Buf → Bool) : ∀ (l : List Buf) (c : Ctx) (h : Heap),
    (alloc_steps ok l c h).1 = true → ∀ b ∈ l, ok b = true := by
  intro l
  induction l with
  | nil => intro c h _ b hb; simp at hb
  | cons a rest ih =>
    intro c h hs b hb
    cases ha : ok a with
    | false => simp [alloc_steps, ha] at hs
    | true =>
      simp only [alloc_steps, ha, if_true] at hs
      rcases List.mem_cons.1 hb with rfl | hmem
      · exact ha
      · exact ih _ _ hs b hmem

/-- Freeing a block that is allocated, in a list whose older part does not hold it. -/
theorem free_fresh (n : Nat) (L B : List Nat) (l1 l2 : List Nat) (b : Nat) (hL : b ∉ L)
    (h1 : b ∉ l1) :
    (Heap.mk n (L ++ (l1 ++ b :: l2)) B).free (some b) = Heap.mk n (L ++ (l1 ++ l2)) B := by
  have hmem : b ∈ L ++ (l1 ++ b :: l2) := by simp
  simp only [Heap.free, if_pos hmem]
  congr 1
  rw [List.erase_append_right _ hL, List.erase_append_right _ h1, List.erase_cons_head]

/-- A run of `free` calls on pointers that are null or distinct blocks, which together are
the newer part of the allocated blocks: that part is released, nothing else changes. -/
theorem free_chain (n : Nat) (L B : List Nat) : ∀ (ps : List (Option Nat)) (live : List Nat),
    (∀ b ∈ ps.reduceOption, b ∉ L) → List.Perm ps.reduceOption live →
    ps.foldl Heap.free (Heap.mk n (L ++ live) B) = Heap.mk n L B := by
  intro ps
  induction ps with
  | nil =>
    intro live _ hp
    have : live = [] := by simpa using hp.symm
    subst this
    simp
  | cons p rest ih =>
    intro live hL hp
    cases p with
    | none =>
      rw [List.foldl_cons]
      have e : (Heap.mk n (L ++ live) B).free none = Heap.mk n (L ++ live) B := rfl
      rw [e]
      exact ih live (by simpa [List.reduceOption_cons_of_none] using hL)
        (by simpa [List.reduceOption_cons_of_none] using hp)
    | some b =>
      rw [List.reduceOption_cons_of_some] at hL hp
      have hb : b ∈ live := hp.subset (List.mem_cons_self _ _)
      obtain ⟨l1, l2, rfl, hn1⟩ := List.eq_append_cons_of_mem hb
      rw [List.foldl_cons, free_fresh n L B l1 l2 b (hL b (List.mem_cons_self _ _)) hn1]
      apply ih (l1 ++ l2) (fun x hx => hL x (List.mem_cons_of_mem _ hx))
      exact (List.perm_cons b).1 (hp.trans List.perm_middle)

/-- A staging buffer allocated and freed again leaves the allocated blocks as they were. -/
theorem alloc_free (h : Heap) (hf : h.next ∉ h.live) :
    (h.alloc true).1.free (h.alloc true).2 = Heap.mk (h.next + 1) h.live h.bad := by
  have hmem : h.next ∈ h.live ++ [h.next] := by simp
  simp only [Heap.alloc, if_true, Heap.free, if_pos hmem]
  congr 1
  rw [List.erase_append_right _ hf]
  simp

/-- A run of checked allocations that all succeed: one fresh block per step, in order, each
stored in its field; the other fields keep their values. -/
theorem alloc_steps_ok (ok : Buf → Bool) : ∀ (l : List Buf) (c : Ctx) (h : Heap),
    (∀ b ∈ l, ok b = true) →
    (alloc_steps ok l c h).1 = true ∧
    (alloc_steps ok l c h).2.2
      = Heap.mk (h.next + l.length) (h.live ++ List.range' h.next l.length) h.bad ∧
    (alloc_steps ok l c h).2.1.IsOldGpu = c.IsOldGpu ∧
    (∀ x, x ∉ l → (alloc_steps ok l c h).2.1.ptr x = c.ptr x) ∧
    (l.Nodup → l.map (alloc_steps ok l c h).2.1.ptr = (List.range' h.next l.length).map some) := by
  intro l
  induction l with
  | nil => intro c h _; simp [alloc_steps]
  | cons b rest ih =>
    intro c h hok
    have hb : ok b = true := hok b (List.mem_cons_self _ _)
    obtain ⟨t1, t2, t3, t4, t5⟩ := ih (c.set b (some h.next)) (h.alloc true).1
      (fun x hx => hok x (List.mem_cons_of_mem _ hx))
    have e : alloc_steps ok (b :: rest) c h
        = alloc_steps ok rest (c.set b (some h.next)) (h.alloc true).1 := by
      simp only [alloc_steps, hb, if_true]
    rw [e]
    refine ⟨t1, ?_, ?_, ?_, ?_⟩
    · rw [t2]
      simp only [Heap.alloc, if_true, List.length_cons, List.range'_succ, List.append_assoc,
        List.singleton_append]
      congr 1
      omega
    · rw [t3]; rfl
    · intro x hx
      rw [t4 x (fun hm => hx (List.mem_cons_of_mem _ hm))]
      have : x ≠ b := fun hxb => hx (hxb ▸ List.mem_cons_self _ _)
      simp [Ctx.set, this]
    · intro hnd
      have hnb : b ∉ rest := (List.nodup_cons.1 hnd).1
      rw [List.map_cons, t4 b hnb, t5 (List.nodup_cons.1 hnd).2]
      simp [Ctx.set, Heap.alloc, List.range'_succ]

theorem reduceOption_map_some (l : List Nat) : (l.map some).reduceOption = l := by
  induction l with
  | nil => rfl
  | cons a t ih => rw [List.map_cons, List.reduceOption_cons_of_some, ih]

theorem release_order_eq (o : Bool) :
    release_order o = [Buf.RndPnts, Buf.DPs_out_host] ++ (prepare_steps o).reverse := by
  cases o <;> rfl

theorem prepare_steps_facts (o : Bool) :
    (prepare_steps o).Nodup ∧ Buf.RndPnts ∉ prepare_steps o ∧
    Buf.DPs_out_host ∉ prepare_steps o := by
  cases o <;> decide

/-- The staging buffers `buf` and `jmp2_table` of a `Prepare` whose uploads all succeed are
freed again: the allocated blocks are left as they were. -/
theorem staging_frame (H : Heap) (hwf : ∀ b ∈ H.live, b < H.next) :
    (let buf := H.alloc true
     let h := buf.1.free buf.2
     let buf := h.alloc true
     let jmp2_table := buf.1.alloc true
     let h := jmp2_table.1.free buf.2
     let h := h.free jmp2_table.2
     let buf := h.alloc true
     buf.1.free buf.2) = Heap.mk (H.next + 4) H.live H.bad := by
  have f0 : H.next ∉ H.live := fun hm => absurd (hwf _ hm) (by omega)
  have f1 : H.next + 1 ∉ H.live := fun hm => absurd (hwf _ hm) (by omega)
  have f2 : H.next + 2 ∉ H.live := fun hm => absurd (hwf _ hm) (by omega)
  have f3 : H.next + 3 ∉ H.live := fun hm => absurd (hwf _ hm) (by omega)
  lift_lets
  intro buf h buf2 jmp2_table h2 h3 buf3
  have e1 : h = Heap.mk (H.next + 1) H.live H.bad := alloc_free H f0
  have e2 : buf2 = (Heap.mk (H.next + 2) (H.live ++ [H.next + 1]) H.bad, some (H.next + 1)) := by
    simp only [buf2, e1, Heap.alloc, if_true]
  have e3 : jmp2_table = (Heap.mk (H.next + 3) (H.live ++ ([H.next + 1] ++ [H.next + 2])) H.bad,
      some (H.next + 2)) := by
    simp only [jmp2_table, e2, Heap.alloc, if_true, List.append_assoc]
  have e4 : h2 = Heap.mk (H.next + 3) (H.live ++ [H.next + 2]) H.bad := by
    simp only [h2, e3, e2]
    exact free_fresh (H.next + 3) H.live H.bad [] [H.next + 2] (H.next + 1) f1 (by simp)
  have e5 : h3 = Heap.mk (H.next + 3) H.live H.bad := by
    simp only [h3, e4, e3]
    have := free_fresh (H.next + 3) H.live H.bad [] [] (H.next + 2) f2 (by simp)
    simpa using this
  have e6 := alloc_free h3 (by rw [e5]; exact f3)
  simp only [buf3]
  rw [e6, e5]

/-- The state a successful `Prepare` leaves: the blocks of the checked allocations, and the
block of the host buffer `DPs_out` when that `malloc` succeeded, are the newer part of the
allocated blocks; the pointers `Release` will free are these blocks (and null pointers). -/
theorem Prepare_success (env : PrepEnv) (c : Ctx) (h : Heap) (hwf : ∀ b ∈ h.live, b < h.next)
    (hR : c.ptr Buf.RndPnts = none) (hs : (Prepare env c h).1 = true) :
    ∃ (k : Nat) (P : List Nat), (Prepare env c h).2.2 = Heap.mk k (h.live ++ P) h.bad ∧
      (∀ b ∈ P, b ∉ h.live) ∧
      List.Perm ((release_order (Prepare env c h).2.1.IsOldGpu).map
        (Prepare env c h).2.1.ptr).reduceOption P := by
  unfold Prepare at hs ⊢
  cases hdev : env.setDeviceOk with
  | false => simp [hdev] at hs
  | true =>
    simp only [hdev] at hs ⊢
    have hsteps : (alloc_steps env.ok (prepare_steps c.IsOldGpu) c h).1 = true := by
      revert hs
      generalize alloc_steps env.ok (prepare_steps c.IsOldGpu) c h = r
      obtain ⟨r1, r2, r3⟩ := r
      cases r1 <;> simp
    obtain ⟨t1, t2, t3, t4, t5⟩ := alloc_steps_ok env.ok (prepare_steps c.IsOldGpu) c h
      (alloc_steps_true env.ok _ c h hsteps)
    obtain ⟨f1, f2, f3⟩ := prepare_steps_facts c.IsOldGpu
    have t5' := t5 f1
    have tR := t4 Buf.RndPnts f2
    revert hs t1 t2 t3 t4 t5 t5' tR
    generalize alloc_steps env.ok (prepare_steps c.IsOldGpu) c h = r
    obtain ⟨r1, c1, h1⟩ := r
    intro hs t1 t2 t3 t4 t5 t5' tR
    simp only at t1 t2 t3 t4 t5' tR
    subst t1 t2
    simp only [Bool.true_eq_false, if_false] at hs ⊢
    cases hc1 : env.cpy1 with
    | false => simp [hc1] at hs
    | true =>
    cases hc2 : env.cpy2 with
    | false => simp [hc1, hc2] at hs
    | true =>
    cases hc3 : env.setParams with
    | false => simp [hc1, hc2, hc3] at hs
    | true =>
    cases hc4 : env.cpy3 with
    | false => simp [hc1, hc2, hc3, hc4] at hs
    | true =>
    clear hs t5
    simp only [Bool.true_eq_false, if_false]
    have hptr : ∀ p, (prepare_steps c.IsOldGpu).reverse.map (c1.set Buf.DPs_out_host p).ptr
        = ((List.range' h.next (prepare_steps c.IsOldGpu).length).map some).reverse := by
      intro p
      rw [List.map_reverse, ← t5']
      congr 1
      apply List.map_congr_left
      intro x hx
      have : x ≠ Buf.DPs_out_host := fun e => f3 (e ▸ hx)
      simp [Ctx.set, this]
    have hRp : ∀ p, (c1.set Buf.DPs_out_host p).ptr Buf.RndPnts = none := by
      intro p
      simp [Ctx.set, tR, hR]
    have hHp : ∀ p, (c1.set Buf.DPs_out_host p).ptr Buf.DPs_out_host = p := by
      intro p
      simp [Ctx.set]
    have hO : ∀ p, (c1.set Buf.DPs_out_host p).IsOldGpu = c.IsOldGpu := fun p => t3
    have hfresh : ∀ b ∈ List.range' h.next (prepare_steps c.IsOldGpu).length, b ∉ h.live := by
      intro b hb hm
      have h1 := hwf b hm
      have h2 := (List.mem_range'_1.1 hb).1
      omega
    generalize hm : (prepare_steps c.IsOldGpu).length = m at *
    cases hok : env.ok Buf.DPs_out_host with
    | true =>
      have hH : ∀ b ∈ ((Heap.mk (h.next + m) (h.live ++ List.range' h.next m) h.bad).alloc
          true).1.live, b < ((Heap.mk (h.next + m) (h.live ++ List.range' h.next m)
            h.bad).alloc true).1.next := by
        intro b hb
        simp only [Heap.alloc, if_true, List.mem_append, List.mem_range'_1,
          List.mem_singleton] at hb ⊢
        rcases hb with (hb | hb) | hb
        · have := hwf b hb
          omega
        · omega
        · omega
      have sf := staging_frame _ hH
      dsimp only at sf
      refine ⟨h.next + m + 1 + 4, List.range' h.next m ++ [h.next + m], ?_, ?_, ?_⟩
      · dsimp only
        rw [sf]
        simp [Heap.alloc]
      · intro b hb
        rcases List.mem_append.1 hb with hb | hb
        · exact hfresh b hb
        · intro hmem
          have h1 := hwf b hmem
          have h2 : b = h.next + m := by simpa using hb
          omega
      · dsimp only
        rw [hO, release_order_eq, List.map_append, hptr, List.map_cons, List.map_cons,
          List.map_nil, hRp, hHp]
        simp only [Heap.alloc, if_true, List.cons_append, List.nil_append,
          List.reduceOption_cons_of_none, List.reduceOption_cons_of_some,
          ← List.map_reverse, reduceOption_map_some]
        exact ((List.perm_append_singleton _ _).trans
          ((List.reverse_perm _).symm.cons _)).symm
    | false =>
      have hH : ∀ b ∈ ((Heap.mk (h.next + m) (h.live ++ List.range' h.next m) h.bad).alloc
          false).1.live, b < ((Heap.mk (h.next + m) (h.live ++ List.range' h.next m)
            h.bad).alloc false).1.next := by
        intro b hb
        simp only [Heap.alloc, Bool.false_eq_true, if_false, List.mem_append,
          List.mem_range'_1] at hb ⊢
        rcases hb with hb | hb
        · have := hwf b hb
          omega
        · omega
      have sf := staging_frame _ hH
      dsimp only at sf
      refine ⟨h.next + m + 4, List.range' h.next m, ?_, hfresh, ?_⟩
      · dsimp only
        rw [sf]
        simp [Heap.alloc]
      · dsimp only
        rw [hO, release_order_eq, List.map_append, hptr, List.map_cons, List.map_cons,
          List.map_nil, hRp, hHp]
        simp only [Heap.alloc, Bool.false_eq_true, if_false, List.cons_append, List.nil_append,
          List.reduceOption_cons_of_none, ← List.map_reverse, reduceOption_map_some]
        exact List.reverse_perm _

/-- C20 (counterexample): a context whose field `RndPnts` still holds the block an earlier
`Release` freed (block 0, no longer allocated). `Prepare` succeeds, `Start` does not run, and
`Release` passes that block to `free` again: a free of a block `Prepare` did not allocate. -/
theorem C20_release_frees_RndPnts :
    (Prepare (PrepEnv.mk true (fun _ => true) true true true true)
      (Ctx.mk false (fun b => if b = Buf.RndPnts then some 0 else none)) ⟨1, [], []⟩).1 = true ∧
    (Release
      (Prepare (PrepEnv.mk true (fun _ => true) true true true true)
        (Ctx.mk false (fun b => if b = Buf.RndPnts then some 0 else none)) ⟨1, [], []⟩).2.1
      (Prepare (PrepEnv.mk true (fun _ => true) true true true true)
        (Ctx.mk false (fun b => if b = Buf.RndPnts then some 0 else none)) ⟨1, [], []⟩).2.2).bad
      = [0] := by
  decide

/-- C20 (amended): when the field `RndPnts` is null at the call, every block allocated
before is numbered below the allocator's next block, and `Prepare` succeeds, then the
non-null pointers a `Release` that follows at once passes to `free` and `hipFree` are, each
once, the blocks `Prepare` left allocated; afterwards the allocated blocks are those of before
`Prepare` and no bad free has been recorded. -/
theorem C20_release_after_prepare (env : PrepEnv) (c : Ctx) (h : Heap)
    (hwf : ∀ b ∈ h.live, b < h.next) (hR : c.ptr Buf.RndPnts = none)
    (hs : (Prepare env c h).1 = true) :
    ∃ P : List Nat, (Prepare env c h).2.2.live = h.live ++ P ∧
      List.Perm ((release_order (Prepare env c h).2.1.IsOldGpu).map
        (Prepare env c h).2.1.ptr).reduceOption P ∧
      (Release (Prepare env c h).2.1 (Prepare env c h).2.2).live = h.live ∧
      (Release (Prepare env c h).2.1 (Prepare env c h).2.2).bad = h.bad := by
  obtain ⟨k, P, e1, e2, e3⟩ := Prepare_success env c h hwf hR hs
  have hrel : Release (Prepare env c h).2.1 (Prepare env c h).2.2 = Heap.mk k h.live h.bad := by
    unfold Release
    rw [← List.foldl_map, e1]
    exact free_chain k h.live h.bad _ P (fun b hb => e2 b (e3.subset hb)) e3
  refine ⟨P, ?_, e3, ?_, ?_⟩
  · rw [e1]
  · rw [hrel]
  · rw [hrel]

theorem C20_release_after_prepare_witness :
    (∀ b ∈ (Heap.mk 7 [2, 5] []).live, b < (Heap.mk 7 [2, 5] []).next) ∧
    (Ctx.mk false (fun _ => none)).ptr Buf.RndPnts = none ∧
    (Prepare (PrepEnv.mk true (fun _ => true) true true true true)
      (Ctx.mk false (fun _ => none)) ⟨7, [2, 5], []⟩).1 = true ∧
    ∃ P : List Nat,
      (Prepare (PrepEnv.mk true (fun _ => true) true true true true)
        (Ctx.mk false (fun _ => none)) ⟨7, [2, 5], []⟩).2.2.live
        = (Heap.mk 7 [2, 5] []).live ++ P ∧
      List.Perm ((release_order
        (Prepare (PrepEnv.mk true (fun _ => true) true true true true)
          (Ctx.mk false (fun _ => none)) ⟨7, [2, 5], []⟩).2.1.IsOldGpu).map
        (Prepare (PrepEnv.mk true (fun _ => true) true true true true)
          (Ctx.mk false (fun _ => none)) ⟨7, [2, 5], []⟩).2.1.ptr).reduceOption P ∧
      (Release
        (Prepare (PrepEnv.mk true (fun _ => true) true true true true)
          (Ctx.mk false (fun _ => none)) ⟨7, [2, 5], []⟩).2.1
        (Prepare (PrepEnv.mk true (fun _ => true) true true true true)
          (Ctx.mk false (fun _ => none)) ⟨7, [2, 5], []⟩).2.2).live
        = (Heap.mk 7 [2, 5] []).live ∧
      (Release
        (Prepare (PrepEnv.mk true (fun _ => true) true true true true)
          (Ctx.mk false (fun _ => none)) ⟨7, [2, 5], []⟩).2.1
        (Prepare (PrepEnv.mk true (fun _ => true) true true true true)
          (Ctx.mk false (fun _ => none)) ⟨7, [2, 5], []⟩).2.2).bad
        = (Heap.mk 7 [2, 5] []).bad :=
  ⟨by decide, rfl, by decide,
    C20_release_after_prepare (PrepEnv.mk true (fun _ => true) true true true true)
      (Ctx.mk false (fun _ => none)) ⟨7, [2, 5], []⟩ (by decide) rfl (by decide)⟩

/-! ## The accumulators of `InvModP` -/

theorem option_any_exists {α : Type} (o : Option α) (p : α → Bool) (h : o.any p = true) :
    ∃ a, o = some a ∧ p a = true := by
  cases o with
  | none => simp at h
  | some a => exact ⟨a, rfl, by simpa using h⟩

/-- The outer loop is the iteration of `inv_outer_body`. -/
theorem inv_outer_loop_succ (fuel n : Nat) (st : InvRegs) :
    inv_outer_loop fuel (n + 1) st =
      match inv_outer_body fuel st with
      | none => none
      | some (Sum.inr b) => some b
      | some (Sum.inl st') => inv_outer_loop fuel n st' := by
  rw [inv_outer_loop]
  unfold inv_outer_body
  cases div_batch fuel st.kbnt st.val.w0 st.modp.w0 with
  | none => rfl
  | some m =>
    dsimp only
    split_ifs <;> rfl

/-- The iterations of the outer loop that follow the registers `inv_regs_at` gives are the
rest of the run of the outer loop. -/
theorem inv_outer_loop_regs_at (fuel : Nat) :
    ∀ (n k : Nat) (st st' : InvRegs), inv_regs_at fuel n st = some st' →
      inv_outer_loop fuel (n + k) st = inv_outer_loop fuel k st' := by
  intro n
  induction n with
  | zero =>
    intro k st st' h
    simp only [inv_regs_at, Option.some.injEq] at h
    subst h
    rw [Nat.zero_add]
  | succ n ih =>
    intro k st st' h
    rw [inv_regs_at] at h
    have e : n + 1 + k = (n + k) + 1 := by omega
    rw [e, inv_outer_loop_succ]
    cases hb : inv_outer_body fuel st with
    | none => rw [hb] at h; simp at h
    | some r =>
      cases r with
      | inr b => rw [hb] at h; simp at h
      | inl s1 =>
        rw [hb] at h
        exact ih k s1 st' h

set_option maxRecDepth 100000

/-- C2 (failing input): on the input `0x220ae8e6ebcd2abaa5fae28b2a4a2e28e798660c18fad4f6705c9`,
which lies in `(0, P)`, `InvModP` ends and leaves a value `r` in the low 256 bits with
`(a * r) mod P ≠ 1`. -/
theorem C2_InvModP_not_inverse :
    InvModP_overflow_input.wf ∧ 0 < InvModP_overflow_input.low ∧
    InvModP_overflow_input.low < PRIME_P ∧
    InvModP 40 InvModP_overflow_input
      = some ⟨1308712766, 4076327894, 171843745, 2403229898, 1441491324, 3505245510, 398457341,
          805195827, 0⟩ ∧
    (InvModP_overflow_input.low * (W9.mk 1308712766 4076327894 171843745 2403229898 1441491324
      3505245510 398457341 805195827 0).low) % PRIME_P ≠ 1 := by
  decide

/-- C25 (failing input): on the input `0x220ae8e6ebcd2abaa5fae28b2a4a2e28e798660c18fad4f6705c9`
the outer loop reaches its seventh iteration; at the start of the sixth iteration both
`res * x ≡ modp (mod P)` and `a * x ≡ val (mod P)` hold, and at the start of the seventh
`res * x ≡ modp (mod P)` holds but `a * x ≡ val (mod P)` does not. -/
theorem C25_invariant_fails :
    (∃ st, (inv_first_batch 40 InvModP_overflow_input).bind (inv_regs_at 40 5) = some st ∧
      st.res.toInt * (InvModP_overflow_input.low : Int) ≡ st.modp.toInt [ZMOD (PRIME_P : Int)] ∧
      st.a.toInt * (InvModP_overflow_input.low : Int) ≡ st.val.toInt [ZMOD (PRIME_P : Int)]) ∧
    ∃ st, (inv_first_batch 40 InvModP_overflow_input).bind (inv_regs_at 40 6) = some st ∧
      st.res.toInt * (InvModP_overflow_input.low : Int) ≡ st.modp.toInt [ZMOD (PRIME_P : Int)] ∧
      ¬ st.a.toInt * (InvModP_overflow_input.low : Int) ≡ st.val.toInt [ZMOD (PRIME_P : Int)] := by
  constructor
  · have key : ((inv_first_batch 40 InvModP_overflow_input).bind (inv_regs_at 40 5)).any
        (fun st => decide
          (st.res.toInt * (InvModP_overflow_input.low : Int)
              ≡ st.modp.toInt [ZMOD (PRIME_P : Int)] ∧
            st.a.toInt * (InvModP_overflow_input.low : Int)
              ≡ st.val.toInt [ZMOD (PRIME_P : Int)])) = true := by decide!
    obtain ⟨st, h1, h2⟩ := option_any_exists _ _ key
    exact ⟨st, h1, of_decide_eq_true h2⟩
  · have key : ((inv_first_batch 40 InvModP_overflow_input).bind (inv_regs_at 40 6)).any
        (fun st => decide
          (st.res.toInt * (InvModP_overflow_input.low : Int)
              ≡ st.modp.toInt [ZMOD (PRIME_P : Int)] ∧
            ¬ st.a.toInt * (InvModP_overflow_input.low : Int)
              ≡ st.val.toInt [ZMOD (PRIME_P : Int)])) = true := by decide!
    obtain ⟨st, h1, h2⟩ := option_any_exists _ _ key
    exact ⟨st, h1, of_decide_eq_true h2⟩

theorem option_any2_exists {α β : Type} (o : Option α) (f : α → Option β) (p : α → β → Prop)
    [∀ a b, Decidable (p a b)]
    (h : o.any (fun a => (f a).any fun b => decide (p a b)) = true) :
    ∃ a b, o = some a ∧ f a = some b ∧ p a b := by
  cases o with
  | none => simp at h
  | some a =>
    simp only [Option.any_some] at h
    cases hb : f a with
    | none => rw [hb] at h; simp at h
    | some b =>
      rw [hb] at h
      exact ⟨a, b, rfl, hb, by simpa using h⟩

/-- C26 (failing input): on the input `0x220ae8e6ebcd2abaa5fae28b2a4a2e28e798660c18fad4f6705c9`,
in the sixth iteration of the outer loop, the matrix row for `a` is within the bound
`|matrix[2]| + |matrix[3]| ≤ 2^30`, both products `matrix[2] * res` and `matrix[3] * a` and
the first sum `k * P + matrix[2] * res` are exact, and the second sum, formed by
`add_288(a, a, tmp[3])`, is not: its exact value is at least `2^287`, outside the signed
288-bit range. -/
theorem C26_sum_overflows :
    ∃ st m, (inv_first_batch 40 InvModP_overflow_input).bind (inv_regs_at 40 5) = some st ∧
      div_batch 40 st.kbnt st.val.w0 st.modp.w0 = some m ∧
      m.matrix2.natAbs + m.matrix3.natAbs ≤ 2^30 ∧
      (mul_288_by_i32 st.res m.matrix2).toInt = m.matrix2 * st.res.toInt ∧
      (mul_288_by_i32 st.a m.matrix3).toInt = m.matrix3 * st.a.toInt ∧
      (add_288 (mul_P_by_32 (mont_factor (((mul_288_by_i32 st.res m.matrix2).w0
          + (mul_288_by_i32 st.a m.matrix3).w0) % 2^32))) (mul_288_by_i32 st.res m.matrix2)).toInt
        = (mont_factor (((mul_288_by_i32 st.res m.matrix2).w0
          + (mul_288_by_i32 st.a m.matrix3).w0) % 2^32) : Int) * (PRIME_P : Int)
          + m.matrix2 * st.res.toInt ∧
      2^287 ≤ (mont_factor (((mul_288_by_i32 st.res m.matrix2).w0
          + (mul_288_by_i32 st.a m.matrix3).w0) % 2^32) : Int) * (PRIME_P : Int)
          + m.matrix2 * st.res.toInt + m.matrix3 * st.a.toInt ∧
      (add_288 (add_288 (mul_P_by_32 (mont_factor (((mul_288_by_i32 st.res m.matrix2).w0
          + (mul_288_by_i32 st.a m.matrix3).w0) % 2^32))) (mul_288_by_i32 st.res m.matrix2))
          (mul_288_by_i32 st.a m.matrix3)).toInt
        ≠ (mont_factor (((mul_288_by_i32 st.res m.matrix2).w0
          + (mul_288_by_i32 st.a m.matrix3).w0) % 2^32) : Int) * (PRIME_P : Int)
          + m.matrix2 * st.res.toInt + m.matrix3 * st.a.toInt := by
  have key : ((inv_first_batch 40 InvModP_overflow_input).bind (inv_regs_at 40 5)).any
    (fun st => (div_batch 40 st.kbnt st.val.w0 st.modp.w0).any fun m => decide
      (m.matrix2.natAbs + m.matrix3.natAbs ≤ 2^30 ∧
      (mul_288_by_i32 st.res m.matrix2).toInt = m.matrix2 * st.res.toInt ∧
      (mul_288_by_i32 st.a m.matrix3).toInt = m.matrix3 * st.a.toInt ∧
      (add_288 (mul_P_by_32 (mont_factor (((mul_288_by_i32 st.res m.matrix2).w0
          + (mul_288_by_i32 st.a m.matrix3).w0) % 2^32))) (mul_288_by_i32 st.res m.matrix2)).toInt
        = (mont_factor (((mul_288_by_i32 st.res m.matrix2).w0
          + (mul_288_by_i32 st.a m.matrix3).w0) % 2^32) : Int) * (PRIME_P : Int)
          + m.matrix2 * st.res.toInt ∧
      2^287 ≤ (mont_factor (((mul_288_by_i32 st.res m.matrix2).w0
          + (mul_288_by_i32 st.a m.matrix3).w0) % 2^32) : Int) * (PRIME_P : Int)
          + m.matrix2 * st.res.toInt + m.matrix3 * st.a.toInt ∧
      (add_288 (add_288 (mul_P_by_32 (mont_factor (((mul_288_by_i32 st.res m.matrix2).w0
          + (mul_288_by_i32 st.a m.matrix3).w0) % 2^32))) (mul_288_by_i32 st.res m.matrix2))
          (mul_288_by_i32 st.a m.matrix3)).toInt
        ≠ (mont_factor (((mul_288_by_i32 st.res m.matrix2).w0
          + (mul_288_by_i32 st.a m.matrix3).w0) % 2^32) : Int) * (PRIME_P : Int)
          + m.matrix2 * st.res.toInt + m.matrix3 * st.a.toInt)) = true := by decide!
  obtain ⟨st, m, h1, h2, h3⟩ := option_any2_exists _ _ _ key
  exact ⟨st, m, h1, h2, h3⟩

/-! ## The Montgomery factor and the exact shift -/

/-- `mul_P_by_32` is `val * 2^256 - val * 0x1000003D1` modulo `2^288`. -/
theorem mul_P_by_32_spec (val : Nat) (hval : val < 2^32) :
    (mul_P_by_32 val).wf ∧
    ∃ q, (mul_P_by_32 val).toNat + val * (2^32 + 977) = 2^256 * val + 2^288 * q := by
  generalize hr : mul_P_by_32 val = r
  unfold mul_P_by_32 at hr
  lift_lets at hr
  extract_lets tmp64 t1 t2 r0 r1 r2 r3 r4 r5 r6 r7 r8 at hr
  have z : (0:Nat) < 2^32 := by norm_num
  have hp : tmp64 = val * P_INV32 ∧ tmp64 ≤ (2^32 - 1) * (2^32 - 1) :=
    mul_wide_32_spec val P_INV32 hval (by unfold P_INV32; norm_num)
  obtain ⟨hw, hlo, hhi⟩ := lo32_hi32_prod tmp64 hp.2
  have f1 : t1.1 + 2^32 * t1.2 = hi32 tmp64 + val ∧ t1.1 < 2^32 ∧ t1.2 ≤ 1 :=
    add_cc_32_spec _ _ (by omega) hval
  have f2 : t2.1 = t1.2 := addc_32_carry _ f1.2.2
  have e0 : r0.1 + lo32 tmp64 = 0 + 2^32 * r0.2 ∧ r0.1 < 2^32 ∧ r0.2 ≤ 1 :=
    sub_cc_32_spec _ _ z hlo
  have e1 : r1.1 + t1.1 + r0.2 = 0 + 2^32 * r1.2 ∧ r1.1 < 2^32 ∧ r1.2 ≤ 1 :=
    subc_cc_32_spec _ _ _ z f1.2.1 e0.2.2
  have e2 : r2.1 + t2.1 + r1.2 = 0 + 2^32 * r2.2 ∧ r2.1 < 2^32 ∧ r2.2 ≤ 1 :=
    subc_cc_32_spec _ _ _ z (by omega) e1.2.2
  have e3 : r3.1 + 0 + r2.2 = 0 + 2^32 * r3.2 ∧ r3.1 < 2^32 ∧ r3.2 ≤ 1 :=
    subc_cc_32_spec _ _ _ z z e2.2.2
  have e4 : r4.1 + 0 + r3.2 = 0 + 2^32 * r4.2 ∧ r4.1 < 2^32 ∧ r4.2 ≤ 1 :=
    subc_cc_32_spec _ _ _ z z e3.2.2
  have e5 : r5.1 + 0 + r4.2 = 0 + 2^32 * r5.2 ∧ r5.1 < 2^32 ∧ r5.2 ≤ 1 :=
    subc_cc_32_spec _ _ _ z z e4.2.2
  have e6 : r6.1 + 0 + r5.2 = 0 + 2^32 * r6.2 ∧ r6.1 < 2^32 ∧ r6.2 ≤ 1 :=
    subc_cc_32_spec _ _ _ z z e5.2.2
  have e7 : r7.1 + 0 + r6.2 = 0 + 2^32 * r7.2 ∧ r7.1 < 2^32 ∧ r7.2 ≤ 1 :=
    subc_cc_32_spec _ _ _ z z e6.2.2
  obtain ⟨q, e8⟩ : ∃ q, r8.1 + 0 + r7.2 = val + 2^32 * q := subc_32_spec _ _ _ hval z e7.2.2
  have h8 : r8.1 < 2^32 := subc_32_lt _ _ _
  have hP : P_INV32 = 977 := rfl
  subst hr
  refine ⟨⟨e0.2.1, e1.2.1, e2.2.1, e3.2.1, e4.2.1, e5.2.1, e6.2.1, e7.2.1, h8⟩, q, ?_⟩
  simp only [W9.toNat]
  rw [hP] at hp
  linear_combination e0.1 + 2^32 * e1.1 + 2^64 * e2.1 + 2^96 * e3.1 + 2^128 * e4.1
    + 2^160 * e5.1 + 2^192 * e6.1 + 2^224 * e7.1 + 2^256 * e8 - hw - hp.1
    - 2^32 * f1.1 - 2^64 * f2

/-- The Montgomery factor is `x * 0xD2253531` modulo `2^30`. -/
theorem mont_factor_eq (x : Nat) : mont_factor x = (x * 0xD2253531) % 2^30 := by
  unfold mont_factor
  have h : (0x3FFFFFFF : Nat) = 2^30 - 1 := by norm_num
  rw [h, Nat.and_pow_two_sub_one_eq_mod]
  exact Nat.mod_mod_of_dvd _ (by norm_num)

theorem mont_factor_lt (x : Nat) : mont_factor x < 2^30 := by
  rw [mont_factor_eq]; exact Nat.mod_lt _ (by norm_num)

/-- The arithmetic of the factor: `k * P + t` is a multiple of `2^30`. -/
theorem mont_factor_dvd (t : Nat) : (mont_factor t * PRIME_P + t) % 2^30 = 0 := by
  rw [mont_factor_eq]
  have h1 : (t * 0xD2253531 % 2^30 * PRIME_P + t) % 2^30
      = (t * 0xD2253531 * PRIME_P + t) % 2^30 := by
    apply Nat.ModEq.add_right
    apply Nat.ModEq.mul_right
    exact Nat.mod_mod _ _
  rw [h1]
  have h2 : (0xD2253531 * PRIME_P + 1) % 2^30 = 0 := by decide
  have h3 : t * 0xD2253531 * PRIME_P + t = t * (0xD2253531 * PRIME_P + 1) := by ring
  rw [h3, Nat.mul_mod, h2]
  simp

theorem W9_toNat_low (a : W9) : ∃ h, a.toNat = a.w0 + 2^32 * h :=
  ⟨a.w1 + 2^32 * a.w2 + 2^64 * a.w3 + 2^96 * a.w4 + 2^128 * a.w5 + 2^160 * a.w6
    + 2^192 * a.w7 + 2^224 * a.w8, by simp only [W9.toNat]; ring⟩

/-- The value `mul_P_by_32` leaves for a factor below `2^30` is the exact product. -/
theorem mul_P_by_32_exact (k : Nat) (hk : k < 2^30) :
    (mul_P_by_32 k).wf ∧ (mul_P_by_32 k).toInt = ((k * PRIME_P : Nat) : Int) := by
  obtain ⟨hwf, q, hq⟩ := mul_P_by_32_spec k (by omega)
  refine ⟨hwf, ?_⟩
  have hP : k * PRIME_P + k * (2^32 + 977) = 2^256 * k := by
    have : PRIME_P + (2^32 + 977) = 2^256 := by decide
    rw [← Nat.mul_add, this, Nat.mul_comm]
  have hb : k * PRIME_P < 2^286 := by
    have : PRIME_P < 2^256 := by decide
    calc k * PRIME_P < 2^30 * 2^256 := Nat.mul_lt_mul_of_lt_of_lt hk this
      _ = 2^286 := by norm_num
  generalize k * PRIME_P = kP at hP hb ⊢
  generalize k * (2^32 + 977) = kC at hP hq
  have hlt := W9_toNat_lt _ hwf
  unfold W9.toInt
  generalize (mul_P_by_32 k).toNat = n at hq hlt ⊢
  split_ifs <;> omega

/-- C28: for every 32-bit word `t`, with `k = (t * 0xD2253531) mod 2^30` the integer
`k * P + t` is divisible by `2^30`; and in the accumulator update of `InvModP`
(`mul_P_by_32` with the factor of `tmp[0][0] + tmp[1][0]`, then `add_288` twice, then
`shiftR_288_by_30`) the product `k * P` is exact, the low 30 bits of the sum are zero, and
the shift is the exact division of the sum by `2^30`. -/
theorem C28_shift_exact (t0 t1 : W9) (h0 : t0.wf) (h1 : t1.wf) :
    (∀ t : Nat, t < 2^32 → (mont_factor t * PRIME_P + t) % 2^30 = 0) ∧
    (mul_P_by_32 (mont_factor ((t0.w0 + t1.w0) % 2^32))).toInt
      = ((mont_factor ((t0.w0 + t1.w0) % 2^32) * PRIME_P : Nat) : Int) ∧
    (add_288 (add_288 (mul_P_by_32 (mont_factor ((t0.w0 + t1.w0) % 2^32))) t0) t1).w0 % 2^30
      = 0 ∧
    (shiftR_288_by_30
        (add_288 (add_288 (mul_P_by_32 (mont_factor ((t0.w0 + t1.w0) % 2^32))) t0) t1)).toInt
        * 2^30
      = (add_288 (add_288 (mul_P_by_32 (mont_factor ((t0.w0 + t1.w0) % 2^32))) t0) t1).toInt := by
  have hd := mont_factor_dvd ((t0.w0 + t1.w0) % 2^32)
  have hk := mont_factor_lt ((t0.w0 + t1.w0) % 2^32)
  generalize mont_factor ((t0.w0 + t1.w0) % 2^32) = k at hd hk ⊢
  obtain ⟨hM, hMe⟩ := mul_P_by_32_exact k hk
  obtain ⟨_, q, hq⟩ := mul_P_by_32_spec k (by omega)
  obtain ⟨hs1, q1, e1⟩ := add_288_spec _ _ hM h0
  obtain ⟨hs, q2, e2⟩ := add_288_spec _ _ hs1 h1
  have hP : k * PRIME_P + k * (2^32 + 977) = 2^256 * k := by
    have : PRIME_P + (2^32 + 977) = 2^256 := by decide
    rw [← Nat.mul_add, this, Nat.mul_comm]
  obtain ⟨hsh, hshift⟩ := shiftR_288_by_30_spec _ hs
  have hlow : (add_288 (add_288 (mul_P_by_32 k) t0) t1).w0 % 2^30 = 0 := by
    obtain ⟨S, eS⟩ := W9_toNat_low (add_288 (add_288 (mul_P_by_32 k) t0) t1)
    obtain ⟨A, eA⟩ := W9_toNat_low t0
    obtain ⟨B, eB⟩ := W9_toNat_low t1
    rw [eS, eB] at e2
    rw [eA] at e1
    generalize (add_288 (add_288 (mul_P_by_32 k) t0) t1).w0 = s0 at e2 ⊢
    generalize (add_288 (mul_P_by_32 k) t0).toNat = n1 at e1 e2
    generalize (mul_P_by_32 k).toNat = n0 at hq e1
    generalize k * PRIME_P = kP at hP hd
    generalize k * (2^32 + 977) = kC at hP hq
    clear hMe hshift hsh hs hs1 hM h0 h1
    omega
  refine ⟨fun t _ => mont_factor_dvd t, hMe, hlow, ?_⟩
  rw [hshift]
  have hmod : (add_288 (add_288 (mul_P_by_32 k) t0) t1).toInt % 2^30 = 0 := by
    obtain ⟨S, eS⟩ := W9_toNat_low (add_288 (add_288 (mul_P_by_32 k) t0) t1)
    unfold W9.toInt
    rw [eS]
    generalize (add_288 (add_288 (mul_P_by_32 k) t0) t1).w0 = s0 at hlow ⊢
    split_ifs <;> omega
  generalize (add_288 (add_288 (mul_P_by_32 k) t0) t1).toInt = z at hmod ⊢
  omega

theorem C28_shift_exact_witness :
    (W9.mk 0xFFFFFFFB 7 0 0 0 0 0 0 0).wf ∧ (W9.mk 12 0 3 0 0 0 0 0 0xFFFFFFFF).wf ∧
    ((∀ t : Nat, t < 2^32 → (mont_factor t * PRIME_P + t) % 2^30 = 0) ∧
    (mul_P_by_32 (mont_factor (((W9.mk 0xFFFFFFFB 7 0 0 0 0 0 0 0).w0
        + (W9.mk 12 0 3 0 0 0 0 0 0xFFFFFFFF).w0) % 2^32))).toInt
      = ((mont_factor (((W9.mk 0xFFFFFFFB 7 0 0 0 0 0 0 0).w0
        + (W9.mk 12 0 3 0 0 0 0 0 0xFFFFFFFF).w0) % 2^32) * PRIME_P : Nat) : Int) ∧
    (add_288 (add_288 (mul_P_by_32 (mont_factor (((W9.mk 0xFFFFFFFB 7 0 0 0 0 0 0 0).w0
        + (W9.mk 12 0 3 0 0 0 0 0 0xFFFFFFFF).w0) % 2^32))) (W9.mk 0xFFFFFFFB 7 0 0 0 0 0 0 0))
        (W9.mk 12 0 3 0 0 0 0 0 0xFFFFFFFF)).w0 % 2^30 = 0 ∧
    (shiftR_288_by_30
        (add_288 (add_288 (mul_P_by_32 (mont_factor (((W9.mk 0xFFFFFFFB 7 0 0 0 0 0 0 0).w0
        + (W9.mk 12 0 3 0 0 0 0 0 0xFFFFFFFF).w0) % 2^32))) (W9.mk 0xFFFFFFFB 7 0 0 0 0 0 0 0))
        (W9.mk 12 0 3 0 0 0 0 0 0xFFFFFFFF))).toInt * 2^30
      = (add_288 (add_288 (mul_P_by_32 (mont_factor (((W9.mk 0xFFFFFFFB 7 0 0 0 0 0 0 0).w0
        + (W9.mk 12 0 3 0 0 0 0 0 0xFFFFFFFF).w0) % 2^32))) (W9.mk 0xFFFFFFFB 7 0 0 0 0 0 0 0))
        (W9.mk 12 0 3 0 0 0 0 0 0xFFFFFFFF)).toInt) :=
  ⟨by decide, by decide,
    C28_shift_exact (W9.mk 0xFFFFFFFB 7 0 0 0 0 0 0 0) (W9.mk 12 0 3 0 0 0 0 0 0xFFFFFFFF)
      (by decide) (by decide)⟩

/-! ## Every batch of `InvModP` consumes 30 bits -/

/-- The value `inv_reduce_index` is the shift of `inv_reduce`. -/
theorem inv_reduce_index_spec (s : DivState) :
    inv_reduce s =
      { APPLY_DIV_SHIFT
          { s with
            _val := wrap32 (s._val + wrap32 (s._modp *
              toI32 (toU32 (toI32 (toU32 (wrap32 (wrap32 (-s._modp) * s._val)) &&& 7)) &&&
                (0xFFFFFFFF >>> (if wrap32 (s.kbnt + 1) < s.cnt then wrap32 (31 - s.kbnt)
                  else wrap32 (32 - s.cnt)).toNat))))
            matrix2 := wrap32 (s.matrix2 + wrap32 (s.matrix0 *
              toI32 (toU32 (toI32 (toU32 (wrap32 (wrap32 (-s._modp) * s._val)) &&& 7)) &&&
                (0xFFFFFFFF >>> (if wrap32 (s.kbnt + 1) < s.cnt then wrap32 (31 - s.kbnt)
                  else wrap32 (32 - s.cnt)).toNat))))
            matrix3 := wrap32 (s.matrix3 + wrap32 (s.matrix1 *
              toI32 (toU32 (toI32 (toU32 (wrap32 (wrap32 (-s._modp) * s._val)) &&& 7)) &&&
                (0xFFFFFFFF >>> (if wrap32 (s.kbnt + 1) < s.cnt then wrap32 (31 - s.kbnt)
                  else wrap32 (32 - s.cnt)).toNat)))) }
          (inv_reduce_index s) with
        cnt := s.cnt - inv_reduce_index s } := rfl

theorem inv_reduce_cnt (s : DivState) : (inv_reduce s).cnt = s.cnt - inv_reduce_index s := rfl

/-- The shifts of the inner loop add up to the decrease of `cnt`. -/
theorem inv_loop_shifts_sum (fuel : Nat) :
    ∀ (s m : DivState), inv_loop fuel s = some m →
      ∃ l, inv_loop_shifts fuel s = some l ∧ l.sum = s.cnt - m.cnt := by
  induction fuel with
  | zero =>
    intro s m h
    by_cases hc : s.cnt > 0
    · simp only [inv_loop, if_pos hc] at h
      exact absurd h (by simp)
    · simp only [inv_loop, if_neg hc, Option.some.injEq] at h
      subst h
      exact ⟨[], by simp only [inv_loop_shifts, if_neg hc], by simp⟩
  | succ n ih =>
    intro s m h
    by_cases hc : s.cnt > 0
    · simp only [inv_loop, if_pos hc] at h
      obtain ⟨l, hl, hsum⟩ := ih _ m h
      refine ⟨inv_reduce_index (if s.kbnt < 0 then DO_INV_STEP s else s) :: l,
        by simp only [inv_loop_shifts, if_pos hc, hl, Option.map_some'], ?_⟩
      rw [List.sum_cons, hsum]
      have : (inv_loop_body s).cnt
          = s.cnt - inv_reduce_index (if s.kbnt < 0 then DO_INV_STEP s else s) := by
        unfold inv_loop_body
        rw [inv_reduce_cnt]
        split_ifs <;> rfl
      rw [this]; ring
    · simp only [inv_loop, if_neg hc, Option.some.injEq] at h
      subst h
      exact ⟨[], by simp only [inv_loop_shifts, if_neg hc], by simp⟩

/-- The shifts of a batch add up to `30` minus the final `cnt`. -/
theorem div_batch_shifts_sum (fuel : Nat) (kbnt : Int) (val0 modp0 : Nat) (m : DivState)
    (h : div_batch fuel kbnt val0 modp0 = some m) :
    ∃ l, div_batch_shifts fuel kbnt val0 modp0 = some l ∧ l.sum = 30 - m.cnt := by
  unfold div_batch at h
  dsimp only at h
  obtain ⟨l, hl, hsum⟩ := inv_loop_shifts_sum fuel _ m h
  refine ⟨(((ffs (toU32 (toI32 val0) ||| 0x40000000) : Nat) : Int) - 1) :: l, ?_, ?_⟩
  · unfold div_batch_shifts
    dsimp only
    rw [hl]; rfl
  · rw [List.sum_cons, hsum]
    dsimp only
    ring

/-- A batch started from registers that satisfy the invariant ends with `cnt = 0`. -/
theorem batch_cnt_zero (j : Nat) (kbnt : Int) (modp val : W9) (h : DivInv j kbnt modp val)
    (hj : j ≤ 31) (fuel : Nat) (hfuel : 30 ≤ fuel) :
    ∃ m, div_batch fuel kbnt val.w0 modp.w0 = some m ∧ m.cnt = 0 := by
  obtain ⟨wm, wv, hodd, hFb, hGb, hk, hpot⟩ := h
  have hK : 1 + 30 * j ≤ 2^20 := by omega
  obtain ⟨m, hm, f, g, hI, -⟩ :=
    div_batch_inv modp.toInt val.toInt kbnt val.w0 modp.w0
      (4 * (PRIME_P : ℚ)^2 * (2/3)^(30 * j)) (1 + 30 * j) hodd (W9_low_word val)
      (W9_low_word modp) hK (by push_cast; exact hk) hpot fuel hfuel
  exact ⟨m, hm, by have := hI.hcnt; simpa using this⟩

/-- The registers `InvModP` starts from (`kbnt = -1`, `modp = P`, `val` the input) satisfy
the invariant. -/
theorem DivInv_init (res : W9) (hw : res.wf) (h1 : res.low < PRIME_P) :
    DivInv 0 (-1)
      ⟨lo32 P_0, hi32 P_0, lo32 P_123, hi32 P_123, lo32 P_123, hi32 P_123, lo32 P_123,
        hi32 P_123, 0⟩
      ⟨res.w0, res.w1, res.w2, res.w3, res.w4, res.w5, res.w6, res.w7, 0⟩ := by
  obtain ⟨hw0, hw1, hw2, hw3, hw4, hw5, hw6, hw7, -⟩ := hw
  have hPb := PRIME_P_bounds
  have hmw : (⟨lo32 P_0, hi32 P_0, lo32 P_123, hi32 P_123, lo32 P_123, hi32 P_123,
      lo32 P_123, hi32 P_123, 0⟩ : W9).wf :=
    ⟨lo32_lt _, hi32_lt _, lo32_lt _, hi32_lt _, lo32_lt _, hi32_lt _, lo32_lt _, hi32_lt _,
      by norm_num⟩
  have hvw : (⟨res.w0, res.w1, res.w2, res.w3, res.w4, res.w5, res.w6, res.w7, 0⟩ : W9).wf :=
    ⟨hw0, hw1, hw2, hw3, hw4, hw5, hw6, hw7, by norm_num⟩
  have hmN : (⟨lo32 P_0, hi32 P_0, lo32 P_123, hi32 P_123, lo32 P_123, hi32 P_123,
      lo32 P_123, hi32 P_123, 0⟩ : W9).toNat = PRIME_P := by
    simp [W9.toNat, lo32, hi32, P_0, P_123, PRIME_P]
  have hvN : (⟨res.w0, res.w1, res.w2, res.w3, res.w4, res.w5, res.w6, res.w7, 0⟩ : W9).toNat
      = res.low := by
    simp [W9.toNat, W9.low]
  have hmZ : (⟨lo32 P_0, hi32 P_0, lo32 P_123, hi32 P_123, lo32 P_123, hi32 P_123,
      lo32 P_123, hi32 P_123, 0⟩ : W9).toInt = (PRIME_P : Int) :=
    W9_toInt_eq_of_modEq _ hmw _ (by rw [hmN]) (by omega) (by omega)
  have hvZ : (⟨res.w0, res.w1, res.w2, res.w3, res.w4, res.w5, res.w6, res.w7, 0⟩ : W9).toInt
      = (res.low : Int) :=
    W9_toInt_eq_of_modEq _ hvw _ (by rw [hvN]) (by omega) (by omega)
  have hodd : (PRIME_P : Int) % 2 = 1 := by
    have : PRIME_P % 2 = 1 := by unfold PRIME_P; norm_num
    omega
  refine ⟨hmw, hvw, ?_, ?_, ?_, ?_, ?_⟩
  · rw [hmZ]; exact hodd
  · rw [hmZ, abs_of_nonneg (Int.natCast_nonneg _)]
  · rw [hvZ, abs_of_nonneg (Int.natCast_nonneg _)]
    exact_mod_cast h1.le
  · norm_num
  · rw [hmZ, hvZ]
    have := Lam_init (res.low : Int) (Int.natCast_nonneg _) (by exact_mod_cast h1.le)
    simpa using this

/-- One pass through the body of the outer loop that does not reach the `break` keeps the
invariant, and fewer than 32 batches have run. -/
theorem inv_outer_body_inv (fuel : Nat) (hfuel : 30 ≤ fuel) (j : Nat) (st st' : InvRegs)
    (hD : DivInv j st.kbnt st.modp st.val) (hj : j ≤ 31)
    (h : inv_outer_body fuel st = some (Sum.inl st')) :
    j + 1 ≤ 31 ∧ DivInv (j + 1) st'.kbnt st'.modp st'.val := by
  obtain ⟨m, hm, hD'⟩ := batch_step j st.kbnt st.modp st.val hD hj fuel hfuel
  unfold inv_outer_body at h
  simp only [hm] at h
  split_ifs at h with hz
  · simp at h
  simp only [Option.some.injEq, Sum.inl.injEq] at h
  subst h
  have hG : (shiftR_288_by_30 (add_288 (mul_288_by_i32 st.modp m.matrix2)
      (mul_288_by_i32 st.val m.matrix3))).toInt ≠ 0 :=
    fun h0 => hz (W9_or_zero _ hD'.2.1 h0)
  have hlow := Lam_lower m.kbnt _ _ hD'.2.2.1 hG
  have hup := hD'.2.2.2.2.2.2
  refine ⟨?_, hD'⟩
  by_contra hc
  have := pot_small (j + 1) (by omega)
  linarith

/-- The registers at the start of every iteration of the outer loop satisfy the invariant. -/
theorem inv_regs_at_inv (fuel : Nat) (hfuel : 30 ≤ fuel) :
    ∀ (n j : Nat) (st st' : InvRegs), DivInv j st.kbnt st.modp st.val → j ≤ 31 →
      inv_regs_at fuel n st = some st' →
      ∃ j', j' ≤ 31 ∧ DivInv j' st'.kbnt st'.modp st'.val := by
  intro n
  induction n with
  | zero =>
    intro j st st' hD hj h
    simp only [inv_regs_at, Option.some.injEq] at h
    subst h
    exact ⟨j, hj, hD⟩
  | succ n ih =>
    intro j st st' hD hj h
    rw [inv_regs_at] at h
    cases hb : inv_outer_body fuel st with
    | none => rw [hb] at h; simp at h
    | some r =>
      cases r with
      | inr b => rw [hb] at h; simp at h
      | inl s1 =>
        rw [hb] at h
        obtain ⟨hj1, hD1⟩ := inv_outer_body_inv fuel hfuel j st s1 hD hj hb
        exact ih (j + 1) s1 st' hD1 hj1 h

/-- C27: for every input in `(0, P)` and fuel of at least 30, in the batch before the outer
loop and in every iteration of the outer loop the inner `while (cnt > 0)` loop terminates,
it ends with `cnt = 0`, and the shift amounts that `APPLY_DIV_SHIFT()` was given in the
batch add up to exactly 30. -/
theorem C27_batch_consumes_30_bits (res : W9) (hw : res.wf) (h0 : 0 < res.low)
    (h1 : res.low < PRIME_P) (fuel : Nat) (hfuel : 30 ≤ fuel) :
    (∃ m l, div_batch fuel (-1) res.w0 (P_0 % 2^32) = some m ∧ m.cnt = 0 ∧
      div_batch_shifts fuel (-1) res.w0 (P_0 % 2^32) = some l ∧ l.sum = 30) ∧
    ∀ n st, (inv_first_batch fuel res).bind (inv_regs_at fuel n) = some st →
      ∃ m l, div_batch fuel st.kbnt st.val.w0 st.modp.w0 = some m ∧ m.cnt = 0 ∧
        div_batch_shifts fuel st.kbnt st.val.w0 st.modp.w0 = some l ∧ l.sum = 30 := by
  constructor
  · obtain ⟨m, hm, hc⟩ := batch_cnt_zero 0 (-1) _ _ (DivInv_init res hw h1) (by norm_num)
      fuel hfuel
    have hm' : div_batch fuel (-1) res.w0 (P_0 % 2^32) = some m := hm
    obtain ⟨l, hl, hs⟩ := div_batch_shifts_sum fuel _ _ _ m hm'
    exact ⟨m, l, hm', hc, hl, by rw [hs, hc]; norm_num⟩
  · intro n st h
    obtain ⟨s1, hs1, hD1⟩ := inv_first_batch_inv res hw h0 h1 fuel hfuel
    rw [hs1, Option.some_bind] at h
    obtain ⟨j, hj, hD⟩ := inv_regs_at_inv fuel hfuel n 1 s1 st hD1 (by norm_num) h
    obtain ⟨m, hm, hc⟩ := batch_cnt_zero j _ _ _ hD hj fuel hfuel
    obtain ⟨l, hl, hs⟩ := div_batch_shifts_sum fuel _ _ _ m hm
    exact ⟨m, l, hm, hc, hl, by rw [hs, hc]; norm_num⟩

theorem C27_batch_consumes_30_bits_witness :
    (W9.mk 7 0 0 0 0 0 0 0 0).wf ∧ 0 < (W9.mk 7 0 0 0 0 0 0 0 0).low ∧
    (W9.mk 7 0 0 0 0 0 0 0 0).low < PRIME_P ∧ 30 ≤ 30 ∧
    ((∃ m l, div_batch 30 (-1) (W9.mk 7 0 0 0 0 0 0 0 0).w0 (P_0 % 2^32) = some m ∧ m.cnt = 0 ∧
      div_batch_shifts 30 (-1) (W9.mk 7 0 0 0 0 0 0 0 0).w0 (P_0 % 2^32) = some l ∧
      l.sum = 30) ∧
    ∀ n st, (inv_first_batch 30 (W9.mk 7 0 0 0 0 0 0 0 0)).bind (inv_regs_at 30 n) = some st →
      ∃ m l, div_batch 30 st.kbnt st.val.w0 st.modp.w0 = some m ∧ m.cnt = 0 ∧
        div_batch_shifts 30 st.kbnt st.val.w0 st.modp.w0 = some l ∧ l.sum = 30) :=
  ⟨by decide, by decide, by decide, le_refl _,
    C27_batch_consumes_30_bits (W9.mk 7 0 0 0 0 0 0 0 0) (by decide) (by decide) (by decide)
      30 (le_refl _)⟩

/-! ## `Release` frees in the reverse order of allocation -/

/-- Every pass of the loop launches the kernel exactly once. -/
theorem Execute_step_launch (MAX_DP_CNT GPU_DP_SIZE : Int) (e : StepEnv) :
    (Execute_step MAX_DP_CNT GPU_DP_SIZE e).1.count ExecEvent.launch = 1 := by
  unfold Execute_step
  dsimp only
  split_ifs <;> simp [List.count_cons, List.count_append]

/-- The loop of `Execute` runs whole passes until the first head at which `StopFlag` is set
or the first pass that ends in a `break`, and then calls `Release`. -/
theorem Execute_loop_passes (MAX_DP_CNT GPU_DP_SIZE : Int) (stop : Nat → Bool)
    (env : Nat → StepEnv) :
    ∀ (m fuel j : Nat), stop (j + m) = true → m < fuel →
      ∃ n, n ≤ m ∧ (∀ i, i < n → stop (j + i) = false) ∧
        Execute_loop MAX_DP_CNT GPU_DP_SIZE stop env fuel j
          = some (Execute_passes MAX_DP_CNT GPU_DP_SIZE env n j ++ [ExecEvent.release]) ∧
        (Execute_passes MAX_DP_CNT GPU_DP_SIZE env n j).count ExecEvent.launch = n := by
  intro m
  induction m with
  | zero =>
    intro fuel j hs hf
    obtain ⟨f, rfl⟩ : ∃ f, fuel = f + 1 := ⟨fuel - 1, by omega⟩
    refine ⟨0, le_refl _, fun i hi => absurd hi (by omega), ?_, rfl⟩
    have hs' : stop j = true := by simpa using hs
    simp [Execute_loop, hs', Execute_passes]
  | succ m ih =>
    intro fuel j hs hf
    obtain ⟨f, rfl⟩ : ∃ f, fuel = f + 1 := ⟨fuel - 1, by omega⟩
    cases hj : stop j with
    | true =>
      refine ⟨0, Nat.zero_le _, fun i hi => absurd hi (by omega), ?_, rfl⟩
      simp [Execute_loop, hj, Execute_passes]
    | false =>
      cases hr : (Execute_step MAX_DP_CNT GPU_DP_SIZE (env j)).2 with
      | false =>
        refine ⟨1, by omega, ?_, ?_, ?_⟩
        · intro i hi
          have : i = 0 := by omega
          subst this
          simpa using hj
        · simp [Execute_loop, hj, hr, Execute_passes]
        · simp [Execute_passes, Execute_step_launch]
      | true =>
        obtain ⟨n, hn, hstop, hrun, hcount⟩ := ih f (j + 1)
          (by rw [← hs]; congr 1; omega) (by omega)
        refine ⟨n + 1, by omega, ?_, ?_, ?_⟩
        · intro i hi
          rcases Nat.eq_zero_or_pos i with h0 | h0
          · subst h0; simpa using hj
          · have := hstop (i - 1) (by omega)
            rw [← this]; congr 1; omega
        · simp [Execute_loop, hj, hr, hrun, Execute_passes]
        · simp only [Execute_passes, List.count_append, Execute_step_launch, hcount]
          omega

/-- C22: `Stop` sets `StopFlag` and nothing else. When `StopFlag` is set at the head of pass
`m` (and the loop is given more than `m` passes of fuel), `Execute` ends: its actions are
those of `n ≤ m` whole passes, each run to its end or to its own `break`, followed by the
call of `Release`; `StopFlag` was read as false at the head of each of these passes, and the
kernel was launched exactly `n` times, so no pass starts once the flag has been read as
set. -/
theorem C22_stop_at_pass_boundary (MAX_DP_CNT GPU_DP_SIZE : Int) (stop : Nat → Bool)
    (env : Nat → StepEnv) (s : KangMembers) (m fuel : Nat) (hm : stop m = true)
    (hfuel : m < fuel) :
    ((Stop s).StopFlag = true ∧ (Stop s).Failed = s.Failed ∧
      (Stop s).SpeedStats = s.SpeedStats ∧ (Stop s).cur_stats_ind = s.cur_stats_ind) ∧
    ∃ n, n ≤ m ∧ (∀ i, i < n → stop i = false) ∧
      Execute MAX_DP_CNT GPU_DP_SIZE true stop env fuel
        = some (Execute_passes MAX_DP_CNT GPU_DP_SIZE env n 0 ++ [ExecEvent.release]) ∧
      (Execute_passes MAX_DP_CNT GPU_DP_SIZE env n 0).count ExecEvent.launch = n := by
  refine ⟨⟨rfl, rfl, rfl, rfl⟩, ?_⟩
  obtain ⟨n, hn, hstop, hrun, hcount⟩ := Execute_loop_passes MAX_DP_CNT GPU_DP_SIZE stop env
    m fuel 0 (by simpa using hm) hfuel
  refine ⟨n, hn, fun i hi => by simpa using hstop i hi, ?_, hcount⟩
  simp only [Execute, Bool.true_eq_false, if_false]
  exact hrun

theorem C22_stop_at_pass_boundary_witness :
    (fun j => decide (2 ≤ j)) 2 = true ∧ 2 < 5 ∧
    (((Stop ⟨false, false, fun _ => 0, 0⟩).StopFlag = true ∧
      (Stop ⟨false, false, fun _ => 0, 0⟩).Failed = (KangMembers.mk false false (fun _ => 0) 0).Failed ∧
      (Stop ⟨false, false, fun _ => 0, 0⟩).SpeedStats
        = (KangMembers.mk false false (fun _ => 0) 0).SpeedStats ∧
      (Stop ⟨false, false, fun _ => 0, 0⟩).cur_stats_ind
        = (KangMembers.mk false false (fun _ => 0) 0).cur_stats_ind) ∧
    ∃ n, n ≤ 2 ∧ (∀ i, i < n → (fun j => decide (2 ≤ j)) i = false) ∧
      Execute 100 16 true (fun j => decide (2 ≤ j)) (fun _ => ⟨true, 3, true⟩) 5
        = some (Execute_passes 100 16 (fun _ => ⟨true, 3, true⟩) n 0 ++ [ExecEvent.release]) ∧
      (Execute_passes 100 16 (fun _ => ⟨true, 3, true⟩) n 0).count ExecEvent.launch = n) :=
  ⟨by decide, by decide,
    C22_stop_at_pass_boundary 100 16 (fun j => decide (2 ≤ j)) (fun _ => ⟨true, 3, true⟩)
      ⟨false, false, fun _ => 0, 0⟩ 2 5 (by decide) (by decide)⟩

/-! ## `GetStatsSpeed` and the statistics window -/

/-- The loop of `GetStatsSpeed` after `m` iterations holds the sum of the slots `0..m`, as
long as no partial sum leaves the range of `int`. -/
theorem GetStatsSpeed_loop (S : Int → Int) :
    ∀ m : Nat,
      (∀ k, k ≤ m → -2^31 ≤ ((List.range (k + 1)).map fun (i : Nat) => S (i : Int)).sum ∧
        ((List.range (k + 1)).map fun (i : Nat) => S (i : Int)).sum < 2^31) →
      (List.range m).foldl (fun (res : Int) (k : Nat) => wrap32 (res + S ((k : Int) + 1))) (S 0)
        = ((List.range (m + 1)).map fun (i : Nat) => S (i : Int)).sum := by
  intro m
  induction m with
  | zero => intro _; simp [List.range_succ]
  | succ m ih =>
    intro h
    have h1 := ih (fun k hk => h k (by omega))
    have h2 := h (m + 1) (le_refl _)
    rw [List.range_succ, List.foldl_append, h1]
    rw [List.range_succ (m + 1), List.map_append, List.sum_append] at h2 ⊢
    simp only [List.foldl_cons, List.foldl_nil, List.map_cons, List.map_nil, List.sum_cons,
      List.sum_nil, add_zero, Nat.cast_add, Nat.cast_one] at h2 ⊢
    exact wrap32_eq_self _ h2.1 h2.2

/-- C23 (counterexample): with `STATS_WND_SIZE = 4` and the slots `2147483647, 1, 0, 0` the
sum `2147483648` of the slots does not fit an `int`: the addition `res += SpeedStats[1]`
wraps to `-2147483648` and `GetStatsSpeed` returns `-536870912`, while the sum of the slots
divided by 4 is `536870912`. -/
theorem C23_GetStatsSpeed_overflow :
    GetStatsSpeed 4
        (KangMembers.mk false false
          (fun i => if i = 0 then 2147483647 else if i = 1 then 1 else 0) 2)
      = -536870912 ∧
    Int.tdiv ((List.range 4).map fun (i : Nat) =>
        (KangMembers.mk false false
          (fun i => if i = 0 then 2147483647 else if i = 1 then 1 else 0) 2
          ).SpeedStats (i : Int)).sum (4 : Nat) = 536870912 ∧
    GetStatsSpeed 4
        (KangMembers.mk false false
          (fun i => if i = 0 then 2147483647 else if i = 1 then 1 else 0) 2)
      ≠ Int.tdiv ((List.range 4).map fun (i : Nat) =>
        (KangMembers.mk false false
          (fun i => if i = 0 then 2147483647 else if i = 1 then 1 else 0) 2
          ).SpeedStats (i : Int)).sum (4 : Nat) := by
  decide

/-- C23 (amended): when no partial sum `SpeedStats[0] + ... + SpeedStats[k]`, `k <
STATS_WND_SIZE`, leaves the range of `int`, `GetStatsSpeed` returns the sum of all
`STATS_WND_SIZE` slots of `SpeedStats`, whatever they hold, divided by `STATS_WND_SIZE` with
the truncating division of C. -/
theorem C23_GetStatsSpeed_mean(N : Nat) (hN : 0 < N) (s : KangMembers)
    (hfit : ∀ k, k < N →
      -2^31 ≤ ((List.range (k + 1)).map fun (i : Nat) => s.SpeedStats (i : Int)).sum ∧
      ((List.range (k + 1)).map fun (i : Nat) => s.SpeedStats (i : Int)).sum < 2^31) :
    GetStatsSpeed N s
      = Int.tdiv ((List.range N).map fun (i : Nat) => s.SpeedStats (i : Int)).sum N := by
  unfold GetStatsSpeed
  dsimp only
  rw [GetStatsSpeed_loop s.SpeedStats (N - 1) (fun k hk => hfit k (by omega))]
  have : N - 1 + 1 = N := by omega
  rw [this]

theorem C23_GetStatsSpeed_mean_witness :
    0 < 4 ∧
    (∀ k, k < 4 →
      -2^31 ≤ ((List.range (k + 1)).map fun (i : Nat) =>
        (KangMembers.mk false false (fun i => if i = 0 then 7 else if i = 1 then 10 else 0) 2
          ).SpeedStats (i : Int)).sum ∧
      ((List.range (k + 1)).map fun (i : Nat) =>
        (KangMembers.mk false false (fun i => if i = 0 then 7 else if i = 1 then 10 else 0) 2
          ).SpeedStats (i : Int)).sum < 2^31) ∧
    GetStatsSpeed 4
        (KangMembers.mk false false (fun i => if i = 0 then 7 else if i = 1 then 10 else 0) 2)
      = Int.tdiv ((List.range 4).map fun (i : Nat) =>
        (KangMembers.mk false false (fun i => if i = 0 then 7 else if i = 1 then 10 else 0) 2
          ).SpeedStats (i : Int)).sum (4 : Nat) :=
  ⟨by decide, by decide,
    C23_GetStatsSpeed_mean 4 (by decide)
      (KangMembers.mk false false (fun i => if i = 0 then 7 else if i = 1 then 10 else 0) 2)
      (by decide)⟩

theorem mod_ne_of_lt_add (N k n : Nat) (h1 : k < n) (h2 : n < k + N) : k % N ≠ n % N := by
  intro h
  have hd : N ∣ n - k := (Nat.modEq_iff_dvd' h1.le).1 h
  have := Nat.le_of_dvd (by omega) hd
  omega

theorem tmod_succ_index (N n : Nat) (hN : 0 < N) (hN2 : N < 2^31) :
    Int.tmod (wrap32 (((n % N : Nat) : Int) + 1)) N = (((n + 1) % N : Nat) : Int) := by
  have hlt : n % N < N := Nat.mod_lt _ hN
  rw [wrap32_eq_self _ (by omega) (by omega)]
  have e : ((n % N : Nat) : Int) + 1 = ((n % N + 1 : Nat) : Int) := by push_cast; rfl
  rw [e, Int.tmod_eq_emod (by omega) (by omega), ← Int.natCast_mod]
  congr 1
  rw [Nat.add_mod, Nat.mod_mod, ← Nat.add_mod]

/-- The state of the window after the samples `l`, from the state `Prepare` leaves. -/
theorem stats_window_inv (N : Nat) (hN : 0 < N) (hN2 : N < 2^31) (s : KangMembers) :
    ∀ l : List Int,
      (Execute_stats_run N (Prepare_members N s) l).cur_stats_ind = ((l.length % N : Nat) : Int) ∧
      (∀ k, k < l.length → l.length ≤ k + N →
        (Execute_stats_run N (Prepare_members N s) l).SpeedStats ((k % N : Nat) : Int)
          = l.getD k 0) ∧
      (∀ i : Nat, l.length ≤ i → i < N →
        (Execute_stats_run N (Prepare_members N s) l).SpeedStats (i : Int) = 0) ∧
      (∀ z : Int, ¬ (0 ≤ z ∧ z < (N : Int)) →
        (Execute_stats_run N (Prepare_members N s) l).SpeedStats z = s.SpeedStats z) := by
  intro l
  induction l using List.reverseRecOn with
  | nil =>
    refine ⟨?_, ?_, ?_, ?_⟩
    · simp [Execute_stats_run, Prepare_members]
    · intro k hk; simp at hk
    · intro i _ hi
      simp only [Execute_stats_run, List.foldl_nil, Prepare_members]
      rw [if_pos ⟨by omega, by omega⟩]
    · intro z hz
      simp only [Execute_stats_run, List.foldl_nil, Prepare_members]
      rw [if_neg hz]
  | append_singleton l c ih =>
    obtain ⟨i1, i2, i3, i4⟩ := ih
    have hrun : Execute_stats_run N (Prepare_members N s) (l ++ [c])
        = Execute_stats N (Execute_stats_run N (Prepare_members N s) l) c := by
      simp [Execute_stats_run, List.foldl_append]
    rw [hrun]
    generalize Execute_stats_run N (Prepare_members N s) l = st at i1 i2 i3 i4
    have hlen : (l ++ [c]).length = l.length + 1 := by simp
    rw [hlen]
    have hlt : l.length % N < N := Nat.mod_lt _ hN
    refine ⟨?_, ?_, ?_, ?_⟩
    · simp only [Execute_stats, i1]
      exact tmod_succ_index N l.length hN hN2
    · intro k hk hk2
      simp only [Execute_stats, i1]
      rcases Nat.lt_or_ge k l.length with hlt' | hge
      · have hne : k % N ≠ l.length % N := mod_ne_of_lt_add N k l.length hlt' (by omega)
        rw [if_neg (by exact_mod_cast hne), i2 k hlt' (by omega)]
        simp [List.getD_eq_getElem?_getD, List.getElem?_append_left hlt']
      · have hk' : k = l.length := by omega
        subst hk'
        rw [if_pos rfl]
        simp [List.getD_eq_getElem?_getD]
    · intro i hi hiN
      simp only [Execute_stats, i1]
      have hne : i ≠ l.length % N := by
        rw [Nat.mod_eq_of_lt (by omega)]; omega
      rw [if_neg (by exact_mod_cast hne)]
      exact i3 i (by omega) hiN
    · intro z hz
      simp only [Execute_stats, i1]
      have hne : z ≠ ((l.length % N : Nat) : Int) := by
        intro e
        apply hz
        rw [e]
        exact ⟨by omega, by exact_mod_cast hlt⟩
      rw [if_neg hne]
      exact i4 z hz

/-- C24: starting from `Prepare` (all `N = STATS_WND_SIZE` slots zero, write index 0), after
the statistics updates of `n` passes with the samples `l = [s_1, ..., s_n]`: the write index
is `n mod N`, inside `[0, N)`; the update of a pass writes its sample to the slot at the
write index and leaves every other slot as it is; the slot `k mod N` holds sample `s_(k+1)`
for each of the last `min(n, N)` values `k < n`, and the slots `n, ..., N - 1` are zero. -/
theorem C24_stats_window (N : Nat) (hN : 0 < N) (hN2 : N < 2^31) (s : KangMembers)
    (l : List Int) :
    (Prepare_members N s).cur_stats_ind = 0 ∧
    (∀ i : Nat, i < N → (Prepare_members N s).SpeedStats (i : Int) = 0) ∧
    (Execute_stats_run N (Prepare_members N s) l).cur_stats_ind = ((l.length % N : Nat) : Int) ∧
    0 ≤ (Execute_stats_run N (Prepare_members N s) l).cur_stats_ind ∧
    (Execute_stats_run N (Prepare_members N s) l).cur_stats_ind < (N : Int) ∧
    (∀ c : Int,
      Execute_stats_run N (Prepare_members N s) (l ++ [c])
        = Execute_stats N (Execute_stats_run N (Prepare_members N s) l) c ∧
      (Execute_stats_run N (Prepare_members N s) (l ++ [c])).SpeedStats
          (Execute_stats_run N (Prepare_members N s) l).cur_stats_ind = c ∧
      ∀ z : Int, z ≠ (Execute_stats_run N (Prepare_members N s) l).cur_stats_ind →
        (Execute_stats_run N (Prepare_members N s) (l ++ [c])).SpeedStats z
          = (Execute_stats_run N (Prepare_members N s) l).SpeedStats z) ∧
    (∀ k, k < l.length → l.length ≤ k + N →
      (Execute_stats_run N (Prepare_members N s) l).SpeedStats ((k % N : Nat) : Int)
        = l.getD k 0) ∧
    (∀ i : Nat, l.length ≤ i → i < N →
      (Execute_stats_run N (Prepare_members N s) l).SpeedStats (i : Int) = 0) := by
  obtain ⟨i1, i2, i3, -⟩ := stats_window_inv N hN hN2 s l
  have hlt : l.length % N < N := Nat.mod_lt _ hN
  have hrun : ∀ c : Int, Execute_stats_run N (Prepare_members N s) (l ++ [c])
      = Execute_stats N (Execute_stats_run N (Prepare_members N s) l) c := by
    intro c
    simp [Execute_stats_run, List.foldl_append]
  refine ⟨rfl, ?_, i1, ?_, ?_, ?_, i2, i3⟩
  · intro i hi
    simp only [Prepare_members]
    rw [if_pos ⟨by omega, by omega⟩]
  · rw [i1]; omega
  · rw [i1]; exact_mod_cast hlt
  · intro c
    refine ⟨hrun c, ?_, ?_⟩
    · rw [hrun]
      simp [Execute_stats]
    · intro z hz
      rw [hrun]
      simp [Execute_stats, hz]

theorem C24_stats_window_witness :
    0 < 3 ∧ 3 < 2^31 ∧
    ((Prepare_members 3 ⟨true, true, fun _ => 9, 5⟩).cur_stats_ind = 0 ∧
    (∀ i : Nat, i < 3 → (Prepare_members 3 ⟨true, true, fun _ => 9, 5⟩).SpeedStats (i : Int) = 0) ∧
    (Execute_stats_run 3 (Prepare_members 3 ⟨true, true, fun _ => 9, 5⟩) [4, 6, 8, 10]).cur_stats_ind
      = ((([4, 6, 8, 10] : List Int).length % 3 : Nat) : Int) ∧
    0 ≤ (Execute_stats_run 3 (Prepare_members 3 ⟨true, true, fun _ => 9, 5⟩)
      [4, 6, 8, 10]).cur_stats_ind ∧
    (Execute_stats_run 3 (Prepare_members 3 ⟨true, true, fun _ => 9, 5⟩)
      [4, 6, 8, 10]).cur_stats_ind < ((3 : Nat) : Int) ∧
    (∀ c : Int,
      Execute_stats_run 3 (Prepare_members 3 ⟨true, true, fun _ => 9, 5⟩) ([4, 6, 8, 10] ++ [c])
        = Execute_stats 3 (Execute_stats_run 3 (Prepare_members 3 ⟨true, true, fun _ => 9, 5⟩)
            [4, 6, 8, 10]) c ∧
      (Execute_stats_run 3 (Prepare_members 3 ⟨true, true, fun _ => 9, 5⟩)
          ([4, 6, 8, 10] ++ [c])).SpeedStats
          (Execute_stats_run 3 (Prepare_members 3 ⟨true, true, fun _ => 9, 5⟩)
            [4, 6, 8, 10]).cur_stats_ind = c ∧
      ∀ z : Int, z ≠ (Execute_stats_run 3 (Prepare_members 3 ⟨true, true, fun _ => 9, 5⟩)
          [4, 6, 8, 10]).cur_stats_ind →
        (Execute_stats_run 3 (Prepare_members 3 ⟨true, true, fun _ => 9, 5⟩)
          ([4, 6, 8, 10] ++ [c])).SpeedStats z
          = (Execute_stats_run 3 (Prepare_members 3 ⟨true, true, fun _ => 9, 5⟩)
            [4, 6, 8, 10]).SpeedStats z) ∧
    (∀ k, k < ([4, 6, 8, 10] : List Int).length → ([4, 6, 8, 10] : List Int).length ≤ k + 3 →
      (Execute_stats_run 3 (Prepare_members 3 ⟨true, true, fun _ => 9, 5⟩)
        [4, 6, 8, 10]).SpeedStats ((k % 3 : Nat) : Int) = ([4, 6, 8, 10] : List Int).getD k 0) ∧
    (∀ i : Nat, ([4, 6, 8, 10] : List Int).length ≤ i → i < 3 →
      (Execute_stats_run 3 (Prepare_members 3 ⟨true, true, fun _ => 9, 5⟩)
        [4, 6, 8, 10]).SpeedStats (i : Int) = 0)) :=
  ⟨by decide, by decide,
    C24_stats_window 3 (by decide) (by decide) ⟨true, true, fun _ => 9, 5⟩ [4, 6, 8, 10]⟩

/-! ## `ConvertAoStoSoA`: no loss and no stray write -/

/-- C29 (counterexample): with `count = 2^30` the subscripts of limb 0 and of limb 4 of record
0, as the code computes them in `int`, are the same word: the index map is not injective. -/
theorem C29_index_collision :
    (1 : Int) ≤ 2^30 ∧ (0 : Int) < 2^30 ∧ soa_index 0 0 (2^30) = soa_index 0 4 (2^30) := by
  decide

/-- C29 (amended): for every count with `1 ≤ count` and `11 * count ≤ 2^31` (so that no
subscript leaves the `int` range), the subscripts `i + k * count` of the records `i < count`
and the limbs `k` in `0..10` are pairwise different, and reading the eleven limbs of a record
back from `soa[i + k * count]` after `ConvertAoStoSoA` gives the input record. -/
theorem C29_lossless (aos : Nat → TPointPriv) (soa : Int → Nat) (count : Int)
    (h1 : 1 ≤ count) (hc : 11 * count ≤ 2^31) :
    (∀ i i' k k' : Nat, (i : Int) < count → (i' : Int) < count → k ≤ 10 → k' ≤ 10 →
      soa_index i k count = soa_index i' k' count → i = i' ∧ k = k') ∧
    ∀ i : Nat, (i : Int) < count →
      spec_gather (ConvertAoStoSoA aos soa count) count i = aos i := by
  constructor
  · intro i i' k k' hi hi' hk hk' h
    rw [soa_index_exact i k count (Int.natCast_nonneg _) hi (Int.natCast_nonneg _)
        (by exact_mod_cast hk) hc,
      soa_index_exact i' k' count (Int.natCast_nonneg _) hi' (Int.natCast_nonneg _)
        (by exact_mod_cast hk') hc] at h
    have := soa_index_inj i i' k k' count (Int.natCast_nonneg _) hi (Int.natCast_nonneg _) hi' h
    omega
  · intro i hi
    have key : ∀ k : Nat, k ≤ 10 →
        ConvertAoStoSoA aos soa count (soa_index i k count) = (aos i).limb k := by
      intro k hk
      rw [soa_index_exact i k count (Int.natCast_nonneg _) hi (Int.natCast_nonneg _)
        (by exact_mod_cast hk) hc]
      unfold ConvertAoStoSoA
      exact ConvertAoStoSoA_prefix aos soa count hc count.toNat (by omega) i k (by omega) hk
    unfold spec_gather
    have e0 := key 0 (by norm_num)
    have e1 := key 1 (by norm_num)
    have e2 := key 2 (by norm_num)
    have e3 := key 3 (by norm_num)
    have e4 := key 4 (by norm_num)
    have e5 := key 5 (by norm_num)
    have e6 := key 6 (by norm_num)
    have e7 := key 7 (by norm_num)
    have e8 := key 8 (by norm_num)
    have e9 := key 9 (by norm_num)
    have e10 := key 10 (by norm_num)
    simp only [Nat.cast_ofNat, Nat.cast_zero, Nat.cast_one] at e0 e1 e2 e3 e4 e5 e6 e7 e8 e9 e10
    rw [e0, e1, e2, e3, e4, e5, e6, e7, e8, e9, e10]
    rfl

theorem C29_lossless_witness :
    (1 : Int) ≤ 3 ∧ 11 * (3 : Int) ≤ 2^31 ∧
    ((∀ i i' k k' : Nat, (i : Int) < 3 → (i' : Int) < 3 → k ≤ 10 → k' ≤ 10 →
      soa_index i k 3 = soa_index i' k' 3 → i = i' ∧ k = k') ∧
    ∀ i : Nat, (i : Int) < 3 →
      spec_gather (ConvertAoStoSoA (fun n => ⟨n, 1, 2, 3, 4, 5, 6, 7, 8, 100 + n, 10⟩)
        (fun _ => 0) 3) 3 i
        = (fun n => (⟨n, 1, 2, 3, 4, 5, 6, 7, 8, 100 + n, 10⟩ : TPointPriv)) i) :=
  ⟨by decide, by decide,
    C29_lossless (fun n => ⟨n, 1, 2, 3, 4, 5, 6, 7, 8, 100 + n, 10⟩) (fun _ => 0) 3
      (by decide) (by decide)⟩

/-- The stores of the records `0, ..., m - 1` leave every word outside `[0, 11 * count)`
untouched, when no subscript leaves the `int` range. -/
theorem ConvertAoStoSoA_frame (aos : Nat → TPointPriv) (count : Int) (hc : 11 * count ≤ 2^31)
    (j : Int) (hj : ¬ (0 ≤ j ∧ j < 11 * count)) (m : Nat) (hm : (m : Int) ≤ count) :
    ∀ soa : Int → Nat, (List.range m).foldl (ConvertAoStoSoA_body aos count) soa j = soa j := by
  induction m with
  | zero => intro soa; rfl
  | succ m ih =>
    intro soa
    rw [List.range_succ, List.foldl_append, List.foldl_cons, List.foldl_nil]
    have hmc : (m : Int) < count := by push_cast at hm; omega
    rw [body_other]
    · exact ih (by omega) soa
    · intro k hk0 hk10 he
      rw [soa_index_exact m k count (Int.natCast_nonneg _) hmc hk0 hk10 hc] at he
      apply hj
      have h1 : 0 ≤ k * count := mul_nonneg hk0 (by omega)
      have h2 : k * count ≤ 10 * count := mul_le_mul_of_nonneg_right hk10 (by omega)
      constructor <;> omega

theorem store_keeps (soa : Int → Nat) (idx : Int) (v : Nat) (j : Int) (h : soa j = v) :
    store soa idx v j = v := by
  unfold store; split_ifs
  · rfl
  · exact h

/-- When every limb of every record is `v`, a word that holds `v` keeps holding it. -/
theorem ConvertAoStoSoA_keeps (v : Nat) (count : Int) (j : Int) (l : List Nat) :
    ∀ soa : Int → Nat, soa j = v →
      l.foldl (ConvertAoStoSoA_body (fun _ => ⟨v, v, v, v, v, v, v, v, v, v, v⟩) count) soa j
        = v := by
  induction l with
  | nil => intro soa h; exact h
  | cons i l ih =>
    intro soa h
    rw [List.foldl_cons]
    apply ih
    unfold ConvertAoStoSoA_body
    dsimp only
    exact store_keeps _ _ _ _ (store_keeps _ _ _ _ (store_keeps _ _ _ _ (store_keeps _ _ _ _
      (store_keeps _ _ _ _ (store_keeps _ _ _ _ (store_keeps _ _ _ _ (store_keeps _ _ _ _
      (store_keeps _ _ _ _ (store_keeps _ _ _ _ (store_keeps _ _ _ _ h))))))))))

/-- C30 (counterexample): with `count = 2^28` the product `8 * count` wraps to `-2^31`, and
the store for limb 8 of record 0 changes the word at offset `-2^31`, which lies before the
buffer and outside `[0, 11 * count)`. -/
theorem C30_write_before_buffer :
    (0 : Int) ≤ 2^28 ∧ ¬ (0 ≤ (-2^31 : Int) ∧ (-2^31 : Int) < 11 * 2^28) ∧
    ConvertAoStoSoA (fun _ => ⟨1, 1, 1, 1, 1, 1, 1, 1, 1, 1, 1⟩) (fun _ => 0) (2^28) (-2^31)
      ≠ (fun _ => 0) (-2^31) := by
  refine ⟨by norm_num, by norm_num, ?_⟩
  have hr : List.range ((2^28 : Int).toNat) = 0 :: (List.range (2^28 - 1)).map Nat.succ := by
    have : (2^28 : Int).toNat = (2^28 - 1) + 1 := by decide
    rw [this, List.range_succ_eq_map]
  unfold ConvertAoStoSoA
  rw [hr, List.foldl_cons, ConvertAoStoSoA_keeps 1 (2^28) (-2^31)]
  · norm_num
  · unfold ConvertAoStoSoA_body
    dsimp only
    have e8 : soa_index ((0 : Nat) : Int) 8 (2^28) = -2^31 := by decide
    have e9 : soa_index ((0 : Nat) : Int) 9 (2^28) ≠ -2^31 := by decide
    have e10 : soa_index ((0 : Nat) : Int) 10 (2^28) ≠ -2^31 := by decide
    rw [store_other _ _ _ _ (Ne.symm e10), store_other _ _ _ _ (Ne.symm e9), e8, store_same]

/-- C30 (amended): for every count with `0 ≤ count` and `96 * count < 2^31` (so that neither
a subscript nor the byte count `KangCnt * 96` of `Start` leaves the `int` range),
`ConvertAoStoSoA` leaves every word outside `[0, 11 * count)` unchanged, the buffer `Start`
allocates has `12 * count` words, and every word that changes lies inside it. -/
theorem C30_frame (aos : Nat → TPointPriv) (soa : Int → Nat) (count : Int)
    (h0 : 0 ≤ count) (hc : 96 * count < 2^31) :
    (∀ j : Int, ¬ (0 ≤ j ∧ j < 11 * count) → ConvertAoStoSoA aos soa count j = soa j) ∧
    (Kangs_SoA2_words count : Int) = 12 * count ∧
    ∀ j : Int, ConvertAoStoSoA aos soa count j ≠ soa j →
      0 ≤ j ∧ j < 11 * count ∧ j < (Kangs_SoA2_words count : Int) := by
  have hframe : ∀ j : Int, ¬ (0 ≤ j ∧ j < 11 * count) →
      ConvertAoStoSoA aos soa count j = soa j := by
    intro j hj
    unfold ConvertAoStoSoA
    exact ConvertAoStoSoA_frame aos count (by omega) j hj count.toNat (by omega) soa
  have hwords : (Kangs_SoA2_words count : Int) = 12 * count := by
    obtain ⟨n, rfl⟩ := Int.eq_ofNat_of_zero_le h0
    have hn : n * 96 < 2^31 := by omega
    unfold Kangs_SoA2_words toU64
    rw [wrap32_eq_self _ (by omega) (by omega)]
    have e : ((n : Int) * 96 % 2^64).toNat = n * 96 := by
      have e1 : ((n : Int) * 96 % 2^64) = ((n * 96 % 2^64 : Nat) : Int) := by push_cast; rfl
      rw [e1, Int.toNat_ofNat]
      exact Nat.mod_eq_of_lt (lt_trans hn (by norm_num))
    rw [e]
    omega
  refine ⟨hframe, hwords, ?_⟩
  intro j hj
  have : 0 ≤ j ∧ j < 11 * count := by
    by_contra hn
    exact hj (hframe j hn)
  rw [hwords]
  omega

theorem C30_frame_witness :
    (0 : Int) ≤ 3 ∧ 96 * (3 : Int) < 2^31 ∧
    ((∀ j : Int, ¬ (0 ≤ j ∧ j < 11 * 3) →
      ConvertAoStoSoA (fun n => ⟨n, 1, 2, 3, 4, 5, 6, 7, 8, 100 + n, 10⟩) (fun _ => 0) 3 j
        = (fun _ => 0) j) ∧
    (Kangs_SoA2_words 3 : Int) = 12 * 3 ∧
    ∀ j : Int,
      ConvertAoStoSoA (fun n => ⟨n, 1, 2, 3, 4, 5, 6, 7, 8, 100 + n, 10⟩) (fun _ => 0) 3 j
        ≠ (fun _ => 0) j →
      0 ≤ j ∧ j < 11 * 3 ∧ j < (Kangs_SoA2_words 3 : Int)) :=
  ⟨by decide, by decide,
    C30_frame (fun n => ⟨n, 1, 2, 3, 4, 5, 6, 7, 8, 100 + n, 10⟩) (fun _ => 0) 3
      (by decide) (by decide)⟩

/-! ## `Release` on the paths of `Execute` -/

/-- A pass of the loop does not call `Release`. -/
theorem Execute_step_no_release (MAX_DP_CNT GPU_DP_SIZE : Int) (e : StepEnv) :
    (Execute_step MAX_DP_CNT GPU_DP_SIZE e).1.count ExecEvent.release = 0 := by
  unfold Execute_step
  dsimp only
  split_ifs <;> simp [List.count_cons, List.count_append]

/-- Every run of the loop that ends calls `Release` exactly once, as its last action. -/
theorem Execute_loop_release (MAX_DP_CNT GPU_DP_SIZE : Int) (stop : Nat → Bool)
    (env : Nat → StepEnv) :
    ∀ (fuel j : Nat) (t : List ExecEvent),
      Execute_loop MAX_DP_CNT GPU_DP_SIZE stop env fuel j = some t →
      t.count ExecEvent.release = 1 ∧ t.getLast? = some ExecEvent.release := by
  intro fuel
  induction fuel with
  | zero => intro j t h; simp [Execute_loop] at h
  | succ f ih =>
    intro j t h
    rw [Execute_loop] at h
    cases hs : stop j with
    | true =>
      simp only [hs, if_true, Option.some.injEq] at h
      subst h
      exact ⟨by decide, rfl⟩
    | false =>
      simp only [hs, Bool.false_eq_true, if_false] at h
      cases hr : (Execute_step MAX_DP_CNT GPU_DP_SIZE (env j)).2 with
      | false =>
        simp only [hr, Bool.false_eq_true, if_false, Option.some.injEq] at h
        subst h
        refine ⟨?_, by simp⟩
        rw [List.count_append, Execute_step_no_release]
        decide
      | true =>
        simp only [hr, if_true] at h
        cases hl : Execute_loop MAX_DP_CNT GPU_DP_SIZE stop env f (j + 1) with
        | none => rw [hl] at h; simp at h
        | some t' =>
          rw [hl] at h
          simp only [Option.map_some', Option.some.injEq] at h
          subst h
          obtain ⟨h1, h2⟩ := ih (j + 1) t' hl
          refine ⟨?_, ?_⟩
          · rw [List.count_append, Execute_step_no_release, h1]
          · have hne : t' ≠ [] := by
              intro e; rw [e] at h2; simp at h2
            rw [List.getLast?_append_of_ne_nil _ hne]
            exact h2

/-- C31 (failing input): let the upload of the kangaroos fail in `Start` (line 400).
`Start` returns false with the block of `RndPnts` allocated, and `Execute` then does
`gTotalErrors++` and returns: `Release` is not called on this path. On the paths on which
`Start` succeeds, every run that ends calls `Release` exactly once, as its last action. -/
theorem C31_start_failure_skips_release (MAX_DP_CNT GPU_DP_SIZE : Int) (stop : Nat → Bool)
    (env : Nat → StepEnv) (fuel : Nat) :
    (Start ⟨false, true, true, true, false, true⟩ ⟨false, fun _ => none⟩ ⟨0, [], []⟩).1 = false ∧
    (Start ⟨false, true, true, true, false, true⟩ ⟨false, fun _ => none⟩ ⟨0, [], []⟩).2.2.live
      = [0] ∧
    Execute MAX_DP_CNT GPU_DP_SIZE
        (Start ⟨false, true, true, true, false, true⟩ ⟨false, fun _ => none⟩ ⟨0, [], []⟩).1
        stop env fuel = some [ExecEvent.errorInc] ∧
    ([ExecEvent.errorInc] : List ExecEvent).count ExecEvent.release = 0 ∧
    ∀ t, Execute MAX_DP_CNT GPU_DP_SIZE true stop env fuel = some t →
      t.count ExecEvent.release = 1 ∧ t.getLast? = some ExecEvent.release := by
  refine ⟨by decide, by decide, ?_, by decide, ?_⟩
  · have hs : (Start ⟨false, true, true, true, false, true⟩ ⟨false, fun _ => none⟩
        ⟨0, [], []⟩).1 = false := by decide
    rw [hs]
    simp [Execute]
  · intro t h
    simp only [Execute, Bool.true_eq_false, if_false] at h
    exact Execute_loop_release MAX_DP_CNT GPU_DP_SIZE stop env fuel 0 t h

theorem C31_start_failure_skips_release_witness :
    Execute 100 16 true (fun j => decide (1 ≤ j)) (fun _ => ⟨true, 3, true⟩) 5
      = some [ExecEvent.launch, ExecEvent.copyRecords 3 48, ExecEvent.addPoints 3,
          ExecEvent.release] ∧
    Execute 100 16
        (Start ⟨false, true, true, true, false, true⟩ ⟨false, fun _ => none⟩ ⟨0, [], []⟩).1
        (fun j => decide (1 ≤ j)) (fun _ => ⟨true, 3, true⟩) 5 = some [ExecEvent.errorInc] ∧
    ([ExecEvent.launch, ExecEvent.copyRecords 3 48, ExecEvent.addPoints 3,
        ExecEvent.release] : List ExecEvent).count ExecEvent.release = 1 ∧
    ([ExecEvent.launch, ExecEvent.copyRecords 3 48, ExecEvent.addPoints 3,
        ExecEvent.release] : List ExecEvent).getLast? = some ExecEvent.release :=
  ⟨by decide,
    (C31_start_failure_skips_release 100 16 (fun j => decide (1 ≤ j))
      (fun _ => ⟨true, 3, true⟩) 5).2.2.1,
    (C31_start_failure_skips_release 100 16 (fun j => decide (1 ≤ j))
      (fun _ => ⟨true, 3, true⟩) 5).2.2.2.2 _ (by decide)⟩

/-! ## `AddModP` on a relaxed first operand -/

theorem AddModP_select_relaxed (A B T R c d : Nat)
    (hT : T + 2^256 * c = A + B) (hR : R + (2^256 - 2^32 - 977) = T + 2^256 * d)
    (hRlt : R < 2^256) (hc : c ≤ 1) (hd : d ≤ 1)
    (hs : A + B < 2^256 + (2^256 - 2^32 - 977)) :
    (c < d → A + B < 2^256 - 2^32 - 977 ∧ T = A + B) ∧
    (¬ c < d → 2^256 - 2^32 - 977 ≤ A + B ∧ R = A + B - (2^256 - 2^32 - 977)) := by
  omega

/-- The value of `AddModP` whenever the sum of the operands is below `2^256 + P`: one
subtraction of `P` brings the 257-bit sum back into 256 bits. -/
theorem AddModP_toNat_relaxed (a b : U256) (ha : a.wf) (hb : b.wf)
    (hs : a.toNat + b.toNat < 2^256 + PRIME_P) :
    (AddModP a b).wf ∧
    (AddModP a b).toNat =
      if a.toNat + b.toNat < PRIME_P then a.toNat + b.toNat
      else a.toNat + b.toNat - PRIME_P := by
  obtain ⟨a0, a1, a2, a3⟩ := a
  obtain ⟨b0, b1, b2, b3⟩ := b
  simp only [U256.wf, U256.toNat, PRIME_P] at ha hb hs
  obtain ⟨ha0, ha1, ha2, ha3⟩ := ha
  obtain ⟨hb0, hb1, hb2, hb3⟩ := hb
  generalize hr : AddModP ⟨a0, a1, a2, a3⟩ ⟨b0, b1, b2, b3⟩ = r
  unfold AddModP at hr
  lift_lets at hr
  extract_lets t0 t1 t2 t3 carry r0 r1 r2 r3 carry1 carry2 at hr
  have h0 : t0.1 + 2^64 * t0.2 = a0 + b0 ∧ t0.1 < 2^64 ∧ t0.2 ≤ 1 := add_cc_64_spec _ _ ha0 hb0
  have h1 : t1.1 + 2^64 * t1.2 = a1 + b1 + t0.2 ∧ t1.1 < 2^64 ∧ t1.2 ≤ 1 :=
    addc_cc_64_spec _ _ _ ha1 hb1 h0.2.2
  have h2 : t2.1 + 2^64 * t2.2 = a2 + b2 + t1.2 ∧ t2.1 < 2^64 ∧ t2.2 ≤ 1 :=
    addc_cc_64_spec _ _ _ ha2 hb2 h1.2.2
  have h3 : t3.1 + 2^64 * t3.2 = a3 + b3 + t2.2 ∧ t3.1 < 2^64 ∧ t3.2 ≤ 1 :=
    addc_cc_64_spec _ _ _ ha3 hb3 h2.2.2
  have k0 : r0.1 + P_0 = t0.1 + 2^64 * r0.2 ∧ r0.1 < 2^64 ∧ r0.2 ≤ 1 :=
    sub_cc_64_spec _ _ h0.2.1 (by decide)
  have k1 : r1.1 + P_123 + r0.2 = t1.1 + 2^64 * r1.2 ∧ r1.1 < 2^64 ∧ r1.2 ≤ 1 :=
    subc_cc_64_spec _ _ _ h1.2.1 (by decide) k0.2.2
  have k2 : r2.1 + P_123 + r1.2 = t2.1 + 2^64 * r2.2 ∧ r2.1 < 2^64 ∧ r2.2 ≤ 1 :=
    subc_cc_64_spec _ _ _ h2.2.1 (by decide) k1.2.2
  have k3 : r3.1 + P_123 + r2.2 = t3.1 + 2^64 * r3.2 ∧ r3.1 < 2^64 ∧ r3.2 ≤ 1 :=
    subc_cc_64_spec _ _ _ h3.2.1 (by decide) k2.2.2
  have hc2 : (carry2.1 ≠ 0) ↔ (t3.2 < r3.2) := borrow_flag _ _ h3.2.2 k3.2.2
  clear_value t0 t1 t2 t3 carry r0 r1 r2 r3 carry1 carry2
  simp only [P_0, P_123] at k0 k1 k2 k3
  subst hr
  have hT : t0.1 + 2^64 * t1.1 + 2^128 * t2.1 + 2^192 * t3.1 + 2^256 * t3.2
      = a0 + 2^64 * a1 + 2^128 * a2 + 2^192 * a3 + (b0 + 2^64 * b1 + 2^128 * b2 + 2^192 * b3) := by
    linear_combination h0.1 + 2^64 * h1.1 + 2^128 * h2.1 + 2^192 * h3.1
  have hR : r0.1 + 2^64 * r1.1 + 2^128 * r2.1 + 2^192 * r3.1 + (2^256 - 2^32 - 977)
      = t0.1 + 2^64 * t1.1 + 2^128 * t2.1 + 2^192 * t3.1 + 2^256 * r3.2 := by
    linear_combination k0.1 + 2^64 * k1.1 + 2^128 * k2.1 + 2^192 * k3.1
  obtain ⟨-, w0, -⟩ := h0
  obtain ⟨-, w1, -⟩ := h1
  obtain ⟨-, w2, -⟩ := h2
  obtain ⟨-, w3, ht3⟩ := h3
  obtain ⟨-, v0, -⟩ := k0
  obtain ⟨-, v1, -⟩ := k1
  obtain ⟨-, v2, -⟩ := k2
  obtain ⟨-, v3, hr3⟩ := k3
  have hRlt : r0.1 + 2^64 * r1.1 + 2^128 * r2.1 + 2^192 * r3.1 < 2^256 := by
    clear hT hR hs hc2; omega
  have key := AddModP_select_relaxed _ _ _ _ _ _ hT hR hRlt ht3 hr3 hs
  by_cases hif : carry2.1 ≠ 0
  · rw [if_pos hif]
    have hlt := (key.1 (hc2.1 hif)).1
    simp only [U256.wf, U256.toNat, PRIME_P, if_pos hlt]
    exact ⟨⟨w0, w1, w2, w3⟩, (key.1 (hc2.1 hif)).2⟩
  · rw [if_neg hif]
    have hge := (key.2 (fun h => hif (hc2.2 h))).1
    simp only [U256.wf, U256.toNat, PRIME_P, if_neg (not_lt.2 hge)]
    exact ⟨⟨v0, v1, v2, v3⟩, (key.2 (fun h => hif (hc2.2 h))).2⟩

/-- C32: for every 256-bit value `a` (possibly `≥ P`) and every canonical `b` in `[0, P)`,
the value `r` returned by `AddModP(a, b)` satisfies `r mod P = (a + b) mod P`; it is `a + b`
when `a + b < P` and `a + b - P` otherwise. -/
theorem C32_AddModP_relaxed (a b : U256) (ha : a.wf) (hb : b.wf) (hbp : b.toNat < PRIME_P) :
    (AddModP a b).toNat % PRIME_P = (a.toNat + b.toNat) % PRIME_P ∧
    (AddModP a b).wf ∧
    (AddModP a b).toNat =
      if a.toNat + b.toNat < PRIME_P then a.toNat + b.toNat
      else a.toNat + b.toNat - PRIME_P := by
  have hlt := U256_toNat_lt a ha
  obtain ⟨hwf, h⟩ := AddModP_toNat_relaxed a b ha hb (by omega)
  refine ⟨?_, hwf, h⟩
  rw [h]
  split_ifs with hc
  · rfl
  · exact (Nat.mod_eq_sub_mod (not_lt.1 hc)).symm

theorem C32_AddModP_relaxed_witness :
    (U256.mk P_123 P_123 P_123 P_123).wf ∧ (U256.mk (P_0 - 1) P_123 P_123 P_123).wf ∧
    (U256.mk (P_0 - 1) P_123 P_123 P_123).toNat < PRIME_P ∧
    ((AddModP (U256.mk P_123 P_123 P_123 P_123) (U256.mk (P_0 - 1) P_123 P_123 P_123)).toNat
        % PRIME_P
      = ((U256.mk P_123 P_123 P_123 P_123).toNat
          + (U256.mk (P_0 - 1) P_123 P_123 P_123).toNat) % PRIME_P ∧
    (AddModP (U256.mk P_123 P_123 P_123 P_123) (U256.mk (P_0 - 1) P_123 P_123 P_123)).wf ∧
    (AddModP (U256.mk P_123 P_123 P_123 P_123) (U256.mk (P_0 - 1) P_123 P_123 P_123)).toNat =
      if (U256.mk P_123 P_123 P_123 P_123).toNat
          + (U256.mk (P_0 - 1) P_123 P_123 P_123).toNat < PRIME_P
      then (U256.mk P_123 P_123 P_123 P_123).toNat
          + (U256.mk (P_0 - 1) P_123 P_123 P_123).toNat
      else (U256.mk P_123 P_123 P_123 P_123).toNat
          + (U256.mk (P_0 - 1) P_123 P_123 P_123).toNat - PRIME_P) :=
  ⟨by decide, by decide, by decide,
    C32_AddModP_relaxed (U256.mk P_123 P_123 P_123 P_123) (U256.mk (P_0 - 1) P_123 P_123 P_123)
      (by decide) (by decide) (by decide)⟩

/-! ## `SqrModP` writes one word past `buff` -/

/-- C33 (failing input): whatever the input, the last call `add_320_to_256s(b32 + 7, ...)` of
`SqrModP` ends with `addc_32(res[9], 0, 0)`, a write of `b32[16]`: the 16-word buffer `buff`
has the words `0..15`. It is the only access outside `0..15`; all others lie inside. -/
theorem C33_SqrModP_writes_word_16 :
    WordAccess.mk true 16 ∈ SqrModP_buff_accesses ∧
    ¬ (∀ a ∈ SqrModP_buff_accesses, a.index ≤ 15) ∧
    (add_320_to_256s_accesses 7).getLast? = some ⟨true, 16⟩ ∧
    SqrModP_buff_accesses.filter (fun a => decide (15 < a.index)) = [⟨true, 16⟩] := by
  decide

/-! ## `Dbg_CheckKangs` reads records, `ConvertAoStoSoA` stores columns -/

theorem Dbg_CheckKangs_index_exact (KangCnt i : Int) (h0 : 0 ≤ i) (hi : i < KangCnt)
    (hc : 12 * KangCnt ≤ 2^31) (j : Nat) :
    Dbg_CheckKangs_point_index i = i * 12 ∧
    Dbg_CheckKangs_dist_index i j = i * 12 + 8 + (j : Int) := by
  unfold Dbg_CheckKangs_point_index Dbg_CheckKangs_dist_index
  rw [wrap32_eq_self (i * 12) (by omega) (by omega),
    wrap32_eq_self (i * 12 + 0) (by omega) (by omega),
    wrap32_eq_self (i * 12 + 8) (by omega) (by omega)]
  exact ⟨by ring, rfl⟩

/-- C34 (failing input): for every `KangCnt` with `2 ≤ KangCnt` and `12 * KangCnt ≤ 2^31`
(no subscript leaves the `int` range) and every kangaroo `i < KangCnt`, `Dbg_CheckKangs`
reads the record of kangaroo `i` at the words `i * 12 + ...` while `ConvertAoStoSoA` stored
limb `k` at word `i + k * KangCnt`: the address handed to `LoadFromBuffer64` is that of the
word where limb 0 was stored only for `i = 0`, and distance limb `priv[j]` (limb `8 + j`) is read where it was stored only when
`11 * i = (8 + j) * (KangCnt - 1)`, which fails for `i = 0` and for `i = 1`. -/
theorem C34_debug_reads_other_layout (KangCnt : Int) (h2 : 2 ≤ KangCnt)
    (hc : 12 * KangCnt ≤ 2^31) (i : Nat) (hi : (i : Int) < KangCnt) (j : Nat) (hj : j ≤ 2) :
    Dbg_CheckKangs_point_index i = (i : Int) * 12 ∧
    soa_index i 0 KangCnt = (i : Int) ∧
    (Dbg_CheckKangs_point_index i = soa_index i 0 KangCnt ↔ i = 0) ∧
    Dbg_CheckKangs_dist_index i j = (i : Int) * 12 + 8 + (j : Int) ∧
    soa_index i ((8 + j : Nat) : Int) KangCnt = (i : Int) + (8 + (j : Int)) * KangCnt ∧
    (Dbg_CheckKangs_dist_index i j = soa_index i ((8 + j : Nat) : Int) KangCnt ↔
      11 * (i : Int) = (8 + (j : Int)) * (KangCnt - 1)) ∧
    (i ≤ 1 → Dbg_CheckKangs_dist_index i j ≠ soa_index i ((8 + j : Nat) : Int) KangCnt) := by
  have h0 : (0 : Int) ≤ (i : Int) := Int.natCast_nonneg _
  obtain ⟨ep, ed⟩ := Dbg_CheckKangs_index_exact KangCnt i h0 hi hc j
  have es0 : soa_index i 0 KangCnt = (i : Int) := by
    rw [soa_index_exact i 0 KangCnt h0 hi (le_refl _) (by norm_num) (by omega)]
    ring
  have es : soa_index i ((8 + j : Nat) : Int) KangCnt
      = (i : Int) + (8 + (j : Int)) * KangCnt := by
    rw [soa_index_exact i _ KangCnt h0 hi (Int.natCast_nonneg _) (by push_cast; omega)
      (by omega)]
    push_cast
    ring
  have hiff : (i : Int) * 12 + 8 + (j : Int) = (i : Int) + (8 + (j : Int)) * KangCnt ↔
      11 * (i : Int) = (8 + (j : Int)) * (KangCnt - 1) := by
    constructor <;> intro h <;> linear_combination h
  refine ⟨ep, es0, ?_, ed, es, ?_, ?_⟩
  · rw [ep, es0]
    constructor
    · intro h; omega
    · intro h; subst h; simp
  · rw [ed, es]; exact hiff
  · intro hi1 h
    rw [ed, es] at h
    have h11 := hiff.1 h
    have hK : 1 ≤ KangCnt - 1 := by omega
    have hpos : (8 + (j : Int)) * 1 ≤ (8 + (j : Int)) * (KangCnt - 1) :=
      mul_le_mul_of_nonneg_left hK (by omega)
    have hle : (8 + (j : Int)) * (KangCnt - 1) ≤ (8 + (j : Int)) * (KangCnt - 1) := le_refl _
    rcases Nat.le_one_iff_eq_zero_or_eq_one.1 hi1 with rfl | rfl
    · simp only [Nat.cast_zero, mul_zero] at h11
      omega
    · simp only [Nat.cast_one, mul_one] at h11
      have hj' : (j : Int) ≤ 2 := by exact_mod_cast hj
      have hK2 : KangCnt - 1 = 1 ∨ 2 ≤ KangCnt - 1 := by omega
      rcases hK2 with hk1 | hk2
      · rw [hk1] at h11; omega
      · have : (8 + (j : Int)) * 2 ≤ (8 + (j : Int)) * (KangCnt - 1) :=
          mul_le_mul_of_nonneg_left hk2 (by omega)
        omega

theorem C34_debug_reads_other_layout_witness :
    (2 : Int) ≤ 6144 ∧ 12 * (6144 : Int) ≤ 2^31 ∧ ((1 : Nat) : Int) < 6144 ∧ 0 ≤ 2 ∧
    (Dbg_CheckKangs_point_index ((1 : Nat) : Int) = ((1 : Nat) : Int) * 12 ∧
    soa_index ((1 : Nat) : Int) 0 6144 = ((1 : Nat) : Int) ∧
    (Dbg_CheckKangs_point_index ((1 : Nat) : Int) = soa_index ((1 : Nat) : Int) 0 6144 ↔
      1 = 0) ∧
    Dbg_CheckKangs_dist_index ((1 : Nat) : Int) 0
      = ((1 : Nat) : Int) * 12 + 8 + ((0 : Nat) : Int) ∧
    soa_index ((1 : Nat) : Int) ((8 + 0 : Nat) : Int) 6144
      = ((1 : Nat) : Int) + (8 + ((0 : Nat) : Int)) * 6144 ∧
    (Dbg_CheckKangs_dist_index ((1 : Nat) : Int) 0
        = soa_index ((1 : Nat) : Int) ((8 + 0 : Nat) : Int) 6144 ↔
      11 * ((1 : Nat) : Int) = (8 + ((0 : Nat) : Int)) * (6144 - 1)) ∧
    (1 ≤ 1 → Dbg_CheckKangs_dist_index ((1 : Nat) : Int) 0
      ≠ soa_index ((1 : Nat) : Int) ((8 + 0 : Nat) : Int) 6144)) :=
  ⟨by decide, by decide, by decide, by decide,
    C34_debug_reads_other_layout 6144 (by decide) (by decide) 1 (by decide) 0 (by decide)⟩

end AMDKangaroo
